import Mathlib

/-!
# nghttp2 frame codec and header compression: a shallow embedding

The definitions below follow `lib/nghttp2_frame.c` and `lib/nghttp2_hd.c`.

Conventions of the embedding.
* A byte is a `Nat`; every store through a `uint8_t` lvalue is written `% 256`.
* A C buffer is a `List Nat`; a read-only memory region is a function
  `Nat → Nat` from addresses to bytes, and a pointer into it is an address.
* `int32_t` fields are `Int`; the conversion to `uint32_t` is `% 2 ^ 32`.
* Allocation never fails (no `NGHTTP2_ERR_NOMEM` from `malloc`).
* Header entries live in an arena (`heap`); an `nghttp2_hd_entry*` is an
  index into it.  `free` is not modelled: the arena keeps every record, the
  reference count is kept as the code computes it.
-/

set_option autoImplicit false

namespace Nghttp2

/-! ## Return codes -/

/-- The negative return codes of the library; `ABORTED` is not a return value, it
marks that the C program left defined behaviour (a failed `assert`, a parse
position beyond the end of the input). -/
inductive nghttp2_error where
  | NGHTTP2_ERR_INVALID_ARGUMENT
  | NGHTTP2_ERR_INVALID_FRAME
  | NGHTTP2_ERR_HEADER_COMP
  | NGHTTP2_ERR_NOMEM
  | ABORTED
  deriving DecidableEq

instance instDecidableEqExcept {ε α : Type} [DecidableEq ε] [DecidableEq α] :
    DecidableEq (Except ε α)
  | .ok a, .ok b =>
    if h : a = b then isTrue (by rw [h]) else isFalse (fun h1 => h (Except.ok.inj h1))
  | .error a, .error b =>
    if h : a = b then isTrue (by rw [h]) else isFalse (fun h1 => h (Except.error.inj h1))
  | .ok _, .error _ => isFalse (fun h => Except.noConfusion h)
  | .error _, .ok _ => isFalse (fun h => Except.noConfusion h)

/-! ## Byte primitives (nghttp2_helper.c, nghttp2_net.h) -/

/-- Memory holding the bytes of `l` from address 0 on, zero elsewhere. -/
def memOf (l : List Nat) : Nat → Nat := fun i => l.getD i 0

/-- Modelled from the spec: `nghttp2_put_uint16be` of nghttp2_helper.c (not in
the sources at hand), the big-endian 16-bit store of section 2; the bytes stored. -/
def nghttp2_put_uint16be (n : Nat) : List Nat :=
  [(n / 256) % 256, n % 256]

/-- Modelled from the spec: `nghttp2_put_uint32be` of nghttp2_helper.c (not in
the sources at hand), the big-endian 32-bit store of section 2; the bytes stored. -/
def nghttp2_put_uint32be (n : Nat) : List Nat :=
  [(n / 2 ^ 24) % 256, (n / 2 ^ 16) % 256, (n / 2 ^ 8) % 256, n % 256]

/-- Modelled from the spec: `nghttp2_get_uint16` of nghttp2_helper.c (not in the
sources at hand), the big-endian 16-bit load of section 2 at address `p`. -/
def nghttp2_get_uint16 (mem : Nat → Nat) (p : Nat) : Nat :=
  mem p * 256 + mem (p + 1)

/-- Modelled from the spec: `nghttp2_get_uint32` of nghttp2_helper.c (not in the
sources at hand), the big-endian 32-bit load of section 2 at address `p`. -/
def nghttp2_get_uint32 (mem : Nat → Nat) (p : Nat) : Nat :=
  mem p * 2 ^ 24 + mem (p + 1) * 2 ^ 16 + mem (p + 2) * 2 ^ 8 + mem (p + 3)

/-- Modelled from the spec: `nghttp2_downcase` of nghttp2_helper.c (not in the
sources at hand), the ASCII down-casing of section 2; the same test and offset as
`nghttp2_frame_nv_downcase` uses. -/
def nghttp2_downcase (s : List Nat) : List Nat :=
  s.map fun c => if 65 ≤ c ∧ c ≤ 90 then c + 32 else c

/-- Modelled from the spec: `nghttp2_reserve_buffer` of nghttp2_helper.c (not in
the sources at hand), the buffer-grow helper of section 2: the buffer is
reallocated to hold at least `min_length` bytes; the new bytes read as 0 here. -/
def nghttp2_reserve_buffer (buf : List Nat) (min_length : Nat) : List Nat :=
  if min_length > buf.length then buf ++ List.replicate (min_length - buf.length) 0
  else buf

/-- The call `memset(buf, 0, n)`. -/
def memset_zero (buf : List Nat) (n : Nat) : List Nat :=
  List.replicate n 0 ++ buf.drop n

/-- Stores `data` at `buf + off` (`memcpy`, or a run of byte stores). -/
def write_bytes (buf : List Nat) (off : Nat) (data : List Nat) : List Nat :=
  buf.take off ++ data ++ buf.drop (off + data.length)

/-- The conversion of an `int32_t` to `uint32_t`. -/
def to_uint32 (x : Int) : Nat := (x % 2 ^ 32).toNat

/-! ## Constants of nghttp2.h and nghttp2_frame.h -/

/-- Modelled from the spec: the frame header is always 8 bytes (section 6). -/
def NGHTTP2_FRAME_HEAD_LENGTH : Nat := 8

/-- Modelled from the spec: the reserved high bit of a stream id is masked on
parse (section 6); the stream id is a `u31`. -/
def NGHTTP2_STREAM_ID_MASK : Nat := 2 ^ 31 - 1

/-- Modelled from the spec: the reserved high bit of a priority is masked on
parse (section 6). -/
def NGHTTP2_PRIORITY_MASK : Nat := 2 ^ 31 - 1

/-- Modelled from the spec: the window size increment is a `u31` (section 3). -/
def NGHTTP2_WINDOW_SIZE_INCREMENT_MASK : Nat := 2 ^ 31 - 1

/-- Modelled from the spec: a SETTINGS id is a `u24` (section 3). -/
def NGHTTP2_SETTINGS_ID_MASK : Nat := 2 ^ 24 - 1

/-! ## Frame values -/

/-- The frame header `nghttp2_frame_hd`: `length` is a `uint16_t`, `type` and
`flags` are `uint8_t`, `stream_id` an `int32_t`. -/
structure nghttp2_frame_hd where
  length : Nat
  typ : Nat
  flags : Nat
  stream_id : Int
  deriving DecidableEq

/-- A name/value pair `nghttp2_nv`; `namelen` and `valuelen` are the lengths of
the two byte lists. -/
structure nghttp2_nv where
  name : List Nat
  value : List Nat
  deriving DecidableEq

structure nghttp2_priority where
  hd : nghttp2_frame_hd
  pri : Int
  deriving DecidableEq

structure nghttp2_rst_stream where
  hd : nghttp2_frame_hd
  error_code : Nat
  deriving DecidableEq

structure nghttp2_settings_entry where
  settings_id : Int
  value : Nat
  deriving DecidableEq

/-- The SETTINGS frame; `niv` is the length of `iv`. -/
structure nghttp2_settings where
  hd : nghttp2_frame_hd
  iv : List nghttp2_settings_entry
  deriving DecidableEq

/-- The PING frame; `opaque_data` is the 8-byte array. -/
structure nghttp2_ping where
  hd : nghttp2_frame_hd
  opaque_data : List Nat
  deriving DecidableEq

/-- The GOAWAY frame; `opaque_data_len` is the length of `opaque_data`. -/
structure nghttp2_goaway where
  hd : nghttp2_frame_hd
  last_stream_id : Int
  error_code : Nat
  opaque_data : List Nat
  deriving DecidableEq

structure nghttp2_window_update where
  hd : nghttp2_frame_hd
  window_size_increment : Int
  deriving DecidableEq

/-- The HEADERS frame; `nvlen` is the length of `nva`.  The category `cat` is
not touched by pack or unpack and is left out. -/
structure nghttp2_headers where
  hd : nghttp2_frame_hd
  pri : Int
  nva : List nghttp2_nv
  deriving DecidableEq

/-! ## Frame head codec -/

/-- The function `nghttp2_frame_pack_frame_hd`: the 8 bytes stored at `buf`. -/
def frame_hd_bytes (hd : nghttp2_frame_hd) : List Nat :=
  nghttp2_put_uint16be (hd.length % 2 ^ 16) ++ [hd.typ % 256, hd.flags % 256] ++
    nghttp2_put_uint32be (to_uint32 hd.stream_id)

def nghttp2_frame_pack_frame_hd (buf : List Nat) (hd : nghttp2_frame_hd) : List Nat :=
  write_bytes buf 0 (frame_hd_bytes hd)

def nghttp2_frame_unpack_frame_hd (buf : Nat → Nat) : nghttp2_frame_hd :=
  { length := nghttp2_get_uint16 buf 0
    typ := buf 2
    flags := buf 3
    stream_id := ((nghttp2_get_uint32 buf 4 &&& NGHTTP2_STREAM_ID_MASK : Nat) : Int) }

/-! ## PRIORITY, RST_STREAM, SETTINGS, PING, GOAWAY, WINDOW_UPDATE -/

def nghttp2_frame_pack_priority (buf : List Nat) (frame : nghttp2_priority) :
    List Nat × Nat :=
  let framelen := NGHTTP2_FRAME_HEAD_LENGTH + 4
  let buf := nghttp2_reserve_buffer buf framelen
  let buf := memset_zero buf framelen
  let buf := nghttp2_frame_pack_frame_hd buf frame.hd
  let buf := write_bytes buf 8 (nghttp2_put_uint32be (to_uint32 frame.pri))
  (buf, framelen)

def nghttp2_frame_unpack_priority (head payload : List Nat) :
    Except nghttp2_error nghttp2_priority :=
  if payload.length ≠ 4 then .error .NGHTTP2_ERR_INVALID_FRAME
  else
    .ok { hd := nghttp2_frame_unpack_frame_hd (memOf head)
          pri := ((nghttp2_get_uint32 (memOf payload) 0 &&& NGHTTP2_PRIORITY_MASK : Nat) : Int) }

def nghttp2_frame_pack_rst_stream (buf : List Nat) (frame : nghttp2_rst_stream) :
    List Nat × Nat :=
  let framelen := NGHTTP2_FRAME_HEAD_LENGTH + 4
  let buf := nghttp2_reserve_buffer buf framelen
  let buf := memset_zero buf framelen
  let buf := nghttp2_frame_pack_frame_hd buf frame.hd
  let buf := write_bytes buf 8 (nghttp2_put_uint32be (frame.error_code % 2 ^ 32))
  (buf, framelen)

def nghttp2_frame_unpack_rst_stream (head payload : List Nat) :
    Except nghttp2_error nghttp2_rst_stream :=
  if payload.length ≠ 4 then .error .NGHTTP2_ERR_INVALID_FRAME
  else
    .ok { hd := nghttp2_frame_unpack_frame_hd (memOf head)
          error_code := nghttp2_get_uint32 (memOf payload) 0 }

/-- The loop of `nghttp2_frame_pack_settings_payload`: entry after entry, 8 bytes
each, starting at `buf + off`. -/
def nghttp2_frame_pack_settings_payload (buf : List Nat) (off : Nat) :
    List nghttp2_settings_entry → List Nat
  | [] => buf
  | e :: iv =>
    let buf := write_bytes buf off (nghttp2_put_uint32be (to_uint32 e.settings_id))
    let buf := write_bytes buf (off + 4) (nghttp2_put_uint32be (e.value % 2 ^ 32))
    nghttp2_frame_pack_settings_payload buf (off + 8) iv

def nghttp2_frame_pack_settings (buf : List Nat) (frame : nghttp2_settings) :
    List Nat × Nat :=
  let framelen := NGHTTP2_FRAME_HEAD_LENGTH + frame.hd.length
  let buf := nghttp2_reserve_buffer buf framelen
  let buf := memset_zero buf framelen
  let buf := nghttp2_frame_pack_frame_hd buf frame.hd
  let buf := nghttp2_frame_pack_settings_payload buf 8 frame.iv
  (buf, framelen)

/-- The loop of `nghttp2_frame_unpack_settings_payload` from entry `i` on, `n`
entries left. -/
def nghttp2_frame_unpack_settings_payload_loop (payload : Nat → Nat) :
    Nat → Nat → List nghttp2_settings_entry
  | 0, _ => []
  | n + 1, i =>
    let off := i * 8
    { settings_id :=
        ((nghttp2_get_uint32 payload off &&& NGHTTP2_SETTINGS_ID_MASK : Nat) : Int)
      value := nghttp2_get_uint32 payload (4 + off) } ::
      nghttp2_frame_unpack_settings_payload_loop payload n (i + 1)

def nghttp2_frame_unpack_settings_payload (payload : List Nat) :
    List nghttp2_settings_entry :=
  nghttp2_frame_unpack_settings_payload_loop (memOf payload) (payload.length / 8) 0

def nghttp2_frame_unpack_settings (head payload : List Nat) :
    Except nghttp2_error nghttp2_settings :=
  if payload.length % 8 ≠ 0 then .error .NGHTTP2_ERR_INVALID_FRAME
  else
    .ok { hd := nghttp2_frame_unpack_frame_hd (memOf head)
          iv := nghttp2_frame_unpack_settings_payload payload }

def nghttp2_frame_pack_ping (buf : List Nat) (frame : nghttp2_ping) : List Nat × Nat :=
  let framelen := NGHTTP2_FRAME_HEAD_LENGTH + 8
  let buf := nghttp2_reserve_buffer buf framelen
  let buf := memset_zero buf framelen
  let buf := nghttp2_frame_pack_frame_hd buf frame.hd
  let buf := write_bytes buf 8 (frame.opaque_data.take 8)
  (buf, framelen)

def nghttp2_frame_unpack_ping (head payload : List Nat) :
    Except nghttp2_error nghttp2_ping :=
  if payload.length ≠ 8 then .error .NGHTTP2_ERR_INVALID_FRAME
  else
    .ok { hd := nghttp2_frame_unpack_frame_hd (memOf head)
          opaque_data := payload.take 8 }

def nghttp2_frame_pack_goaway (buf : List Nat) (frame : nghttp2_goaway) : List Nat × Nat :=
  let framelen := NGHTTP2_FRAME_HEAD_LENGTH + frame.hd.length
  let buf := nghttp2_reserve_buffer buf framelen
  let buf := memset_zero buf framelen
  let buf := nghttp2_frame_pack_frame_hd buf frame.hd
  let buf := write_bytes buf 8 (nghttp2_put_uint32be (to_uint32 frame.last_stream_id))
  let buf := write_bytes buf 12 (nghttp2_put_uint32be (frame.error_code % 2 ^ 32))
  let buf := write_bytes buf 16 frame.opaque_data
  (buf, framelen)

def nghttp2_frame_unpack_goaway (head payload : List Nat) :
    Except nghttp2_error nghttp2_goaway :=
  let hd := nghttp2_frame_unpack_frame_hd (memOf head)
  if payload.length < 8 then .error .NGHTTP2_ERR_INVALID_FRAME
  else
    .ok { hd := hd
          last_stream_id :=
            ((nghttp2_get_uint32 (memOf payload) 0 &&& NGHTTP2_STREAM_ID_MASK : Nat) : Int)
          error_code := nghttp2_get_uint32 (memOf payload) 4
          opaque_data := (payload.drop 8).take (payload.length - 8) }

def nghttp2_frame_pack_window_update (buf : List Nat) (frame : nghttp2_window_update) :
    List Nat × Nat :=
  let framelen := NGHTTP2_FRAME_HEAD_LENGTH + 4
  let buf := nghttp2_reserve_buffer buf framelen
  let buf := memset_zero buf framelen
  let buf := nghttp2_frame_pack_frame_hd buf frame.hd
  let buf := write_bytes buf 8 (nghttp2_put_uint32be (to_uint32 frame.window_size_increment))
  (buf, framelen)

def nghttp2_frame_unpack_window_update (head payload : List Nat) :
    Except nghttp2_error nghttp2_window_update :=
  if payload.length ≠ 4 then .error .NGHTTP2_ERR_INVALID_FRAME
  else
    .ok { hd := nghttp2_frame_unpack_frame_hd (memOf head)
          window_size_increment :=
            ((nghttp2_get_uint32 (memOf payload) 0 &&&
              NGHTTP2_WINDOW_SIZE_INCREMENT_MASK : Nat) : Int) }

/-- The fields of a frame header lie in the ranges of their C types, the stream
id in the 31 bits of the data model. -/
def frame_hd_wf (hd : nghttp2_frame_hd) : Prop :=
  hd.length < 2 ^ 16 ∧ hd.typ < 256 ∧ hd.flags < 256 ∧ 0 ≤ hd.stream_id ∧ hd.stream_id < 2 ^ 31

instance (hd : nghttp2_frame_hd) : Decidable (frame_hd_wf hd) := by
  unfold frame_hd_wf; infer_instance

/-- The payload of a SETTINGS frame as section 4.1 lays it out: per entry the id
and the value, 32 bits big-endian each. -/
def settings_payload_bytes : List nghttp2_settings_entry → List Nat
  | [] => []
  | e :: iv =>
    nghttp2_put_uint32be (to_uint32 e.settings_id) ++ nghttp2_put_uint32be (e.value % 2 ^ 32) ++
      settings_payload_bytes iv

/-- The id of a SETTINGS entry is a `u24`, its value a `u32`. -/
def settings_entry_wf (e : nghttp2_settings_entry) : Prop :=
  0 ≤ e.settings_id ∧ e.settings_id < 2 ^ 24 ∧ e.value < 2 ^ 32

instance (e : nghttp2_settings_entry) : Decidable (settings_entry_wf e) := by
  unfold settings_entry_wf; infer_instance

/-! ## Variable-length integer codec (nghttp2_hd.c) -/

/-- The `do { ... } while(n)` loop of `count_encoded_length`.  The first argument
bounds the number of iterations: an iteration that goes on divides `n` by 128,
so `n + 1` iterations are never used up. -/
def count_encoded_length_loop : Nat → Nat → Nat → Nat
  | 0, _, len => len
  | fuel + 1, n, len =>
    let len := len + 1
    if n ≥ 128 then
      let n := n >>> 7
      if n ≠ 0 then count_encoded_length_loop fuel n len else len
    else len

def count_encoded_length (n pfx : Nat) : Nat :=
  let k := (1 <<< pfx) - 1
  if n ≥ k then count_encoded_length_loop (n - k + 1) (n - k) 1 else 1

/-- The `do { ... } while(n)` loop of `encode_length`: the bytes stored through
`buf` and the final `len`.  The first argument bounds the number of iterations as
in `count_encoded_length_loop`. -/
def encode_length_loop : Nat → Nat → Nat → List Nat × Nat
  | 0, _, len => ([], len)
  | fuel + 1, n, len =>
    let len := len + 1
    if n ≥ 128 then
      let b := ((1 <<< 7) ||| (n &&& 0x7f)) % 256
      let n := n >>> 7
      if n ≠ 0 then
        let r := encode_length_loop fuel n len
        (b :: r.1, r.2)
      else ([b], len)
    else ([n % 256], len)

/-- The function `encode_length`: the bytes stored from `buf` on and the
returned count. -/
def encode_length (n pfx : Nat) : List Nat × Nat :=
  let k := (1 <<< pfx) - 1
  if n ≥ k then
    let r := encode_length_loop (n - k + 1) (n - k) 1
    ((k % 256) :: r.1, r.2)
  else ([n % 256], 1)

/-- The value of the low 32 bits read as a two's complement `int`. -/
def int32_wrap (x : Int) : Int := (x + 2 ^ 31) % 2 ^ 32 - 2 ^ 31

/-- The expression `a << r` on a 32-bit `int` as the shift instruction computes
it: the count is taken modulo 32 and the bits beyond the 32nd are lost.  (C leaves
the expression undefined when it does not fit.) -/
def int_shl (a r : Nat) : Int := int32_wrap ((a : Int) * 2 ^ (r % 32))

/-- The `for` loop of `decode_length` and the test that follows it.  `left` is
`last - in`, the number of bytes of the input not yet read: at 0 the loop is left
with `in == last`, and the test after the loop reads `*in` all the same. -/
def decode_length_loop (mem : Nat → Nat) : Nat → Nat → Nat → Int → Int × Option Nat
  | 0, inp, _, res =>
    if mem inp &&& (1 <<< 7) ≠ 0 then (-1, none) else (res, some (inp + 1))
  | left + 1, inp, r, res =>
    let res := res + int_shl (mem inp &&& 0x7f) r
    if res ≥ ((1 <<< 16 : Nat) : Int) then (-1, some (inp + 1))
    else if mem inp &&& (1 <<< 7) = 0 then
      (res, some (inp + 1))
    else decode_length_loop mem left (inp + 1) (r + 7) res

/-- The function `decode_length`: the value stored in `*res` and the returned
pointer (`none` for `NULL`).  The input is the region `[inp, last)` of `mem`. -/
def decode_length (mem : Nat → Nat) (inp last pfx : Nat) : Int × Option Nat :=
  let k := (1 <<< pfx) - 1
  if inp = last then (-1, some inp)
  else if mem inp &&& k = k then
    decode_length_loop mem (last - (inp + 1)) (inp + 1) 0 (k : Int)
  else (((mem inp &&& k : Nat) : Int), some (inp + 1))

/-- The bytes `data` stand in `mem` from address `a` on. -/
def mem_holds (mem : Nat → Nat) (a : Nat) (data : List Nat) : Prop :=
  ∀ i, i < data.length → mem (a + i) = data.getD i 0

instance (mem : Nat → Nat) (a : Nat) (data : List Nat) : Decidable (mem_holds mem a data) := by
  unfold mem_holds; infer_instance

/-- The integer `m` in base 128, least significant digit first, every byte but
the last with its high bit set (section 4.2).  The first argument bounds the
number of digits. -/
def base128_le : Nat → Nat → List Nat
  | 0, _ => []
  | fuel + 1, m => if m < 128 then [m] else (128 + m % 128) :: base128_le fuel (m / 128)

/-- The integer that a run of base-128 digits denotes, least significant first,
the high bit of each byte left out. -/
def base128_value : List Nat → Nat
  | [] => 0
  | b :: bs => b % 128 + 128 * base128_value bs

end Nghttp2

namespace Nghttp2

/-! ## Name/value utilities (nghttp2_frame.c) -/

/-- The libc function `memcmp` on the first `n` bytes: 0 when they agree, otherwise
the difference of the first two bytes that differ.  (Only the sign is fixed by C.) -/
def memcmp : List Nat → List Nat → Nat → Int
  | _, _, 0 => 0
  | x :: xs, y :: ys, n + 1 => if x ≠ y then (x : Int) - (y : Int) else memcmp xs ys n
  | _, _, _ + 1 => 0

def nghttp2_nv_equal (a b : nghttp2_nv) : Bool :=
  a.name.length == b.name.length && a.value.length == b.value.length &&
    memcmp a.name b.name a.name.length == 0 &&
    memcmp a.value b.value a.value.length == 0

def nghttp2_nv_name_compar (a b : nghttp2_nv) : Int :=
  if a.name.length = b.name.length then
    memcmp a.name b.name a.name.length
  else if a.name.length < b.name.length then
    let rv := memcmp a.name b.name a.name.length
    if rv = 0 then -1 else rv
  else
    let rv := memcmp a.name b.name b.name.length
    if rv = 0 then 1 else rv

/-- The order that `qsort` is given by `nghttp2_nv_name_compar`. -/
def nv_name_le (a b : nghttp2_nv) : Prop := nghttp2_nv_name_compar a b ≤ 0

instance : DecidableRel nv_name_le := fun a b => by
  unfold nv_name_le; infer_instance

/-- The function `nghttp2_nv_array_sort`.  The libc `qsort` is taken to be an
insertion sort: C fixes the result up to the order of elements that compare equal. -/
def nghttp2_nv_array_sort (nva : List nghttp2_nv) : List nghttp2_nv :=
  nva.insertionSort nv_name_le

/-! ## Constants of nghttp2_hd.h -/

/-- Modelled from the spec: `INITIAL_HD_TABLE_SIZE` of section 6, the capacity of
the header table array (nghttp2_hd.h is not in the sources at hand). -/
def NGHTTP2_INITIAL_HD_TABLE_SIZE : Nat := 128

/-- Modelled from the spec: `INITIAL_REFSET_SIZE` of section 6. -/
def NGHTTP2_INITIAL_REFSET_SIZE : Nat := 128

/-- Modelled from the spec: `INITIAL_WS_SIZE` of section 6. -/
def NGHTTP2_INITIAL_WS_SIZE : Nat := 128

/-- Modelled from the spec: `HD_MAX_BUFFER_SIZE` of section 6. -/
def NGHTTP2_HD_MAX_BUFFER_SIZE : Nat := 4096

/-- Modelled from the spec: `HD_MAX_ENTRY_SIZE` of section 6. -/
def NGHTTP2_HD_MAX_ENTRY_SIZE : Nat := 3072

/-- Modelled from the spec: `HD_ENTRY_OVERHEAD` of section 6. -/
def NGHTTP2_HD_ENTRY_OVERHEAD : Nat := 32

/-- Modelled from the spec: `MAX_FRAME_LENGTH` of section 6. -/
def NGHTTP2_MAX_FRAME_LENGTH : Nat := 16384

/-- Modelled from the spec: the value INVALID of the `u8` index of a header-table
entry (section 3), taken as the largest `uint8_t`. -/
def NGHTTP2_HD_INVALID_INDEX : Nat := 255

/-- Modelled from the spec: the entry flags of section 3, no byte owned. -/
def NGHTTP2_HD_FLAG_NONE : Nat := 0

/-- Modelled from the spec: the entry flag `name_owned` of section 3. -/
def NGHTTP2_HD_FLAG_NAME_ALLOC : Nat := 1

/-- Modelled from the spec: the entry flag `value_owned` of section 3. -/
def NGHTTP2_HD_FLAG_VALUE_ALLOC : Nat := 2

/-- Modelled from the spec: the side of a context (section 9); `flip` is `side ^ 1`. -/
inductive nghttp2_hd_side where
  | NGHTTP2_HD_SIDE_CLIENT
  | NGHTTP2_HD_SIDE_SERVER
  deriving DecidableEq

def nghttp2_hd_side.flip : nghttp2_hd_side → nghttp2_hd_side
  | .NGHTTP2_HD_SIDE_CLIENT => .NGHTTP2_HD_SIDE_SERVER
  | .NGHTTP2_HD_SIDE_SERVER => .NGHTTP2_HD_SIDE_CLIENT

/-! ## Data model of the compression context -/

/-- A header-table entry `nghttp2_hd_entry`: `ref` is the reference count, `index`
the `uint8_t` position in the header table or `NGHTTP2_HD_INVALID_INDEX`. -/
structure nghttp2_hd_entry where
  nv : nghttp2_nv
  ref : Int
  index : Nat
  flags : Nat
  deriving DecidableEq

/-- A working-set cell `nghttp2_hd_ws_entry`: the category `cat` and the member of
the union that goes with it.  `entry` is a pointer, an index into the arena. -/
inductive nghttp2_hd_ws_entry where
  | indexed (entry : Nat) (index : Nat)
  | indname (entry : Nat) (value : List Nat)
  | newname (nv : nghttp2_nv)
  | none
  deriving DecidableEq

/-- The context `nghttp2_hd_context`.  `heap` is the arena of the entries
allocated so far; `hd_table`, `refset` and `ws` hold the used part of the three
arrays (`hd_tablelen`, `refsetlen` and `wslen` are their lengths). -/
structure nghttp2_hd_context where
  heap : List nghttp2_hd_entry
  hd_table : List Nat
  hd_table_capacity : Nat
  refset : List Nat
  refset_capacity : Nat
  ws : List nghttp2_hd_ws_entry
  ws_capacity : Nat
  bad : Bool
  hd_table_bufsize : Nat
  deriving DecidableEq

/-- The bytes of a C string literal. -/
def cstr (s : String) : List Nat := s.data.map Char.toNat

def reqhd_table : List (String × String) :=
  [(":scheme", "http"), (":scheme", "https"), (":host", ""), (":path", "/"),
    (":method", "GET"), ("accept", ""), ("accept-charset", ""), ("accept-encoding", ""),
    ("accept-language", ""), ("cookie", ""), ("if-modified-since", ""), ("keep-alive", ""),
    ("user-agent", ""), ("proxy-connection", ""), ("referer", ""), ("accept-datetime", ""),
    ("authorization", ""), ("allow", ""), ("cache-control", ""), ("connection", ""),
    ("content-length", ""), ("content-md5", ""), ("content-type", ""), ("date", ""),
    ("expect", ""), ("from", ""), ("if-match", ""), ("if-none-match", ""), ("if-range", ""),
    ("if-unmodified-since", ""), ("max-forwards", ""), ("pragma", ""),
    ("proxy-authorization", ""), ("range", ""), ("te", ""), ("upgrade", ""), ("via", ""),
    ("warning", "")]

def reshd_table : List (String × String) :=
  [(":status", "200"), ("age", ""), ("cache-control", ""), ("content-length", ""),
    ("content-type", ""), ("date", ""), ("etag", ""), ("expires", ""), ("last-modified", ""),
    ("server", ""), ("set-cookie", ""), ("vary", ""), ("via", ""),
    ("access-control-allow-origin", ""), ("accept-ranges", ""), ("allow", ""),
    ("connection", ""), ("content-disposition", ""), ("content-encoding", ""),
    ("content-language", ""), ("content-location", ""), ("content-md5", ""),
    ("content-range", ""), ("link", ""), ("location", ""), ("p3p", ""), ("pragma", ""),
    ("proxy-authenticate", ""), ("refresh", ""), ("retry-after", ""),
    ("strict-transport-security", ""), ("trailer", ""), ("transfer-encoding", ""),
    ("warning", ""), ("www-authenticate", "")]

/-- The function `nghttp2_hd_entry_init`: the entry it fills in (`index` is a
`uint8_t` parameter). -/
def nghttp2_hd_entry_init (index flags : Nat) (name value : List Nat) : nghttp2_hd_entry :=
  { nv := { name := name, value := value }, ref := 1, index := index % 256, flags := flags }

/-- The entry a pointer into the arena points to. -/
def heap_get (heap : List nghttp2_hd_entry) (p : Nat) : nghttp2_hd_entry :=
  heap.getD p { nv := { name := [], value := [] }, ref := 0, index := 0, flags := 0 }

/-- The statement `--ent->ref` (the entry is freed at 0, which the arena does not
record). -/
def ref_dec (heap : List nghttp2_hd_entry) (p : Nat) : List nghttp2_hd_entry :=
  heap.set p { heap_get heap p with ref := (heap_get heap p).ref - 1 }

/-- The statement `++ent->ref`. -/
def ref_inc (heap : List nghttp2_hd_entry) (p : Nat) : List nghttp2_hd_entry :=
  heap.set p { heap_get heap p with ref := (heap_get heap p).ref + 1 }

/-- The statement `ent->index = index`. -/
def set_index (heap : List nghttp2_hd_entry) (p index : Nat) : List nghttp2_hd_entry :=
  heap.set p { heap_get heap p with index := index }

def entry_room (namelen valuelen : Nat) : Nat :=
  NGHTTP2_HD_ENTRY_OVERHEAD + namelen + valuelen

/-- The room of the entry `p` points to. -/
def heap_room (heap : List nghttp2_hd_entry) (p : Nat) : Nat :=
  entry_room (heap_get heap p).nv.name.length (heap_get heap p).nv.value.length

/-- The loop of `nghttp2_hd_context_init` over the initial table: entry after
entry is allocated, appended to the header table and accounted for. -/
def context_init_loop : List (String × String) → nghttp2_hd_context → nghttp2_hd_context
  | [], c => c
  | (n, v) :: rest, c =>
    let p := c.heap.length
    let e := nghttp2_hd_entry_init c.hd_table.length NGHTTP2_HD_FLAG_NONE (cstr n) (cstr v)
    context_init_loop rest
      { c with
        heap := c.heap ++ [e]
        hd_table := c.hd_table ++ [p]
        hd_table_bufsize := c.hd_table_bufsize + NGHTTP2_HD_ENTRY_OVERHEAD +
          e.nv.name.length + e.nv.value.length }

def nghttp2_hd_context_init (side : nghttp2_hd_side) : nghttp2_hd_context :=
  let ini_table :=
    if side = .NGHTTP2_HD_SIDE_CLIENT then reqhd_table else reshd_table
  context_init_loop ini_table
    { heap := []
      hd_table := []
      hd_table_capacity := NGHTTP2_INITIAL_HD_TABLE_SIZE
      refset := []
      refset_capacity := NGHTTP2_INITIAL_REFSET_SIZE
      ws := []
      ws_capacity := NGHTTP2_INITIAL_WS_SIZE
      bad := false
      hd_table_bufsize := 0 }

def nghttp2_hd_deflate_init (side : nghttp2_hd_side) : nghttp2_hd_context :=
  nghttp2_hd_context_init side

def nghttp2_hd_inflate_init (side : nghttp2_hd_side) : nghttp2_hd_context :=
  nghttp2_hd_context_init side.flip

/-! ## Header-table mutation -/

/-- The eviction loop of `add_hd_table_incremental` over the entries of the table
not yet visited: returns the entries left (`hd_table[i..]` at the end of the loop),
the arena and `hd_table_bufsize`. -/
def evict_loop : List Nat → List nghttp2_hd_entry → Nat → List Nat × List nghttp2_hd_entry × Nat
  | [], heap, bufsize => ([], heap, bufsize)
  | p :: rest, heap, bufsize =>
    if bufsize > NGHTTP2_HD_MAX_BUFFER_SIZE then
      let bufsize := bufsize - heap_room heap p
      let heap := set_index heap p NGHTTP2_HD_INVALID_INDEX
      let heap := ref_dec heap p
      evict_loop rest heap bufsize
    else (p :: rest, heap, bufsize)

/-- The compaction loop `hd_table[j] = hd_table[i]; hd_table[j]->index = j` over
the entries left, from position `j` on. -/
def reindex_loop : List Nat → Nat → List nghttp2_hd_entry → List nghttp2_hd_entry
  | [], _, heap => heap
  | p :: rest, j, heap => reindex_loop rest (j + 1) (set_index heap p (j % 256))

/-- The function `add_hd_table_incremental`: the context and the new entry
(`none` for `NULL`). -/
def add_hd_table_incremental (c : nghttp2_hd_context) (nv : nghttp2_nv) :
    nghttp2_hd_context × Option Nat :=
  let room := entry_room nv.name.length nv.value.length
  if c.hd_table.length = c.hd_table_capacity ∨ room > NGHTTP2_HD_MAX_BUFFER_SIZE then
    (c, none)
  else
    let r := evict_loop c.hd_table c.heap (c.hd_table_bufsize + room)
    let i := c.hd_table.length - r.1.length
    let heap := if i > 0 then reindex_loop r.1 0 r.2.1 else r.2.1
    let new_ent := heap.length
    let e := nghttp2_hd_entry_init r.1.length
      (NGHTTP2_HD_FLAG_NAME_ALLOC ||| NGHTTP2_HD_FLAG_VALUE_ALLOC) nv.name nv.value
    ({ c with
        heap := heap ++ [e]
        hd_table := r.1 ++ [new_ent]
        hd_table_bufsize := r.2.2 }, some new_ent)

/-- The eviction loop of `add_hd_table_subst` from position `i` on: the room of
the entry at `subindex` is not taken off again.  Returns the entries left, the
final `i`, the arena and `hd_table_bufsize`. -/
def evict_loop_subst (subindex : Nat) :
    List Nat → Nat → List nghttp2_hd_entry → Nat → List Nat × Nat × List nghttp2_hd_entry × Nat
  | [], i, heap, bufsize => ([], i, heap, bufsize)
  | p :: rest, i, heap, bufsize =>
    if bufsize > NGHTTP2_HD_MAX_BUFFER_SIZE then
      let bufsize := if i ≠ subindex then bufsize - heap_room heap p else bufsize
      let heap := set_index heap p NGHTTP2_HD_INVALID_INDEX
      let heap := ref_dec heap p
      evict_loop_subst subindex rest (i + 1) heap bufsize
    else (p :: rest, i, heap, bufsize)

/-- The function `add_hd_table_subst`: the context and the new entry (`none` for
`NULL`). -/
def add_hd_table_subst (c : nghttp2_hd_context) (nv : nghttp2_nv) (subindex : Nat) :
    nghttp2_hd_context × Option Nat :=
  let room := entry_room nv.name.length nv.value.length
  if room > NGHTTP2_HD_MAX_BUFFER_SIZE ∨ c.hd_table.length ≤ subindex then
    (c, none)
  else
    let bufsize := c.hd_table_bufsize - heap_room c.heap (c.hd_table.getD subindex 0)
    let bufsize := bufsize + room
    let r := evict_loop_subst subindex c.hd_table 0 c.heap bufsize
    let i := r.2.1
    let k : Int := (subindex : Int) - (i : Int)
    let table :=
      if i > 0 then (if k < 0 then c.hd_table.take 1 ++ r.1 else r.1) else c.hd_table
    let heap :=
      if i > 0 then reindex_loop r.1 (if k < 0 then 1 else 0) r.2.2.1 else r.2.2.1
    let new_ent := heap.length
    let heap :=
      if k ≥ 0 then
        ref_dec (set_index heap (table.getD k.toNat 0) NGHTTP2_HD_INVALID_INDEX)
          (table.getD k.toNat 0)
      else heap
    let k : Nat := if k ≥ 0 then k.toNat else 0
    let e := nghttp2_hd_entry_init k
      (NGHTTP2_HD_FLAG_NAME_ALLOC ||| NGHTTP2_HD_FLAG_VALUE_ALLOC) nv.name nv.value
    ({ c with
        heap := heap ++ [e]
        hd_table := table.set e.index new_ent
        hd_table_bufsize := r.2.2.2 }, some new_ent)

/-! ## Working set -/

def add_workingset (c : nghttp2_hd_context) (ent : Nat) :
    Except nghttp2_error nghttp2_hd_context :=
  if c.ws.length = c.ws_capacity then .error .NGHTTP2_ERR_HEADER_COMP
  else
    .ok { c with
      ws := c.ws ++ [.indexed ent (heap_get c.heap ent).index]
      heap := ref_inc c.heap ent }

def add_workingset_newname (c : nghttp2_hd_context) (nv : nghttp2_nv) :
    Except nghttp2_error nghttp2_hd_context :=
  if c.ws.length = c.ws_capacity then .error .NGHTTP2_ERR_HEADER_COMP
  else .ok { c with ws := c.ws ++ [.newname nv] }

def add_workingset_indname (c : nghttp2_hd_context) (ent : Nat) (value : List Nat) :
    Except nghttp2_error nghttp2_hd_context :=
  if c.ws.length = c.ws_capacity then .error .NGHTTP2_ERR_HEADER_COMP
  else
    .ok { c with
      ws := c.ws ++ [.indname ent value]
      heap := ref_inc c.heap ent }

/-- The test of one cell in `find_in_workingset`. -/
def ws_entry_matches (heap : List nghttp2_hd_entry) (nv : nghttp2_nv) :
    nghttp2_hd_ws_entry → Bool
  | .indexed ent _ => nghttp2_nv_equal (heap_get heap ent).nv nv
  | .indname ent value =>
    (heap_get heap ent).nv.name.length == nv.name.length &&
      value.length == nv.value.length &&
      memcmp (heap_get heap ent).nv.name nv.name nv.name.length == 0 &&
      memcmp value nv.value nv.value.length == 0
  | .newname nv1 => nghttp2_nv_equal nv1 nv
  | .none => false

/-- The function `find_in_workingset`: the first cell that matches (`none` for
`NULL`). -/
def find_in_workingset (c : nghttp2_hd_context) (nv : nghttp2_nv) :
    Option nghttp2_hd_ws_entry :=
  c.ws.find? (ws_entry_matches c.heap nv)

/-- The test of one cell in `find_in_workingset_by_index` and in
`remove_from_workingset_by_index`: an INDEXED cell with the frozen index `index`. -/
def ws_entry_has_index (index : Nat) : nghttp2_hd_ws_entry → Bool
  | .indexed _ i => i == index
  | _ => false

def find_in_workingset_by_index (c : nghttp2_hd_context) (index : Nat) :
    Option nghttp2_hd_ws_entry :=
  c.ws.find? (ws_entry_has_index index)

/-- The loop of `remove_from_workingset_by_index` over the cells: the cells, the
arena and the count `res`. -/
def remove_from_workingset_loop (index : Nat) :
    List nghttp2_hd_ws_entry → List nghttp2_hd_entry →
      List nghttp2_hd_ws_entry × List nghttp2_hd_entry × Nat
  | [], heap => ([], heap, 0)
  | .indexed ent i :: rest, heap =>
    if i = index then
      let r := remove_from_workingset_loop index rest (ref_dec heap ent)
      (.none :: r.1, r.2.1, r.2.2 + 1)
    else
      let r := remove_from_workingset_loop index rest heap
      (.indexed ent i :: r.1, r.2.1, r.2.2)
  | cell :: rest, heap =>
    let r := remove_from_workingset_loop index rest heap
    (cell :: r.1, r.2.1, r.2.2)

def remove_from_workingset_by_index (c : nghttp2_hd_context) (index : Nat) :
    nghttp2_hd_context × Nat :=
  let r := remove_from_workingset_loop index c.ws c.heap
  ({ c with ws := r.1, heap := r.2.1 }, r.2.2)

/-- The function `find_in_hd_table`: the first entry of the table equal to `nv`. -/
def find_in_hd_table (c : nghttp2_hd_context) (nv : nghttp2_nv) : Option Nat :=
  c.hd_table.find? fun p => nghttp2_nv_equal (heap_get c.heap p).nv nv

/-- The function `find_name_in_hd_table`: the first entry of the table with the
name of `nv`. -/
def find_name_in_hd_table (c : nghttp2_hd_context) (nv : nghttp2_nv) : Option Nat :=
  c.hd_table.find? fun p =>
    (heap_get c.heap p).nv.name.length == nv.name.length &&
      memcmp (heap_get c.heap p).nv.name nv.name nv.name.length == 0

/-- The function `create_workingset`: every entry of the reference set becomes an
INDEXED cell with its current index, the reference set is emptied. -/
def create_workingset (c : nghttp2_hd_context) : nghttp2_hd_context :=
  { c with
    ws := c.refset.map fun p => .indexed p (heap_get c.heap p).index
    refset := [] }

/-! ## Emitting blocks -/

def ensure_write_buffer (buf : List Nat) (offset need : Nat) :
    Except nghttp2_error (List Nat) :=
  if need + offset > NGHTTP2_MAX_FRAME_LENGTH then .error .NGHTTP2_ERR_HEADER_COMP
  else .ok (nghttp2_reserve_buffer buf (offset + need))

/-- The statement `(*buf_ptr)[*offset_ptr] |= tag`. -/
def or_byte (buf : List Nat) (offset tag : Nat) : List Nat :=
  buf.set offset ((buf.getD offset 0 ||| tag) % 256)

/-- The function `emit_indexed_block`: the buffer and the new offset. -/
def emit_indexed_block (buf : List Nat) (offset index : Nat) :
    Except nghttp2_error (List Nat × Nat) :=
  let blocklen := count_encoded_length index 7
  match ensure_write_buffer buf offset blocklen with
  | .error rv => .error rv
  | .ok buf =>
    let buf := write_bytes buf offset (encode_length index 7).1
    let buf := or_byte buf offset 0x80
    .ok (buf, offset + blocklen)

/-- The function `emit_indname_block`: the buffer and the new offset.  The
`assert` on the block length is the `ABORTED` branch. -/
def emit_indname_block (buf : List Nat) (offset index : Nat) (value : List Nat)
    (inc_indexing : Bool) : Except nghttp2_error (List Nat × Nat) :=
  let blocklen := count_encoded_length (index + 1) 5 +
    count_encoded_length value.length 8 + value.length
  match ensure_write_buffer buf offset blocklen with
  | .error rv => .error rv
  | .ok buf =>
    let e1 := encode_length (index + 1) 5
    let buf := write_bytes buf offset e1.1
    let bufp := offset + e1.2
    let e2 := encode_length value.length 8
    let buf := write_bytes buf bufp e2.1
    let bufp := bufp + e2.2
    let buf := write_bytes buf bufp value
    let buf := or_byte buf offset (if inc_indexing then 0x40 else 0x60)
    if bufp + value.length - offset ≠ blocklen then .error .ABORTED
    else .ok (buf, offset + blocklen)

/-- The function `emit_newname_block`: the buffer and the new offset. -/
def emit_newname_block (buf : List Nat) (offset : Nat) (nv : nghttp2_nv)
    (inc_indexing : Bool) : Except nghttp2_error (List Nat × Nat) :=
  let blocklen := 1 + count_encoded_length nv.name.length 8 + nv.name.length +
    count_encoded_length nv.value.length 8 + nv.value.length
  match ensure_write_buffer buf offset blocklen with
  | .error rv => .error rv
  | .ok buf =>
    let buf := write_bytes buf offset [if inc_indexing then 0x40 else 0x60]
    let bufp := offset + 1
    let e1 := encode_length nv.name.length 8
    let buf := write_bytes buf bufp e1.1
    let bufp := bufp + e1.2
    let buf := write_bytes buf bufp nv.name
    let bufp := bufp + nv.name.length
    let e2 := encode_length nv.value.length 8
    let buf := write_bytes buf bufp e2.1
    let bufp := bufp + e2.2
    let buf := write_bytes buf bufp nv.value
    .ok (buf, offset + blocklen)

/-- The function `emit_subst_indname_block`: the buffer and the new offset. -/
def emit_subst_indname_block (buf : List Nat) (offset index : Nat) (value : List Nat)
    (subindex : Nat) : Except nghttp2_error (List Nat × Nat) :=
  let blocklen := count_encoded_length (index + 1) 6 + count_encoded_length subindex 8 +
    count_encoded_length value.length 8 + value.length
  match ensure_write_buffer buf offset blocklen with
  | .error rv => .error rv
  | .ok buf =>
    let e1 := encode_length (index + 1) 6
    let buf := write_bytes buf offset e1.1
    let bufp := offset + e1.2
    let e2 := encode_length subindex 8
    let buf := write_bytes buf bufp e2.1
    let bufp := bufp + e2.2
    let e3 := encode_length value.length 8
    let buf := write_bytes buf bufp e3.1
    let bufp := bufp + e3.2
    let buf := write_bytes buf bufp value
    .ok (buf, offset + blocklen)

/-- The function `emit_subst_newname_block`: the buffer and the new offset. -/
def emit_subst_newname_block (buf : List Nat) (offset : Nat) (nv : nghttp2_nv)
    (subindex : Nat) : Except nghttp2_error (List Nat × Nat) :=
  let blocklen := 1 + count_encoded_length nv.name.length 8 + nv.name.length +
    count_encoded_length subindex 8 +
    count_encoded_length nv.value.length 8 + nv.value.length
  match ensure_write_buffer buf offset blocklen with
  | .error rv => .error rv
  | .ok buf =>
    let buf := write_bytes buf offset [0]
    let bufp := offset + 1
    let e1 := encode_length nv.name.length 8
    let buf := write_bytes buf bufp e1.1
    let bufp := bufp + e1.2
    let buf := write_bytes buf bufp nv.name
    let bufp := bufp + nv.name.length
    let e2 := encode_length subindex 8
    let buf := write_bytes buf bufp e2.1
    let bufp := bufp + e2.2
    let e3 := encode_length nv.value.length 8
    let buf := write_bytes buf bufp e3.1
    let bufp := bufp + e3.2
    let buf := write_bytes buf bufp nv.value
    .ok (buf, offset + blocklen)

end Nghttp2

namespace Nghttp2

/-! ## Deflate -/

/-- The first loop of `nghttp2_hd_deflate_hd` over the cells of the working set:
a cell whose entry is none of the input headers is emitted as an indexed block and
made a tombstone.  Returns the cells, the arena, the buffer, the offset and `rv`. -/
def deflate_toggle_loop (nva : List nghttp2_nv) :
    List nghttp2_hd_ws_entry → List nghttp2_hd_entry → List Nat → Nat →
      List nghttp2_hd_ws_entry × List nghttp2_hd_entry × List Nat × Nat ×
        Except nghttp2_error Unit
  | [], heap, buf, offset => ([], heap, buf, offset, .ok ())
  | .indexed ent index :: rest, heap, buf, offset =>
    if nva.any fun nv => nghttp2_nv_equal (heap_get heap ent).nv nv then
      let r := deflate_toggle_loop nva rest heap buf offset
      (.indexed ent index :: r.1, r.2)
    else
      match emit_indexed_block buf offset index with
      | .error rv => (.indexed ent index :: rest, heap, buf, offset, .error rv)
      | .ok (buf, offset) =>
        let r := deflate_toggle_loop nva rest (ref_dec heap ent) buf offset
        (.none :: r.1, r.2)
  | cell :: rest, heap, buf, offset => (cell :: rest, heap, buf, offset, .error .ABORTED)

/-- The `else` branch of the body of the second loop of `nghttp2_hd_deflate_hd`:
the header is sent as a literal. -/
def deflate_nv_literal (c : nghttp2_hd_context) (buf : List Nat) (offset : Nat)
    (nv : nghttp2_nv) : nghttp2_hd_context × List Nat × Nat × Except nghttp2_error Unit :=
  match find_name_in_hd_table c nv with
  | some ent =>
    let index := (heap_get c.heap ent).index
    if entry_room nv.name.length nv.value.length < NGHTTP2_HD_MAX_ENTRY_SIZE then
      match add_hd_table_incremental c nv with
      | (c1, none) => (c1, buf, offset, .error .NGHTTP2_ERR_HEADER_COMP)
      | (c1, some new_ent) =>
        match add_workingset c1 new_ent with
        | .error rv => (c1, buf, offset, .error rv)
        | .ok c2 =>
          match emit_indname_block buf offset index nv.value true with
          | .error rv => (c2, buf, offset, .error rv)
          | .ok (buf, offset) => (c2, buf, offset, .ok ())
    else
      match add_workingset_indname c ent nv.value with
      | .error rv => (c, buf, offset, .error rv)
      | .ok c1 =>
        match emit_indname_block buf offset index nv.value false with
        | .error rv => (c1, buf, offset, .error rv)
        | .ok (buf, offset) => (c1, buf, offset, .ok ())
  | none =>
    if entry_room nv.name.length nv.value.length < NGHTTP2_HD_MAX_ENTRY_SIZE then
      match add_hd_table_incremental c nv with
      | (c1, none) => (c1, buf, offset, .error .NGHTTP2_ERR_HEADER_COMP)
      | (c1, some new_ent) =>
        match add_workingset c1 new_ent with
        | .error rv => (c1, buf, offset, .error rv)
        | .ok c2 =>
          match emit_newname_block buf offset nv true with
          | .error rv => (c2, buf, offset, .error rv)
          | .ok (buf, offset) => (c2, buf, offset, .ok ())
    else
      match add_workingset_newname c nv with
      | .error rv => (c, buf, offset, .error rv)
      | .ok c1 =>
        match emit_newname_block buf offset nv false with
        | .error rv => (c1, buf, offset, .error rv)
        | .ok (buf, offset) => (c1, buf, offset, .ok ())

/-- The body of the second loop of `nghttp2_hd_deflate_hd` for one header. -/
def deflate_nv (c : nghttp2_hd_context) (buf : List Nat) (offset : Nat) (nv : nghttp2_nv) :
    nghttp2_hd_context × List Nat × Nat × Except nghttp2_error Unit :=
  if (find_in_workingset c nv).isSome then (c, buf, offset, .ok ())
  else
    match find_in_hd_table c nv with
    | some ent =>
      if (find_in_workingset_by_index c (heap_get c.heap ent).index).isNone then
        match add_workingset c ent with
        | .error rv => (c, buf, offset, .error rv)
        | .ok c1 =>
          match emit_indexed_block buf offset (heap_get c1.heap ent).index with
          | .error rv => (c1, buf, offset, .error rv)
          | .ok (buf, offset) => (c1, buf, offset, .ok ())
      else deflate_nv_literal c buf offset nv
    | none => deflate_nv_literal c buf offset nv

/-- The second loop of `nghttp2_hd_deflate_hd` over the input headers. -/
def deflate_nv_loop :
    List nghttp2_nv → nghttp2_hd_context → List Nat → Nat →
      nghttp2_hd_context × List Nat × Nat × Except nghttp2_error Unit
  | [], c, buf, offset => (c, buf, offset, .ok ())
  | nv :: rest, c, buf, offset =>
    match deflate_nv c buf offset nv with
    | (c, buf, offset, .error rv) => (c, buf, offset, .error rv)
    | (c, buf, offset, .ok ()) => deflate_nv_loop rest c buf offset

/-- The function `nghttp2_hd_deflate_hd`: the context, the buffer and the returned
value (the number of bytes written from `nv_offset` on, or the error). -/
def nghttp2_hd_deflate_hd (deflater : nghttp2_hd_context) (buf : List Nat) (nv_offset : Nat)
    (nva : List nghttp2_nv) : nghttp2_hd_context × List Nat × Except nghttp2_error Nat :=
  if deflater.bad then (deflater, buf, .error .NGHTTP2_ERR_HEADER_COMP)
  else
    let c := create_workingset deflater
    match deflate_toggle_loop nva c.ws c.heap buf nv_offset with
    | (ws, heap, buf, _, .error rv) =>
      ({ c with ws := ws, heap := heap, bad := true }, buf, .error rv)
    | (ws, heap, buf, offset, .ok ()) =>
      match deflate_nv_loop nva { c with ws := ws, heap := heap } buf offset with
      | (c, buf, _, .error rv) => ({ c with bad := true }, buf, .error rv)
      | (c, buf, offset, .ok ()) => (c, buf, .ok (offset - nv_offset))

/-! ## Inflate -/

/-- The name/value pair that a working-set cell stands for in `build_nv_array`. -/
def ws_entry_nv (heap : List nghttp2_hd_entry) : nghttp2_hd_ws_entry → Option nghttp2_nv
  | .indexed ent _ => some (heap_get heap ent).nv
  | .indname ent value => some { name := (heap_get heap ent).nv.name, value := value }
  | .newname nv => some nv
  | .none => none

/-- The function `build_nv_array`: the array stored in `*nva_ptr`; the returned
count is its length. -/
def build_nv_array (inflater : nghttp2_hd_context) : List nghttp2_nv :=
  nghttp2_nv_array_sort (inflater.ws.filterMap (ws_entry_nv inflater.heap))

/-- The `n` bytes of `mem` from address `p` on. -/
def mem_read (mem : Nat → Nat) (p n : Nat) : List Nat :=
  (List.range n).map fun i => mem (p + i)

/-- The conversion of an `ssize_t` to `size_t`. -/
def to_size_t (x : Int) : Int := x % 2 ^ 64

/-- What one iteration of the loop of `nghttp2_hd_inflate_hd` ends in: the next
position and the context, or `goto fail` with `rv`. -/
inductive inflate_step_result where
  | next (inp : Nat) (c : nghttp2_hd_context)
  | fail (rv : nghttp2_error) (c : nghttp2_hd_context)
  deriving DecidableEq

/-- The branch of the loop for an indexed block (`c & 0x80`). -/
def inflate_indexed (mem : Nat → Nat) (last inp : Nat) (c : nghttp2_hd_context) :
    inflate_step_result :=
  match decode_length mem inp last 7 with
  | (index, inp1) =>
    if index < 0 then .fail .NGHTTP2_ERR_HEADER_COMP c
    else
      match inp1 with
      | none => .fail .ABORTED c
      | some inp1 =>
        match remove_from_workingset_by_index c index.toNat with
        | (c1, removed) =>
          if removed = 0 then
            if (c1.hd_table.length : Int) ≤ to_size_t index then
              .fail .NGHTTP2_ERR_HEADER_COMP c1
            else
              match add_workingset c1 (c1.hd_table.getD index.toNat 0) with
              | .error rv => .fail rv c1
              | .ok c2 => .next inp1 c2
          else .next inp1 c1

/-- The branch of the loop for a literal with a new name (`c == 0x60` without
indexing, `c == 0x40` with incremental indexing). -/
def inflate_newname (mem : Nat → Nat) (last inp : Nat) (c : nghttp2_hd_context)
    (first : Nat) : inflate_step_result :=
  let inp := inp + 1
  if inp = last then .fail .NGHTTP2_ERR_HEADER_COMP c
  else
    match decode_length mem inp last 8 with
    | (namelen, inp1) =>
      if namelen < 0 then .fail .NGHTTP2_ERR_HEADER_COMP c
      else
        match inp1 with
        | none => .fail .ABORTED c
        | some inp1 =>
          if inp1 + namelen.toNat > last then .fail .NGHTTP2_ERR_HEADER_COMP c
          else
            let name := inp1
            let inp2 := inp1 + namelen.toNat
            match decode_length mem inp2 last 8 with
            | (valuelen, inp3) =>
              if valuelen < 0 then .fail .NGHTTP2_ERR_HEADER_COMP c
              else
                match inp3 with
                | none => .fail .ABORTED c
                | some inp3 =>
                  if inp3 + valuelen.toNat > last then .fail .NGHTTP2_ERR_HEADER_COMP c
                  else
                    let nv : nghttp2_nv :=
                      { name := nghttp2_downcase (mem_read mem name namelen.toNat)
                        value := mem_read mem inp3 valuelen.toNat }
                    let inp4 := inp3 + valuelen.toNat
                    if first = 0x60 then
                      match add_workingset_newname c nv with
                      | .error rv => .fail rv c
                      | .ok c1 => .next inp4 c1
                    else
                      match add_hd_table_incremental c nv with
                      | (c1, none) => .fail .NGHTTP2_ERR_HEADER_COMP c1
                      | (c1, some ent) =>
                        match add_workingset c1 ent with
                        | .error rv => .fail rv c1
                        | .ok c2 => .next inp4 c2

/-- The branch of the loop for a literal with an indexed name, without indexing
(`(c & 0x60) == 0x60`) or with incremental indexing. -/
def inflate_indname (mem : Nat → Nat) (last inp : Nat) (c : nghttp2_hd_context)
    (first : Nat) : inflate_step_result :=
  match decode_length mem inp last 5 with
  | (index, inp1) =>
    if index < 0 then .fail .NGHTTP2_ERR_HEADER_COMP c
    else
      match inp1 with
      | none => .fail .ABORTED c
      | some inp1 =>
        let index := index - 1
        if (c.hd_table.length : Int) ≤ to_size_t index then .fail .NGHTTP2_ERR_HEADER_COMP c
        else
          let ent := c.hd_table.getD index.toNat 0
          match decode_length mem inp1 last 8 with
          | (valuelen, inp2) =>
            if valuelen < 0 then .fail .NGHTTP2_ERR_HEADER_COMP c
            else
              match inp2 with
              | none => .fail .ABORTED c
              | some inp2 =>
                if inp2 + valuelen.toNat > last then .fail .NGHTTP2_ERR_HEADER_COMP c
                else
                  let value := mem_read mem inp2 valuelen.toNat
                  let inp3 := inp2 + valuelen.toNat
                  if first &&& 0x60 = 0x60 then
                    match add_workingset_indname c ent value with
                    | .error rv => .fail rv c
                    | .ok c1 => .next inp3 c1
                  else
                    let c0 := { c with heap := ref_inc c.heap ent }
                    let nv : nghttp2_nv :=
                      { name := (heap_get c0.heap ent).nv.name, value := value }
                    match add_hd_table_incremental c0 nv with
                    | (c1, new_ent) =>
                      let c1 := { c1 with heap := ref_dec c1.heap ent }
                      match new_ent with
                      | none => .fail .NGHTTP2_ERR_HEADER_COMP c1
                      | some new_ent =>
                        match add_workingset c1 new_ent with
                        | .error rv => .fail rv c1
                        | .ok c2 => .next inp3 c2

/-- The branch of the loop for a literal with substitution indexing and a new
name (`c == 0`). -/
def inflate_subst_newname (mem : Nat → Nat) (last inp : Nat) (c : nghttp2_hd_context) :
    inflate_step_result :=
  let inp := inp + 1
  if inp = last then .fail .NGHTTP2_ERR_HEADER_COMP c
  else
    match decode_length mem inp last 8 with
    | (namelen, inp1) =>
      if namelen < 0 then .fail .NGHTTP2_ERR_HEADER_COMP c
      else
        match inp1 with
        | none => .fail .ABORTED c
        | some inp1 =>
          if inp1 + namelen.toNat > last then .fail .NGHTTP2_ERR_HEADER_COMP c
          else
            let name := inp1
            let inp2 := inp1 + namelen.toNat
            match decode_length mem inp2 last 8 with
            | (subindex, inp3) =>
              if subindex < 0 then .fail .NGHTTP2_ERR_HEADER_COMP c
              else
                match inp3 with
                | none => .fail .ABORTED c
                | some inp3 =>
                  match decode_length mem inp3 last 8 with
                  | (valuelen, inp4) =>
                    if valuelen < 0 then .fail .NGHTTP2_ERR_HEADER_COMP c
                    else
                      match inp4 with
                      | none => .fail .ABORTED c
                      | some inp4 =>
                        if inp4 + valuelen.toNat > last then
                          .fail .NGHTTP2_ERR_HEADER_COMP c
                        else
                          let nv : nghttp2_nv :=
                            { name := nghttp2_downcase (mem_read mem name namelen.toNat)
                              value := mem_read mem inp4 valuelen.toNat }
                          let inp5 := inp4 + valuelen.toNat
                          match add_hd_table_subst c nv subindex.toNat with
                          | (c1, none) => .fail .NGHTTP2_ERR_HEADER_COMP c1
                          | (c1, some new_ent) =>
                            match add_workingset c1 new_ent with
                            | .error rv => .fail rv c1
                            | .ok c2 => .next inp5 c2

/-- The branch of the loop for a literal with substitution indexing and an
indexed name (the `else`). -/
def inflate_subst_indname (mem : Nat → Nat) (last inp : Nat) (c : nghttp2_hd_context) :
    inflate_step_result :=
  match decode_length mem inp last 6 with
  | (index, inp1) =>
    if index < 0 then .fail .NGHTTP2_ERR_HEADER_COMP c
    else
      match inp1 with
      | none => .fail .ABORTED c
      | some inp1 =>
        let index := index - 1
        if (c.hd_table.length : Int) ≤ to_size_t index then .fail .NGHTTP2_ERR_HEADER_COMP c
        else
          let ent := c.hd_table.getD index.toNat 0
          match decode_length mem inp1 last 8 with
          | (subindex, inp2) =>
            if subindex < 0 then .fail .NGHTTP2_ERR_HEADER_COMP c
            else
              match inp2 with
              | none => .fail .ABORTED c
              | some inp2 =>
                match decode_length mem inp2 last 8 with
                | (valuelen, inp3) =>
                  if valuelen < 0 then .fail .NGHTTP2_ERR_HEADER_COMP c
                  else
                    match inp3 with
                    | none => .fail .ABORTED c
                    | some inp3 =>
                      if inp3 + valuelen.toNat > last then
                        .fail .NGHTTP2_ERR_HEADER_COMP c
                      else
                        let c0 := { c with heap := ref_inc c.heap ent }
                        let nv : nghttp2_nv :=
                          { name := (heap_get c0.heap ent).nv.name
                            value := mem_read mem inp3 valuelen.toNat }
                        let inp4 := inp3 + valuelen.toNat
                        match add_hd_table_subst c0 nv subindex.toNat with
                        | (c1, new_ent) =>
                          let c1 := { c1 with heap := ref_dec c1.heap ent }
                          match new_ent with
                          | none => .fail .NGHTTP2_ERR_HEADER_COMP c1
                          | some new_ent =>
                            match add_workingset c1 new_ent with
                            | .error rv => .fail rv c1
                            | .ok c2 => .next inp4 c2

/-- One iteration of the loop of `nghttp2_hd_inflate_hd`: the dispatch on the
byte at `inp`. -/
def inflate_step (mem : Nat → Nat) (last inp : Nat) (c : nghttp2_hd_context) :
    inflate_step_result :=
  let first := mem inp
  if first &&& 0x80 ≠ 0 then inflate_indexed mem last inp c
  else if first = 0x60 ∨ first = 0x40 then inflate_newname mem last inp c first
  else if first &&& 0x60 = 0x60 ∨ first &&& 0x40 = 0x40 then
    inflate_indname mem last inp c first
  else if first = 0 then inflate_subst_newname mem last inp c
  else inflate_subst_indname mem last inp c

/-- The loop `for(; in != last;)` of `nghttp2_hd_inflate_hd`.  An iteration that
goes on reads at least one byte, so the first argument, the number of bytes of the
input, is never used up.  A position beyond `last` (the C loop would read on) ends
the run as `ABORTED`. -/
def inflate_loop (mem : Nat → Nat) (last : Nat) :
    Nat → Nat → nghttp2_hd_context → nghttp2_hd_context × Except nghttp2_error Unit
  | 0, inp, c => if inp = last then (c, .ok ()) else (c, .error .ABORTED)
  | fuel + 1, inp, c =>
    if inp = last then (c, .ok ())
    else if inp > last then (c, .error .ABORTED)
    else
      match inflate_step mem last inp c with
      | .fail rv c1 => ({ c1 with bad := true }, .error rv)
      | .next inp1 c1 => inflate_loop mem last fuel inp1 c1

/-- The function `nghttp2_hd_inflate_hd` on the `inlen` bytes of `mem` at `inp`:
the context and the returned array (its length is the returned count), or the
error. -/
def nghttp2_hd_inflate_hd (inflater : nghttp2_hd_context) (mem : Nat → Nat) (inp inlen : Nat) :
    nghttp2_hd_context × Except nghttp2_error (List nghttp2_nv) :=
  if inflater.bad then (inflater, .error .NGHTTP2_ERR_HEADER_COMP)
  else
    let c := create_workingset inflater
    match inflate_loop mem (inp + inlen) inlen inp c with
    | (c, .error rv) => (c, .error rv)
    | (c, .ok ()) => (c, .ok (build_nv_array c))

/-! ## End of a header block -/

/-- The loop of `nghttp2_hd_end_headers` over the cells: the arena and the
reference set; `checks` is the array of 128 marks. -/
def end_headers_loop :
    List nghttp2_hd_ws_entry → List Nat → List nghttp2_hd_entry → List Nat →
      List nghttp2_hd_entry × List Nat
  | [], _, heap, refset => (heap, refset)
  | .indexed ent _ :: rest, checks, heap, refset =>
    let index := (heap_get heap ent).index
    if index ≠ NGHTTP2_HD_INVALID_INDEX ∧ checks.getD index 0 = 0 then
      end_headers_loop rest (checks.set index 1) heap (refset ++ [ent])
    else end_headers_loop rest checks (ref_dec heap ent) refset
  | .indname ent _ :: rest, checks, heap, refset =>
    end_headers_loop rest checks (ref_dec heap ent) refset
  | _ :: rest, checks, heap, refset => end_headers_loop rest checks heap refset

/-- The function `nghttp2_hd_end_headers`; the `assert` on the reference set is
the `ABORTED` branch. -/
def nghttp2_hd_end_headers (c : nghttp2_hd_context) :
    Except nghttp2_error nghttp2_hd_context :=
  if c.refset.length ≠ 0 then .error .ABORTED
  else
    let r := end_headers_loop c.ws (List.replicate 128 0) c.heap c.refset
    .ok { c with heap := r.1, refset := r.2, ws := [] }

/-! ## HEADERS frame -/

/-- The function `headers_nv_offset`; `flag_priority` is the constant
`NGHTTP2_FLAG_PRIORITY` of nghttp2.h (not in the sources at hand). -/
def headers_nv_offset (flag_priority : Nat) (frame : nghttp2_headers) : Nat :=
  if frame.hd.flags &&& flag_priority ≠ 0 then NGHTTP2_FRAME_HEAD_LENGTH + 4
  else NGHTTP2_FRAME_HEAD_LENGTH

/-- The function `nghttp2_frame_pack_headers`: the frame (its `hd.length` is set),
the deflater, the buffer and the returned value. -/
def nghttp2_frame_pack_headers (flag_priority : Nat) (buf : List Nat)
    (frame : nghttp2_headers) (deflater : nghttp2_hd_context) :
    nghttp2_headers × nghttp2_hd_context × List Nat × Except nghttp2_error Nat :=
  let nv_offset := headers_nv_offset flag_priority frame
  match nghttp2_hd_deflate_hd deflater buf nv_offset frame.nva with
  | (deflater, buf, .error rv) => (frame, deflater, buf, .error rv)
  | (deflater, buf, .ok rv) =>
    let framelen := rv + nv_offset
    let frame :=
      { frame with
        hd := { frame.hd with length := (framelen - NGHTTP2_FRAME_HEAD_LENGTH) % 2 ^ 16 } }
    let buf := nghttp2_reserve_buffer buf nv_offset
    let buf := memset_zero buf nv_offset
    let buf := nghttp2_frame_pack_frame_hd buf frame.hd
    let buf :=
      if frame.hd.flags &&& flag_priority ≠ 0 then
        write_bytes buf 8 (nghttp2_put_uint32be (to_uint32 frame.pri))
      else buf
    (frame, deflater, buf, .ok framelen)

/-- The function `nghttp2_frame_unpack_headers_without_nv`; `pri_default` is the
constant `NGHTTP2_PRI_DEFAULT` of nghttp2.h (not in the sources at hand).  The
payload is the `payloadlen` bytes of `mem` at `payload`. -/
def nghttp2_frame_unpack_headers_without_nv (flag_priority : Nat) (pri_default : Int)
    (head : List Nat) (mem : Nat → Nat) (payload payloadlen : Nat) :
    nghttp2_headers × Except nghttp2_error Unit :=
  let hd := nghttp2_frame_unpack_frame_hd (memOf head)
  if memOf head 3 &&& flag_priority ≠ 0 then
    if payloadlen < 4 then
      ({ hd := hd, pri := 0, nva := [] }, .error .NGHTTP2_ERR_INVALID_FRAME)
    else
      ({ hd := hd
         pri := ((nghttp2_get_uint32 mem payload &&& NGHTTP2_PRIORITY_MASK : Nat) : Int)
         nva := [] }, .ok ())
  else ({ hd := hd, pri := pri_default, nva := [] }, .ok ())

/-- The function `nghttp2_frame_unpack_headers`: the frame, the inflater and the
returned value. -/
def nghttp2_frame_unpack_headers (flag_priority : Nat) (pri_default : Int)
    (head : List Nat) (mem : Nat → Nat) (payload payloadlen : Nat)
    (inflater : nghttp2_hd_context) :
    nghttp2_headers × nghttp2_hd_context × Except nghttp2_error Unit :=
  match nghttp2_frame_unpack_headers_without_nv flag_priority pri_default head mem payload
      payloadlen with
  | (frame, .error rv) => (frame, inflater, .error rv)
  | (frame, .ok ()) =>
    let pnv_offset := headers_nv_offset flag_priority frame - NGHTTP2_FRAME_HEAD_LENGTH
    match nghttp2_hd_inflate_hd inflater mem (payload + pnv_offset)
        (payloadlen - pnv_offset) with
    | (inflater, .error rv) => (frame, inflater, .error rv)
    | (inflater, .ok nva) => ({ frame with nva := nva }, inflater, .ok ())

end Nghttp2

namespace Nghttp2

/-! ## Notions used to state the properties of the compression engine -/

/-- A name/value pair with its name down-cased. -/
def nv_downcase (nv : nghttp2_nv) : nghttp2_nv :=
  { nv with name := nghttp2_downcase nv.name }

/-- A header-table entry with its name down-cased. -/
def entry_downcase (e : nghttp2_hd_entry) : nghttp2_hd_entry :=
  { e with nv := nv_downcase e.nv }

/-- A working-set cell with the name it carries down-cased. -/
def ws_entry_downcase : nghttp2_hd_ws_entry → nghttp2_hd_ws_entry
  | .newname nv => .newname (nv_downcase nv)
  | cell => cell

/-- The context in which every name is down-cased: what the inflater holds when
the deflater holds `c`. -/
def context_downcase (c : nghttp2_hd_context) : nghttp2_hd_context :=
  { c with heap := c.heap.map entry_downcase, ws := c.ws.map ws_entry_downcase }

/-- The name/value pairs that the cells of the working set stand for, in order. -/
def ws_nvs (c : nghttp2_hd_context) : List nghttp2_nv :=
  c.ws.filterMap (ws_entry_nv c.heap)

/-- The name/value pair of the entry at position `i` of the header table. -/
def table_nv (c : nghttp2_hd_context) (i : Nat) : nghttp2_nv :=
  (heap_get c.heap (c.hd_table.getD i 0)).nv

/-- The header table is consistent with the index fields: the entry at position
`i` has index `i`, an entry with a valid index is the one at that position, and
the table fits its array of at most 128 slots. -/
def table_inv (c : nghttp2_hd_context) : Prop :=
  (∀ i, i < c.hd_table.length →
    c.hd_table.getD i 0 < c.heap.length ∧ (heap_get c.heap (c.hd_table.getD i 0)).index = i) ∧
  (∀ p, p < c.heap.length → (heap_get c.heap p).index ≠ NGHTTP2_HD_INVALID_INDEX →
    (heap_get c.heap p).index < c.hd_table.length ∧
      c.hd_table.getD (heap_get c.heap p).index 0 = p) ∧
  c.hd_table.length ≤ c.hd_table_capacity ∧ c.hd_table_capacity ≤ 128

/-- Two arenas that hold the same entries up to the reference counts. -/
def heap_equiv (h1 h2 : List nghttp2_hd_entry) : Prop :=
  h1.length = h2.length ∧
    ∀ p, (heap_get h1 p).index = (heap_get h2 p).index ∧ (heap_get h1 p).nv = (heap_get h2 p).nv

/-- The pointers held by the cells of a working set point into the arena. -/
def ws_valid (heap : List nghttp2_hd_entry) (ws : List nghttp2_hd_ws_entry) : Prop :=
  ∀ cell ∈ ws, match cell with
    | .indexed ent _ => ent < heap.length
    | .indname ent _ => ent < heap.length
    | _ => True

/-- The frozen indices of the INDEXED cells of a working set, in order. -/
def ws_indices (ws : List nghttp2_hd_ws_entry) : List Nat :=
  ws.filterMap fun cell => match cell with
    | .indexed _ i => some i
    | _ => none

/-- The name/value pairs of the entries of the reference set, in order. -/
def refset_nvs (c : nghttp2_hd_context) : List nghttp2_nv :=
  c.refset.map fun p => (heap_get c.heap p).nv

/-- The reference set between two blocks: entries of the arena with valid,
pairwise distinct indices. -/
def refset_inv (c : nghttp2_hd_context) : Prop :=
  (∀ p ∈ c.refset, p < c.heap.length ∧ (heap_get c.heap p).index ≠ NGHTTP2_HD_INVALID_INDEX) ∧
  (c.refset.map fun p => (heap_get c.heap p).index).Nodup

/-- The first byte of `data` with `tag` or-ed in. -/
def or_head (tag : Nat) : List Nat → List Nat
  | [] => []
  | b :: bs => ((b ||| tag) % 256) :: bs

/-- The bytes of an indexed block (section 4.5). -/
def indexed_block (index : Nat) : List Nat :=
  or_head 0x80 (encode_length index 7).1

/-- The bytes of a literal block with an indexed name (section 4.5). -/
def indname_block (index : Nat) (value : List Nat) (inc_indexing : Bool) : List Nat :=
  or_head (if inc_indexing then 0x40 else 0x60)
    ((encode_length (index + 1) 5).1 ++ (encode_length value.length 8).1 ++ value)

/-- The bytes of a literal block with a new name (section 4.5). -/
def newname_block (nv : nghttp2_nv) (inc_indexing : Bool) : List Nat :=
  [if inc_indexing then 0x40 else 0x60] ++ (encode_length nv.name.length 8).1 ++ nv.name ++
    (encode_length nv.value.length 8).1 ++ nv.value

/-! ## Lockstep runs of a deflater and an inflater -/

/-- What stops a lockstep run. -/
inductive lockstep_failure where
  | deflate_failed (rv : nghttp2_error)
  | inflate_failed (rv : nghttp2_error)
  | end_headers_failed (rv : nghttp2_error)
  deriving DecidableEq

/-- What a round of a lockstep run leaves: the two contexts after
`nghttp2_hd_end_headers` and the array that `nghttp2_hd_inflate_hd` returned. -/
structure lockstep_round where
  deflater : nghttp2_hd_context
  inflater : nghttp2_hd_context
  output : List nghttp2_nv
  deriving DecidableEq

/-- A lockstep run over the header sets: per round, `nghttp2_hd_deflate_hd` writes
into `buf` at `nv_offset`, then `nghttp2_hd_end_headers` on the deflater, then
`nghttp2_hd_inflate_hd` on the bytes written, then `nghttp2_hd_end_headers` on the
inflater.  The run stops at the first call that fails: the result is the rounds
that were completed and the failure, if any. -/
def lockstep (buf : List Nat) (nv_offset : Nat) :
    nghttp2_hd_context → nghttp2_hd_context → List (List nghttp2_nv) →
      List lockstep_round × Option lockstep_failure
  | _, _, [] => ([], none)
  | d, i, H :: rest =>
    match nghttp2_hd_deflate_hd d buf nv_offset H with
    | (_, _, .error rv) => ([], some (.deflate_failed rv))
    | (d1, buf1, .ok n) =>
      match nghttp2_hd_end_headers d1 with
      | .error rv => ([], some (.end_headers_failed rv))
      | .ok d2 =>
        match nghttp2_hd_inflate_hd i (memOf buf1) nv_offset n with
        | (_, .error rv) => ([], some (.inflate_failed rv))
        | (i1, .ok out) =>
          match nghttp2_hd_end_headers i1 with
          | .error rv => ([], some (.end_headers_failed rv))
          | .ok i2 =>
            let r := lockstep buf nv_offset d2 i2 rest
            ({ deflater := d2, inflater := i2, output := out } :: r.1, r.2)

end Nghttp2

namespace Nghttp2

/-! ## Notions used to relate a deflater run to the inflater run on its bytes -/

/-- The memory `mem` holds the bytes of `buf` at the addresses from `a` up to `b`. -/
def mem_agrees (mem : Nat → Nat) (buf : List Nat) (a b : Nat) : Prop :=
  ∀ i, a ≤ i → i < b → mem i = buf.getD i 0

/-- The loop of the inflater started at `p` in `ci` does what it does when started
at `p1` in `ci1`: it gets from the first state to the second one. -/
def inflate_reaches (mem : Nat → Nat) (last p : Nat) (ci : nghttp2_hd_context) (p1 : Nat)
    (ci1 : nghttp2_hd_context) : Prop :=
  ∀ X, (∀ fuel, last - p1 ≤ fuel → inflate_loop mem last fuel p1 ci1 = X) →
    ∀ fuel, last - p ≤ fuel → inflate_loop mem last fuel p ci = X

/-- A piece of the deflater run that takes the context `c` to `c1` and the buffer
`buf` with offset `off` to `buf1` with `off1`: the bytes before `off` are kept,
and an inflater that holds `c` with its names down-cased gets, over the bytes
written, to `c1` with its names down-cased. -/
def emits (buf : List Nat) (off : Nat) (c : nghttp2_hd_context) (buf1 : List Nat) (off1 : Nat)
    (c1 : nghttp2_hd_context) : Prop :=
  off ≤ off1 ∧ (off < off1 → off1 ≤ NGHTTP2_MAX_FRAME_LENGTH) ∧
  (∀ i, i < off → buf1.getD i 0 = buf.getD i 0) ∧
  ∀ mem last, mem_agrees mem buf1 off off1 → off1 ≤ last →
    inflate_reaches mem last off (context_downcase c) off1 (context_downcase c1)

end Nghttp2

namespace Nghttp2

/-- The names of the entries of the arena hold no upper-case letter. -/
def names_lower (c : nghttp2_hd_context) : Prop :=
  ∀ p, p < c.heap.length →
    nghttp2_downcase (heap_get c.heap p).nv.name = (heap_get c.heap p).nv.name

end Nghttp2

namespace Nghttp2

/-! ## PUSH_PROMISE -/

/-- The PUSH_PROMISE frame; `nvlen` is the length of `nva`. -/
structure nghttp2_push_promise where
  hd : nghttp2_frame_hd
  promised_stream_id : Int
  nva : List nghttp2_nv
  deriving DecidableEq

/-- The function `nghttp2_frame_pack_push_promise`: the frame (its `hd.length` is
set), the deflater, the buffer and the returned value. -/
def nghttp2_frame_pack_push_promise (buf : List Nat) (frame : nghttp2_push_promise)
    (deflater : nghttp2_hd_context) :
    nghttp2_push_promise × nghttp2_hd_context × List Nat × Except nghttp2_error Nat :=
  let nv_offset := NGHTTP2_FRAME_HEAD_LENGTH + 4
  match nghttp2_hd_deflate_hd deflater buf nv_offset frame.nva with
  | (deflater, buf, .error rv) => (frame, deflater, buf, .error rv)
  | (deflater, buf, .ok rv) =>
    let framelen := rv + nv_offset
    let frame :=
      { frame with
        hd := { frame.hd with length := (framelen - NGHTTP2_FRAME_HEAD_LENGTH) % 2 ^ 16 } }
    let buf := nghttp2_reserve_buffer buf nv_offset
    let buf := memset_zero buf nv_offset
    let buf := nghttp2_frame_pack_frame_hd buf frame.hd
    let buf := write_bytes buf 8 (nghttp2_put_uint32be (to_uint32 frame.promised_stream_id))
    (frame, deflater, buf, .ok framelen)

/-- The function `nghttp2_frame_unpack_push_promise_without_nv`.  The payload is
the `payloadlen` bytes of `mem` at `payload`. -/
def nghttp2_frame_unpack_push_promise_without_nv (head : List Nat) (mem : Nat → Nat)
    (payload payloadlen : Nat) : nghttp2_push_promise × Except nghttp2_error Unit :=
  let hd := nghttp2_frame_unpack_frame_hd (memOf head)
  if payloadlen < 4 then
    ({ hd := hd, promised_stream_id := 0, nva := [] }, .error .NGHTTP2_ERR_INVALID_FRAME)
  else
    ({ hd := hd
       promised_stream_id :=
         ((nghttp2_get_uint32 mem payload &&& NGHTTP2_STREAM_ID_MASK : Nat) : Int)
       nva := [] }, .ok ())

/-- The function `nghttp2_frame_unpack_push_promise`: the frame, the inflater and
the returned value. -/
def nghttp2_frame_unpack_push_promise (head : List Nat) (mem : Nat → Nat)
    (payload payloadlen : Nat) (inflater : nghttp2_hd_context) :
    nghttp2_push_promise × nghttp2_hd_context × Except nghttp2_error Unit :=
  match nghttp2_frame_unpack_push_promise_without_nv head mem payload payloadlen with
  | (frame, .error rv) => (frame, inflater, .error rv)
  | (frame, .ok ()) =>
    match nghttp2_hd_inflate_hd inflater mem (payload + 4) (payloadlen - 4) with
    | (inflater, .error rv) => (frame, inflater, .error rv)
    | (inflater, .ok nva) => ({ frame with nva := nva }, inflater, .ok ())

/-! ## Frame initialisers and offsets -/

/-- Modelled from the spec: the type byte of a PING frame is 6 (section 8,
scenario 2); `NGHTTP2_PING` of nghttp2.h is not in the sources at hand. -/
def NGHTTP2_PING : Nat := 6

/-- The function `nghttp2_frame_set_hd`; the parameters are a `uint16_t`, two
`uint8_t` and an `int32_t`. -/
def nghttp2_frame_set_hd (length typ flags : Nat) (stream_id : Int) : nghttp2_frame_hd :=
  { length := length % 2 ^ 16, typ := typ % 256, flags := flags % 256, stream_id := stream_id }

/-- The function `nghttp2_frame_ping_init`; `opaque_data` is `none` for a `NULL`
pointer, and the 8 bytes of the array are copied from it otherwise. -/
def nghttp2_frame_ping_init (flags : Nat) (opaque_data : Option (List Nat)) : nghttp2_ping :=
  { hd := nghttp2_frame_set_hd 8 NGHTTP2_PING flags 0
    opaque_data :=
      match opaque_data with
      | none => List.replicate 8 0
      | some d => d.take 8 }

/-- The function `nghttp2_frame_nv_offset` on the head at `head`; `typ_headers`,
`typ_push_promise` and `flag_priority` are the constants `NGHTTP2_HEADERS`,
`NGHTTP2_PUSH_PROMISE` and `NGHTTP2_FLAG_PRIORITY` of nghttp2.h (not in the
sources at hand). -/
def nghttp2_frame_nv_offset (typ_headers typ_push_promise flag_priority : Nat)
    (head : Nat → Nat) : Int :=
  if head 2 = typ_headers then
    if head 3 &&& flag_priority ≠ 0 then ((NGHTTP2_FRAME_HEAD_LENGTH + 4 : Nat) : Int)
    else (NGHTTP2_FRAME_HEAD_LENGTH : Int)
  else if head 2 = typ_push_promise then ((NGHTTP2_FRAME_HEAD_LENGTH + 4 : Nat) : Int)
  else -1

/-! ## SETTINGS entries -/

/-- The loop of `nghttp2_settings_check_duplicate`; `settings_max` is the constant
`NGHTTP2_SETTINGS_MAX` of nghttp2.h (not in the sources at hand), `check` the
array of `settings_max + 1` marks.  A negative id passes the two tests before
`check[id]` and indexes the array out of bounds: `ABORTED`. -/
def settings_check_duplicate_loop (settings_max : Nat) :
    List nghttp2_settings_entry → List Nat → Except nghttp2_error Int
  | [], _ => .ok 1
  | e :: iv, check =>
    if e.settings_id > settings_max ∨ e.settings_id = 0 then .ok 0
    else if e.settings_id < 0 then .error .ABORTED
    else if check.getD e.settings_id.toNat 0 = 1 then .ok 0
    else settings_check_duplicate_loop settings_max iv (check.set e.settings_id.toNat 1)

/-- The function `nghttp2_settings_check_duplicate`. -/
def nghttp2_settings_check_duplicate (settings_max : Nat) (iv : List nghttp2_settings_entry) :
    Except nghttp2_error Int :=
  settings_check_duplicate_loop settings_max iv (List.replicate (settings_max + 1) 0)

end Nghttp2

namespace Nghttp2

/-! ## WINDOW_UPDATE initialiser -/

/-- Modelled from the spec: the type byte of a WINDOW_UPDATE frame is 8 (section 8,
scenario 4); `NGHTTP2_WINDOW_UPDATE` of nghttp2.h is not in the sources at hand. -/
def NGHTTP2_WINDOW_UPDATE : Nat := 8

/-- The function `nghttp2_frame_window_update_init` (`flags` is a `uint8_t`, the
other two parameters are `int32_t`). -/
def nghttp2_frame_window_update_init (flags : Nat) (stream_id window_size_increment : Int) :
    nghttp2_window_update :=
  { hd := nghttp2_frame_set_hd 4 NGHTTP2_WINDOW_UPDATE flags stream_id
    window_size_increment := window_size_increment }

/-! ## Name/value array from C strings -/

/-- The libc function `strlen` on a string whose bytes, up to the terminating NUL,
are those of `s`: the number of bytes before the first 0. -/
def strlen (s : List Nat) : Nat := (s.takeWhile fun b => b ≠ 0).length

/-- The copy loop `for(i = 0; nv[i]; i += 2)` of `nghttp2_nv_array_from_cstr` over
the strings left before the `NULL`: one element is stored per pair, the name
down-cased; `namelen` and `valuelen` are `uint16_t`.  With a single string left the
loop calls `strlen` on the `NULL` that ends the list (`ABORTED`). -/
def nv_array_from_cstr_loop : List (List Nat) → Except nghttp2_error (List nghttp2_nv)
  | [] => .ok []
  | [_] => .error .ABORTED
  | name :: value :: rest =>
    match nv_array_from_cstr_loop rest with
    | .error rv => .error rv
    | .ok nva =>
      .ok ({ name := nghttp2_downcase (name.take (strlen name % 2 ^ 16))
             value := value.take (strlen value % 2 ^ 16) } :: nva)

/-- The function `nghttp2_nv_array_from_cstr` on the strings of the list `nv`
before its `NULL`: the array stored in `*nva_ptr` (`none` for `NULL`) and the
returned count, or the error.  `max_hd_value_length` is the constant
`NGHTTP2_MAX_HD_VALUE_LENGTH` of nghttp2.h (not in the sources at hand). -/
def nghttp2_nv_array_from_cstr (max_hd_value_length : Nat) (nv : List (List Nat)) :
    Except nghttp2_error (Option (List nghttp2_nv) × Nat) :=
  if nv.any fun s => strlen s > max_hd_value_length then .error .NGHTTP2_ERR_INVALID_ARGUMENT
  else
    let buflen := (nv.map strlen).sum
    let nvlen := nv.length / 2
    if nvlen = 0 ∨ buflen = 0 then .ok (none, 0)
    else
      match nv_array_from_cstr_loop nv with
      | .error rv => .error rv
      | .ok nva => .ok (some (nghttp2_nv_array_sort nva), nvlen)

/-! ## Runs of calls on a compression context -/

/-- A call of the public interface of the compression engine on a context, with
its arguments: `nghttp2_hd_deflate_hd` (the buffer, the offset and the headers),
`nghttp2_hd_inflate_hd` (the memory read, the start and the length of the input)
and `nghttp2_hd_end_headers`. -/
inductive hd_call where
  | deflate_hd (buf : List Nat) (nv_offset : Nat) (nva : List nghttp2_nv)
  | inflate_hd (mem : Nat → Nat) (inp inlen : Nat)
  | end_headers

/-- The context that a call leaves, `none` when the C program does not get to a
defined state: a failed `assert`, or a call that has left defined behaviour
(`ABORTED`).  A call that returns an error code leaves its context. -/
def hd_call_apply (c : nghttp2_hd_context) : hd_call → Option nghttp2_hd_context
  | .deflate_hd buf nv_offset nva =>
    match nghttp2_hd_deflate_hd c buf nv_offset nva with
    | (_, _, .error .ABORTED) => none
    | (c1, _, _) => some c1
  | .inflate_hd mem inp inlen =>
    match nghttp2_hd_inflate_hd c mem inp inlen with
    | (_, .error .ABORTED) => none
    | (c1, _) => some c1
  | .end_headers =>
    match nghttp2_hd_end_headers c with
    | .error _ => none
    | .ok c1 => some c1

/-- The context that a sequence of calls leaves, the state reached from `c`. -/
def hd_calls_run : nghttp2_hd_context → List hd_call → Option nghttp2_hd_context
  | c, [] => some c
  | c, call :: rest =>
    match hd_call_apply c call with
    | none => none
    | some c1 => hd_calls_run c1 rest

/-- The context that one iteration of the loop of the inflater leaves. -/
def inflate_step_result.ctx : inflate_step_result → nghttp2_hd_context
  | .next _ c => c
  | .fail _ c => c

/-- The indexed blocks that toggle the entries of the reference set off, one
after the other: what the first loop of the deflater writes when no entry of the
reference set is among the input headers. -/
def refset_toggle_blocks (d : nghttp2_hd_context) : List Nat :=
  (d.refset.map fun p => (heap_get d.heap p).index).flatMap indexed_block

/-! ## Invariants of a compression context -/

/-- The sum of the rooms of the entries of the header table. -/
def table_room (c : nghttp2_hd_context) : Nat :=
  (c.hd_table.map (heap_room c.heap)).sum

/-- What holds of a context at every point of a run: the header table is
consistent with the index fields, the cells of the working set point into the
arena, `hd_table_bufsize` is the sum of the rooms of the entries of the table, and
it is at most `NGHTTP2_HD_MAX_BUFFER_SIZE`. -/
def hd_inv (c : nghttp2_hd_context) : Prop :=
  table_inv c ∧ ws_valid c.heap c.ws ∧ c.hd_table_bufsize = table_room c ∧
    c.hd_table_bufsize ≤ NGHTTP2_HD_MAX_BUFFER_SIZE

/-- The context `c1` comes from `c` by steps that keep what holds of a context and
leave the reference set alone. -/
def hd_keeps (c c1 : nghttp2_hd_context) : Prop :=
  hd_inv c1 ∧ c1.refset = c.refset

/-- The frozen indices of the INDEXED cells of the working set are pairwise
distinct and below the length of the header table. -/
def ws_frozen_inv (c : nghttp2_hd_context) : Prop :=
  (ws_indices c.ws).Nodup ∧ ∀ i ∈ ws_indices c.ws, i < c.hd_table.length

/-- The step from `c` to `c1` keeps the frozen indices apart when it leaves the
entries of the header table where they are (it evicts and replaces none: the table
of `c` is the beginning of the table of `c1`). -/
def frozen_kept (c c1 : nghttp2_hd_context) : Prop :=
  c.hd_table <+: c1.hd_table → ws_frozen_inv c1

/-- The entry `p` is held by the header table, by the reference set or by a cell
of the working set. -/
def entry_held (c : nghttp2_hd_context) (p : Nat) : Prop :=
  p ∈ c.hd_table ∨ p ∈ c.refset ∨ (∃ i, nghttp2_hd_ws_entry.indexed p i ∈ c.ws) ∨
    ∃ value, nghttp2_hd_ws_entry.indname p value ∈ c.ws

/-- The entries of the INDEXED cells of a working set whose index is valid in the
arena `heap`, in order. -/
def ws_live_entries (heap : List nghttp2_hd_entry) (ws : List nghttp2_hd_ws_entry) : List Nat :=
  ws.filterMap fun cell => match cell with
    | .indexed ent _ =>
      if (heap_get heap ent).index ≠ NGHTTP2_HD_INVALID_INDEX then some ent else none
    | _ => none

end Nghttp2

namespace Nghttp2

/-! ## Notions used for a deflater run without eviction -/

/-- Every cell of the working set is INDEXED, its entry is in the header table
and its frozen index is the index of its entry. -/
def ws_all_live (c : nghttp2_hd_context) : Prop :=
  ∀ cell ∈ c.ws, ∃ ent, cell = nghttp2_hd_ws_entry.indexed ent (heap_get c.heap ent).index ∧
    ent ∈ c.hd_table

/-- The sum of the rooms of the headers of `nva` that `find_in_hd_table` does not
find in the header table of `c`: the room that their insertion takes. -/
def missing_room (c : nghttp2_hd_context) (nva : List nghttp2_nv) : Nat :=
  ((nva.filter fun nv => (find_in_hd_table c nv).isNone).map fun nv =>
    entry_room nv.name.length nv.value.length).sum

end Nghttp2

namespace Nghttp2

theorem frame_hd_bytes_length (hd : nghttp2_frame_hd) : (frame_hd_bytes hd).length = 8 := rfl

theorem write_bytes_append_left (X Y data : List Nat) (a : Nat) (ha : X.length = a) :
    write_bytes (X ++ Y) a data = X ++ data ++ Y.drop data.length := by
  subst ha
  simp [write_bytes, List.drop_append]

theorem memset_zero_reserve (buf : List Nat) (n : Nat) :
    memset_zero (nghttp2_reserve_buffer buf n) n = List.replicate n 0 ++ buf.drop n := by
  unfold memset_zero nghttp2_reserve_buffer
  split
  · rename_i h
    have : buf.drop n = [] := List.drop_eq_nil_of_le (by omega)
    simp [this, List.drop_append, List.drop_eq_nil_of_le (Nat.le_of_lt h)]
    omega
  · rfl

theorem memOf_append_right (pre l : List Nat) (j : Nat) :
    memOf (pre ++ l) (pre.length + j) = memOf l j := by
  simp [memOf, List.getD_eq_getElem?_getD, List.getElem?_append_right]

theorem memOf_append_left (pre l : List Nat) (j : Nat) (h : j < pre.length) :
    memOf (pre ++ l) j = memOf pre j := by
  simp [memOf, List.getD_eq_getElem?_getD, List.getElem?_append_left h]

theorem get_uint32_append_right (pre l : List Nat) (j : Nat) :
    nghttp2_get_uint32 (memOf (pre ++ l)) (pre.length + j) = nghttp2_get_uint32 (memOf l) j := by
  simp only [nghttp2_get_uint32, Nat.add_assoc, memOf_append_right]

theorem to_uint32_of_nonneg (s : Int) (h0 : 0 ≤ s) (h1 : s < 2 ^ 31) :
    to_uint32 s = s.toNat ∧ s.toNat < 2 ^ 31 := by
  unfold to_uint32
  constructor
  · rw [Int.emod_eq_of_lt h0 (by omega)]
  · omega

theorem mask31 (n : Nat) : n &&& (2 ^ 31 - 1) = n % 2 ^ 31 :=
  Nat.and_pow_two_sub_one_eq_mod n 31

theorem mask24 (n : Nat) : n &&& (2 ^ 24 - 1) = n % 2 ^ 24 :=
  Nat.and_pow_two_sub_one_eq_mod n 24

theorem get_uint16_put (n : Nat) (rest : List Nat) (h : n < 2 ^ 16) :
    nghttp2_get_uint16 (memOf (nghttp2_put_uint16be n ++ rest)) 0 = n := by
  simp [nghttp2_get_uint16, memOf, nghttp2_put_uint16be]
  omega

theorem get_uint32_put (n : Nat) (rest : List Nat) (h : n < 2 ^ 32) :
    nghttp2_get_uint32 (memOf (nghttp2_put_uint32be n ++ rest)) 0 = n := by
  simp [nghttp2_get_uint32, memOf, nghttp2_put_uint32be]
  omega

theorem unpack_frame_hd_bytes (hd : nghttp2_frame_hd) (rest : List Nat)
    (hwf : frame_hd_wf hd) :
    nghttp2_frame_unpack_frame_hd (memOf (frame_hd_bytes hd ++ rest)) = hd := by
  obtain ⟨l, t, f, s⟩ := hd
  obtain ⟨hl, ht, hf, hs0, hs1⟩ := hwf
  simp only at hl ht hf hs0 hs1
  obtain ⟨e1, e2⟩ := to_uint32_of_nonneg s hs0 hs1
  simp only [nghttp2_frame_unpack_frame_hd, NGHTTP2_STREAM_ID_MASK, mask31,
    frame_hd_bytes, e1, nghttp2_frame_hd.mk.injEq]
  refine ⟨?_, ?_, ?_, ?_⟩
  · simp [nghttp2_get_uint16, memOf, nghttp2_put_uint16be]
    omega
  · simp [memOf, nghttp2_put_uint16be]
    omega
  · simp [memOf, nghttp2_put_uint16be]
    omega
  · have : (nghttp2_get_uint32 (memOf (nghttp2_put_uint16be (l % 2 ^ 16) ++
        [t % 256, f % 256] ++ nghttp2_put_uint32be s.toNat ++ rest)) 4) = s.toNat := by
      simp [nghttp2_get_uint32, memOf, nghttp2_put_uint16be, nghttp2_put_uint32be]
      omega
    rw [this]
    omega

theorem unpack_frame_hd_bytes_nil (hd : nghttp2_frame_hd) (hwf : frame_hd_wf hd) :
    nghttp2_frame_unpack_frame_hd (memOf (frame_hd_bytes hd)) = hd := by
  have := unpack_frame_hd_bytes hd [] hwf
  simpa using this

theorem pack_frame_hd_eq (buf : List Nat) (hd : nghttp2_frame_hd) :
    nghttp2_frame_pack_frame_hd buf hd = frame_hd_bytes hd ++ buf.drop 8 := by
  simp [nghttp2_frame_pack_frame_hd, write_bytes, frame_hd_bytes_length]

/-- Shape of a packed frame with a 4-byte payload. -/
theorem pack_fixed4 (buf : List Nat) (hd : nghttp2_frame_hd) (data : List Nat)
    (hlen : data.length = 4) :
    write_bytes (nghttp2_frame_pack_frame_hd
      (memset_zero (nghttp2_reserve_buffer buf 12) 12) hd) 8 data =
      frame_hd_bytes hd ++ data ++ buf.drop 12 := by
  rw [memset_zero_reserve, pack_frame_hd_eq]
  rw [write_bytes_append_left _ _ _ 8 (frame_hd_bytes_length hd)]
  simp [List.drop_append, hlen, List.drop_drop]

theorem put_uint32be_length (n : Nat) : (nghttp2_put_uint32be n).length = 4 := rfl

theorem take8_hd (hd : nghttp2_frame_hd) (rest : List Nat) :
    (frame_hd_bytes hd ++ rest).take 8 = frame_hd_bytes hd := by
  rw [List.take_append_of_le_length (by rw [frame_hd_bytes_length])]
  exact List.take_of_length_le (by rw [frame_hd_bytes_length])

theorem drop8_hd (hd : nghttp2_frame_hd) (rest : List Nat) :
    (frame_hd_bytes hd ++ rest).drop 8 = rest := by
  rw [List.drop_append_of_le_length (by rw [frame_hd_bytes_length])]
  rw [List.drop_of_length_le (by rw [frame_hd_bytes_length])]
  rfl

/-- C10: the frame head is written as 8 bytes length(BE16), type, flags,
stream id(BE32); unpacking reads the same layout and clears the top bit of the
stream id; packing then unpacking a head whose fields are in range gives it back. -/
theorem frame_hd_codec :
    (∀ (buf : List Nat) (hd : nghttp2_frame_hd),
      (nghttp2_frame_pack_frame_hd buf hd).take 8 =
        [hd.length % 2 ^ 16 / 256 % 256, hd.length % 2 ^ 16 % 256, hd.typ % 256,
          hd.flags % 256, to_uint32 hd.stream_id / 2 ^ 24 % 256,
          to_uint32 hd.stream_id / 2 ^ 16 % 256, to_uint32 hd.stream_id / 2 ^ 8 % 256,
          to_uint32 hd.stream_id % 256] ∧
      (nghttp2_frame_pack_frame_hd buf hd).drop 8 = buf.drop 8) ∧
    (∀ b : Nat → Nat,
      nghttp2_frame_unpack_frame_hd b =
        { length := b 0 * 256 + b 1, typ := b 2, flags := b 3,
          stream_id := ((b 4 * 2 ^ 24 + b 5 * 2 ^ 16 + b 6 * 2 ^ 8 + b 7) % 2 ^ 31 : Nat) }) ∧
    (∀ (buf : List Nat) (hd : nghttp2_frame_hd), frame_hd_wf hd →
      nghttp2_frame_unpack_frame_hd (memOf (nghttp2_frame_pack_frame_hd buf hd)) = hd) := by
  refine ⟨fun buf hd => ⟨?_, ?_⟩, fun b => ?_, fun buf hd hwf => ?_⟩
  · rw [pack_frame_hd_eq, take8_hd]
    rfl
  · rw [pack_frame_hd_eq, drop8_hd]
  · simp only [nghttp2_frame_unpack_frame_hd, nghttp2_get_uint16, nghttp2_get_uint32,
      NGHTTP2_STREAM_ID_MASK, mask31]
  · rw [pack_frame_hd_eq]
    exact unpack_frame_hd_bytes hd _ hwf

/-- Witness of C10 at the head of a PING frame on stream 5. -/
theorem frame_hd_codec_witness :
    nghttp2_frame_unpack_frame_hd (memOf (nghttp2_frame_pack_frame_hd []
      { length := 8, typ := 6, flags := 1, stream_id := 5 })) =
      { length := 8, typ := 6, flags := 1, stream_id := 5 } :=
  frame_hd_codec.2.2 [] { length := 8, typ := 6, flags := 1, stream_id := 5 } (by decide)

end Nghttp2

namespace Nghttp2

theorem settings_payload_bytes_length (iv : List nghttp2_settings_entry) :
    (settings_payload_bytes iv).length = 8 * iv.length := by
  induction iv with
  | nil => rfl
  | cons e iv ih =>
    simp [settings_payload_bytes, ih, put_uint32be_length]
    omega

theorem pack_settings_payload_eq (iv : List nghttp2_settings_entry) :
    ∀ (X Y : List Nat) (off : Nat), X.length = off → 8 * iv.length ≤ Y.length →
      nghttp2_frame_pack_settings_payload (X ++ Y) off iv =
        X ++ settings_payload_bytes iv ++ Y.drop (8 * iv.length) := by
  induction iv with
  | nil => intro X Y off _ _; simp [nghttp2_frame_pack_settings_payload, settings_payload_bytes]
  | cons e iv ih =>
    intro X Y off hX hY
    simp only [List.length_cons] at hY
    simp only [nghttp2_frame_pack_settings_payload, settings_payload_bytes]
    rw [write_bytes_append_left X Y _ off hX, put_uint32be_length]
    rw [write_bytes_append_left (X ++ nghttp2_put_uint32be (to_uint32 e.settings_id)) _ _ (off + 4)
      (by simp [hX, put_uint32be_length]), put_uint32be_length]
    rw [ih _ _ (off + 8) (by simp [hX, put_uint32be_length]) (by simp; omega)]
    simp [List.drop_drop, List.append_assoc]
    congr 1
    omega

theorem unpack_settings_payload_loop_eq (iv : List nghttp2_settings_entry)
    (hwf : ∀ e ∈ iv, settings_entry_wf e) :
    ∀ (pre post : List Nat) (i : Nat), pre.length = 8 * i →
      nghttp2_frame_unpack_settings_payload_loop
        (memOf (pre ++ settings_payload_bytes iv ++ post)) iv.length i = iv := by
  induction iv with
  | nil => intro pre post i _; rfl
  | cons e iv ih =>
    intro pre post i hpre
    have hwe := hwf e (List.mem_cons_self _ _)
    obtain ⟨h0, h1, h2⟩ := hwe
    simp only [List.length_cons, nghttp2_frame_unpack_settings_payload_loop,
      settings_payload_bytes]
    congr 1
    · obtain ⟨sid, v⟩ := e
      simp only at h0 h1 h2
      have hs : to_uint32 sid = sid.toNat := by
        unfold to_uint32
        rw [Int.emod_eq_of_lt h0 (by omega)]
      rw [hs, Nat.mod_eq_of_lt h2]
      have hl : pre.length = i * 8 := by omega
      have g1 : nghttp2_get_uint32 (memOf (pre ++ (nghttp2_put_uint32be sid.toNat ++
          nghttp2_put_uint32be v ++ settings_payload_bytes iv) ++ post)) (i * 8) = sid.toNat := by
        have := get_uint32_append_right pre ((nghttp2_put_uint32be sid.toNat ++
          nghttp2_put_uint32be v ++ settings_payload_bytes iv) ++ post) 0
        rw [List.append_assoc pre, ← hl]
        rw [Nat.add_zero] at this
        rw [this, List.append_assoc, List.append_assoc]
        exact get_uint32_put _ _ (by omega)
      have g2 : nghttp2_get_uint32 (memOf (pre ++ (nghttp2_put_uint32be sid.toNat ++
          nghttp2_put_uint32be v ++ settings_payload_bytes iv) ++ post)) (4 + i * 8) = v := by
        have := get_uint32_append_right (pre ++ nghttp2_put_uint32be sid.toNat)
          (nghttp2_put_uint32be v ++ (settings_payload_bytes iv ++ post)) 0
        rw [Nat.add_zero, List.length_append, put_uint32be_length, hl] at this
        rw [Nat.add_comm 4]
        simp only [List.append_assoc] at this ⊢
        rw [this]
        exact get_uint32_put _ _ h2
      rw [g1, g2, NGHTTP2_SETTINGS_ID_MASK, mask24]
      congr 1
      omega
    · have := ih (fun e he => hwf e (List.mem_cons_of_mem _ he))
        (pre ++ nghttp2_put_uint32be (to_uint32 e.settings_id) ++
          nghttp2_put_uint32be (e.value % 2 ^ 32)) post (i + 1)
        (by simp [put_uint32be_length]; omega)
      simpa [List.append_assoc] using this

theorem get_uint32_put_mem (n : Nat) (rest : List Nat) (h : n < 2 ^ 32) (j : Nat)
    (pre : List Nat) (hj : pre.length = j) :
    nghttp2_get_uint32 (memOf (pre ++ (nghttp2_put_uint32be n ++ rest))) j = n := by
  have := get_uint32_append_right pre (nghttp2_put_uint32be n ++ rest) 0
  rw [Nat.add_zero, hj] at this
  rw [this]
  exact get_uint32_put n rest h

theorem take_append_exact (A rest : List Nat) (n : Nat) (h : A.length = n) :
    (A ++ rest).take n = A := by
  subst h
  simp

theorem take4_put (n : Nat) (rest : List Nat) :
    (nghttp2_put_uint32be n ++ rest).take 4 = nghttp2_put_uint32be n := by
  simp [nghttp2_put_uint32be]

theorem priority_roundtrip (buf : List Nat) (F : nghttp2_priority)
    (hwf : frame_hd_wf F.hd) (h0 : 0 ≤ F.pri) (h1 : F.pri < 2 ^ 31) :
    nghttp2_frame_unpack_priority ((nghttp2_frame_pack_priority buf F).1.take 8)
      (((nghttp2_frame_pack_priority buf F).1.drop 8).take
        ((nghttp2_frame_pack_priority buf F).2 - 8)) = .ok F := by
  obtain ⟨e1, e2⟩ := to_uint32_of_nonneg F.pri h0 h1
  simp only [nghttp2_frame_pack_priority, NGHTTP2_FRAME_HEAD_LENGTH]
  rw [pack_fixed4 _ _ _ (put_uint32be_length _), List.append_assoc, take8_hd, drop8_hd,
    Nat.add_sub_cancel_left, take4_put]
  simp only [nghttp2_frame_unpack_priority, put_uint32be_length, ne_eq, not_true_eq_false,
    if_false, unpack_frame_hd_bytes_nil _ hwf, e1]
  have := get_uint32_put F.pri.toNat [] (by omega)
  rw [List.append_nil] at this
  rw [this, NGHTTP2_PRIORITY_MASK, mask31, Nat.mod_eq_of_lt e2, Int.toNat_of_nonneg h0]

theorem window_update_roundtrip (buf : List Nat) (F : nghttp2_window_update)
    (hwf : frame_hd_wf F.hd) (h0 : 0 ≤ F.window_size_increment)
    (h1 : F.window_size_increment < 2 ^ 31) :
    nghttp2_frame_unpack_window_update ((nghttp2_frame_pack_window_update buf F).1.take 8)
      (((nghttp2_frame_pack_window_update buf F).1.drop 8).take
        ((nghttp2_frame_pack_window_update buf F).2 - 8)) = .ok F := by
  obtain ⟨e1, e2⟩ := to_uint32_of_nonneg F.window_size_increment h0 h1
  simp only [nghttp2_frame_pack_window_update, NGHTTP2_FRAME_HEAD_LENGTH]
  rw [pack_fixed4 _ _ _ (put_uint32be_length _), List.append_assoc, take8_hd, drop8_hd,
    Nat.add_sub_cancel_left, take4_put]
  simp only [nghttp2_frame_unpack_window_update, put_uint32be_length, ne_eq, not_true_eq_false,
    if_false, unpack_frame_hd_bytes_nil _ hwf, e1]
  have := get_uint32_put F.window_size_increment.toNat [] (by omega)
  rw [List.append_nil] at this
  rw [this, NGHTTP2_WINDOW_SIZE_INCREMENT_MASK, mask31, Nat.mod_eq_of_lt e2,
    Int.toNat_of_nonneg h0]

theorem rst_stream_roundtrip (buf : List Nat) (F : nghttp2_rst_stream)
    (hwf : frame_hd_wf F.hd) (h1 : F.error_code < 2 ^ 32) :
    nghttp2_frame_unpack_rst_stream ((nghttp2_frame_pack_rst_stream buf F).1.take 8)
      (((nghttp2_frame_pack_rst_stream buf F).1.drop 8).take
        ((nghttp2_frame_pack_rst_stream buf F).2 - 8)) = .ok F := by
  simp only [nghttp2_frame_pack_rst_stream, NGHTTP2_FRAME_HEAD_LENGTH]
  rw [pack_fixed4 _ _ _ (put_uint32be_length _), List.append_assoc, take8_hd, drop8_hd,
    Nat.add_sub_cancel_left, take4_put]
  simp only [nghttp2_frame_unpack_rst_stream, put_uint32be_length, ne_eq, not_true_eq_false,
    if_false, unpack_frame_hd_bytes_nil _ hwf, Nat.mod_eq_of_lt h1]
  have := get_uint32_put F.error_code [] h1
  rw [List.append_nil] at this
  rw [this]

theorem ping_roundtrip (buf : List Nat) (F : nghttp2_ping)
    (hwf : frame_hd_wf F.hd) (h1 : F.opaque_data.length = 8) :
    nghttp2_frame_unpack_ping ((nghttp2_frame_pack_ping buf F).1.take 8)
      (((nghttp2_frame_pack_ping buf F).1.drop 8).take
        ((nghttp2_frame_pack_ping buf F).2 - 8)) = .ok F := by
  have ht : F.opaque_data.take 8 = F.opaque_data := List.take_of_length_le (by omega)
  simp only [nghttp2_frame_pack_ping, NGHTTP2_FRAME_HEAD_LENGTH, ht]
  rw [memset_zero_reserve, pack_frame_hd_eq,
    write_bytes_append_left _ _ _ 8 (frame_hd_bytes_length _), List.append_assoc, take8_hd,
    drop8_hd, Nat.add_sub_cancel_left]
  have h2 : (F.opaque_data ++ List.drop F.opaque_data.length
      (List.drop 8 (List.replicate 16 0 ++ List.drop 16 buf))).take 8 = F.opaque_data := by
    rw [List.take_append_of_le_length (by omega), ht]
  rw [h2]
  simp only [nghttp2_frame_unpack_ping, h1, ne_eq, not_true_eq_false, if_false,
    unpack_frame_hd_bytes_nil _ hwf, ht]

theorem goaway_roundtrip (buf : List Nat) (F : nghttp2_goaway)
    (hwf : frame_hd_wf F.hd) (hlen : F.hd.length = 8 + F.opaque_data.length)
    (h0 : 0 ≤ F.last_stream_id) (h1 : F.last_stream_id < 2 ^ 31)
    (h2 : F.error_code < 2 ^ 32) :
    nghttp2_frame_unpack_goaway ((nghttp2_frame_pack_goaway buf F).1.take 8)
      (((nghttp2_frame_pack_goaway buf F).1.drop 8).take
        ((nghttp2_frame_pack_goaway buf F).2 - 8)) = .ok F := by
  obtain ⟨e1, e2⟩ := to_uint32_of_nonneg F.last_stream_id h0 h1
  simp only [nghttp2_frame_pack_goaway, NGHTTP2_FRAME_HEAD_LENGTH]
  rw [memset_zero_reserve, pack_frame_hd_eq,
    write_bytes_append_left _ _ _ 8 (frame_hd_bytes_length _),
    write_bytes_append_left _ _ _ 12 (by simp [frame_hd_bytes_length, put_uint32be_length]),
    write_bytes_append_left _ _ _ 16 (by simp [frame_hd_bytes_length, put_uint32be_length])]
  simp only [List.append_assoc, take8_hd, drop8_hd, Nat.add_sub_cancel_left, e1,
    Nat.mod_eq_of_lt h2, put_uint32be_length, List.drop_drop]
  have hp : ∀ rest : List Nat, (nghttp2_put_uint32be F.last_stream_id.toNat ++
      (nghttp2_put_uint32be F.error_code ++ (F.opaque_data ++ rest))).take F.hd.length =
      nghttp2_put_uint32be F.last_stream_id.toNat ++ (nghttp2_put_uint32be F.error_code ++
        F.opaque_data) := by
    intro rest
    rw [← List.append_assoc (nghttp2_put_uint32be F.error_code), ← List.append_assoc]
    exact take_append_exact _ _ _ (by simp [put_uint32be_length]; omega)
  rw [hp]
  unfold nghttp2_frame_unpack_goaway
  simp only [unpack_frame_hd_bytes_nil _ hwf]
  have hl : (nghttp2_put_uint32be F.last_stream_id.toNat ++
      (nghttp2_put_uint32be F.error_code ++ F.opaque_data)).length = 8 + F.opaque_data.length := by
    simp [put_uint32be_length]; omega
  rw [hl, if_neg (by omega)]
  have g1 := get_uint32_put F.last_stream_id.toNat
    (nghttp2_put_uint32be F.error_code ++ F.opaque_data) (by omega)
  have g2 := get_uint32_put_mem F.error_code F.opaque_data h2 4
    (nghttp2_put_uint32be F.last_stream_id.toNat) rfl
  rw [g1, g2, NGHTTP2_STREAM_ID_MASK, mask31, Nat.mod_eq_of_lt e2, Int.toNat_of_nonneg h0]
  have hd8 : (nghttp2_put_uint32be F.last_stream_id.toNat ++
      (nghttp2_put_uint32be F.error_code ++ F.opaque_data)).drop 8 = F.opaque_data := by
    simp [nghttp2_put_uint32be]
  rw [hd8, Nat.add_sub_cancel_left, List.take_of_length_le (Nat.le_refl _)]

theorem settings_roundtrip (buf : List Nat) (F : nghttp2_settings)
    (hwf : frame_hd_wf F.hd) (hlen : F.hd.length = 8 * F.iv.length)
    (hiv : ∀ e ∈ F.iv, settings_entry_wf e) :
    nghttp2_frame_unpack_settings ((nghttp2_frame_pack_settings buf F).1.take 8)
      (((nghttp2_frame_pack_settings buf F).1.drop 8).take
        ((nghttp2_frame_pack_settings buf F).2 - 8)) = .ok F := by
  simp only [nghttp2_frame_pack_settings, NGHTTP2_FRAME_HEAD_LENGTH]
  rw [memset_zero_reserve, pack_frame_hd_eq,
    pack_settings_payload_eq _ _ _ 8 (frame_hd_bytes_length _)
      (by simp; omega)]
  simp only [List.append_assoc, take8_hd, drop8_hd, Nat.add_sub_cancel_left]
  have hp : ∀ rest : List Nat, (settings_payload_bytes F.iv ++ rest).take F.hd.length =
      settings_payload_bytes F.iv := by
    intro rest
    exact take_append_exact _ _ _ (by rw [settings_payload_bytes_length]; omega)
  rw [hp]
  unfold nghttp2_frame_unpack_settings nghttp2_frame_unpack_settings_payload
  rw [settings_payload_bytes_length, if_neg (by omega), unpack_frame_hd_bytes_nil _ hwf]
  have hdiv : 8 * F.iv.length / 8 = F.iv.length := by omega
  rw [hdiv]
  have := unpack_settings_payload_loop_eq F.iv hiv [] [] 0 rfl
  simp only [List.nil_append, List.append_nil] at this
  rw [this]

end Nghttp2

namespace Nghttp2

/-- C3 (amended): for every PRIORITY, RST_STREAM, SETTINGS, PING, GOAWAY and
WINDOW_UPDATE frame whose fields are in the ranges of the data model, with the
priority in [0, 2^31), the bytes written by pack, split into the 8-byte head and the
payload, are unpacked with success to the same frame. -/
theorem frame_pack_unpack_roundtrip :
    (∀ (buf : List Nat) (F : nghttp2_priority),
      frame_hd_wf F.hd → 0 ≤ F.pri → F.pri < 2 ^ 31 →
      nghttp2_frame_unpack_priority ((nghttp2_frame_pack_priority buf F).1.take 8)
        (((nghttp2_frame_pack_priority buf F).1.drop 8).take
          ((nghttp2_frame_pack_priority buf F).2 - 8)) = .ok F) ∧
    (∀ (buf : List Nat) (F : nghttp2_rst_stream),
      frame_hd_wf F.hd → F.error_code < 2 ^ 32 →
      nghttp2_frame_unpack_rst_stream ((nghttp2_frame_pack_rst_stream buf F).1.take 8)
        (((nghttp2_frame_pack_rst_stream buf F).1.drop 8).take
          ((nghttp2_frame_pack_rst_stream buf F).2 - 8)) = .ok F) ∧
    (∀ (buf : List Nat) (F : nghttp2_settings),
      frame_hd_wf F.hd → F.hd.length = 8 * F.iv.length →
      (∀ e ∈ F.iv, settings_entry_wf e) →
      nghttp2_frame_unpack_settings ((nghttp2_frame_pack_settings buf F).1.take 8)
        (((nghttp2_frame_pack_settings buf F).1.drop 8).take
          ((nghttp2_frame_pack_settings buf F).2 - 8)) = .ok F) ∧
    (∀ (buf : List Nat) (F : nghttp2_ping),
      frame_hd_wf F.hd → F.opaque_data.length = 8 →
      nghttp2_frame_unpack_ping ((nghttp2_frame_pack_ping buf F).1.take 8)
        (((nghttp2_frame_pack_ping buf F).1.drop 8).take
          ((nghttp2_frame_pack_ping buf F).2 - 8)) = .ok F) ∧
    (∀ (buf : List Nat) (F : nghttp2_goaway),
      frame_hd_wf F.hd → F.hd.length = 8 + F.opaque_data.length →
      0 ≤ F.last_stream_id → F.last_stream_id < 2 ^ 31 → F.error_code < 2 ^ 32 →
      nghttp2_frame_unpack_goaway ((nghttp2_frame_pack_goaway buf F).1.take 8)
        (((nghttp2_frame_pack_goaway buf F).1.drop 8).take
          ((nghttp2_frame_pack_goaway buf F).2 - 8)) = .ok F) ∧
    (∀ (buf : List Nat) (F : nghttp2_window_update),
      frame_hd_wf F.hd → 0 ≤ F.window_size_increment → F.window_size_increment < 2 ^ 31 →
      nghttp2_frame_unpack_window_update ((nghttp2_frame_pack_window_update buf F).1.take 8)
        (((nghttp2_frame_pack_window_update buf F).1.drop 8).take
          ((nghttp2_frame_pack_window_update buf F).2 - 8)) = .ok F) :=
  ⟨priority_roundtrip, rst_stream_roundtrip, settings_roundtrip, ping_roundtrip,
    goaway_roundtrip, window_update_roundtrip⟩

/-- Witness of C3 (amended): a SETTINGS frame with the entries (4, 100) and
(7, 65535) packed into an empty buffer. -/
theorem frame_pack_unpack_roundtrip_witness :
    nghttp2_frame_unpack_settings
      ((nghttp2_frame_pack_settings []
        { hd := { length := 16, typ := 4, flags := 0, stream_id := 0 },
          iv := [⟨4, 100⟩, ⟨7, 65535⟩] }).1.take 8)
      (((nghttp2_frame_pack_settings []
        { hd := { length := 16, typ := 4, flags := 0, stream_id := 0 },
          iv := [⟨4, 100⟩, ⟨7, 65535⟩] }).1.drop 8).take
        ((nghttp2_frame_pack_settings []
          { hd := { length := 16, typ := 4, flags := 0, stream_id := 0 },
            iv := [⟨4, 100⟩, ⟨7, 65535⟩] }).2 - 8)) =
      .ok { hd := { length := 16, typ := 4, flags := 0, stream_id := 0 },
            iv := [⟨4, 100⟩, ⟨7, 65535⟩] } :=
  frame_pack_unpack_roundtrip.2.2.1 []
    { hd := { length := 16, typ := 4, flags := 0, stream_id := 0 },
      iv := [⟨4, 100⟩, ⟨7, 65535⟩] } (by decide) (by decide) (by decide)

/-- Counterexample to C3 as stated: the PRIORITY frame with `pri = -1` (an `i32`)
is packed as `ff ff ff ff` and unpacked as `pri = 2^31 - 1`. -/
theorem frame_roundtrip_priority_counterexample :
    nghttp2_frame_unpack_priority
      ((nghttp2_frame_pack_priority []
        { hd := { length := 4, typ := 2, flags := 0, stream_id := 1 }, pri := -1 }).1.take 8)
      (((nghttp2_frame_pack_priority []
        { hd := { length := 4, typ := 2, flags := 0, stream_id := 1 }, pri := -1 }).1.drop 8).take
        ((nghttp2_frame_pack_priority []
          { hd := { length := 4, typ := 2, flags := 0, stream_id := 1 }, pri := -1 }).2 - 8)) =
      .ok { hd := { length := 4, typ := 2, flags := 0, stream_id := 1 }, pri := 2147483647 } ∧
    (nghttp2_frame_pack_priority []
        { hd := { length := 4, typ := 2, flags := 0, stream_id := 1 }, pri := -1 }).1 =
      [0, 4, 2, 0, 0, 0, 0, 1, 255, 255, 255, 255] := by
  decide

end Nghttp2

namespace Nghttp2

theorem and_127 (m : Nat) : m &&& 0x7f = m % 128 :=
  Nat.and_pow_two_sub_one_eq_mod m 7

theorem or_128 (x : Nat) (h : x < 128) : (1 <<< 7) ||| x = 128 + x := by
  have := Nat.mul_add_lt_is_or (i := 7) (b := x) (by simpa using h) 1
  simpa using this.symm

theorem shr_7 (m : Nat) : m >>> 7 = m / 128 := by
  rw [Nat.shiftRight_eq_div_pow]

theorem one_shl (p : Nat) : 1 <<< p = 2 ^ p := by
  rw [Nat.shiftLeft_eq, Nat.one_mul]

theorem encode_length_loop_eq : ∀ (fuel m len : Nat), m < fuel →
    encode_length_loop fuel m len =
      (base128_le fuel m, len + (base128_le fuel m).length) := by
  intro fuel
  induction fuel with
  | zero => intro m len h; omega
  | succ fuel ih =>
    intro m len h
    unfold encode_length_loop base128_le
    by_cases hm : m ≥ 128
    · have h1 : ¬ m < 128 := by omega
      have h2 : m >>> 7 ≠ 0 := by rw [shr_7]; omega
      have h3 : m / 128 < fuel := by omega
      simp only [hm, h1, h2, if_true, if_false, ne_eq, not_false_eq_true]
      rw [and_127, or_128 _ (Nat.mod_lt _ (by norm_num)), shr_7, ih _ _ h3]
      simp only [List.length_cons]
      rw [Nat.mod_eq_of_lt (by omega)]
      congr 1
      omega
    · have h1 : m < 128 := by omega
      simp only [hm, h1, if_true, if_false, List.length_singleton]
      rw [Nat.mod_eq_of_lt (by omega)]

theorem count_encoded_length_loop_eq : ∀ (fuel m len : Nat), m < fuel →
    count_encoded_length_loop fuel m len = len + (base128_le fuel m).length := by
  intro fuel
  induction fuel with
  | zero => intro m len h; omega
  | succ fuel ih =>
    intro m len h
    unfold count_encoded_length_loop base128_le
    by_cases hm : m ≥ 128
    · have h1 : ¬ m < 128 := by omega
      have h2 : m >>> 7 ≠ 0 := by rw [shr_7]; omega
      have h3 : m / 128 < fuel := by omega
      simp only [hm, h1, h2, if_true, if_false, ne_eq, not_false_eq_true]
      rw [shr_7, ih _ _ h3]
      simp only [List.length_cons]
      omega
    · have h1 : m < 128 := by omega
      simp only [hm, h1, if_true, if_false, List.length_singleton]

theorem base128_le_value : ∀ (fuel m : Nat), m < fuel →
    base128_value (base128_le fuel m) = m := by
  intro fuel
  induction fuel with
  | zero => intro m h; omega
  | succ fuel ih =>
    intro m h
    unfold base128_le
    split
    · simp [base128_value]; omega
    · simp only [base128_value]
      rw [ih _ (by omega)]
      omega

theorem base128_le_ne_nil : ∀ (fuel m : Nat), m < fuel → base128_le fuel m ≠ [] := by
  intro fuel m h
  cases fuel with
  | zero => omega
  | succ fuel => unfold base128_le; split <;> simp

theorem base128_le_bytes : ∀ (fuel m : Nat), m < fuel →
    (∀ b ∈ (base128_le fuel m).dropLast, 128 ≤ b ∧ b < 256) ∧
    (∀ b ∈ (base128_le fuel m).getLast?, b < 128) := by
  intro fuel
  induction fuel with
  | zero => intro m h; omega
  | succ fuel ih =>
    intro m h
    unfold base128_le
    split
    · rename_i hm
      simp [hm]
    · rename_i hm
      have h3 : m / 128 < fuel := by omega
      obtain ⟨i1, i2⟩ := ih _ h3
      have hne := base128_le_ne_nil fuel (m / 128) h3
      obtain ⟨x, xs, hx⟩ := List.exists_cons_of_ne_nil hne
      rw [hx] at i1 i2 ⊢
      constructor
      · intro b hb
        simp only [List.dropLast_cons₂, List.mem_cons] at hb
        rcases hb with hb | hb
        · subst hb; omega
        · exact i1 b hb
      · intro b hb
        rw [List.getLast?_cons_cons] at hb
        exact i2 b hb

end Nghttp2

namespace Nghttp2

theorem and_128_of_lt : ∀ x, x < 128 → x &&& (1 <<< 7) = 0 := by decide

theorem and_128_of_ge : ∀ x, x < 128 → (128 + x) &&& (1 <<< 7) ≠ 0 := by decide

theorem int32_wrap_small (x : Int) (h0 : 0 ≤ x) (h1 : x < 2 ^ 31) : int32_wrap x = x := by
  unfold int32_wrap
  rw [Int.emod_eq_of_lt (by omega) (by omega)]
  omega

theorem int_shl_exact (a r : Nat) (h : a * 2 ^ r < 2 ^ 31) : int_shl a r = ((a * 2 ^ r : Nat) : Int) := by
  unfold int_shl
  rcases Nat.eq_zero_or_pos a with ha | ha
  · subst ha
    simp [int32_wrap]
  · have h2 : 2 ^ r < 2 ^ 31 := by
      calc 2 ^ r ≤ a * 2 ^ r := Nat.le_mul_of_pos_left _ ha
        _ < 2 ^ 31 := h
    have hr : r < 31 := (Nat.pow_lt_pow_iff_right (by norm_num)).mp h2
    rw [Nat.mod_eq_of_lt (by omega)]
    have : ((a : Int) * 2 ^ r) = ((a * 2 ^ r : Nat) : Int) := by push_cast; rfl
    rw [this]
    exact int32_wrap_small _ (by positivity) (by exact_mod_cast h)

theorem mem_holds_cons (mem : Nat → Nat) (a b : Nat) (bs : List Nat)
    (h : mem_holds mem a (b :: bs)) : mem a = b ∧ mem_holds mem (a + 1) bs := by
  constructor
  · have := h 0 (by simp)
    simpa using this
  · intro i hi
    have := h (i + 1) (by simp; omega)
    simp only [List.getD_cons_succ] at this
    rw [← this]
    congr 1
    omega

theorem decode_length_loop_base128 : ∀ (fuel m : Nat), m < fuel →
    ∀ (mem : Nat → Nat) (left a r res : Nat),
      mem_holds mem a (base128_le fuel m) → (base128_le fuel m).length ≤ left →
      res + m * 2 ^ r < 65536 →
      decode_length_loop mem left a r (res : Int) =
        (((res + m * 2 ^ r : Nat) : Int), some (a + (base128_le fuel m).length)) := by
  intro fuel
  induction fuel with
  | zero => intro m h; omega
  | succ fuel ih =>
    intro m h mem left a r res hmem hleft hres
    unfold base128_le at hmem hleft ⊢
    by_cases hm : m < 128
    · simp only [hm, if_true, List.length_singleton] at hmem hleft ⊢
      obtain ⟨h1, -⟩ := mem_holds_cons _ _ _ _ hmem
      obtain ⟨l, rfl⟩ : ∃ l, left = l + 1 := ⟨left - 1, by omega⟩
      unfold decode_length_loop
      rw [h1, and_127, Nat.mod_eq_of_lt hm, int_shl_exact _ _ (by omega), and_128_of_lt m hm]
      have : ¬ ((res : Int) + ((m * 2 ^ r : Nat) : Int) ≥ (((1 <<< 16 : Nat)) : Int)) := by
        have : (1 <<< 16 : Nat) = 65536 := by decide
        rw [this]
        omega
      simp only [this, if_false, if_true]
      rw [Nat.cast_add]
    · have h3 : m / 128 < fuel := by omega
      simp only [hm, if_false, List.length_cons] at hmem hleft ⊢
      obtain ⟨h1, h2⟩ := mem_holds_cons _ _ _ _ hmem
      obtain ⟨l, rfl⟩ : ∃ l, left = l + 1 := ⟨left - 1, by omega⟩
      have hmul : m % 128 * 2 ^ r + m / 128 * 2 ^ (r + 7) = m * 2 ^ r := by
        rw [pow_add]
        have := Nat.mod_add_div m 128
        calc m % 128 * 2 ^ r + m / 128 * (2 ^ r * 2 ^ 7)
            = (m % 128 + 128 * (m / 128)) * 2 ^ r := by ring
          _ = m * 2 ^ r := by rw [this]
      have hlow : m % 128 * 2 ^ r < 65536 := by omega
      unfold decode_length_loop
      have e1 : (128 + m % 128) &&& 0x7f = m % 128 := by
        rw [and_127]; omega
      rw [h1, e1, int_shl_exact _ _ (by omega)]
      have hnot : ¬ ((res : Int) + ((m % 128 * 2 ^ r : Nat) : Int) ≥ (((1 <<< 16 : Nat)) : Int)) := by
        have : (1 <<< 16 : Nat) = 65536 := by decide
        rw [this]
        omega
      have hc : ¬ ((128 + m % 128) &&& (1 <<< 7) = 0) :=
        and_128_of_ge _ (Nat.mod_lt _ (by norm_num))
      simp only [hnot, hc, if_false]
      have key := ih (m / 128) h3 mem l (a + 1) (r + 7) (res + m % 128 * 2 ^ r) h2 (by omega)
        (by omega)
      have hsum : res + m % 128 * 2 ^ r + m / 128 * 2 ^ (r + 7) = res + m * 2 ^ r := by omega
      have hcast : ((res + m % 128 * 2 ^ r : Nat) : Int) =
          (res : Int) + ((m % 128 * 2 ^ r : Nat) : Int) := Nat.cast_add _ _
      rw [hsum, hcast] at key
      rw [key]
      congr 2
      omega

end Nghttp2

namespace Nghttp2

theorem or_tag_and_mask (x t p : Nat) (hx : x < 2 ^ p) (ht : t % 2 ^ p = 0) :
    (x ||| t) &&& (2 ^ p - 1) = x := by
  rw [Nat.and_pow_two_sub_one_eq_mod]
  apply Nat.eq_of_testBit_eq
  intro i
  rw [Nat.testBit_mod_two_pow, Nat.testBit_or]
  by_cases hi : i < p
  · have h1 : (t % 2 ^ p).testBit i = false := by rw [ht]; simp
    rw [Nat.testBit_mod_two_pow] at h1
    simp only [hi, decide_True, Bool.true_and] at h1 ⊢
    rw [h1, Bool.or_false]
  · simp only [hi, decide_False, Bool.false_and]
    have : x < 2 ^ i := lt_of_lt_of_le hx (Nat.pow_le_pow_right (by norm_num) (by omega))
    exact (Nat.testBit_lt_two_pow this).symm

theorem encode_length_eq (n p : Nat) :
    encode_length n p =
      if n ≥ 2 ^ p - 1 then
        ((2 ^ p - 1) % 256 :: base128_le (n - (2 ^ p - 1) + 1) (n - (2 ^ p - 1)),
          1 + (base128_le (n - (2 ^ p - 1) + 1) (n - (2 ^ p - 1))).length)
      else ([n % 256], 1) := by
  unfold encode_length
  simp only [one_shl]
  split
  · rw [encode_length_loop_eq _ _ _ (Nat.lt_add_one _)]
  · rfl

theorem decode_length_encode_length (p : Nat) (hp : p = 5 ∨ p = 6 ∨ p = 7 ∨ p = 8)
    (n : Nat) (hn : n ≤ 65535) (tag : Nat) (htag : tag % 2 ^ p = 0)
    (mem : Nat → Nat) (a last : Nat)
    (h0 : mem a = (encode_length n p).1.headD 0 ||| tag)
    (h1 : mem_holds mem (a + 1) (encode_length n p).1.tail)
    (hl : a + (encode_length n p).2 ≤ last) :
    decode_length mem a last p = ((n : Int), some (a + (encode_length n p).2)) := by
  have hk : 2 ^ p - 1 < 256 := by rcases hp with rfl | rfl | rfl | rfl <;> norm_num
  have hk1 : 1 ≤ 2 ^ p := Nat.one_le_two_pow
  rw [encode_length_eq] at h0 h1 hl ⊢
  unfold decode_length
  simp only [one_shl]
  by_cases hnk : n ≥ 2 ^ p - 1
  · simp only [hnk, if_true, List.headD_cons, List.tail_cons] at h0 h1 hl ⊢
    rw [Nat.mod_eq_of_lt hk] at h0
    have hne : a ≠ last := by omega
    have hm : mem a &&& (2 ^ p - 1) = 2 ^ p - 1 := by
      rw [h0]; exact or_tag_and_mask _ _ _ (by omega) htag
    simp only [hne, hm, if_true, if_false]
    have := decode_length_loop_base128 _ _ (Nat.lt_add_one (n - (2 ^ p - 1))) mem
      (last - (a + 1)) (a + 1) 0 (2 ^ p - 1) h1 (by omega) (by simp; omega)
    rw [this]
    congr 1
    · congr 1; simp; omega
    · congr 1; omega
  · simp only [hnk, if_false, List.headD_cons] at h0 hl ⊢
    have hn2 : n < 2 ^ p - 1 := by omega
    rw [Nat.mod_eq_of_lt (by omega)] at h0
    have hne : a ≠ last := by omega
    have hm : mem a &&& (2 ^ p - 1) = n := by
      rw [h0]; exact or_tag_and_mask _ _ _ (by omega) htag
    have hne2 : ¬ (n = 2 ^ p - 1) := by omega
    simp only [hne, hm, hne2, if_false]

theorem encode_length_head_lt (n p : Nat) (hp : p = 5 ∨ p = 6 ∨ p = 7 ∨ p = 8) :
    ∀ b ∈ (encode_length n p).1.head?, b < 2 ^ p := by
  have hk : 2 ^ p - 1 < 256 := by rcases hp with rfl | rfl | rfl | rfl <;> norm_num
  have hk1 : 1 ≤ 2 ^ p := Nat.one_le_two_pow
  rw [encode_length_eq]
  intro b hb
  split at hb
  · simp only [List.head?_cons, Option.mem_def, Option.some.injEq] at hb
    rw [Nat.mod_eq_of_lt hk] at hb
    omega
  · simp only [List.head?_cons, Option.mem_def, Option.some.injEq] at hb
    rw [Nat.mod_eq_of_lt (by omega)] at hb
    omega

end Nghttp2

namespace Nghttp2

/-- C6: for a prefix width p of 5 to 8 and n up to 65535, `decode_length` on the
bytes written by `encode_length(n, p)`, with tag bits or-ed into the high bits of
the first byte and whatever follows, stores n and returns the position just past
the encoded bytes. -/
theorem decode_encode_roundtrip (p : Nat) (hp : p = 5 ∨ p = 6 ∨ p = 7 ∨ p = 8)
    (n : Nat) (hn : n ≤ 65535) (tag : Nat) (htag : tag % 2 ^ p = 0)
    (mem : Nat → Nat) (a last : Nat)
    (h0 : mem a = (encode_length n p).1.headD 0 ||| tag)
    (h1 : mem_holds mem (a + 1) (encode_length n p).1.tail)
    (hl : a + (encode_length n p).2 ≤ last) :
    decode_length mem a last p = ((n : Int), some (a + (encode_length n p).2)) :=
  decode_length_encode_length p hp n hn tag htag mem a last h0 h1 hl

/-- Witness of C6: 65535 with the 7-bit prefix and the tag 0x80, followed by a
further byte. -/
theorem decode_encode_roundtrip_witness :
    decode_length (memOf [0xff, 0x80, 0xff, 0x03, 0x2a]) 0 5 7 = ((65535 : Int), some 4) :=
  decode_encode_roundtrip 7 (by decide) 65535 (by decide) 0x80 (by decide)
    (memOf [0xff, 0x80, 0xff, 0x03, 0x2a]) 0 5 (by decide) (by decide) (by decide)

/-- C7: for a prefix width p of 5 to 8 with K = 2^p - 1, `encode_length` writes the
single byte n when n < K, and otherwise the byte K followed by n - K in base 128,
least significant digit first, every byte but the last with its high bit set; the
high 8 - p bits of the first byte are zero, and the returned count is the number of
bytes written.  With p = 7, 126 is written as 7E and 127 as 7F 00. -/
theorem encode_length_format (p : Nat) (hp : p = 5 ∨ p = 6 ∨ p = 7 ∨ p = 8) (n : Nat) :
    (n < 2 ^ p - 1 → encode_length n p = ([n], 1)) ∧
    (2 ^ p - 1 ≤ n →
      (encode_length n p).1 =
        (2 ^ p - 1) :: base128_le (n - (2 ^ p - 1) + 1) (n - (2 ^ p - 1)) ∧
      base128_value (encode_length n p).1.tail = n - (2 ^ p - 1) ∧
      (encode_length n p).1.tail ≠ [] ∧
      (∀ b ∈ (encode_length n p).1.tail.dropLast, 128 ≤ b ∧ b < 256) ∧
      (∀ b ∈ (encode_length n p).1.tail.getLast?, b < 128)) ∧
    (∀ b ∈ (encode_length n p).1.head?, b < 2 ^ p) ∧
    (encode_length n p).2 = (encode_length n p).1.length ∧
    encode_length 126 7 = ([0x7e], 1) ∧
    encode_length 127 7 = ([0x7f, 0x00], 2) := by
  have hk : 2 ^ p - 1 < 256 := by rcases hp with rfl | rfl | rfl | rfl <;> norm_num
  have hk1 : 1 ≤ 2 ^ p := Nat.one_le_two_pow
  have hlt := Nat.lt_add_one (n - (2 ^ p - 1))
  rw [encode_length_eq]
  refine ⟨?_, ?_, ?_, ?_, by decide, by decide⟩
  · intro h
    rw [if_neg (by omega), Nat.mod_eq_of_lt (by omega)]
  · intro h
    rw [if_pos h, Nat.mod_eq_of_lt hk]
    simp only [List.tail_cons]
    exact ⟨trivial, base128_le_value _ _ hlt, base128_le_ne_nil _ _ hlt,
      (base128_le_bytes _ _ hlt).1, (base128_le_bytes _ _ hlt).2⟩
  · rw [← encode_length_eq]
    exact encode_length_head_lt n p hp
  · split
    · simp only [List.length_cons]; omega
    · rfl

/-- Witness of C7: 300 with the 5-bit prefix is written as 1F 8D 02. -/
theorem encode_length_format_witness :
    (encode_length 300 5).1 = (2 ^ 5 - 1) :: base128_le (300 - (2 ^ 5 - 1) + 1) (300 - (2 ^ 5 - 1)) ∧
    (encode_length 300 5).1 = [0x1f, 0x8d, 0x02] :=
  ⟨((encode_length_format 5 (by decide) 300).2.1 (by decide)).1, by decide⟩

theorem decode_length_loop_bound (mem : Nat → Nat) : ∀ (left inp r : Nat) (res : Int),
    res < 65536 →
    (decode_length_loop mem left inp r res).1 = -1 ∨
      (decode_length_loop mem left inp r res).1 < 65536 := by
  intro left
  induction left with
  | zero =>
    intro inp r res h
    unfold decode_length_loop
    split
    · left; rfl
    · right; exact h
  | succ left ih =>
    intro inp r res h
    unfold decode_length_loop
    have e16 : (((1 <<< 16 : Nat)) : Int) = 65536 := by decide
    simp only [e16]
    split
    · left; rfl
    · rename_i h2
      split
      · right; simp only; omega
      · exact ih _ _ _ (by omega)

/-- C8: `decode_length` stores either -1 or a value below 65536, and rejects the
encodings of 65536; the input FF 80 80 80 80 10 (prefix 8), whose integer is
255 + 2^32, is not rejected: the shift `(*in & 0x7f) << r` is computed on a 32-bit
`int`, the bit is lost and 255 is stored. -/
theorem decode_length_range :
    (∀ (mem : Nat → Nat) (a last p : Nat), (p = 5 ∨ p = 6 ∨ p = 7 ∨ p = 8) →
      (decode_length mem a last p).1 = -1 ∨ (decode_length mem a last p).1 < 65536) ∧
    (∀ p : Nat, (p = 5 ∨ p = 6 ∨ p = 7 ∨ p = 8) →
      (decode_length (memOf (encode_length 65536 p).1) 0 (encode_length 65536 p).2 p).1 = -1) ∧
    decode_length (memOf [0xff, 0x80, 0x80, 0x80, 0x80, 0x10]) 0 6 8 = (255, some 6) ∧
    decode_length (memOf [0xff, 0x80, 0x80, 0x80, 0x80, 0x80, 0x01]) 0 7 8 = (263, some 7) := by
  refine ⟨?_, ?_, by decide, by decide⟩
  · intro mem a last p hp
    have hk : 2 ^ p - 1 < 256 := by rcases hp with rfl | rfl | rfl | rfl <;> norm_num
    unfold decode_length
    simp only [one_shl]
    split
    · left; rfl
    · split
      · exact decode_length_loop_bound mem _ _ _ _ (by omega)
      · right
        have : mem a &&& (2 ^ p - 1) ≤ 2 ^ p - 1 := Nat.and_le_right
        simp only
        omega
  · intro p hp
    rcases hp with rfl | rfl | rfl | rfl <;> decide

/-- C9: on an empty input `decode_length` stores -1; on the input FF (prefix 8)
with no byte after it, it reads the byte that follows the input: with 00 there it
stores 255 and returns a position beyond the end, with 80 there it stores -1 and
returns NULL; the same for a run of continuation bytes up to the end. -/
theorem decode_length_truncated :
    (∀ (mem : Nat → Nat) (a p : Nat), decode_length mem a a p = (-1, some a)) ∧
    decode_length (memOf [0xff, 0x00]) 0 1 8 = (255, some 2) ∧
    decode_length (memOf [0xff, 0x80]) 0 1 8 = (-1, none) ∧
    decode_length (memOf [0xff, 0x81, 0x00]) 0 2 8 = (256, some 3) ∧
    decode_length (memOf [0xff, 0x81, 0x80]) 0 2 8 = (-1, none) := by
  refine ⟨?_, by decide, by decide, by decide, by decide⟩
  intro mem a p
  simp [decode_length]

end Nghttp2

namespace Nghttp2

theorem inflate_loop_error_bad (mem : Nat → Nat) (last : Nat) :
    ∀ (fuel inp : Nat) (c : nghttp2_hd_context),
      (inflate_loop mem last fuel inp c).2 = .error .NGHTTP2_ERR_HEADER_COMP →
      (inflate_loop mem last fuel inp c).1.bad = true := by
  intro fuel
  induction fuel with
  | zero =>
    intro inp c h
    unfold inflate_loop at h
    split at h <;> simp at h
  | succ fuel ih =>
    intro inp c h
    unfold inflate_loop at h ⊢
    split
    · rename_i h1; simp [h1] at h
    · rename_i h1
      split
      · rename_i h2; simp [h1, h2] at h
      · rename_i h2
        simp only [h1, h2, if_false] at h
        split
        · rfl
        · rename_i inp1 c1 hs
          rw [hs] at h
          exact ih _ _ h

/-- C5: a call of `nghttp2_hd_deflate_hd` or `nghttp2_hd_inflate_hd` that returns
`NGHTTP2_ERR_HEADER_COMP` leaves the context with `bad` set; on a context with `bad`
set both return `NGHTTP2_ERR_HEADER_COMP` and change neither the context (header
table, reference set, working set) nor the output buffer; and `bad`, once set, stays
set through deflate, inflate and end_headers. -/
theorem poisoning_is_permanent :
    (∀ (c : nghttp2_hd_context) (buf : List Nat) (nv_offset : Nat) (nva : List nghttp2_nv),
      (nghttp2_hd_deflate_hd c buf nv_offset nva).2.2 = .error .NGHTTP2_ERR_HEADER_COMP →
      (nghttp2_hd_deflate_hd c buf nv_offset nva).1.bad = true) ∧
    (∀ (c : nghttp2_hd_context) (mem : Nat → Nat) (inp inlen : Nat),
      (nghttp2_hd_inflate_hd c mem inp inlen).2 = .error .NGHTTP2_ERR_HEADER_COMP →
      (nghttp2_hd_inflate_hd c mem inp inlen).1.bad = true) ∧
    (∀ (c : nghttp2_hd_context) (buf : List Nat) (nv_offset : Nat) (nva : List nghttp2_nv),
      c.bad = true →
      nghttp2_hd_deflate_hd c buf nv_offset nva = (c, buf, .error .NGHTTP2_ERR_HEADER_COMP)) ∧
    (∀ (c : nghttp2_hd_context) (mem : Nat → Nat) (inp inlen : Nat),
      c.bad = true →
      nghttp2_hd_inflate_hd c mem inp inlen = (c, .error .NGHTTP2_ERR_HEADER_COMP)) ∧
    (∀ (c c1 : nghttp2_hd_context), c.bad = true →
      nghttp2_hd_end_headers c = .ok c1 → c1.bad = true) := by
  refine ⟨?_, ?_, ?_, ?_, ?_⟩
  · intro c buf off nva h
    by_cases hb : c.bad = true
    · simp [nghttp2_hd_deflate_hd, hb]
    · have hb1 : c.bad = false := by simpa using hb
      simp only [nghttp2_hd_deflate_hd, hb1] at h ⊢
      generalize deflate_toggle_loop nva _ _ buf off = q at h ⊢
      obtain ⟨ws, heap, buf1, off1, rv⟩ := q
      cases rv with
      | error e => rfl
      | ok u =>
        simp only [Bool.false_eq_true, if_false] at h ⊢
        generalize deflate_nv_loop nva _ buf1 off1 = q2 at h ⊢
        obtain ⟨c2, buf2, off2, rv2⟩ := q2
        cases rv2 with
        | error e => rfl
        | ok u => simp at h
  · intro c mem inp inlen h
    by_cases hb : c.bad = true
    · simp [nghttp2_hd_inflate_hd, hb]
    · have hb1 : c.bad = false := by simpa using hb
      simp only [nghttp2_hd_inflate_hd, hb1, Bool.false_eq_true, if_false] at h ⊢
      have key := inflate_loop_error_bad mem (inp + inlen) inlen inp (create_workingset c)
      generalize inflate_loop mem (inp + inlen) inlen inp (create_workingset c) = q at h key ⊢
      obtain ⟨c1, rv⟩ := q
      cases rv with
      | error e =>
        simp only [Except.error.injEq] at h
        subst h
        exact key rfl
      | ok u => simp at h
  · intro c buf off nva hb
    simp [nghttp2_hd_deflate_hd, hb]
  · intro c mem inp inlen hb
    simp [nghttp2_hd_inflate_hd, hb]
  · intro c c1 hb h
    unfold nghttp2_hd_end_headers at h
    split at h
    · simp at h
    · simp only [Except.ok.injEq] at h
      rw [← h]
      exact hb

end Nghttp2

namespace Nghttp2

/-! ### The arena -/

theorem heap_get_set (heap : List nghttp2_hd_entry) (p q : Nat) (e : nghttp2_hd_entry) :
    heap_get (heap.set p e) q = if p = q ∧ p < heap.length then e else heap_get heap q := by
  unfold heap_get
  simp only [List.getD_eq_getElem?_getD, List.getElem?_set]
  by_cases h : p = q
  · subst h
    by_cases h2 : p < heap.length
    · simp [h2]
    · simp [h2, List.getElem?_eq_none (Nat.le_of_not_lt h2)]
  · simp [h]

@[simp] theorem ref_dec_length (heap : List nghttp2_hd_entry) (p : Nat) :
    (ref_dec heap p).length = heap.length := by
  simp [ref_dec]

@[simp] theorem ref_inc_length (heap : List nghttp2_hd_entry) (p : Nat) :
    (ref_inc heap p).length = heap.length := by
  simp [ref_inc]

@[simp] theorem set_index_length (heap : List nghttp2_hd_entry) (p i : Nat) :
    (set_index heap p i).length = heap.length := by
  simp [set_index]

@[simp] theorem heap_get_ref_dec_nv (heap : List nghttp2_hd_entry) (p q : Nat) :
    (heap_get (ref_dec heap p) q).nv = (heap_get heap q).nv := by
  unfold ref_dec
  rw [heap_get_set]
  split
  · rename_i h; rw [h.1]
  · rfl

@[simp] theorem heap_get_ref_dec_index (heap : List nghttp2_hd_entry) (p q : Nat) :
    (heap_get (ref_dec heap p) q).index = (heap_get heap q).index := by
  unfold ref_dec
  rw [heap_get_set]
  split
  · rename_i h; rw [h.1]
  · rfl

@[simp] theorem heap_get_ref_inc_nv (heap : List nghttp2_hd_entry) (p q : Nat) :
    (heap_get (ref_inc heap p) q).nv = (heap_get heap q).nv := by
  unfold ref_inc
  rw [heap_get_set]
  split
  · rename_i h; rw [h.1]
  · rfl

@[simp] theorem heap_get_ref_inc_index (heap : List nghttp2_hd_entry) (p q : Nat) :
    (heap_get (ref_inc heap p) q).index = (heap_get heap q).index := by
  unfold ref_inc
  rw [heap_get_set]
  split
  · rename_i h; rw [h.1]
  · rfl

@[simp] theorem heap_get_set_index_nv (heap : List nghttp2_hd_entry) (p i q : Nat) :
    (heap_get (set_index heap p i) q).nv = (heap_get heap q).nv := by
  unfold set_index
  rw [heap_get_set]
  split
  · rename_i h; rw [h.1]
  · rfl

theorem heap_get_set_index_index (heap : List nghttp2_hd_entry) (p i q : Nat) :
    (heap_get (set_index heap p i) q).index =
      if p = q ∧ p < heap.length then i else (heap_get heap q).index := by
  unfold set_index
  rw [heap_get_set]
  split <;> rfl

@[simp] theorem heap_room_ref_dec (heap : List nghttp2_hd_entry) (p q : Nat) :
    heap_room (ref_dec heap p) q = heap_room heap q := by
  simp [heap_room]

@[simp] theorem heap_room_ref_inc (heap : List nghttp2_hd_entry) (p q : Nat) :
    heap_room (ref_inc heap p) q = heap_room heap q := by
  simp [heap_room]

@[simp] theorem heap_room_set_index (heap : List nghttp2_hd_entry) (p i q : Nat) :
    heap_room (set_index heap p i) q = heap_room heap q := by
  simp [heap_room]

theorem heap_get_append_left (heap : List nghttp2_hd_entry) (e : nghttp2_hd_entry) (p : Nat)
    (h : p < heap.length) : heap_get (heap ++ [e]) p = heap_get heap p := by
  simp [heap_get, List.getElem?_append_left h]

theorem heap_get_append_new (heap : List nghttp2_hd_entry) (e : nghttp2_hd_entry) :
    heap_get (heap ++ [e]) heap.length = e := by
  simp [heap_get]

/-! ### Down-casing commutes with the operations on the context -/

@[simp] theorem nghttp2_downcase_length (s : List Nat) : (nghttp2_downcase s).length = s.length := by
  simp [nghttp2_downcase]

@[simp] theorem nv_downcase_value (nv : nghttp2_nv) : (nv_downcase nv).value = nv.value := rfl

@[simp] theorem nv_downcase_name (nv : nghttp2_nv) :
    (nv_downcase nv).name = nghttp2_downcase nv.name := rfl

@[simp] theorem entry_downcase_index (e : nghttp2_hd_entry) : (entry_downcase e).index = e.index := rfl

@[simp] theorem entry_downcase_ref (e : nghttp2_hd_entry) : (entry_downcase e).ref = e.ref := rfl

@[simp] theorem entry_downcase_nv (e : nghttp2_hd_entry) :
    (entry_downcase e).nv = nv_downcase e.nv := rfl

theorem heap_get_map_dc (heap : List nghttp2_hd_entry) (p : Nat) :
    heap_get (heap.map entry_downcase) p = entry_downcase (heap_get heap p) := by
  unfold heap_get
  simp only [List.getD_eq_getElem?_getD, List.getElem?_map]
  cases heap[p]? <;> rfl

theorem ref_dec_map_dc (heap : List nghttp2_hd_entry) (p : Nat) :
    ref_dec (heap.map entry_downcase) p = (ref_dec heap p).map entry_downcase := by
  unfold ref_dec
  rw [List.map_set, heap_get_map_dc]
  rfl

theorem ref_inc_map_dc (heap : List nghttp2_hd_entry) (p : Nat) :
    ref_inc (heap.map entry_downcase) p = (ref_inc heap p).map entry_downcase := by
  unfold ref_inc
  rw [List.map_set, heap_get_map_dc]
  rfl

theorem set_index_map_dc (heap : List nghttp2_hd_entry) (p i : Nat) :
    set_index (heap.map entry_downcase) p i = (set_index heap p i).map entry_downcase := by
  unfold set_index
  rw [List.map_set, heap_get_map_dc]
  rfl

theorem heap_room_map_dc (heap : List nghttp2_hd_entry) (p : Nat) :
    heap_room (heap.map entry_downcase) p = heap_room heap p := by
  simp [heap_room, heap_get_map_dc]

theorem evict_loop_dc : ∀ (t : List Nat) (heap : List nghttp2_hd_entry) (b : Nat),
    evict_loop t (heap.map entry_downcase) b =
      ((evict_loop t heap b).1, (evict_loop t heap b).2.1.map entry_downcase,
        (evict_loop t heap b).2.2) := by
  intro t
  induction t with
  | nil => intro heap b; rfl
  | cons p rest ih =>
    intro heap b
    unfold evict_loop
    split
    · simp only [heap_room_map_dc, set_index_map_dc, ref_dec_map_dc, ih]
    · rfl

theorem reindex_loop_dc : ∀ (t : List Nat) (j : Nat) (heap : List nghttp2_hd_entry),
    reindex_loop t j (heap.map entry_downcase) = (reindex_loop t j heap).map entry_downcase := by
  intro t
  induction t with
  | nil => intro j heap; rfl
  | cons p rest ih =>
    intro j heap
    unfold reindex_loop
    rw [set_index_map_dc, ih]

theorem add_hd_table_incremental_dc (c : nghttp2_hd_context) (nv : nghttp2_nv) :
    add_hd_table_incremental (context_downcase c) (nv_downcase nv) =
      (context_downcase (add_hd_table_incremental c nv).1, (add_hd_table_incremental c nv).2) := by
  unfold add_hd_table_incremental
  simp only [context_downcase, nv_downcase_name, nv_downcase_value, nghttp2_downcase_length]
  split
  · rfl
  · simp only [evict_loop_dc]
    split
    · simp only [reindex_loop_dc, List.length_map, List.map_append, List.map_cons, List.map_nil]
      rfl
    · simp only [List.length_map, List.map_append, List.map_cons, List.map_nil]
      rfl

theorem add_workingset_dc (c : nghttp2_hd_context) (p : Nat) :
    add_workingset (context_downcase c) p =
      (add_workingset c p).map context_downcase := by
  unfold add_workingset
  simp only [context_downcase, List.length_map]
  split
  · rfl
  · simp [Except.map, heap_get_map_dc, ref_inc_map_dc, ws_entry_downcase, context_downcase]

theorem add_workingset_newname_dc (c : nghttp2_hd_context) (nv : nghttp2_nv) :
    add_workingset_newname (context_downcase c) (nv_downcase nv) =
      (add_workingset_newname c nv).map context_downcase := by
  unfold add_workingset_newname
  simp only [context_downcase, List.length_map]
  split
  · rfl
  · simp [Except.map, ws_entry_downcase, context_downcase]

theorem add_workingset_indname_dc (c : nghttp2_hd_context) (p : Nat) (value : List Nat) :
    add_workingset_indname (context_downcase c) p value =
      (add_workingset_indname c p value).map context_downcase := by
  unfold add_workingset_indname
  simp only [context_downcase, List.length_map]
  split
  · rfl
  · simp [Except.map, ref_inc_map_dc, ws_entry_downcase, context_downcase]

theorem remove_from_workingset_loop_dc (index : Nat) :
    ∀ (ws : List nghttp2_hd_ws_entry) (heap : List nghttp2_hd_entry),
      remove_from_workingset_loop index (ws.map ws_entry_downcase) (heap.map entry_downcase) =
        ((remove_from_workingset_loop index ws heap).1.map ws_entry_downcase,
          (remove_from_workingset_loop index ws heap).2.1.map entry_downcase,
          (remove_from_workingset_loop index ws heap).2.2) := by
  intro ws
  induction ws with
  | nil => intro heap; rfl
  | cons cell rest ih =>
    intro heap
    cases cell with
    | indexed ent i =>
      simp only [List.map_cons, ws_entry_downcase, remove_from_workingset_loop]
      split
      · simp only [ref_dec_map_dc, ih, List.map_cons, ws_entry_downcase]
      · simp only [ih, List.map_cons, ws_entry_downcase]
    | indname ent v =>
      simp only [List.map_cons, ws_entry_downcase, remove_from_workingset_loop, ih]
    | newname nv =>
      simp only [List.map_cons, ws_entry_downcase, remove_from_workingset_loop, ih]
    | none =>
      simp only [List.map_cons, ws_entry_downcase, remove_from_workingset_loop, ih]

theorem remove_from_workingset_by_index_dc (c : nghttp2_hd_context) (index : Nat) :
    remove_from_workingset_by_index (context_downcase c) index =
      (context_downcase (remove_from_workingset_by_index c index).1,
        (remove_from_workingset_by_index c index).2) := by
  unfold remove_from_workingset_by_index
  simp only [context_downcase, remove_from_workingset_loop_dc]

theorem create_workingset_dc (c : nghttp2_hd_context) :
    create_workingset (context_downcase c) = context_downcase (create_workingset c) := by
  unfold create_workingset context_downcase
  simp only [List.map_map, nghttp2_hd_context.mk.injEq, true_and, and_true]
  apply List.map_congr_left
  intro p _
  simp [heap_get_map_dc, ws_entry_downcase]

theorem end_headers_loop_dc : ∀ (ws : List nghttp2_hd_ws_entry) (checks : List Nat)
    (heap : List nghttp2_hd_entry) (refset : List Nat),
    end_headers_loop (ws.map ws_entry_downcase) checks (heap.map entry_downcase) refset =
      ((end_headers_loop ws checks heap refset).1.map entry_downcase,
        (end_headers_loop ws checks heap refset).2) := by
  intro ws
  induction ws with
  | nil => intro checks heap refset; rfl
  | cons cell rest ih =>
    intro checks heap refset
    cases cell with
    | indexed ent i =>
      simp only [List.map_cons, ws_entry_downcase, end_headers_loop, heap_get_map_dc,
        entry_downcase_index]
      split
      · rw [ih]
      · rw [ref_dec_map_dc, ih]
    | indname ent v =>
      simp only [List.map_cons, ws_entry_downcase, end_headers_loop]
      rw [ref_dec_map_dc, ih]
    | newname nv =>
      simp only [List.map_cons, ws_entry_downcase, end_headers_loop]
      rw [ih]
    | none =>
      simp only [List.map_cons, ws_entry_downcase, end_headers_loop]
      rw [ih]

theorem nghttp2_hd_end_headers_dc (c : nghttp2_hd_context) :
    nghttp2_hd_end_headers (context_downcase c) =
      (nghttp2_hd_end_headers c).map context_downcase := by
  unfold nghttp2_hd_end_headers
  simp only [context_downcase]
  split
  · rfl
  · simp [end_headers_loop_dc, Except.map, context_downcase]

theorem ws_entry_nv_dc (heap : List nghttp2_hd_entry) (cell : nghttp2_hd_ws_entry) :
    ws_entry_nv (heap.map entry_downcase) (ws_entry_downcase cell) =
      (ws_entry_nv heap cell).map nv_downcase := by
  cases cell <;> simp [ws_entry_nv, ws_entry_downcase, heap_get_map_dc, nv_downcase]

theorem ws_nvs_dc (c : nghttp2_hd_context) :
    ws_nvs (context_downcase c) = (ws_nvs c).map nv_downcase := by
  unfold ws_nvs context_downcase
  simp only
  induction c.ws with
  | nil => rfl
  | cons cell rest ih =>
    simp only [List.map_cons, List.filterMap_cons, ws_entry_nv_dc]
    cases h : ws_entry_nv c.heap cell with
    | none => simpa using ih
    | some nv => simpa using ih

end Nghttp2

namespace Nghttp2

theorem heap_get_of_lt (heap : List nghttp2_hd_entry) (p : Nat) (h : p < heap.length) :
    heap[p]? = some (heap_get heap p) := by
  simp [heap_get, List.getElem?_eq_getElem h]

theorem heap_set_set_comm (heap : List nghttp2_hd_entry) (p q : Nat)
    (f g : nghttp2_hd_entry → nghttp2_hd_entry) (hfg : ∀ x, f (g x) = g (f x)) :
    (heap.set p (f (heap_get heap p))).set q
        (g (heap_get (heap.set p (f (heap_get heap p))) q)) =
      (heap.set q (g (heap_get heap q))).set p
        (f (heap_get (heap.set q (g (heap_get heap q))) p)) := by
  apply List.ext_getElem?
  intro i
  simp only [List.getElem?_set, heap_get_set, List.length_set]
  by_cases hpq : p = q
  · subst hpq
    by_cases hi : p = i
    · subst hi
      by_cases hl : p < heap.length
      · simp [hl, hfg]
      · simp [hl]
    · simp [hi]
  · have hqp : ¬ q = p := fun h => hpq h.symm
    by_cases hi : p = i
    · subst hi
      simp [hpq, hqp]
    · by_cases hi2 : q = i
      · subst hi2
        simp [hpq, hqp]
      · simp [hi, hi2]

theorem ref_dec_ref_inc_comm (heap : List nghttp2_hd_entry) (p q : Nat) :
    ref_dec (ref_inc heap p) q = ref_inc (ref_dec heap q) p := by
  unfold ref_dec ref_inc
  exact heap_set_set_comm heap p q (fun e => { e with ref := e.ref + 1 })
    (fun e => { e with ref := e.ref - 1 }) (fun x => by simp)

theorem set_index_ref_inc_comm (heap : List nghttp2_hd_entry) (p q i : Nat) :
    set_index (ref_inc heap p) q i = ref_inc (set_index heap q i) p := by
  unfold set_index ref_inc
  exact heap_set_set_comm heap p q (fun e => { e with ref := e.ref + 1 })
    (fun e => { e with index := i }) (fun x => rfl)

theorem ref_dec_ref_inc_cancel (heap : List nghttp2_hd_entry) (p : Nat) :
    ref_dec (ref_inc heap p) p = heap := by
  unfold ref_dec ref_inc
  apply List.ext_getElem?
  intro i
  simp only [List.getElem?_set, heap_get_set, List.length_set]
  by_cases hi : p = i
  · subst hi
    by_cases hl : p < heap.length
    · simp [hl, heap_get_of_lt heap p hl]
    · simp [hl, List.getElem?_eq_none (Nat.le_of_not_lt hl)]
  · simp [hi]

theorem heap_room_ref_inc2 (heap : List nghttp2_hd_entry) (p q : Nat) :
    heap_room (ref_inc heap p) q = heap_room heap q := by
  simp

theorem evict_loop_ref_inc (e : Nat) : ∀ (t : List Nat) (heap : List nghttp2_hd_entry) (b : Nat),
    evict_loop t (ref_inc heap e) b =
      ((evict_loop t heap b).1, ref_inc (evict_loop t heap b).2.1 e,
        (evict_loop t heap b).2.2) := by
  intro t
  induction t with
  | nil => intro heap b; rfl
  | cons p rest ih =>
    intro heap b
    unfold evict_loop
    split
    · simp only [heap_room_ref_inc, set_index_ref_inc_comm, ref_dec_ref_inc_comm, ih]
    · rfl

theorem reindex_loop_ref_inc (e : Nat) : ∀ (t : List Nat) (j : Nat)
    (heap : List nghttp2_hd_entry),
    reindex_loop t j (ref_inc heap e) = ref_inc (reindex_loop t j heap) e := by
  intro t
  induction t with
  | nil => intro j heap; rfl
  | cons p rest ih =>
    intro j heap
    unfold reindex_loop
    rw [set_index_ref_inc_comm, ih]

@[simp] theorem evict_loop_length : ∀ (t : List Nat) (heap : List nghttp2_hd_entry) (b : Nat),
    (evict_loop t heap b).2.1.length = heap.length := by
  intro t
  induction t with
  | nil => intro heap b; rfl
  | cons p rest ih =>
    intro heap b
    unfold evict_loop
    split
    · simp [ih]
    · rfl

@[simp] theorem reindex_loop_length : ∀ (t : List Nat) (j : Nat) (heap : List nghttp2_hd_entry),
    (reindex_loop t j heap).length = heap.length := by
  intro t
  induction t with
  | nil => intro j heap; rfl
  | cons p rest ih =>
    intro j heap
    unfold reindex_loop
    simp [ih]

theorem ref_dec_append_left (heap l : List nghttp2_hd_entry) (p : Nat) (h : p < heap.length) :
    ref_dec (heap ++ l) p = ref_dec heap p ++ l := by
  unfold ref_dec
  have : heap_get (heap ++ l) p = heap_get heap p := by
    simp [heap_get, List.getElem?_append_left h]
  rw [this, List.set_append_left _ _ h]

/-- The temporary reference taken by the inflater around an insertion changes
nothing in the end. -/
theorem add_hd_table_incremental_bump (c : nghttp2_hd_context) (nv : nghttp2_nv) (e : Nat)
    (he : e < c.heap.length) :
    ({ (add_hd_table_incremental { c with heap := ref_inc c.heap e } nv).1 with
        heap := ref_dec (add_hd_table_incremental { c with heap := ref_inc c.heap e } nv).1.heap e },
      (add_hd_table_incremental { c with heap := ref_inc c.heap e } nv).2) =
    add_hd_table_incremental c nv := by
  unfold add_hd_table_incremental
  simp only
  split
  · simp only [ref_dec_ref_inc_cancel]
  · simp only [evict_loop_ref_inc]
    split
    · simp only [reindex_loop_ref_inc, ref_inc_length]
      rw [ref_dec_append_left _ _ _ (by simp; exact he), ref_dec_ref_inc_cancel]
    · simp only [ref_inc_length]
      rw [ref_dec_append_left _ _ _ (by simp; exact he), ref_dec_ref_inc_cancel]

end Nghttp2

namespace Nghttp2

/-! ### Buffers -/

theorem reserve_getD (buf : List Nat) (n i : Nat) :
    (nghttp2_reserve_buffer buf n).getD i 0 = buf.getD i 0 := by
  unfold nghttp2_reserve_buffer
  split
  · simp only [List.getD_eq_getElem?_getD]
    by_cases hi : i < buf.length
    · rw [List.getElem?_append_left hi]
    · rw [List.getElem?_append_right (by omega), List.getElem?_eq_none (l := buf) (by omega)]
      simp only [List.getElem?_replicate]
      split <;> rfl
  · rfl

theorem reserve_length_ge (buf : List Nat) (n : Nat) :
    n ≤ (nghttp2_reserve_buffer buf n).length := by
  unfold nghttp2_reserve_buffer
  split
  · simp; omega
  · omega

theorem write_bytes_getD_lt (buf data : List Nat) (off i : Nat) (h : off ≤ buf.length)
    (hi : i < off) : (write_bytes buf off data).getD i 0 = buf.getD i 0 := by
  unfold write_bytes
  simp only [List.getD_eq_getElem?_getD, List.append_assoc]
  rw [List.getElem?_append_left (by simp; omega), List.getElem?_take_of_lt hi]

theorem write_bytes_getD_mid (buf data : List Nat) (off i : Nat) (h : off ≤ buf.length)
    (hi : i < data.length) : (write_bytes buf off data).getD (off + i) 0 = data.getD i 0 := by
  unfold write_bytes
  simp only [List.getD_eq_getElem?_getD, List.append_assoc]
  rw [List.getElem?_append_right (by simp), List.length_take, Nat.min_eq_left h,
    Nat.add_sub_cancel_left, List.getElem?_append_left hi]

theorem write_bytes_getD_ge (buf data : List Nat) (off i : Nat)
    (h : off + data.length ≤ buf.length) (hi : off + data.length ≤ i) :
    (write_bytes buf off data).getD i 0 = buf.getD i 0 := by
  unfold write_bytes
  simp only [List.getD_eq_getElem?_getD, List.append_assoc]
  rw [List.getElem?_append_right (by simp; omega), List.length_take,
    Nat.min_eq_left (by omega), List.getElem?_append_right (by omega), List.getElem?_drop]
  congr 2
  omega

theorem write_bytes_length (buf data : List Nat) (off : Nat)
    (h : off + data.length ≤ buf.length) : (write_bytes buf off data).length = buf.length := by
  unfold write_bytes
  simp only [List.length_append, List.length_take, List.length_drop]
  omega

theorem write_bytes_write_bytes (buf A B : List Nat) (off : Nat)
    (h : off + A.length ≤ buf.length) :
    write_bytes (write_bytes buf off A) (off + A.length) B = write_bytes buf off (A ++ B) := by
  unfold write_bytes
  have h1 : (List.take off buf ++ A ++ List.drop (off + A.length) buf).take (off + A.length) =
      List.take off buf ++ A := by
    rw [List.take_append_of_le_length (by simp; omega)]
    exact List.take_of_length_le (by simp)
  have h2 : (List.take off buf ++ A ++ List.drop (off + A.length) buf).drop
      (off + A.length + B.length) = List.drop (off + (A ++ B).length) buf := by
    rw [List.drop_append_eq_append_drop]
    have : (List.take off buf ++ A).length = off + A.length := by simp; omega
    rw [this, List.drop_of_length_le (by rw [this]; omega)]
    simp only [List.nil_append, List.drop_drop, List.length_append]
    congr 1
    omega
  rw [h1, h2]
  simp

theorem or_byte_write_bytes (buf rest : List Nat) (off a tag : Nat) (h : off < buf.length) :
    or_byte (write_bytes buf off (a :: rest)) off tag =
      write_bytes buf off (or_head tag (a :: rest)) := by
  unfold or_byte write_bytes or_head
  have hl : (List.take off buf).length = off := by simp; omega
  simp only [List.getD_eq_getElem?_getD, List.append_assoc, List.length_cons]
  rw [List.getElem?_append_right (by omega), hl, Nat.sub_self]
  simp only [List.cons_append, List.getElem?_cons_zero, Option.getD_some]
  rw [List.set_append_right _ _ (by omega), hl, Nat.sub_self]
  rfl

theorem encode_length_snd (n p : Nat) : (encode_length n p).2 = (encode_length n p).1.length := by
  rw [encode_length_eq]
  split
  · simp only [List.length_cons]; omega
  · rfl

theorem count_encoded_length_eq (n p : Nat) :
    count_encoded_length n p = (encode_length n p).1.length := by
  rw [encode_length_eq]
  unfold count_encoded_length
  simp only [one_shl]
  split
  · rw [count_encoded_length_loop_eq _ _ _ (Nat.lt_add_one _)]
    simp only [List.length_cons]; omega
  · rfl

theorem encode_length_ne_nil (n p : Nat) : (encode_length n p).1 ≠ [] := by
  rw [encode_length_eq]
  split <;> simp

theorem or_head_length (tag : Nat) (l : List Nat) : (or_head tag l).length = l.length := by
  cases l <;> rfl

/-- What a block written behind `offset` leaves in the buffer. -/
theorem put_block_spec (buf B : List Nat) (off : Nat) :
    (∀ i, i < off →
      (write_bytes (nghttp2_reserve_buffer buf (off + B.length)) off B).getD i 0 =
        buf.getD i 0) ∧
    mem_holds (memOf (write_bytes (nghttp2_reserve_buffer buf (off + B.length)) off B)) off B := by
  have hl := reserve_length_ge buf (off + B.length)
  constructor
  · intro i hi
    rw [write_bytes_getD_lt _ _ _ _ (by omega) hi, reserve_getD]
  · intro i hi
    unfold memOf
    rw [write_bytes_getD_mid _ _ _ _ (by omega) hi]

theorem emit_indexed_block_ok (buf : List Nat) (off index : Nat) (buf1 : List Nat) (off1 : Nat)
    (h : emit_indexed_block buf off index = .ok (buf1, off1)) :
    off1 = off + (indexed_block index).length ∧ off1 ≤ NGHTTP2_MAX_FRAME_LENGTH ∧
    buf1 = write_bytes (nghttp2_reserve_buffer buf (off + (indexed_block index).length)) off
      (indexed_block index) := by
  unfold emit_indexed_block ensure_write_buffer at h
  simp only [count_encoded_length_eq] at h
  have hlen : (indexed_block index).length = (encode_length index 7).1.length := by
    unfold indexed_block; rw [or_head_length]
  by_cases hle : (encode_length index 7).1.length + off > NGHTTP2_MAX_FRAME_LENGTH
  · simp [hle] at h
  · simp only [hle, if_false, Except.ok.injEq, Prod.mk.injEq] at h
    obtain ⟨h1, h2⟩ := h
    refine ⟨by omega, by omega, ?_⟩
    rw [← h1, hlen]
    obtain ⟨a, rest, hcons⟩ := List.exists_cons_of_ne_nil (encode_length_ne_nil index 7)
    have hl := reserve_length_ge buf (off + (encode_length index 7).1.length)
    unfold indexed_block
    rw [hcons] at hl ⊢
    simp only [List.length_cons] at hl
    rw [or_byte_write_bytes _ _ _ _ _ (by simp only [List.length_cons]; omega)]

end Nghttp2

namespace Nghttp2

theorem emit_indname_block_ok (buf : List Nat) (off index : Nat) (value : List Nat) (inc : Bool)
    (buf1 : List Nat) (off1 : Nat)
    (h : emit_indname_block buf off index value inc = .ok (buf1, off1)) :
    off1 = off + (indname_block index value inc).length ∧ off1 ≤ NGHTTP2_MAX_FRAME_LENGTH ∧
    buf1 = write_bytes (nghttp2_reserve_buffer buf (off + (indname_block index value inc).length))
      off (indname_block index value inc) := by
  unfold emit_indname_block ensure_write_buffer at h
  simp only [count_encoded_length_eq, encode_length_snd] at h
  have hlen : (indname_block index value inc).length =
      (encode_length (index + 1) 5).1.length + (encode_length value.length 8).1.length +
        value.length := by
    unfold indname_block; rw [or_head_length]; simp; omega
  by_cases hle : (encode_length (index + 1) 5).1.length + (encode_length value.length 8).1.length +
      value.length + off > NGHTTP2_MAX_FRAME_LENGTH
  · simp [hle] at h
  · have hassert : off + (encode_length (index + 1) 5).1.length +
        (encode_length value.length 8).1.length + value.length - off =
        (encode_length (index + 1) 5).1.length + (encode_length value.length 8).1.length +
          value.length := by omega
    simp only [hle, if_false, hassert, ne_eq, not_true_eq_false, Except.ok.injEq,
      Prod.mk.injEq] at h
    obtain ⟨h1, h2⟩ := h
    refine ⟨by omega, by omega, ?_⟩
    rw [← h1, hlen]
    have hl := reserve_length_ge buf (off + ((encode_length (index + 1) 5).1.length +
      (encode_length value.length 8).1.length + value.length))
    have hpos : 0 < (encode_length (index + 1) 5).1.length :=
      List.length_pos.mpr (encode_length_ne_nil _ _)
    generalize nghttp2_reserve_buffer buf (off + ((encode_length (index + 1) 5).1.length +
      (encode_length value.length 8).1.length + value.length)) = R at hl ⊢
    have w1 := write_bytes_write_bytes R (encode_length (index + 1) 5).1
      (encode_length value.length 8).1 off (by omega)
    have w2 := write_bytes_write_bytes R
      ((encode_length (index + 1) 5).1 ++ (encode_length value.length 8).1) value off
      (by simp only [List.length_append]; omega)
    simp only [List.length_append, ← Nat.add_assoc] at w2
    rw [w1, w2]
    obtain ⟨a, rest, hcons⟩ := List.exists_cons_of_ne_nil (encode_length_ne_nil (index + 1) 5)
    unfold indname_block
    rw [hcons]
    simp only [List.cons_append]
    rw [or_byte_write_bytes _ _ _ _ _ (by omega)]

theorem emit_newname_block_ok (buf : List Nat) (off : Nat) (nv : nghttp2_nv) (inc : Bool)
    (buf1 : List Nat) (off1 : Nat)
    (h : emit_newname_block buf off nv inc = .ok (buf1, off1)) :
    off1 = off + (newname_block nv inc).length ∧ off1 ≤ NGHTTP2_MAX_FRAME_LENGTH ∧
    buf1 = write_bytes (nghttp2_reserve_buffer buf (off + (newname_block nv inc).length))
      off (newname_block nv inc) := by
  unfold emit_newname_block ensure_write_buffer at h
  simp only [count_encoded_length_eq, encode_length_snd] at h
  have hlen : (newname_block nv inc).length =
      1 + (encode_length nv.name.length 8).1.length + nv.name.length +
        (encode_length nv.value.length 8).1.length + nv.value.length := by
    unfold newname_block; simp; omega
  by_cases hle : 1 + (encode_length nv.name.length 8).1.length + nv.name.length +
      (encode_length nv.value.length 8).1.length + nv.value.length + off >
      NGHTTP2_MAX_FRAME_LENGTH
  · simp [hle] at h
  · simp only [hle, if_false, Except.ok.injEq, Prod.mk.injEq] at h
    obtain ⟨h1, h2⟩ := h
    refine ⟨by omega, by omega, ?_⟩
    rw [← h1, hlen]
    have hl := reserve_length_ge buf (off + (1 + (encode_length nv.name.length 8).1.length +
      nv.name.length + (encode_length nv.value.length 8).1.length + nv.value.length))
    generalize nghttp2_reserve_buffer buf (off + (1 + (encode_length nv.name.length 8).1.length +
      nv.name.length + (encode_length nv.value.length 8).1.length + nv.value.length)) = R
      at hl ⊢
    have w1 := write_bytes_write_bytes R
      [if inc = true then 0x40 else 0x60] (encode_length nv.name.length 8).1 off
      (by simp only [List.length_singleton]; omega)
    have w2 := write_bytes_write_bytes R
      ([if inc = true then 0x40 else 0x60] ++ (encode_length nv.name.length 8).1) nv.name off
      (by simp only [List.length_append, List.length_singleton]; omega)
    have w3 := write_bytes_write_bytes R
      ([if inc = true then 0x40 else 0x60] ++ (encode_length nv.name.length 8).1 ++ nv.name)
      (encode_length nv.value.length 8).1 off
      (by simp only [List.length_append, List.length_singleton]; omega)
    have w4 := write_bytes_write_bytes R
      ([if inc = true then 0x40 else 0x60] ++ (encode_length nv.name.length 8).1 ++ nv.name ++
        (encode_length nv.value.length 8).1) nv.value off
      (by simp only [List.length_append, List.length_singleton]; omega)
    simp only [List.length_append, List.length_singleton, ← Nat.add_assoc] at w1 w2 w3 w4
    rw [w1, w2, w3, w4]
    rfl

/-! ### Reading memory -/

theorem mem_holds_append (mem : Nat → Nat) (a : Nat) (A B : List Nat) :
    mem_holds mem a (A ++ B) ↔ mem_holds mem a A ∧ mem_holds mem (a + A.length) B := by
  unfold mem_holds
  constructor
  · intro h
    constructor
    · intro i hi
      have := h i (by simp; omega)
      rw [this]
      simp only [List.getD_eq_getElem?_getD]
      rw [List.getElem?_append_left hi]
    · intro i hi
      have := h (A.length + i) (by simp; omega)
      rw [Nat.add_assoc, this]
      simp only [List.getD_eq_getElem?_getD]
      rw [List.getElem?_append_right (by omega), Nat.add_sub_cancel_left]
  · intro ⟨h1, h2⟩ i hi
    simp only [List.length_append] at hi
    simp only [List.getD_eq_getElem?_getD]
    by_cases hA : i < A.length
    · rw [List.getElem?_append_left hA, h1 i hA]
      simp only [List.getD_eq_getElem?_getD]
    · rw [List.getElem?_append_right (by omega)]
      have := h2 (i - A.length) (by omega)
      simp only [List.getD_eq_getElem?_getD] at this
      rw [← this]
      congr 1
      omega

theorem mem_read_of_holds (mem : Nat → Nat) (a : Nat) (data : List Nat)
    (h : mem_holds mem a data) : mem_read mem a data.length = data := by
  unfold mem_read
  apply List.ext_getElem?
  intro i
  by_cases hi : i < data.length
  · simp only [List.getElem?_map, List.getElem?_range hi, Option.map_some']
    rw [h i hi]
    simp [List.getD_eq_getElem?_getD, List.getElem?_eq_getElem hi]
  · rw [List.getElem?_eq_none (by simp; omega), List.getElem?_eq_none (by omega)]

theorem mem_holds_of_agree (mem mem1 : Nat → Nat) (a : Nat) (data : List Nat)
    (h : mem_holds mem1 a data) (hag : ∀ i, a ≤ i → i < a + data.length → mem i = mem1 i) :
    mem_holds mem a data := by
  intro i hi
  rw [hag (a + i) (by omega) (by omega), h i hi]

end Nghttp2

namespace Nghttp2

/-! ### Decoding the blocks -/

theorem or_80_facts : ∀ a, a < 128 →
    (a ||| 0x80) % 256 = a ||| 0x80 ∧ (a ||| 0x80) &&& 0x80 ≠ 0 := by decide

theorem or_40_facts : ∀ a, a < 32 → 1 ≤ a →
    (a ||| 0x40) % 256 = a ||| 0x40 ∧ (a ||| 0x40) &&& 0x80 = 0 ∧ (a ||| 0x40) ≠ 0x60 ∧
    (a ||| 0x40) ≠ 0x40 ∧ (a ||| 0x40) &&& 0x40 = 0x40 ∧ (a ||| 0x40) &&& 0x60 ≠ 0x60 := by
  decide

theorem or_60_facts : ∀ a, a < 32 → 1 ≤ a →
    (a ||| 0x60) % 256 = a ||| 0x60 ∧ (a ||| 0x60) &&& 0x80 = 0 ∧ (a ||| 0x60) ≠ 0x60 ∧
    (a ||| 0x60) ≠ 0x40 ∧ (a ||| 0x60) &&& 0x60 = 0x60 := by
  decide

theorem encode_length_head_pos (n p : Nat) (hp : p = 5 ∨ p = 6 ∨ p = 7 ∨ p = 8) (hn : 1 ≤ n) :
    ∀ b ∈ (encode_length n p).1.head?, 1 ≤ b := by
  have hk : 2 ^ p - 1 < 256 := by rcases hp with rfl | rfl | rfl | rfl <;> norm_num
  have hk1 : 2 ≤ 2 ^ p := by rcases hp with rfl | rfl | rfl | rfl <;> norm_num
  rw [encode_length_eq]
  intro b hb
  split at hb
  · simp only [List.head?_cons, Option.mem_def, Option.some.injEq] at hb
    rw [Nat.mod_eq_of_lt hk] at hb
    omega
  · simp only [List.head?_cons, Option.mem_def, Option.some.injEq] at hb
    rw [Nat.mod_eq_of_lt (by omega)] at hb
    omega

theorem decode_length_plain (n : Nat) (hn : n ≤ 65535) (mem : Nat → Nat) (a last : Nat)
    (hm : mem_holds mem a (encode_length n 8).1)
    (hl : a + (encode_length n 8).1.length ≤ last) :
    decode_length mem a last 8 = ((n : Int), some (a + (encode_length n 8).1.length)) := by
  obtain ⟨x, rest, hcons⟩ := List.exists_cons_of_ne_nil (encode_length_ne_nil n 8)
  have h := decode_length_encode_length 8 (by decide) n hn 0 (by decide) mem a last
  rw [encode_length_snd] at h
  rw [hcons] at hm h hl ⊢
  obtain ⟨h1, h2⟩ := mem_holds_cons _ _ _ _ hm
  exact h (by simpa using h1) (by simpa using h2) (by simpa using hl)

theorem decode_indexed_block (mem : Nat → Nat) (p last idx : Nat) (hidx : idx ≤ 65535)
    (hm : mem_holds mem p (indexed_block idx))
    (hl : p + (indexed_block idx).length ≤ last) :
    mem p &&& 0x80 ≠ 0 ∧
    decode_length mem p last 7 = ((idx : Int), some (p + (indexed_block idx).length)) := by
  obtain ⟨x, rest, hcons⟩ := List.exists_cons_of_ne_nil (encode_length_ne_nil idx 7)
  have hx : x < 128 := by
    have := encode_length_head_lt idx 7 (by decide) x (by rw [hcons]; simp)
    simpa using this
  obtain ⟨f1, f2⟩ := or_80_facts x hx
  have h := decode_length_encode_length 7 (by decide) idx hidx 0x80 (by decide) mem p last
  rw [encode_length_snd] at h
  unfold indexed_block at hm hl ⊢
  rw [hcons] at hm hl h ⊢
  simp only [or_head] at hm hl ⊢
  obtain ⟨h1, h2⟩ := mem_holds_cons _ _ _ _ hm
  rw [f1] at h1
  refine ⟨by rw [h1]; exact f2, ?_⟩
  exact h (by simpa using h1) (by simpa using h2) (by simpa using hl)

/-- The two integers and the value of a literal block with an indexed name. -/
theorem decode_indname_block (mem : Nat → Nat) (p last index : Nat) (value : List Nat)
    (inc : Bool) (hidx : index + 1 ≤ 65535) (hv : value.length ≤ 65535)
    (hm : mem_holds mem p (indname_block index value inc))
    (hl : p + (indname_block index value inc).length ≤ last) :
    mem p = (encode_length (index + 1) 5).1.headD 0 ||| (if inc then 0x40 else 0x60) ∧
    (∃ a, (encode_length (index + 1) 5).1.headD 0 = a ∧ a < 32 ∧ 1 ≤ a) ∧
    decode_length mem p last 5 =
      (((index + 1 : Nat) : Int), some (p + (encode_length (index + 1) 5).1.length)) ∧
    decode_length mem (p + (encode_length (index + 1) 5).1.length) last 8 =
      ((value.length : Int), some (p + (encode_length (index + 1) 5).1.length +
        (encode_length value.length 8).1.length)) ∧
    mem_read mem (p + (encode_length (index + 1) 5).1.length +
        (encode_length value.length 8).1.length) value.length = value ∧
    p + (encode_length (index + 1) 5).1.length + (encode_length value.length 8).1.length +
      value.length = p + (indname_block index value inc).length := by
  obtain ⟨x, rest, hcons⟩ := List.exists_cons_of_ne_nil (encode_length_ne_nil (index + 1) 5)
  have hx : x < 32 := by
    have := encode_length_head_lt (index + 1) 5 (by decide) x (by rw [hcons]; simp)
    simpa using this
  have hx1 : 1 ≤ x :=
    encode_length_head_pos (index + 1) 5 (by decide) (by omega) x (by rw [hcons]; simp)
  have hblock : indname_block index value inc =
      ((x ||| (if inc then 0x40 else 0x60)) % 256) ::
        (rest ++ (encode_length value.length 8).1 ++ value) := by
    unfold indname_block
    rw [hcons]
    simp [or_head]
  have hlen : (indname_block index value inc).length =
      (encode_length (index + 1) 5).1.length + (encode_length value.length 8).1.length +
        value.length := by
    rw [hblock, hcons]; simp; omega
  have hmod : (x ||| (if inc then 0x40 else 0x60)) % 256 = x ||| (if inc then 0x40 else 0x60) := by
    cases inc
    · exact (or_60_facts x hx hx1).1
    · exact (or_40_facts x hx hx1).1
  rw [hblock] at hm
  obtain ⟨h1, h2⟩ := mem_holds_cons _ _ _ _ hm
  rw [hmod] at h1
  rw [List.append_assoc, mem_holds_append] at h2
  obtain ⟨h2, h3⟩ := h2
  rw [mem_holds_append] at h3
  obtain ⟨h3, h4⟩ := h3
  have hd1 := decode_length_encode_length 5 (by decide) (index + 1) hidx
    (if inc then 0x40 else 0x60) (by cases inc <;> decide) mem p last
  rw [encode_length_snd] at hd1
  rw [hcons] at hd1 hlen ⊢
  simp only [List.headD_cons, List.tail_cons, List.length_cons] at hd1 hlen ⊢
  have e1 : p + 1 + rest.length = p + (rest.length + 1) := by omega
  rw [e1] at h3 h4
  refine ⟨h1, ⟨x, rfl, hx, hx1⟩, hd1 h1 h2 (by omega), ?_, ?_, by omega⟩
  · exact decode_length_plain value.length hv mem _ last h3 (by omega)
  · exact mem_read_of_holds mem _ value h4

/-- The two integers, the name and the value of a literal block with a new name. -/
theorem decode_newname_block (mem : Nat → Nat) (p last : Nat) (nv : nghttp2_nv)
    (inc : Bool) (hn : nv.name.length ≤ 65535) (hv : nv.value.length ≤ 65535)
    (hm : mem_holds mem p (newname_block nv inc))
    (hl : p + (newname_block nv inc).length ≤ last) :
    mem p = (if inc then 0x40 else 0x60) ∧
    p + 1 ≠ last ∧
    decode_length mem (p + 1) last 8 =
      ((nv.name.length : Int), some (p + 1 + (encode_length nv.name.length 8).1.length)) ∧
    mem_read mem (p + 1 + (encode_length nv.name.length 8).1.length) nv.name.length = nv.name ∧
    decode_length mem (p + 1 + (encode_length nv.name.length 8).1.length + nv.name.length) last 8 =
      ((nv.value.length : Int), some (p + 1 + (encode_length nv.name.length 8).1.length +
        nv.name.length + (encode_length nv.value.length 8).1.length)) ∧
    mem_read mem (p + 1 + (encode_length nv.name.length 8).1.length +
        nv.name.length + (encode_length nv.value.length 8).1.length) nv.value.length = nv.value ∧
    p + 1 + (encode_length nv.name.length 8).1.length + nv.name.length +
      (encode_length nv.value.length 8).1.length + nv.value.length =
      p + (newname_block nv inc).length := by
  have hlen : (newname_block nv inc).length =
      1 + (encode_length nv.name.length 8).1.length + nv.name.length +
        (encode_length nv.value.length 8).1.length + nv.value.length := by
    unfold newname_block; simp; omega
  have hpos : 0 < (encode_length nv.name.length 8).1.length :=
    List.length_pos.mpr (encode_length_ne_nil _ _)
  unfold newname_block at hm
  simp only [List.append_assoc] at hm
  rw [mem_holds_append] at hm
  obtain ⟨h1, h2⟩ := hm
  have h1 : mem p = (if inc then 0x40 else 0x60) := by
    have := h1 0 (by simp)
    simpa using this
  simp only [List.length_singleton] at h2
  rw [mem_holds_append] at h2
  obtain ⟨h2, h3⟩ := h2
  rw [mem_holds_append] at h3
  obtain ⟨h3, h4⟩ := h3
  rw [mem_holds_append] at h4
  obtain ⟨h4, h5⟩ := h4
  refine ⟨h1, by omega, ?_, ?_, ?_, ?_, by omega⟩
  · exact decode_length_plain nv.name.length hn mem _ last h2 (by omega)
  · exact mem_read_of_holds mem _ nv.name h3
  · exact decode_length_plain nv.value.length hv mem _ last h4 (by omega)
  · exact mem_read_of_holds mem _ nv.value h5

end Nghttp2

namespace Nghttp2

theorem to_size_t_natCast (n : Nat) (h : n < 2 ^ 64) : to_size_t (n : Int) = (n : Int) := by
  unfold to_size_t
  exact Int.emod_eq_of_lt (by omega) (by exact_mod_cast h)

theorem inflate_step_indexed_block (mem : Nat → Nat) (last p idx : Nat)
    (c : nghttp2_hd_context) (hidx : idx ≤ 65535)
    (hm : mem_holds mem p (indexed_block idx))
    (hl : p + (indexed_block idx).length ≤ last) :
    inflate_step mem last p c =
      if (remove_from_workingset_by_index c idx).2 = 0 then
        if (remove_from_workingset_by_index c idx).1.hd_table.length ≤ idx then
          .fail .NGHTTP2_ERR_HEADER_COMP (remove_from_workingset_by_index c idx).1
        else
          match add_workingset (remove_from_workingset_by_index c idx).1
              ((remove_from_workingset_by_index c idx).1.hd_table.getD idx 0) with
          | .error rv => .fail rv (remove_from_workingset_by_index c idx).1
          | .ok c2 => .next (p + (indexed_block idx).length) c2
      else .next (p + (indexed_block idx).length) (remove_from_workingset_by_index c idx).1 := by
  obtain ⟨h1, h2⟩ := decode_indexed_block mem p last idx hidx hm hl
  unfold inflate_step
  simp only [h1, ne_eq, not_false_eq_true, if_true]
  unfold inflate_indexed
  simp only [h2, Int.toNat_ofNat, to_size_t_natCast idx (by omega)]
  have hneg : ¬ ((idx : Int) < 0) := by omega
  simp only [hneg, if_false, Nat.cast_le] <;> rfl

theorem inflate_step_indname_block (mem : Nat → Nat) (last p index : Nat) (value : List Nat)
    (inc : Bool) (c : nghttp2_hd_context) (hidx : index + 1 ≤ 65535) (hv : value.length ≤ 65535)
    (hm : mem_holds mem p (indname_block index value inc))
    (hl : p + (indname_block index value inc).length ≤ last)
    (hlt : index < c.hd_table.length) :
    inflate_step mem last p c =
      if inc = false then
        match add_workingset_indname c (c.hd_table.getD index 0) value with
        | .error rv => .fail rv c
        | .ok c1 => .next (p + (indname_block index value inc).length) c1
      else
        match add_hd_table_incremental
            { c with heap := ref_inc c.heap (c.hd_table.getD index 0) }
            { name := (heap_get (ref_inc c.heap (c.hd_table.getD index 0))
                (c.hd_table.getD index 0)).nv.name, value := value } with
        | (c1, new_ent) =>
          match new_ent with
          | none => .fail .NGHTTP2_ERR_HEADER_COMP
              { c1 with heap := ref_dec c1.heap (c.hd_table.getD index 0) }
          | some new_ent =>
            match add_workingset { c1 with heap := ref_dec c1.heap (c.hd_table.getD index 0) }
                new_ent with
            | .error rv => .fail rv { c1 with heap := ref_dec c1.heap (c.hd_table.getD index 0) }
            | .ok c2 => .next (p + (indname_block index value inc).length) c2 := by
  obtain ⟨h1, ⟨a, ha, ha1, ha2⟩, h2, h3, h4, h5⟩ :=
    decode_indname_block mem p last index value inc hidx hv hm hl
  rw [ha] at h1
  have hlast : ¬ (p + (encode_length (index + 1) 5).1.length +
      (encode_length value.length 8).1.length + value.length > last) := by omega
  have hlast1 : ¬ (p + (indname_block index value inc).length > last) := by omega
  have hsz : to_size_t (((index + 1 : Nat) : Int) - 1) = (index : Int) := by
    have : (((index + 1 : Nat) : Int) - 1) = (index : Int) := by push_cast; ring
    rw [this]; exact to_size_t_natCast index (by omega)
  have htn : (((index + 1 : Nat) : Int) - 1).toNat = index := by
    have : (((index + 1 : Nat) : Int) - 1) = (index : Int) := by push_cast; ring
    rw [this]; rfl
  have hneg1 : ¬ (((index + 1 : Nat) : Int) < 0) := by omega
  have hneg2 : ¬ ((value.length : Int) < 0) := by omega
  have hlt2 : ¬ ((c.hd_table.length : Int) ≤ (index : Int)) := by omega
  unfold inflate_step
  cases inc with
  | false =>
    obtain ⟨f1, f2, f3, f4, f5⟩ := or_60_facts a ha1 ha2
    simp only [Bool.false_eq_true, if_false] at h1
    simp only [h1, f2, f3, f4, f5, ne_eq, not_true_eq_false, if_false, or_self, true_or, if_true]
    unfold inflate_indname
    simp only [h2, hneg1, if_false, hsz, hlt2, htn, h3, hneg2, Int.toNat_ofNat, hlast, h4, f5,
      if_true, h5, hlast1] <;> rfl
  | true =>
    obtain ⟨f1, f2, f3, f4, f5, f6⟩ := or_40_facts a ha1 ha2
    simp only [if_true] at h1
    simp only [h1, f2, f3, f4, f5, f6, ne_eq, not_true_eq_false, if_false, or_self, or_true,
      false_or, if_true]
    unfold inflate_indname
    simp only [h2, hneg1, if_false, hsz, hlt2, htn, h3, hneg2, Int.toNat_ofNat, hlast, h4, f6,
      h5, Bool.true_eq_false, hlast1] <;> rfl

theorem inflate_step_newname_block (mem : Nat → Nat) (last p : Nat) (nv : nghttp2_nv)
    (inc : Bool) (c : nghttp2_hd_context) (hn : nv.name.length ≤ 65535)
    (hv : nv.value.length ≤ 65535)
    (hm : mem_holds mem p (newname_block nv inc))
    (hl : p + (newname_block nv inc).length ≤ last) :
    inflate_step mem last p c =
      if inc = false then
        match add_workingset_newname c (nv_downcase nv) with
        | .error rv => .fail rv c
        | .ok c1 => .next (p + (newname_block nv inc).length) c1
      else
        match add_hd_table_incremental c (nv_downcase nv) with
        | (c1, none) => .fail .NGHTTP2_ERR_HEADER_COMP c1
        | (c1, some ent) =>
          match add_workingset c1 ent with
          | .error rv => .fail rv c1
          | .ok c2 => .next (p + (newname_block nv inc).length) c2 := by
  obtain ⟨h1, h2, h3, h4, h5, h6, h7⟩ := decode_newname_block mem p last nv inc hn hv hm hl
  have hneg1 : ¬ ((nv.name.length : Int) < 0) := by omega
  have hneg2 : ¬ ((nv.value.length : Int) < 0) := by omega
  have hl1 : ¬ (p + 1 + (encode_length nv.name.length 8).1.length + nv.name.length > last) := by
    omega
  have hl2 : ¬ (p + 1 + (encode_length nv.name.length 8).1.length + nv.name.length +
      (encode_length nv.value.length 8).1.length + nv.value.length > last) := by omega
  have hl3 : ¬ (p + (newname_block nv inc).length > last) := by omega
  have hnv : ({ name := nghttp2_downcase nv.name, value := nv.value } : nghttp2_nv) =
      nv_downcase nv := rfl
  unfold inflate_step
  cases inc with
  | false =>
    simp only [Bool.false_eq_true, if_false] at h1
    have e1 : ¬ (96 &&& 128 ≠ 0) := by decide
    simp only [h1, e1, if_false, true_or, if_true]
    unfold inflate_newname
    simp only [h2, if_false, h3, hneg1, Int.toNat_ofNat, hl1, h4, h5, hneg2, hl2, h6, if_true,
      hnv, h7, hl3] <;> rfl
  | true =>
    simp only [if_true] at h1
    have e1 : ¬ (64 &&& 128 ≠ 0) := by decide
    have e2 : ¬ ((64 : Nat) = 96) := by decide
    simp only [h1, e1, if_false, or_true, if_true]
    unfold inflate_newname
    simp only [h2, if_false, h3, hneg1, Int.toNat_ofNat, hl1, h4, h5, hneg2, hl2, h6, e2,
      hnv, h7, hl3] <;> rfl

end Nghttp2

namespace Nghttp2

/-! ### Arenas equal up to reference counts -/

theorem heap_equiv_refl (h : List nghttp2_hd_entry) : heap_equiv h h :=
  ⟨rfl, fun _ => ⟨rfl, rfl⟩⟩

theorem heap_equiv_trans {h1 h2 h3 : List nghttp2_hd_entry} (a : heap_equiv h1 h2)
    (b : heap_equiv h2 h3) : heap_equiv h1 h3 :=
  ⟨a.1.trans b.1, fun p => ⟨(a.2 p).1.trans (b.2 p).1, (a.2 p).2.trans (b.2 p).2⟩⟩

theorem heap_equiv_symm {h1 h2 : List nghttp2_hd_entry} (a : heap_equiv h1 h2) :
    heap_equiv h2 h1 :=
  ⟨a.1.symm, fun p => ⟨(a.2 p).1.symm, (a.2 p).2.symm⟩⟩

theorem heap_equiv_ref_dec (h : List nghttp2_hd_entry) (p : Nat) : heap_equiv (ref_dec h p) h :=
  ⟨by simp, fun q => ⟨by simp, by simp⟩⟩

theorem heap_equiv_ref_inc (h : List nghttp2_hd_entry) (p : Nat) : heap_equiv (ref_inc h p) h :=
  ⟨by simp, fun q => ⟨by simp, by simp⟩⟩

theorem table_inv_of_equiv (c c1 : nghttp2_hd_context) (hinv : table_inv c)
    (he : heap_equiv c1.heap c.heap) (ht : c1.hd_table = c.hd_table)
    (hc : c1.hd_table_capacity = c.hd_table_capacity) : table_inv c1 := by
  obtain ⟨i1, i2, i3, i4⟩ := hinv
  unfold table_inv
  rw [ht, hc, he.1]
  refine ⟨fun i hi => ?_, fun p hp hne => ?_, i3, i4⟩
  · rw [(he.2 _).1]; exact i1 i hi
  · rw [(he.2 _).1] at hne ⊢; exact i2 p hp hne

/-! ### The header table under an insertion -/

theorem table_nodup (c : nghttp2_hd_context) (hinv : table_inv c) : c.hd_table.Nodup := by
  rw [List.nodup_iff_injective_getElem]
  intro ⟨i, hi⟩ ⟨j, hj⟩ h
  simp only at h
  have a := (hinv.1 i hi).2
  have b := (hinv.1 j hj).2
  rw [List.getD_eq_getElem _ _ hi] at a
  rw [List.getD_eq_getElem _ _ hj] at b
  rw [h] at a
  have : i = j := a.symm.trans b
  exact Fin.ext this

theorem table_mem_lt (c : nghttp2_hd_context) (hinv : table_inv c) :
    ∀ p ∈ c.hd_table, p < c.heap.length := by
  intro p hp
  obtain ⟨i, hi, rfl⟩ := List.getElem_of_mem hp
  have := (hinv.1 i hi).1
  rwa [List.getD_eq_getElem _ _ hi] at this

theorem evict_loop_spec : ∀ (t : List Nat) (H : List nghttp2_hd_entry) (b : Nat),
    (∀ p ∈ t, p < H.length) →
    ∃ k, k ≤ t.length ∧ (evict_loop t H b).1 = t.drop k ∧
      (∀ p, (heap_get (evict_loop t H b).2.1 p).nv = (heap_get H p).nv) ∧
      (∀ p, (heap_get (evict_loop t H b).2.1 p).index =
        if p ∈ t.take k then NGHTTP2_HD_INVALID_INDEX else (heap_get H p).index) := by
  intro t
  induction t with
  | nil =>
    intro H b _
    exact ⟨0, by simp, rfl, fun _ => rfl, fun _ => by simp [evict_loop]⟩
  | cons q rest ih =>
    intro H b hlt
    unfold evict_loop
    split
    · have hq : q < H.length := hlt q (List.mem_cons_self _ _)
      obtain ⟨k, hk, h1, h2, h3⟩ := ih (ref_dec (set_index H q NGHTTP2_HD_INVALID_INDEX) q)
        (b - heap_room H q) (fun p hp => by simpa using hlt p (List.mem_cons_of_mem _ hp))
      refine ⟨k + 1, by simp; omega, by simpa using h1, fun p => by rw [h2]; simp, fun p => ?_⟩
      rw [h3]
      simp only [List.take_succ_cons, List.mem_cons, heap_get_ref_dec_index,
        heap_get_set_index_index]
      by_cases hp : p ∈ rest.take k
      · simp [hp]
      · by_cases hpq : q = p
        · subst hpq; simp [hq]
        · have : ¬ p = q := fun h => hpq h.symm
          simp [hp, hpq, this]
    · exact ⟨0, by simp, rfl, fun _ => rfl, fun _ => by simp⟩

theorem reindex_loop_spec : ∀ (rest : List Nat) (j : Nat) (H : List nghttp2_hd_entry),
    rest.Nodup → (∀ p ∈ rest, p < H.length) →
    (∀ p, (heap_get (reindex_loop rest j H) p).nv = (heap_get H p).nv) ∧
    (∀ p, p ∉ rest → (heap_get (reindex_loop rest j H) p).index = (heap_get H p).index) ∧
    (∀ i (h : i < rest.length),
      (heap_get (reindex_loop rest j H) rest[i]).index = (j + i) % 256) := by
  intro rest
  induction rest with
  | nil =>
    intro j H _ _
    exact ⟨fun _ => rfl, fun _ _ => rfl, fun i h => by simp at h⟩
  | cons q rest ih =>
    intro j H hnd hlt
    have hq : q < H.length := hlt q (List.mem_cons_self _ _)
    obtain ⟨hqn, hnd1⟩ := List.nodup_cons.mp hnd
    obtain ⟨h1, h2, h3⟩ := ih (j + 1) (set_index H q (j % 256)) hnd1
      (fun p hp => by simpa using hlt p (List.mem_cons_of_mem _ hp))
    unfold reindex_loop
    refine ⟨fun p => by rw [h1]; simp, fun p hp => ?_, fun i h => ?_⟩
    · simp only [List.mem_cons, not_or] at hp
      rw [h2 p hp.2, heap_get_set_index_index]
      have : ¬ q = p := fun h => hp.1 h.symm
      simp [this]
    · cases i with
      | zero =>
        simp only [List.getElem_cons_zero, Nat.add_zero]
        rw [h2 q hqn, heap_get_set_index_index]
        simp [hq]
      | succ i =>
        simp only [List.getElem_cons_succ]
        rw [h3 i (by simpa using h)]
        congr 1
        omega

end Nghttp2

namespace Nghttp2

theorem add_hd_table_incremental_none (c c1 : nghttp2_hd_context) (nv : nghttp2_nv)
    (h : add_hd_table_incremental c nv = (c1, none)) : c1 = c := by
  simp only [add_hd_table_incremental] at h
  split at h
  · simp only [Prod.mk.injEq, and_true] at h; exact h.symm
  · simp at h

/-- What a successful insertion leaves. -/
theorem add_hd_table_incremental_some (c c1 : nghttp2_hd_context) (nv : nghttp2_nv) (new : Nat)
    (hinv : table_inv c) (h : add_hd_table_incremental c nv = (c1, some new)) :
    new = c.heap.length ∧ c1.heap.length = c.heap.length + 1 ∧
    (∀ p, p < c.heap.length → (heap_get c1.heap p).nv = (heap_get c.heap p).nv) ∧
    heap_get c1.heap new = nghttp2_hd_entry_init (c1.hd_table.length - 1)
      (NGHTTP2_HD_FLAG_NAME_ALLOC ||| NGHTTP2_HD_FLAG_VALUE_ALLOC) nv.name nv.value ∧
    c1.ws = c.ws ∧ c1.refset = c.refset ∧ c1.ws_capacity = c.ws_capacity ∧
    c1.hd_table_capacity = c.hd_table_capacity ∧ c1.bad = c.bad ∧
    c1.refset_capacity = c.refset_capacity ∧
    table_inv c1 := by
  obtain ⟨i1, i2, i3, i4⟩ := hinv
  have hnd := table_nodup c ⟨i1, i2, i3, i4⟩
  have hmem := table_mem_lt c ⟨i1, i2, i3, i4⟩
  simp only [add_hd_table_incremental] at h
  split at h
  · simp at h
  · rename_i hcond
    simp only [not_or] at hcond
    obtain ⟨hcap, -⟩ := hcond
    have hlen : c.hd_table.length < 128 := by omega
    obtain ⟨k, hk, e1, e2, e3⟩ := evict_loop_spec c.hd_table c.heap
      (c.hd_table_bufsize + entry_room nv.name.length nv.value.length) hmem
    generalize hr : evict_loop c.hd_table c.heap
      (c.hd_table_bufsize + entry_room nv.name.length nv.value.length) = r at h e1 e2 e3
    obtain ⟨rest, H1, b1⟩ := r
    simp only at h e1 e2 e3
    have hH1 : H1.length = c.heap.length := by
      have := evict_loop_length c.hd_table c.heap
        (c.hd_table_bufsize + entry_room nv.name.length nv.value.length)
      rw [hr] at this; exact this
    have hrl : rest.length = c.hd_table.length - k := by rw [e1]; simp
    have hrnd : rest.Nodup := by rw [e1]; exact hnd.sublist (List.drop_sublist _ _)
    have hrmem : ∀ p ∈ rest, p < H1.length := by
      intro p hp; rw [hH1]; exact hmem p (by rw [e1] at hp; exact List.mem_of_mem_drop hp)
    have hrget : ∀ j, j < rest.length → rest.getD j 0 = c.hd_table.getD (k + j) 0 := by
      intro j hj
      rw [e1]
      simp only [List.getD_eq_getElem?_getD, List.getElem?_drop]
    -- the arena after the compaction
    obtain ⟨r1, r2, r3⟩ := reindex_loop_spec rest 0 H1 hrnd hrmem
    generalize hH2 : (if c.hd_table.length - rest.length > 0 then reindex_loop rest 0 H1 else H1) =
      H2 at h
    have hH2l : H2.length = c.heap.length := by
      rw [← hH2]; split
      · rw [reindex_loop_length, hH1]
      · exact hH1
    have hH2nv : ∀ p, (heap_get H2 p).nv = (heap_get c.heap p).nv := by
      intro p; rw [← hH2]; split
      · rw [r1, e2]
      · rw [e2]
    have hH2rest : ∀ j (hj : j < rest.length), (heap_get H2 (rest.getD j 0)).index = j := by
      intro j hj
      rw [List.getD_eq_getElem _ _ hj, ← hH2]
      split
      · rw [r3 j hj, Nat.zero_add, Nat.mod_eq_of_lt (by omega)]
      · rename_i hk0
        have hk0 : k = 0 := by omega
        have hg : rest[j] = rest.getD j 0 := (List.getD_eq_getElem _ _ hj).symm
        rw [e3, hk0, hg, hrget j hj, hk0]
        simp only [List.take_zero, List.not_mem_nil, if_false, Nat.zero_add]
        exact (i1 j (by omega)).2
    have hH2other : ∀ p, p ∉ rest → (heap_get H2 p).index =
        if p ∈ c.hd_table.take k then NGHTTP2_HD_INVALID_INDEX else (heap_get c.heap p).index := by
      intro p hp
      rw [← hH2]; split
      · rw [r2 p hp, e3]
      · rw [e3]
    simp only [Prod.mk.injEq, Option.some.injEq] at h
    obtain ⟨hc1, hnew⟩ := h
    subst hc1
    simp only [List.length_append, List.length_singleton, Nat.add_sub_cancel]
    rw [hH2l] at hnew
    refine ⟨hnew.symm, by rw [hH2l], fun p hp => ?_, ?_, trivial, trivial, trivial, trivial, trivial, trivial, ?_⟩
    · rw [heap_get_append_left _ _ _ (by omega), hH2nv]
    · rw [← hnew, ← hH2l, heap_get_append_new]
    · unfold table_inv
      simp only [List.length_append, List.length_singleton]
      refine ⟨fun i hi => ?_, fun p hp hne => ?_, by omega, i4⟩
      · by_cases hir : i < rest.length
        · have hg : (rest ++ [H2.length]).getD i 0 = rest.getD i 0 := by
            simp only [List.getD_eq_getElem?_getD, List.getElem?_append_left hir]
          have hlt : rest.getD i 0 < H2.length := by
            rw [List.getD_eq_getElem _ _ hir, hH2l, ← hH1]; exact hrmem _ (List.getElem_mem _)
          rw [hg]
          refine ⟨by omega, ?_⟩
          rw [heap_get_append_left _ _ _ hlt]
          exact hH2rest i hir
        · have hi2 : i = rest.length := by omega
          subst hi2
          have hg : (rest ++ [H2.length]).getD rest.length 0 = H2.length := by
            simp [List.getD_eq_getElem?_getD]
          rw [hg, heap_get_append_new]
          refine ⟨by omega, ?_⟩
          simp only [nghttp2_hd_entry_init]
          exact Nat.mod_eq_of_lt (by omega)
      · by_cases hpn : p = H2.length
        · subst hpn
          rw [heap_get_append_new]
          simp only [nghttp2_hd_entry_init]
          rw [Nat.mod_eq_of_lt (by omega)]
          refine ⟨by omega, ?_⟩
          simp [List.getD_eq_getElem?_getD]
        · have hp2 : p < H2.length := by omega
          rw [heap_get_append_left _ _ _ hp2] at hne ⊢
          by_cases hpr : p ∈ rest
          · obtain ⟨j, hj, hjp⟩ := List.getElem_of_mem hpr
            have hg : rest.getD j 0 = p := by rw [List.getD_eq_getElem _ _ hj]; exact hjp
            have := hH2rest j hj
            rw [hg] at this
            rw [this]
            refine ⟨by omega, ?_⟩
            simp only [List.getD_eq_getElem?_getD, List.getElem?_append_left hj]
            simpa [List.getD_eq_getElem?_getD] using hg
          · exfalso
            rw [hH2other p hpr] at hne
            by_cases hpt : p ∈ c.hd_table.take k
            · simp [hpt] at hne
            · simp only [hpt, if_false] at hne
              obtain ⟨hlt, hget⟩ := i2 p (by omega) hne
              have hpin : p ∈ c.hd_table := by
                rw [← hget, List.getD_eq_getElem _ _ hlt]
                exact List.getElem_mem _
              rw [← List.take_append_drop k c.hd_table, List.mem_append] at hpin
              rcases hpin with hh | hh
              · exact hpt hh
              · rw [← e1] at hh; exact hpr hh

end Nghttp2

namespace Nghttp2

/-! ### Equality of name/value pairs -/

theorem memcmp_eq_zero_iff : ∀ (a b : List Nat), a.length = b.length →
    (memcmp a b a.length = 0 ↔ a = b) := by
  intro a
  induction a with
  | nil =>
    intro b h
    cases b with
    | nil => simp [memcmp]
    | cons y ys => simp at h
  | cons x xs ih =>
    intro b h
    cases b with
    | nil => simp at h
    | cons y ys =>
      simp only [List.length_cons, Nat.add_right_cancel_iff] at h
      simp only [List.length_cons, memcmp, ne_eq, ite_not, List.cons.injEq]
      by_cases hxy : x = y
      · subst hxy
        simp only [if_true, true_and]
        exact ih ys h
      · simp only [hxy, if_false, false_and, iff_false]
        omega

theorem nghttp2_nv_equal_iff (a b : nghttp2_nv) : nghttp2_nv_equal a b = true ↔ a = b := by
  unfold nghttp2_nv_equal
  simp only [Bool.and_eq_true, beq_iff_eq]
  constructor
  · intro ⟨⟨⟨h1, h2⟩, h3⟩, h4⟩
    have e1 := (memcmp_eq_zero_iff _ _ h1).mp h3
    have e2 := (memcmp_eq_zero_iff _ _ h2).mp h4
    cases a; cases b; simp_all
  · intro h
    subst h
    exact ⟨⟨⟨rfl, rfl⟩, (memcmp_eq_zero_iff _ _ rfl).mpr rfl⟩, (memcmp_eq_zero_iff _ _ rfl).mpr rfl⟩

theorem name_test_iff (a b : List Nat) :
    (a.length == b.length && memcmp a b b.length == 0) = true ↔ a = b := by
  simp only [Bool.and_eq_true, beq_iff_eq]
  constructor
  · intro ⟨h1, h2⟩
    rw [← h1] at h2
    exact (memcmp_eq_zero_iff _ _ h1).mp h2
  · intro h
    subst h
    exact ⟨rfl, (memcmp_eq_zero_iff _ _ rfl).mpr rfl⟩

theorem find_in_hd_table_some (c : nghttp2_hd_context) (nv : nghttp2_nv) (ent : Nat)
    (h : find_in_hd_table c nv = some ent) :
    ent ∈ c.hd_table ∧ (heap_get c.heap ent).nv = nv := by
  unfold find_in_hd_table at h
  have h2 := @List.find?_some _ _ _ _ h
  exact ⟨List.mem_of_find?_eq_some h, (nghttp2_nv_equal_iff _ _).mp h2⟩

theorem find_name_in_hd_table_some (c : nghttp2_hd_context) (nv : nghttp2_nv) (ent : Nat)
    (h : find_name_in_hd_table c nv = some ent) :
    ent ∈ c.hd_table ∧ (heap_get c.heap ent).nv.name = nv.name := by
  unfold find_name_in_hd_table at h
  have h2 := @List.find?_some _ _ _ _ h
  exact ⟨List.mem_of_find?_eq_some h, (name_test_iff _ _).mp h2⟩

theorem table_inv_mem (c : nghttp2_hd_context) (hinv : table_inv c) (ent : Nat)
    (h : ent ∈ c.hd_table) :
    ent < c.heap.length ∧ (heap_get c.heap ent).index < c.hd_table.length ∧
    c.hd_table.getD (heap_get c.heap ent).index 0 = ent ∧ c.hd_table.length ≤ 128 := by
  obtain ⟨i, hi, rfl⟩ := List.getElem_of_mem h
  obtain ⟨a, b⟩ := hinv.1 i hi
  rw [List.getD_eq_getElem _ _ hi] at a b
  refine ⟨a, by rw [b]; exact hi, ?_, le_trans hinv.2.2.1 hinv.2.2.2⟩
  rw [b, List.getD_eq_getElem _ _ hi]

/-! ### The working set -/

theorem remove_from_workingset_loop_none (index : Nat) :
    ∀ (ws : List nghttp2_hd_ws_entry) (heap : List nghttp2_hd_entry),
      (∀ x ∈ ws, ws_entry_has_index index x = false) →
      remove_from_workingset_loop index ws heap = (ws, heap, 0) := by
  intro ws
  induction ws with
  | nil => intro heap _; rfl
  | cons cell rest ih =>
    intro heap h
    have h1 := h cell (List.mem_cons_self _ _)
    have h2 : ∀ x ∈ rest, ws_entry_has_index index x = false :=
      fun x hx => h x (List.mem_cons_of_mem _ hx)
    cases cell with
    | indexed ent i =>
      have hi : ¬ i = index := by simpa [ws_entry_has_index] using h1
      simp only [remove_from_workingset_loop, hi, if_false, ih heap h2]
    | indname ent v =>
      simp only [remove_from_workingset_loop, ih heap h2]
    | newname nv =>
      simp only [remove_from_workingset_loop, ih heap h2]
    | none =>
      simp only [remove_from_workingset_loop, ih heap h2]

theorem remove_from_workingset_by_index_none (c : nghttp2_hd_context) (index : Nat)
    (h : find_in_workingset_by_index c index = none) :
    remove_from_workingset_by_index c index = (c, 0) := by
  unfold remove_from_workingset_by_index
  unfold find_in_workingset_by_index at h
  rw [remove_from_workingset_loop_none index c.ws c.heap (by simpa [List.find?_eq_none] using h)]

theorem find_in_workingset_by_index_dc (c : nghttp2_hd_context) (index : Nat) :
    find_in_workingset_by_index (context_downcase c) index = none ↔
      find_in_workingset_by_index c index = none := by
  unfold find_in_workingset_by_index context_downcase
  simp only [List.find?_eq_none, List.mem_map, forall_exists_index, and_imp,
    forall_apply_eq_imp_iff₂]
  constructor
  · intro h cell hc
    have := h cell hc
    cases cell <;> simp_all [ws_entry_downcase, ws_entry_has_index]
  · intro h cell hc
    have := h cell hc
    cases cell <;> simp_all [ws_entry_downcase, ws_entry_has_index]

theorem ws_valid_append (heap : List nghttp2_hd_entry) (ws : List nghttp2_hd_ws_entry)
    (cell : nghttp2_hd_ws_entry) (h : ws_valid heap ws)
    (hc : match cell with
      | .indexed ent _ => ent < heap.length
      | .indname ent _ => ent < heap.length
      | _ => True) : ws_valid heap (ws ++ [cell]) := by
  intro x hx
  rw [List.mem_append, List.mem_singleton] at hx
  rcases hx with hx | hx
  · exact h x hx
  · subst hx; exact hc

theorem ws_valid_mono (heap heap1 : List nghttp2_hd_entry) (ws : List nghttp2_hd_ws_entry)
    (h : ws_valid heap ws) (hl : heap.length ≤ heap1.length) : ws_valid heap1 ws := by
  intro x hx
  have := h x hx
  cases x <;> simp only at this ⊢ <;> omega

theorem add_workingset_ok (c c1 : nghttp2_hd_context) (ent : Nat)
    (h : add_workingset c ent = .ok c1) :
    c1 = { c with ws := c.ws ++ [.indexed ent (heap_get c.heap ent).index],
                  heap := ref_inc c.heap ent } := by
  unfold add_workingset at h
  split at h
  · simp at h
  · simp only [Except.ok.injEq] at h; exact h.symm

theorem add_workingset_indname_ok (c c1 : nghttp2_hd_context) (ent : Nat) (value : List Nat)
    (h : add_workingset_indname c ent value = .ok c1) :
    c1 = { c with ws := c.ws ++ [.indname ent value], heap := ref_inc c.heap ent } := by
  unfold add_workingset_indname at h
  split at h
  · simp at h
  · simp only [Except.ok.injEq] at h; exact h.symm

theorem add_workingset_newname_ok (c c1 : nghttp2_hd_context) (nv : nghttp2_nv)
    (h : add_workingset_newname c nv = .ok c1) :
    c1 = { c with ws := c.ws ++ [.newname nv] } := by
  unfold add_workingset_newname at h
  split at h
  · simp at h
  · simp only [Except.ok.injEq] at h; exact h.symm

end Nghttp2

namespace Nghttp2

/-! ### Composition of pieces of a run -/

theorem inflate_reaches_refl (mem : Nat → Nat) (last p : Nat) (c : nghttp2_hd_context) :
    inflate_reaches mem last p c p c := fun _ h => h

theorem inflate_reaches_trans (mem : Nat → Nat) (last p1 p2 p3 : Nat)
    (c1 c2 c3 : nghttp2_hd_context)
    (h12 : inflate_reaches mem last p1 c1 p2 c2) (h23 : inflate_reaches mem last p2 c2 p3 c3) :
    inflate_reaches mem last p1 c1 p3 c3 := fun X h => h12 X (h23 X h)

theorem inflate_reaches_step (mem : Nat → Nat) (last p p1 : Nat) (c c1 : nghttp2_hd_context)
    (hlt : p < p1) (hle : p1 ≤ last) (h : inflate_step mem last p c = .next p1 c1) :
    inflate_reaches mem last p c p1 c1 := by
  intro X hX fuel hf
  cases fuel with
  | zero => omega
  | succ f =>
    have h1 : ¬ p = last := by omega
    have h2 : ¬ p > last := by omega
    simp only [inflate_loop, h1, h2, if_false, h]
    exact hX f (by omega)

theorem emits_refl (buf : List Nat) (off : Nat) (c : nghttp2_hd_context) :
    emits buf off c buf off c :=
  ⟨le_refl _, fun h => absurd h (lt_irrefl _), fun _ _ => rfl,
    fun mem last _ _ => inflate_reaches_refl mem last off _⟩

theorem emits_trans (buf : List Nat) (off : Nat) (c : nghttp2_hd_context) (buf1 : List Nat)
    (off1 : Nat) (c1 : nghttp2_hd_context) (buf2 : List Nat) (off2 : Nat)
    (c2 : nghttp2_hd_context) (h1 : emits buf off c buf1 off1 c1)
    (h2 : emits buf1 off1 c1 buf2 off2 c2) : emits buf off c buf2 off2 c2 := by
  obtain ⟨a1, b1, p1, s1⟩ := h1
  obtain ⟨a2, b2, p2, s2⟩ := h2
  refine ⟨le_trans a1 a2, ?_, ?_, ?_⟩
  · intro hlt
    rcases Nat.eq_or_lt_of_le a2 with e | l
    · rw [← e]; exact b1 (by omega)
    · exact b2 l
  · intro i hi
    rw [p2 i (by omega), p1 i hi]
  · intro mem last hag hl
    refine inflate_reaches_trans mem last off off1 off2 _ _ _ (s1 mem last ?_ (by omega))
      (s2 mem last ?_ hl)
    · intro i hi1 hi2
      rw [hag i hi1 (by omega), p2 i hi2]
    · intro i hi1 hi2
      exact hag i (by omega) hi2

/-- A block written at `off` that the inflater takes from `c` to `c1`. -/
theorem emits_block (buf B : List Nat) (off : Nat) (c c1 : nghttp2_hd_context) (buf1 : List Nat)
    (off1 : Nat) (hB : B ≠ []) (hoff : off1 = off + B.length)
    (hmax : off1 ≤ NGHTTP2_MAX_FRAME_LENGTH)
    (hbuf : buf1 = write_bytes (nghttp2_reserve_buffer buf (off + B.length)) off B)
    (hstep : ∀ mem last, mem_holds mem off B → off + B.length ≤ last →
      inflate_step mem last off (context_downcase c) =
        .next (off + B.length) (context_downcase c1)) :
    emits buf off c buf1 off1 c1 := by
  have hpos : 0 < B.length := List.length_pos.mpr hB
  obtain ⟨hp, hm⟩ := put_block_spec buf B off
  subst hbuf
  refine ⟨by omega, fun _ => hmax, hp, ?_⟩
  intro mem last hag hl
  subst hoff
  have hh : mem_holds mem off B :=
    mem_holds_of_agree mem _ off B hm (fun i h1 h2 => hag i h1 h2)
  exact inflate_reaches_step mem last off _ _ _ (by omega) hl (hstep mem last hh hl)

/-! ### The cases of the body of the second loop of the deflater -/

theorem deflate_nv_literal_cases (c : nghttp2_hd_context) (buf : List Nat) (off : Nat)
    (nv : nghttp2_nv) (c1 : nghttp2_hd_context) (buf1 : List Nat) (off1 : Nat)
    (h : deflate_nv_literal c buf off nv = (c1, buf1, off1, .ok ())) :
    (∃ ent cm new_ent, find_name_in_hd_table c nv = some ent ∧
      add_hd_table_incremental c nv = (cm, some new_ent) ∧ add_workingset cm new_ent = .ok c1 ∧
      emit_indname_block buf off (heap_get c.heap ent).index nv.value true = .ok (buf1, off1)) ∨
    (∃ ent, find_name_in_hd_table c nv = some ent ∧
      add_workingset_indname c ent nv.value = .ok c1 ∧
      emit_indname_block buf off (heap_get c.heap ent).index nv.value false = .ok (buf1, off1)) ∨
    (∃ cm new_ent, find_name_in_hd_table c nv = none ∧
      add_hd_table_incremental c nv = (cm, some new_ent) ∧ add_workingset cm new_ent = .ok c1 ∧
      emit_newname_block buf off nv true = .ok (buf1, off1)) ∨
    (find_name_in_hd_table c nv = none ∧ add_workingset_newname c nv = .ok c1 ∧
      emit_newname_block buf off nv false = .ok (buf1, off1)) := by
  unfold deflate_nv_literal at h
  cases hf : find_name_in_hd_table c nv with
  | some ent =>
    simp only [hf] at h
    by_cases hr : entry_room nv.name.length nv.value.length < NGHTTP2_HD_MAX_ENTRY_SIZE
    · simp only [hr, if_true] at h
      left
      generalize hq : add_hd_table_incremental c nv = q at h
      obtain ⟨cm, o⟩ := q
      cases o with
      | none => simp at h
      | some new_ent =>
        simp only at h
        cases ha : add_workingset cm new_ent with
        | error rv => simp [ha] at h
        | ok c2 =>
          simp only [ha] at h
          cases he : emit_indname_block buf off (heap_get c.heap ent).index nv.value true with
          | error rv => simp [he] at h
          | ok r =>
            obtain ⟨b, o⟩ := r
            simp only [he, Prod.mk.injEq, and_true] at h
            obtain ⟨rfl, rfl, rfl⟩ := h
            refine ⟨ent, cm, new_ent, ?_, ?_, ?_, ?_⟩ <;> first | rfl | assumption
    · simp only [hr, if_false] at h
      right; left
      cases ha : add_workingset_indname c ent nv.value with
      | error rv => simp [ha] at h
      | ok c2 =>
        simp only [ha] at h
        cases he : emit_indname_block buf off (heap_get c.heap ent).index nv.value false with
        | error rv => simp [he] at h
        | ok r =>
          obtain ⟨b, o⟩ := r
          simp only [he, Prod.mk.injEq, and_true] at h
          obtain ⟨rfl, rfl, rfl⟩ := h
          refine ⟨ent, ?_, ?_, ?_⟩ <;> first | rfl | assumption
  | none =>
    simp only [hf] at h
    by_cases hr : entry_room nv.name.length nv.value.length < NGHTTP2_HD_MAX_ENTRY_SIZE
    · simp only [hr, if_true] at h
      right; right; left
      generalize hq : add_hd_table_incremental c nv = q at h
      obtain ⟨cm, o⟩ := q
      cases o with
      | none => simp at h
      | some new_ent =>
        simp only at h
        cases ha : add_workingset cm new_ent with
        | error rv => simp [ha] at h
        | ok c2 =>
          simp only [ha] at h
          cases he : emit_newname_block buf off nv true with
          | error rv => simp [he] at h
          | ok r =>
            obtain ⟨b, o⟩ := r
            simp only [he, Prod.mk.injEq, and_true] at h
            obtain ⟨rfl, rfl, rfl⟩ := h
            refine ⟨cm, new_ent, ?_, ?_, ?_, ?_⟩ <;> first | rfl | assumption
    · simp only [hr, if_false] at h
      right; right; right
      cases ha : add_workingset_newname c nv with
      | error rv => simp [ha] at h
      | ok c2 =>
        simp only [ha] at h
        cases he : emit_newname_block buf off nv false with
        | error rv => simp [he] at h
        | ok r =>
          obtain ⟨b, o⟩ := r
          simp only [he, Prod.mk.injEq, and_true] at h
          obtain ⟨rfl, rfl, rfl⟩ := h
          refine ⟨?_, ?_, ?_⟩ <;> rfl

theorem deflate_nv_cases (c : nghttp2_hd_context) (buf : List Nat) (off : Nat)
    (nv : nghttp2_nv) (c1 : nghttp2_hd_context) (buf1 : List Nat) (off1 : Nat)
    (h : deflate_nv c buf off nv = (c1, buf1, off1, .ok ())) :
    ((find_in_workingset c nv).isSome = true ∧ c1 = c ∧ buf1 = buf ∧ off1 = off) ∨
    ((find_in_workingset c nv).isSome = false ∧
      ((∃ ent, find_in_hd_table c nv = some ent ∧
        find_in_workingset_by_index c (heap_get c.heap ent).index = none ∧
        add_workingset c ent = .ok c1 ∧
        emit_indexed_block buf off (heap_get c.heap ent).index = .ok (buf1, off1)) ∨
      deflate_nv_literal c buf off nv = (c1, buf1, off1, .ok ()))) := by
  unfold deflate_nv at h
  by_cases hw : (find_in_workingset c nv).isSome = true
  · simp only [hw, if_true, Prod.mk.injEq, and_true] at h
    obtain ⟨rfl, rfl, rfl⟩ := h
    exact Or.inl ⟨hw, rfl, rfl, rfl⟩
  · simp only [hw, if_false] at h
    right
    refine ⟨by simpa using hw, ?_⟩
    cases hf : find_in_hd_table c nv with
    | none =>
      simp only [hf] at h
      exact Or.inr h
    | some ent =>
      simp only [hf] at h
      by_cases hi : (find_in_workingset_by_index c (heap_get c.heap ent).index).isNone = true
      · simp only [hi, if_true] at h
        left
        cases ha : add_workingset c ent with
        | error rv => simp [ha] at h
        | ok c2 =>
          simp only [ha] at h
          have hidx : (heap_get c2.heap ent).index = (heap_get c.heap ent).index := by
            rw [add_workingset_ok c c2 ent ha]
            simp
          rw [hidx] at h
          cases he : emit_indexed_block buf off (heap_get c.heap ent).index with
          | error rv => simp [he] at h
          | ok r =>
            obtain ⟨b, o⟩ := r
            simp only [he, Prod.mk.injEq, and_true] at h
            obtain ⟨rfl, rfl, rfl⟩ := h
            refine ⟨ent, rfl, by simpa using hi, ?_, ?_⟩ <;> first | rfl | assumption
      · simp only [hi, if_false] at h
        exact Or.inr h

end Nghttp2

namespace Nghttp2

theorem indexed_block_ne_nil (index : Nat) : indexed_block index ≠ [] := by
  intro h
  have := congrArg List.length h
  rw [indexed_block, or_head_length] at this
  exact encode_length_ne_nil index 7 (List.length_eq_zero.mp this)

theorem indname_block_length (index : Nat) (value : List Nat) (inc : Bool) :
    (indname_block index value inc).length =
      (encode_length (index + 1) 5).1.length + (encode_length value.length 8).1.length +
        value.length := by
  unfold indname_block
  rw [or_head_length]
  simp only [List.length_append]

theorem indname_block_ne_nil (index : Nat) (value : List Nat) (inc : Bool) :
    indname_block index value inc ≠ [] := by
  intro h
  have h1 := congrArg List.length h
  rw [indname_block_length] at h1
  have := List.length_pos.mpr (encode_length_ne_nil (index + 1) 5)
  simp only [List.length_nil] at h1
  omega

theorem newname_block_length (nv : nghttp2_nv) (inc : Bool) :
    (newname_block nv inc).length =
      1 + (encode_length nv.name.length 8).1.length + nv.name.length +
        (encode_length nv.value.length 8).1.length + nv.value.length := by
  unfold newname_block
  simp only [List.length_append, List.length_singleton]

theorem newname_block_ne_nil (nv : nghttp2_nv) (inc : Bool) : newname_block nv inc ≠ [] := by
  intro h
  have h1 := congrArg List.length h
  rw [newname_block_length] at h1
  simp only [List.length_nil] at h1
  omega

@[simp] theorem context_downcase_hd_table (c : nghttp2_hd_context) :
    (context_downcase c).hd_table = c.hd_table := rfl

@[simp] theorem context_downcase_heap (c : nghttp2_hd_context) :
    (context_downcase c).heap = c.heap.map entry_downcase := rfl

@[simp] theorem context_downcase_ws (c : nghttp2_hd_context) :
    (context_downcase c).ws = c.ws.map ws_entry_downcase := rfl

@[simp] theorem context_downcase_refset (c : nghttp2_hd_context) :
    (context_downcase c).refset = c.refset := rfl

@[simp] theorem context_downcase_bad (c : nghttp2_hd_context) :
    (context_downcase c).bad = c.bad := rfl

/-- An indexed block that adds an entry of the table to the working set. -/
theorem emits_indexed_add (c c1 : nghttp2_hd_context) (buf buf1 : List Nat) (off off1 ent : Nat)
    (hinv : table_inv c) (hmem : ent ∈ c.hd_table)
    (hidx : find_in_workingset_by_index c (heap_get c.heap ent).index = none)
    (ha : add_workingset c ent = .ok c1)
    (he : emit_indexed_block buf off (heap_get c.heap ent).index = .ok (buf1, off1)) :
    emits buf off c buf1 off1 c1 := by
  obtain ⟨h1, h2, h3, h4⟩ := table_inv_mem c hinv ent hmem
  obtain ⟨e1, e2, e3⟩ := emit_indexed_block_ok buf off _ buf1 off1 he
  refine emits_block buf _ off c c1 buf1 off1 (indexed_block_ne_nil _) e1 e2 e3 ?_
  intro mem last hm hl
  rw [inflate_step_indexed_block mem last off _ _ (by omega) hm hl]
  rw [remove_from_workingset_by_index_none _ _ ((find_in_workingset_by_index_dc c _).mpr hidx)]
  simp only [if_true, context_downcase_hd_table, h3]
  rw [if_neg (by omega), add_workingset_dc, ha]
  rfl

/-- A literal block with an indexed name and incremental indexing. -/
theorem emits_indname_inc (c cm c1 : nghttp2_hd_context) (buf buf1 : List Nat)
    (off off1 ent new_ent : Nat) (nv : nghttp2_nv)
    (hinv : table_inv c) (hmem : ent ∈ c.hd_table)
    (hname : (heap_get c.heap ent).nv.name = nv.name)
    (hadd : add_hd_table_incremental c nv = (cm, some new_ent))
    (ha : add_workingset cm new_ent = .ok c1)
    (he : emit_indname_block buf off (heap_get c.heap ent).index nv.value true =
      .ok (buf1, off1)) :
    emits buf off c buf1 off1 c1 := by
  obtain ⟨h1, h2, h3, h4⟩ := table_inv_mem c hinv ent hmem
  obtain ⟨e1, e2, e3⟩ := emit_indname_block_ok buf off _ _ _ buf1 off1 he
  have hlen := indname_block_length (heap_get c.heap ent).index nv.value true
  have hv : nv.value.length ≤ 65535 := by
    unfold NGHTTP2_MAX_FRAME_LENGTH at e2; omega
  refine emits_block buf _ off c c1 buf1 off1 (indname_block_ne_nil _ _ _) e1 e2 e3 ?_
  intro mem last hm hl
  rw [inflate_step_indname_block mem last off _ _ _ _ (by omega) hv hm hl
    (by simpa using h2)]
  have h3d : (context_downcase c).hd_table.getD (heap_get c.heap ent).index 0 = ent := h3
  rw [if_neg (by simp), h3d]
  have hb := add_hd_table_incremental_bump (context_downcase c) (nv_downcase nv) ent
    (by simpa using h1)
  have hnv : nghttp2_nv.mk (heap_get (ref_inc (context_downcase c).heap ent) ent).nv.name
      nv.value = nv_downcase nv := by
    simp only [heap_get_ref_inc_nv, context_downcase_heap, heap_get_map_dc, entry_downcase_nv,
      nv_downcase_name, hname]
    rfl
  rw [hnv]
  rw [add_hd_table_incremental_dc, hadd] at hb
  generalize add_hd_table_incremental
    { context_downcase c with heap := ref_inc (context_downcase c).heap ent }
    (nv_downcase nv) = r at hb ⊢
  obtain ⟨r1, r2⟩ := r
  simp only [Prod.mk.injEq] at hb
  obtain ⟨hb1, hb2⟩ := hb
  subst hb2
  simp only [hb1, add_workingset_dc, ha]
  rfl

/-- A literal block with an indexed name and no indexing. -/
theorem emits_indname_noinc (c c1 : nghttp2_hd_context) (buf buf1 : List Nat)
    (off off1 ent : Nat) (value : List Nat)
    (hinv : table_inv c) (hmem : ent ∈ c.hd_table)
    (ha : add_workingset_indname c ent value = .ok c1)
    (he : emit_indname_block buf off (heap_get c.heap ent).index value false =
      .ok (buf1, off1)) :
    emits buf off c buf1 off1 c1 := by
  obtain ⟨h1, h2, h3, h4⟩ := table_inv_mem c hinv ent hmem
  obtain ⟨e1, e2, e3⟩ := emit_indname_block_ok buf off _ _ _ buf1 off1 he
  have hlen := indname_block_length (heap_get c.heap ent).index value false
  have hv : value.length ≤ 65535 := by
    unfold NGHTTP2_MAX_FRAME_LENGTH at e2; omega
  refine emits_block buf _ off c c1 buf1 off1 (indname_block_ne_nil _ _ _) e1 e2 e3 ?_
  intro mem last hm hl
  rw [inflate_step_indname_block mem last off _ _ _ _ (by omega) hv hm hl
    (by simpa using h2)]
  simp only [if_true, context_downcase_hd_table, h3, add_workingset_indname_dc, ha]
  rfl

/-- A literal block with a new name and incremental indexing. -/
theorem emits_newname_inc (c cm c1 : nghttp2_hd_context) (buf buf1 : List Nat)
    (off off1 new_ent : Nat) (nv : nghttp2_nv)
    (hadd : add_hd_table_incremental c nv = (cm, some new_ent))
    (ha : add_workingset cm new_ent = .ok c1)
    (he : emit_newname_block buf off nv true = .ok (buf1, off1)) :
    emits buf off c buf1 off1 c1 := by
  obtain ⟨e1, e2, e3⟩ := emit_newname_block_ok buf off _ _ buf1 off1 he
  have hlen := newname_block_length nv true
  have hn : nv.name.length ≤ 65535 := by
    unfold NGHTTP2_MAX_FRAME_LENGTH at e2; omega
  have hv : nv.value.length ≤ 65535 := by
    unfold NGHTTP2_MAX_FRAME_LENGTH at e2; omega
  refine emits_block buf _ off c c1 buf1 off1 (newname_block_ne_nil _ _) e1 e2 e3 ?_
  intro mem last hm hl
  rw [inflate_step_newname_block mem last off _ _ _ hn hv hm hl]
  simp only [Bool.true_eq_false, if_false, add_hd_table_incremental_dc, hadd,
    add_workingset_dc, ha]
  rfl

/-- A literal block with a new name and no indexing. -/
theorem emits_newname_noinc (c c1 : nghttp2_hd_context) (buf buf1 : List Nat)
    (off off1 : Nat) (nv : nghttp2_nv)
    (ha : add_workingset_newname c nv = .ok c1)
    (he : emit_newname_block buf off nv false = .ok (buf1, off1)) :
    emits buf off c buf1 off1 c1 := by
  obtain ⟨e1, e2, e3⟩ := emit_newname_block_ok buf off _ _ buf1 off1 he
  have hlen := newname_block_length nv false
  have hn : nv.name.length ≤ 65535 := by
    unfold NGHTTP2_MAX_FRAME_LENGTH at e2; omega
  have hv : nv.value.length ≤ 65535 := by
    unfold NGHTTP2_MAX_FRAME_LENGTH at e2; omega
  refine emits_block buf _ off c c1 buf1 off1 (newname_block_ne_nil _ _) e1 e2 e3 ?_
  intro mem last hm hl
  rw [inflate_step_newname_block mem last off _ _ _ hn hv hm hl]
  simp only [if_true, add_workingset_newname_dc, ha]
  rfl

/-- The body of the second loop of the deflater, as seen by the inflater. -/
theorem deflate_nv_emits (c : nghttp2_hd_context) (buf : List Nat) (off : Nat)
    (nv : nghttp2_nv) (c1 : nghttp2_hd_context) (buf1 : List Nat) (off1 : Nat)
    (hinv : table_inv c)
    (h : deflate_nv c buf off nv = (c1, buf1, off1, .ok ())) :
    emits buf off c buf1 off1 c1 := by
  rcases deflate_nv_cases c buf off nv c1 buf1 off1 h with
    ⟨_, rfl, rfl, rfl⟩ | ⟨_, ⟨ent, hf, hi, ha, he⟩ | hl⟩
  · exact emits_refl _ _ _
  · exact emits_indexed_add c c1 buf buf1 off off1 ent hinv (find_in_hd_table_some c nv ent hf).1
      hi ha he
  · rcases deflate_nv_literal_cases c buf off nv c1 buf1 off1 hl with
      ⟨ent, cm, new_ent, hf, hadd, ha, he⟩ | ⟨ent, hf, ha, he⟩ |
      ⟨cm, new_ent, hf, hadd, ha, he⟩ | ⟨hf, ha, he⟩
    · obtain ⟨m1, m2⟩ := find_name_in_hd_table_some c nv ent hf
      exact emits_indname_inc c cm c1 buf buf1 off off1 ent new_ent nv hinv m1 m2 hadd ha he
    · obtain ⟨m1, m2⟩ := find_name_in_hd_table_some c nv ent hf
      exact emits_indname_noinc c c1 buf buf1 off off1 ent nv.value hinv m1 ha he
    · exact emits_newname_inc c cm c1 buf buf1 off off1 new_ent nv hadd ha he
    · exact emits_newname_noinc c c1 buf buf1 off off1 nv ha he

end Nghttp2

namespace Nghttp2

/-! ### The name/value pairs of the working set -/

theorem ws_entry_matches_iff (heap : List nghttp2_hd_entry) (nv : nghttp2_nv)
    (cell : nghttp2_hd_ws_entry) :
    ws_entry_matches heap nv cell = true ↔ ws_entry_nv heap cell = some nv := by
  cases cell with
  | indexed ent i =>
    simp only [ws_entry_matches, ws_entry_nv, Option.some.injEq]
    exact nghttp2_nv_equal_iff _ _
  | indname ent value =>
    simp only [ws_entry_matches, ws_entry_nv, Option.some.injEq, Bool.and_eq_true, beq_iff_eq]
    constructor
    · intro ⟨⟨⟨h1, h2⟩, h3⟩, h4⟩
      rw [← h1] at h3
      rw [← h2] at h4
      have e1 := (memcmp_eq_zero_iff _ _ h1).mp h3
      have e2 := (memcmp_eq_zero_iff _ _ h2).mp h4
      cases nv
      simp_all
    · intro h
      subst h
      exact ⟨⟨⟨rfl, rfl⟩, (memcmp_eq_zero_iff _ _ rfl).mpr rfl⟩, (memcmp_eq_zero_iff _ _ rfl).mpr rfl⟩
  | newname nv1 =>
    simp only [ws_entry_matches, ws_entry_nv, Option.some.injEq]
    exact nghttp2_nv_equal_iff _ _
  | none => simp [ws_entry_matches, ws_entry_nv]

theorem find_in_workingset_isSome_iff (c : nghttp2_hd_context) (nv : nghttp2_nv) :
    (find_in_workingset c nv).isSome = true ↔ nv ∈ ws_nvs c := by
  unfold find_in_workingset ws_nvs
  rw [List.find?_isSome, List.mem_filterMap]
  constructor
  · intro ⟨x, hx, hm⟩
    exact ⟨x, hx, (ws_entry_matches_iff _ _ _).mp hm⟩
  · intro ⟨x, hx, hm⟩
    exact ⟨x, hx, (ws_entry_matches_iff _ _ _).mpr hm⟩

theorem ws_nvs_congr (heap heap1 : List nghttp2_hd_entry) :
    ∀ (ws : List nghttp2_hd_ws_entry), ws_valid heap ws →
      (∀ p, p < heap.length → (heap_get heap1 p).nv = (heap_get heap p).nv) →
      ws.filterMap (ws_entry_nv heap1) = ws.filterMap (ws_entry_nv heap) := by
  intro ws hv hnv
  apply List.filterMap_congr
  intro cell hc
  have := hv cell hc
  cases cell with
  | indexed ent i => simp only [ws_entry_nv, hnv ent this]
  | indname ent value => simp only [ws_entry_nv, hnv ent this]
  | newname nv => rfl
  | none => rfl

theorem ws_nvs_append (heap : List nghttp2_hd_entry) (ws : List nghttp2_hd_ws_entry)
    (cell : nghttp2_hd_ws_entry) (nv : nghttp2_nv) (h : ws_entry_nv heap cell = some nv) :
    (ws ++ [cell]).filterMap (ws_entry_nv heap) = ws.filterMap (ws_entry_nv heap) ++ [nv] := by
  rw [List.filterMap_append]
  simp [List.filterMap_cons, h]

/-! ### What the additions to the working set keep -/

theorem add_workingset_inv (c c1 : nghttp2_hd_context) (ent : Nat) (hinv : table_inv c)
    (hv : ws_valid c.heap c.ws) (he : ent < c.heap.length)
    (ha : add_workingset c ent = .ok c1) :
    table_inv c1 ∧ ws_valid c1.heap c1.ws ∧ c1.heap.length = c.heap.length ∧
    (∀ p, (heap_get c1.heap p).nv = (heap_get c.heap p).nv) ∧
    ws_nvs c1 = ws_nvs c ++ [(heap_get c.heap ent).nv] ∧
    c1.refset = c.refset ∧ c1.bad = c.bad := by
  rw [add_workingset_ok c c1 ent ha]
  refine ⟨table_inv_of_equiv c _ hinv (heap_equiv_ref_inc _ _) rfl rfl, ?_, by simp, by simp,
    ?_, rfl, rfl⟩
  · apply ws_valid_append
    · exact ws_valid_mono c.heap _ c.ws hv (by simp)
    · simpa using he
  · unfold ws_nvs
    simp only
    rw [ws_nvs_append (ref_inc c.heap ent) c.ws _ (heap_get c.heap ent).nv
      (by simp [ws_entry_nv])]
    rw [ws_nvs_congr c.heap (ref_inc c.heap ent) c.ws hv (by simp)]

theorem add_workingset_indname_inv (c c1 : nghttp2_hd_context) (ent : Nat) (value : List Nat)
    (hinv : table_inv c) (hv : ws_valid c.heap c.ws) (he : ent < c.heap.length)
    (ha : add_workingset_indname c ent value = .ok c1) :
    table_inv c1 ∧ ws_valid c1.heap c1.ws ∧ c1.heap.length = c.heap.length ∧
    (∀ p, (heap_get c1.heap p).nv = (heap_get c.heap p).nv) ∧
    ws_nvs c1 = ws_nvs c ++ [nghttp2_nv.mk (heap_get c.heap ent).nv.name value] ∧
    c1.refset = c.refset ∧ c1.bad = c.bad := by
  rw [add_workingset_indname_ok c c1 ent value ha]
  refine ⟨table_inv_of_equiv c _ hinv (heap_equiv_ref_inc _ _) rfl rfl, ?_, by simp, by simp,
    ?_, rfl, rfl⟩
  · apply ws_valid_append
    · exact ws_valid_mono c.heap _ c.ws hv (by simp)
    · simpa using he
  · unfold ws_nvs
    simp only
    rw [ws_nvs_append (ref_inc c.heap ent) c.ws _ (nghttp2_nv.mk (heap_get c.heap ent).nv.name value)
      (by simp [ws_entry_nv])]
    rw [ws_nvs_congr c.heap (ref_inc c.heap ent) c.ws hv (by simp)]

theorem add_workingset_newname_inv (c c1 : nghttp2_hd_context) (nv : nghttp2_nv)
    (hinv : table_inv c) (hv : ws_valid c.heap c.ws)
    (ha : add_workingset_newname c nv = .ok c1) :
    table_inv c1 ∧ ws_valid c1.heap c1.ws ∧ c1.heap.length = c.heap.length ∧
    (∀ p, (heap_get c1.heap p).nv = (heap_get c.heap p).nv) ∧
    ws_nvs c1 = ws_nvs c ++ [nv] ∧
    c1.refset = c.refset ∧ c1.bad = c.bad := by
  rw [add_workingset_newname_ok c c1 nv ha]
  refine ⟨table_inv_of_equiv c _ hinv (heap_equiv_refl _) rfl rfl, ?_, rfl, fun _ => rfl,
    ?_, rfl, rfl⟩
  · apply ws_valid_append
    · exact hv
    · trivial
  · unfold ws_nvs
    simp only
    rw [ws_nvs_append c.heap c.ws _ nv (by simp [ws_entry_nv])]

/-- An insertion into the header table followed by the addition of the new entry
to the working set. -/
theorem add_incremental_workingset_inv (c cm c1 : nghttp2_hd_context) (nv : nghttp2_nv)
    (new_ent : Nat) (hinv : table_inv c) (hv : ws_valid c.heap c.ws)
    (hadd : add_hd_table_incremental c nv = (cm, some new_ent))
    (ha : add_workingset cm new_ent = .ok c1) :
    table_inv c1 ∧ ws_valid c1.heap c1.ws ∧ c1.heap.length = c.heap.length + 1 ∧
    (∀ p, p < c.heap.length → (heap_get c1.heap p).nv = (heap_get c.heap p).nv) ∧
    (heap_get c1.heap c.heap.length).nv = nv ∧
    ws_nvs c1 = ws_nvs c ++ [nv] ∧
    c1.refset = c.refset ∧ c1.bad = c.bad := by
  obtain ⟨s1, s2, s3, s4, s5, s6, _, _, s9, _, s11⟩ :=
    add_hd_table_incremental_some c cm nv new_ent hinv hadd
  have hvm : ws_valid cm.heap cm.ws := by
    rw [s5]; exact ws_valid_mono c.heap _ c.ws hv (by omega)
  obtain ⟨a1, a2, a3, a4, a5, a6, a7⟩ :=
    add_workingset_inv cm c1 new_ent s11 hvm (by omega) ha
  have hnew : (heap_get cm.heap new_ent).nv = nv := by
    rw [s4]; rfl
  refine ⟨a1, a2, by omega, fun p hp => by rw [a4, s3 p hp], ?_, ?_, by rw [a6, s6],
    by rw [a7, s9]⟩
  · rw [a4, ← s1, hnew]
  · rw [a5, hnew]
    congr 1
    unfold ws_nvs
    rw [s5]
    exact ws_nvs_congr c.heap cm.heap c.ws hv s3

/-- What the body of the second loop of the deflater keeps. -/
theorem deflate_nv_inv (c : nghttp2_hd_context) (buf : List Nat) (off : Nat)
    (nv : nghttp2_nv) (c1 : nghttp2_hd_context) (buf1 : List Nat) (off1 : Nat)
    (hinv : table_inv c) (hv : ws_valid c.heap c.ws)
    (h : deflate_nv c buf off nv = (c1, buf1, off1, .ok ())) :
    table_inv c1 ∧ ws_valid c1.heap c1.ws ∧ c.heap.length ≤ c1.heap.length ∧
    (∀ p, p < c.heap.length → (heap_get c1.heap p).nv = (heap_get c.heap p).nv) ∧
    (∀ p, c.heap.length ≤ p → p < c1.heap.length → (heap_get c1.heap p).nv = nv) ∧
    (nv ∈ ws_nvs c → ws_nvs c1 = ws_nvs c) ∧
    (nv ∉ ws_nvs c → ws_nvs c1 = ws_nvs c ++ [nv]) ∧
    c1.refset = c.refset ∧ c1.bad = c.bad := by
  rcases deflate_nv_cases c buf off nv c1 buf1 off1 h with
    ⟨hw, rfl, rfl, rfl⟩ | ⟨hw, ⟨ent, hf, hi, ha, he⟩ | hl⟩
  · rw [find_in_workingset_isSome_iff] at hw
    exact ⟨hinv, hv, le_refl _, fun _ _ => rfl, fun p h1 h2 => by omega, fun _ => rfl,
      fun hn => absurd hw hn, rfl, rfl⟩
  · have hw1 : nv ∉ ws_nvs c := by
      rw [← find_in_workingset_isSome_iff, hw]; simp
    obtain ⟨m1, m2⟩ := find_in_hd_table_some c nv ent hf
    obtain ⟨a1, a2, a3, a4, a5, a6, a7⟩ :=
      add_workingset_inv c c1 ent hinv hv (table_inv_mem c hinv ent m1).1 ha
    rw [m2] at a5
    exact ⟨a1, a2, by omega, fun p _ => a4 p, fun p h1 h2 => by omega, fun hn => absurd hn hw1,
      fun _ => a5, a6, a7⟩
  · have hw1 : nv ∉ ws_nvs c := by
      rw [← find_in_workingset_isSome_iff, hw]; simp
    rcases deflate_nv_literal_cases c buf off nv c1 buf1 off1 hl with
      ⟨ent, cm, new_ent, hf, hadd, ha, he⟩ | ⟨ent, hf, ha, he⟩ |
      ⟨cm, new_ent, hf, hadd, ha, he⟩ | ⟨hf, ha, he⟩
    · obtain ⟨a1, a2, a3, a4, a5, a6, a7, a8⟩ :=
        add_incremental_workingset_inv c cm c1 nv new_ent hinv hv hadd ha
      refine ⟨a1, a2, by omega, a4, fun p h1 h2 => ?_, fun hn => absurd hn hw1,
        fun _ => a6, a7, a8⟩
      have : p = c.heap.length := by omega
      rw [this, a5]
    · obtain ⟨m1, m2⟩ := find_name_in_hd_table_some c nv ent hf
      obtain ⟨a1, a2, a3, a4, a5, a6, a7⟩ :=
        add_workingset_indname_inv c c1 ent nv.value hinv hv (table_inv_mem c hinv ent m1).1 ha
      rw [m2] at a5
      exact ⟨a1, a2, by omega, fun p _ => a4 p, fun p h1 h2 => by omega,
        fun hn => absurd hn hw1, fun _ => a5, a6, a7⟩
    · obtain ⟨a1, a2, a3, a4, a5, a6, a7, a8⟩ :=
        add_incremental_workingset_inv c cm c1 nv new_ent hinv hv hadd ha
      refine ⟨a1, a2, by omega, a4, fun p h1 h2 => ?_, fun hn => absurd hn hw1,
        fun _ => a6, a7, a8⟩
      have : p = c.heap.length := by omega
      rw [this, a5]
    · obtain ⟨a1, a2, a3, a4, a5, a6, a7⟩ :=
        add_workingset_newname_inv c c1 nv hinv hv ha
      exact ⟨a1, a2, by omega, fun p _ => a4 p, fun p h1 h2 => by omega,
        fun hn => absurd hn hw1, fun _ => a5, a6, a7⟩

end Nghttp2

namespace Nghttp2

/-! ### The second loop of the deflater -/

theorem deflate_nv_loop_spec : ∀ (nva : List nghttp2_nv) (c : nghttp2_hd_context)
    (buf : List Nat) (off : Nat) (c1 : nghttp2_hd_context) (buf1 : List Nat) (off1 : Nat),
    table_inv c → ws_valid c.heap c.ws →
    deflate_nv_loop nva c buf off = (c1, buf1, off1, .ok ()) →
    emits buf off c buf1 off1 c1 ∧ table_inv c1 ∧ ws_valid c1.heap c1.ws ∧
    c1.refset = c.refset ∧ c1.bad = c.bad ∧ c.heap.length ≤ c1.heap.length ∧
    (∀ p, p < c.heap.length → (heap_get c1.heap p).nv = (heap_get c.heap p).nv) ∧
    (∀ p, c.heap.length ≤ p → p < c1.heap.length → (heap_get c1.heap p).nv ∈ nva) ∧
    ((ws_nvs c).Nodup → (ws_nvs c1).Nodup) ∧
    (∀ x, x ∈ ws_nvs c1 ↔ x ∈ ws_nvs c ∨ x ∈ nva) := by
  intro nva
  induction nva with
  | nil =>
    intro c buf off c1 buf1 off1 hinv hv h
    simp only [deflate_nv_loop, Prod.mk.injEq, and_true] at h
    obtain ⟨rfl, rfl, rfl⟩ := h
    exact ⟨emits_refl _ _ _, hinv, hv, rfl, rfl, le_refl _, fun _ _ => rfl,
      fun p h1 h2 => by omega, fun h => h, fun x => by simp⟩
  | cons nv rest ih =>
    intro c buf off c1 buf1 off1 hinv hv h
    unfold deflate_nv_loop at h
    generalize hq : deflate_nv c buf off nv = q at h
    obtain ⟨cq, bq, oq, rq⟩ := q
    cases rq with
    | error rv => simp at h
    | ok u =>
      simp only at h
      have he := deflate_nv_emits c buf off nv cq bq oq hinv hq
      obtain ⟨a1, a2, a3, a4, a5, a6, a7, a8, a9⟩ :=
        deflate_nv_inv c buf off nv cq bq oq hinv hv hq
      obtain ⟨b0, b1, b2, b3, b4, b5, b6, b7, b8, b9⟩ := ih cq bq oq c1 buf1 off1 a1 a2 h
      refine ⟨emits_trans _ _ _ _ _ _ _ _ _ he b0, b1, b2, by rw [b3, a8], by rw [b4, a9],
        by omega, fun p hp => by rw [b6 p (by omega), a4 p hp], ?_, ?_, ?_⟩
      · intro p h1 h2
        by_cases hp : p < cq.heap.length
        · rw [b6 p hp, a5 p h1 hp]
          exact List.mem_cons_self _ _
        · exact List.mem_cons_of_mem _ (b7 p (by omega) h2)
      · intro hnd
        apply b8
        by_cases hm : nv ∈ ws_nvs c
        · rw [a6 hm]; exact hnd
        · rw [a7 hm]
          exact List.Nodup.append hnd (List.nodup_singleton _)
            (by simpa [List.disjoint_singleton] using hm)
      · intro x
        rw [b9 x]
        by_cases hm : nv ∈ ws_nvs c
        · rw [a6 hm]
          constructor
          · rintro (h1 | h1)
            · exact Or.inl h1
            · exact Or.inr (List.mem_cons_of_mem _ h1)
          · rintro (h1 | h1)
            · exact Or.inl h1
            · rcases List.mem_cons.mp h1 with e | e
              · subst e; exact Or.inl hm
              · exact Or.inr e
        · rw [a7 hm]
          simp only [List.mem_append, List.mem_singleton, List.mem_cons]
          tauto

/-! ### The first loop of the deflater -/

theorem ws_indices_append (a b : List nghttp2_hd_ws_entry) :
    ws_indices (a ++ b) = ws_indices a ++ ws_indices b := by
  unfold ws_indices
  rw [List.filterMap_append]

theorem ws_entry_has_index_false (index : Nat) (ws : List nghttp2_hd_ws_entry)
    (h : index ∉ ws_indices ws) : ∀ x ∈ ws, ws_entry_has_index index x = false := by
  intro x hx
  cases x with
  | indexed e i =>
    simp only [ws_entry_has_index, beq_eq_false_iff_ne, ne_eq]
    intro hi
    apply h
    unfold ws_indices
    rw [List.mem_filterMap]
    exact ⟨.indexed e i, hx, by simp [hi]⟩
  | indname e v => rfl
  | newname nv => rfl
  | none => rfl

theorem remove_from_workingset_loop_unique (index ent : Nat) (B : List nghttp2_hd_ws_entry)
    (hB : ∀ x ∈ B, ws_entry_has_index index x = false) :
    ∀ (A : List nghttp2_hd_ws_entry) (heap : List nghttp2_hd_entry),
      (∀ x ∈ A, ws_entry_has_index index x = false) →
      remove_from_workingset_loop index (A ++ .indexed ent index :: B) heap =
        (A ++ .none :: B, ref_dec heap ent, 1) := by
  intro A
  induction A with
  | nil =>
    intro heap _
    simp only [List.nil_append, remove_from_workingset_loop, if_true,
      remove_from_workingset_loop_none index B _ hB]
  | cons cell rest ih =>
    intro heap h
    have h1 := h cell (List.mem_cons_self _ _)
    have h2 : ∀ x ∈ rest, ws_entry_has_index index x = false :=
      fun x hx => h x (List.mem_cons_of_mem _ hx)
    cases cell with
    | indexed e i =>
      have hi : ¬ i = index := by simpa [ws_entry_has_index] using h1
      simp only [List.cons_append, remove_from_workingset_loop, hi, if_false, List.append_eq,
        ih heap h2]
    | indname e v =>
      simp only [List.cons_append, remove_from_workingset_loop, List.append_eq, ih heap h2]
    | newname nv =>
      simp only [List.cons_append, remove_from_workingset_loop, List.append_eq, ih heap h2]
    | none =>
      simp only [List.cons_append, remove_from_workingset_loop, List.append_eq, ih heap h2]

/-- An indexed block that removes the one cell with that index from the working
set. -/
theorem emits_indexed_remove (c : nghttp2_hd_context) (A B : List nghttp2_hd_ws_entry)
    (heap : List nghttp2_hd_entry) (buf buf1 : List Nat) (off off1 ent index : Nat)
    (hnd : (ws_indices (A ++ .indexed ent index :: B)).Nodup) (hidx : index ≤ 65535)
    (he : emit_indexed_block buf off index = .ok (buf1, off1)) :
    emits buf off { c with ws := A ++ .indexed ent index :: B, heap := heap } buf1 off1
      { c with ws := A ++ .none :: B, heap := ref_dec heap ent } := by
  obtain ⟨e1, e2, e3⟩ := emit_indexed_block_ok buf off _ buf1 off1 he
  refine emits_block buf _ off _ _ buf1 off1 (indexed_block_ne_nil _) e1 e2 e3 ?_
  intro mem last hm hl
  rw [ws_indices_append] at hnd
  have hcons : ws_indices (.indexed ent index :: B) = index :: ws_indices B := by
    simp [ws_indices]
  rw [hcons] at hnd
  have hA : index ∉ ws_indices A := by
    intro hin
    exact (List.nodup_append.mp hnd).2.2 hin (List.mem_cons_self _ _)
  have hB : index ∉ ws_indices B := (List.nodup_cons.mp (List.nodup_append.mp hnd).2.1).1
  rw [inflate_step_indexed_block mem last off _ _ hidx hm hl]
  rw [remove_from_workingset_by_index_dc]
  have hr : remove_from_workingset_by_index
      { c with ws := A ++ .indexed ent index :: B, heap := heap } index =
      ({ c with ws := A ++ .none :: B, heap := ref_dec heap ent }, 1) := by
    unfold remove_from_workingset_by_index
    simp only
    rw [remove_from_workingset_loop_unique index ent B (ws_entry_has_index_false index B hB) A
      heap (ws_entry_has_index_false index A hA)]
  rw [hr]
  simp

theorem deflate_toggle_loop_spec (nva : List nghttp2_nv) (c : nghttp2_hd_context) :
    ∀ (rest done : List nghttp2_hd_ws_entry) (heap : List nghttp2_hd_entry) (buf : List Nat)
      (off : Nat) (ws1 : List nghttp2_hd_ws_entry) (heap1 : List nghttp2_hd_entry)
      (buf1 : List Nat) (off1 : Nat),
    deflate_toggle_loop nva rest heap buf off = (ws1, heap1, buf1, off1, .ok ()) →
    (ws_indices (done ++ rest)).Nodup → (∀ i ∈ ws_indices rest, i ≤ 65535) →
    emits buf off { c with ws := done ++ rest, heap := heap } buf1 off1
      { c with ws := done ++ ws1, heap := heap1 } ∧
    heap_equiv heap1 heap ∧
    List.Sublist (ws1.filterMap (ws_entry_nv heap)) (rest.filterMap (ws_entry_nv heap)) ∧
    (∀ x ∈ ws1.filterMap (ws_entry_nv heap), x ∈ nva) ∧
    (∀ cell ∈ ws1, cell ∈ rest ∨ cell = .none) := by
  intro rest
  induction rest with
  | nil =>
    intro done heap buf off ws1 heap1 buf1 off1 h _ _
    simp only [deflate_toggle_loop, Prod.mk.injEq, and_true] at h
    obtain ⟨rfl, rfl, rfl, rfl⟩ := h
    exact ⟨emits_refl _ _ _, heap_equiv_refl _, List.Sublist.refl _, by simp, by simp⟩
  | cons cell rest ih =>
    intro done heap buf off ws1 heap1 buf1 off1 h hnd hidx
    cases cell with
    | indexed ent index =>
      have hcons : ws_indices (.indexed ent index :: rest) = index :: ws_indices rest := by
        simp [ws_indices]
      have hidx1 : ∀ i ∈ ws_indices rest, i ≤ 65535 := by
        intro i hi
        apply hidx
        rw [hcons]
        exact List.mem_cons_of_mem _ hi
      by_cases hany : (nva.any fun nv => nghttp2_nv_equal (heap_get heap ent).nv nv) = true
      · simp only [deflate_toggle_loop, hany, if_true] at h
        generalize hq : deflate_toggle_loop nva rest heap buf off = q at h
        obtain ⟨q1, q2, q3, q4, q5⟩ := q
        simp only [Prod.mk.injEq] at h
        obtain ⟨rfl, rfl, rfl, rfl, rfl⟩ := h
        have hnd1 : (ws_indices ((done ++ [.indexed ent index]) ++ rest)).Nodup := by
          rw [List.append_assoc]; exact hnd
        obtain ⟨r1, r2, r3, r4, r5⟩ :=
          ih (done ++ [.indexed ent index]) heap buf off _ _ _ _ hq hnd1 hidx1
        simp only [List.append_assoc, List.singleton_append] at r1
        refine ⟨r1, r2, ?_, ?_, ?_⟩
        · simp only [List.filterMap_cons, ws_entry_nv]
          exact List.Sublist.cons₂ _ r3
        · intro x hx
          simp only [List.filterMap_cons, ws_entry_nv, List.mem_cons] at hx
          rcases hx with e | e
          · subst e
            rw [List.any_eq_true] at hany
            obtain ⟨nv, hnv, heq⟩ := hany
            rw [(nghttp2_nv_equal_iff _ _).mp heq]
            exact hnv
          · exact r4 x e
        · intro cell hc
          rcases List.mem_cons.mp hc with e | e
          · subst e; exact Or.inl (List.mem_cons_self _ _)
          · rcases r5 cell e with e1 | e1
            · exact Or.inl (List.mem_cons_of_mem _ e1)
            · exact Or.inr e1
      · simp only [deflate_toggle_loop, hany, if_false] at h
        cases hem : emit_indexed_block buf off index with
        | error rv => simp [hem] at h
        | ok r =>
          obtain ⟨b, o⟩ := r
          simp only [hem] at h
          generalize hq : deflate_toggle_loop nva rest (ref_dec heap ent) b o = q at h
          obtain ⟨q1, q2, q3, q4, q5⟩ := q
          simp only [Prod.mk.injEq] at h
          obtain ⟨rfl, rfl, rfl, rfl, rfl⟩ := h
          have hstep := emits_indexed_remove c done rest heap buf b off o ent index hnd
            (hidx index (by rw [hcons]; exact List.mem_cons_self _ _)) hem
          have hnd1 : (ws_indices ((done ++ [.none]) ++ rest)).Nodup := by
            rw [ws_indices_append, hcons] at hnd
            rw [List.append_assoc, ws_indices_append]
            have hn : ws_indices ([nghttp2_hd_ws_entry.none] ++ rest) = ws_indices rest := by
              simp [ws_indices]
            rw [hn]
            exact List.Nodup.sublist
              (List.Sublist.append_left (List.sublist_cons_self _ _) _) hnd
          obtain ⟨r1, r2, r3, r4, r5⟩ :=
            ih (done ++ [.none]) (ref_dec heap ent) b o _ _ _ _ hq hnd1 hidx1
          simp only [List.append_assoc, List.singleton_append] at r1
          have hfm : ∀ l : List nghttp2_hd_ws_entry,
              l.filterMap (ws_entry_nv (ref_dec heap ent)) = l.filterMap (ws_entry_nv heap) := by
            intro l
            apply List.filterMap_congr
            intro cell _
            cases cell <;> simp [ws_entry_nv]
          rw [hfm, hfm] at r3
          rw [hfm] at r4
          refine ⟨emits_trans _ _ _ _ _ _ _ _ _ hstep r1,
            heap_equiv_trans r2 (heap_equiv_ref_dec _ _), ?_, ?_, ?_⟩
          · simp only [List.filterMap_cons, ws_entry_nv]
            exact List.Sublist.cons _ r3
          · intro x hx
            simp only [List.filterMap_cons, ws_entry_nv] at hx
            exact r4 x hx
          · intro cell hc
            rcases List.mem_cons.mp hc with e | e
            · exact Or.inr e
            · rcases r5 cell e with e1 | e1
              · exact Or.inl (List.mem_cons_of_mem _ e1)
              · exact Or.inr e1
    | indname e v => simp [deflate_toggle_loop] at h
    | newname nv => simp [deflate_toggle_loop] at h
    | none => simp [deflate_toggle_loop] at h

end Nghttp2

namespace Nghttp2

/-! ### The end of a header block -/

theorem checks_getD_set (checks : List Nat) (i j : Nat) :
    (checks.set i 1).getD j 0 = if i = j ∧ i < checks.length then 1 else checks.getD j 0 := by
  simp only [List.getD_eq_getElem?_getD, List.getElem?_set]
  by_cases h : i = j
  · subst h
    by_cases h2 : i < checks.length
    · simp [h2]
    · simp [h2, List.getElem?_eq_none (Nat.le_of_not_lt h2)]
  · simp [h]

theorem ws_nvs_congr_all (h1 h2 : List nghttp2_hd_entry)
    (h : ∀ p, (heap_get h1 p).nv = (heap_get h2 p).nv) (l : List nghttp2_hd_ws_entry) :
    l.filterMap (ws_entry_nv h1) = l.filterMap (ws_entry_nv h2) := by
  apply List.filterMap_congr
  intro cell _
  cases cell <;> simp [ws_entry_nv, h]

theorem end_headers_loop_spec (idx : Nat → Nat) (nvf : Nat → nghttp2_nv) :
    ∀ (ws : List nghttp2_hd_ws_entry) (checks : List Nat) (heap : List nghttp2_hd_entry)
      (refset : List Nat),
    (∀ p, (heap_get heap p).index = idx p ∧ (heap_get heap p).nv = nvf p) →
    checks.length = 128 →
    (∀ p ∈ refset, checks.getD (idx p) 0 ≠ 0) →
    (refset.map idx).Nodup →
    (∀ ent i, nghttp2_hd_ws_entry.indexed ent i ∈ ws →
      idx ent ≠ NGHTTP2_HD_INVALID_INDEX → idx ent < 128) →
    heap_equiv (end_headers_loop ws checks heap refset).1 heap ∧
    ((end_headers_loop ws checks heap refset).2.map idx).Nodup ∧
    ∃ sub, (end_headers_loop ws checks heap refset).2 = refset ++ sub ∧
      (∀ p ∈ sub, idx p ≠ NGHTTP2_HD_INVALID_INDEX ∧
        ∃ i, nghttp2_hd_ws_entry.indexed p i ∈ ws) ∧
      List.Sublist (sub.map nvf) (ws.filterMap (ws_entry_nv heap)) := by
  intro ws
  induction ws with
  | nil =>
    intro checks heap refset _ _ _ hnd _
    exact ⟨heap_equiv_refl _, hnd, [], by simp [end_headers_loop], by simp, by simp⟩
  | cons cell rest ih =>
    intro checks heap refset hh hlen hmark hnd hidx
    have hidx1 : ∀ ent i, nghttp2_hd_ws_entry.indexed ent i ∈ rest →
        idx ent ≠ NGHTTP2_HD_INVALID_INDEX → idx ent < 128 :=
      fun ent i hm => hidx ent i (List.mem_cons_of_mem _ hm)
    have hdec : ∀ e p, (heap_get (ref_dec heap e) p).index = idx p ∧
        (heap_get (ref_dec heap e) p).nv = nvf p := by
      intro e p; simp [hh p]
    cases cell with
    | indexed ent i0 =>
      by_cases hc : idx ent ≠ NGHTTP2_HD_INVALID_INDEX ∧ checks.getD (idx ent) 0 = 0
      · have hlt : idx ent < 128 := hidx ent i0 (List.mem_cons_self _ _) hc.1
        have hstep : end_headers_loop (.indexed ent i0 :: rest) checks heap refset =
            end_headers_loop rest (checks.set (idx ent) 1) heap (refset ++ [ent]) := by
          simp only [end_headers_loop, (hh ent).1, hc, ne_eq, not_false_eq_true, and_self,
            if_true]
        rw [hstep]
        have hnotin : idx ent ∉ refset.map idx := by
          intro hin
          obtain ⟨p, hp, he⟩ := List.mem_map.mp hin
          have := hmark p hp
          rw [he] at this
          exact this hc.2
        obtain ⟨r1, r2, sub, r3, r4, r5⟩ := ih (checks.set (idx ent) 1) heap (refset ++ [ent]) hh
          (by simp [hlen])
          (by
            intro p hp
            rw [checks_getD_set]
            by_cases hpe : idx ent = idx p ∧ idx ent < checks.length
            · rw [if_pos hpe]; exact one_ne_zero
            · rw [if_neg hpe]
              rcases List.mem_append.mp hp with e | e
              · exact hmark p e
              · rw [List.mem_singleton] at e
                subst e
                exact absurd ⟨rfl, by omega⟩ hpe)
          (by
            rw [List.map_append, List.map_singleton]
            exact List.Nodup.append hnd (List.nodup_singleton _)
              (by simpa [List.disjoint_singleton] using hnotin))
          hidx1
        refine ⟨r1, r2, ent :: sub, by rw [r3]; simp, ?_, ?_⟩
        · intro p hp
          rcases List.mem_cons.mp hp with e | e
          · subst e; exact ⟨hc.1, i0, List.mem_cons_self _ _⟩
          · obtain ⟨a, i, b⟩ := r4 p e
            exact ⟨a, i, List.mem_cons_of_mem _ b⟩
        · simp only [List.map_cons, List.filterMap_cons, ws_entry_nv, (hh ent).2]
          exact List.Sublist.cons₂ _ r5
      · have hstep : end_headers_loop (.indexed ent i0 :: rest) checks heap refset =
            end_headers_loop rest checks (ref_dec heap ent) refset := by
          simp only [end_headers_loop, (hh ent).1, hc, if_false]
        rw [hstep]
        obtain ⟨r1, r2, sub, r3, r4, r5⟩ := ih checks (ref_dec heap ent) refset (hdec ent)
          hlen hmark hnd hidx1
        rw [ws_nvs_congr_all (ref_dec heap ent) heap (by simp)] at r5
        refine ⟨heap_equiv_trans r1 (heap_equiv_ref_dec _ _), r2, sub, r3, ?_, ?_⟩
        · intro p hp
          obtain ⟨a, i, b⟩ := r4 p hp
          exact ⟨a, i, List.mem_cons_of_mem _ b⟩
        · simp only [List.filterMap_cons, ws_entry_nv]
          exact List.Sublist.cons _ r5
    | indname ent v =>
      have hstep : end_headers_loop (.indname ent v :: rest) checks heap refset =
          end_headers_loop rest checks (ref_dec heap ent) refset := by
        simp only [end_headers_loop]
      rw [hstep]
      obtain ⟨r1, r2, sub, r3, r4, r5⟩ := ih checks (ref_dec heap ent) refset (hdec ent)
        hlen hmark hnd hidx1
      rw [ws_nvs_congr_all (ref_dec heap ent) heap (by simp)] at r5
      refine ⟨heap_equiv_trans r1 (heap_equiv_ref_dec _ _), r2, sub, r3, ?_, ?_⟩
      · intro p hp
        obtain ⟨a, i, b⟩ := r4 p hp
        exact ⟨a, i, List.mem_cons_of_mem _ b⟩
      · simp only [List.filterMap_cons, ws_entry_nv]
        exact List.Sublist.cons _ r5
    | newname nv =>
      have hstep : end_headers_loop (.newname nv :: rest) checks heap refset =
          end_headers_loop rest checks heap refset := by
        simp only [end_headers_loop]
      rw [hstep]
      obtain ⟨r1, r2, sub, r3, r4, r5⟩ := ih checks heap refset hh hlen hmark hnd hidx1
      refine ⟨r1, r2, sub, r3, ?_, ?_⟩
      · intro p hp
        obtain ⟨a, i, b⟩ := r4 p hp
        exact ⟨a, i, List.mem_cons_of_mem _ b⟩
      · simp only [List.filterMap_cons, ws_entry_nv]
        exact List.Sublist.cons _ r5
    | none =>
      have hstep : end_headers_loop (.none :: rest) checks heap refset =
          end_headers_loop rest checks heap refset := by
        simp only [end_headers_loop]
      rw [hstep]
      obtain ⟨r1, r2, sub, r3, r4, r5⟩ := ih checks heap refset hh hlen hmark hnd hidx1
      refine ⟨r1, r2, sub, r3, ?_, ?_⟩
      · intro p hp
        obtain ⟨a, i, b⟩ := r4 p hp
        exact ⟨a, i, List.mem_cons_of_mem _ b⟩
      · simp only [List.filterMap_cons, ws_entry_nv]
        exact r5

/-- The function `nghttp2_hd_end_headers` on a context whose reference set is
empty: it succeeds and leaves a consistent table and reference set. -/
theorem nghttp2_hd_end_headers_spec (c : nghttp2_hd_context) (hinv : table_inv c)
    (hv : ws_valid c.heap c.ws) (hr : c.refset = []) (hnd : (ws_nvs c).Nodup) :
    ∃ c2, nghttp2_hd_end_headers c = .ok c2 ∧ table_inv c2 ∧ refset_inv c2 ∧
      (refset_nvs c2).Nodup ∧ c2.bad = c.bad ∧ c2.hd_table = c.hd_table ∧
      heap_equiv c2.heap c.heap := by
  have hsp := end_headers_loop_spec (fun p => (heap_get c.heap p).index)
    (fun p => (heap_get c.heap p).nv) c.ws (List.replicate 128 0) c.heap [] (fun _ => ⟨rfl, rfl⟩)
    (by simp) (by simp) (by simp)
    (by
      intro ent i hm hne
      have hlt : ent < c.heap.length := hv _ hm
      have := (hinv.2.1 ent hlt hne).1
      have h1 := hinv.2.2.1
      have h2 := hinv.2.2.2
      show (heap_get c.heap ent).index < 128
      omega)
  obtain ⟨r1, r2, sub, r3, r4, r5⟩ := hsp
  generalize hq : end_headers_loop c.ws (List.replicate 128 0) c.heap [] = q at r1 r2 r3
  obtain ⟨q1, q2⟩ := q
  simp only [List.nil_append] at r1 r2 r3
  subst r3
  have hE : nghttp2_hd_end_headers c = .ok { c with heap := q1, refset := q2, ws := [] } := by
    unfold nghttp2_hd_end_headers
    rw [if_neg (by simp [hr]), hr, hq]
  refine ⟨_, hE, ?_, ?_, ?_, rfl, rfl, r1⟩
  · exact table_inv_of_equiv c _ hinv r1 rfl rfl
  · constructor
    · intro p hp
      obtain ⟨a, i, b⟩ := r4 p hp
      refine ⟨?_, ?_⟩
      · show p < q1.length
        rw [r1.1]; exact hv _ b
      · show (heap_get q1 p).index ≠ NGHTTP2_HD_INVALID_INDEX
        rw [(r1.2 p).1]; exact a
    · show (List.map (fun p => (heap_get q1 p).index) q2).Nodup
      have : List.map (fun p => (heap_get q1 p).index) q2 =
          List.map (fun p => (heap_get c.heap p).index) q2 := by
        apply List.map_congr_left
        intro p _
        exact (r1.2 p).1
      rw [this]
      exact r2
  · show (List.map (fun p => (heap_get q1 p).nv) q2).Nodup
    have : List.map (fun p => (heap_get q1 p).nv) q2 =
        List.map (fun p => (heap_get c.heap p).nv) q2 := by
      apply List.map_congr_left
      intro p _
      exact (r1.2 p).2
    rw [this]
    exact List.Nodup.sublist r5 hnd

/-! ### The start of a header block -/

theorem create_workingset_spec (c : nghttp2_hd_context) (hinv : table_inv c)
    (hr : refset_inv c) (hnd : (refset_nvs c).Nodup) :
    table_inv (create_workingset c) ∧
    ws_valid (create_workingset c).heap (create_workingset c).ws ∧
    (ws_indices (create_workingset c).ws).Nodup ∧
    (∀ i ∈ ws_indices (create_workingset c).ws, i ≤ 65535) ∧
    (ws_nvs (create_workingset c)).Nodup ∧
    (create_workingset c).refset = [] ∧
    (∀ cell ∈ (create_workingset c).ws, ∃ ent i, cell = .indexed ent i) := by
  have hidx : ws_indices (create_workingset c).ws =
      c.refset.map fun p => (heap_get c.heap p).index := by
    simp only [create_workingset, ws_indices, List.filterMap_map]
    rw [← List.filterMap_eq_map]
    rfl
  have hnvs : ws_nvs (create_workingset c) = refset_nvs c := by
    simp only [create_workingset, ws_nvs, refset_nvs, List.filterMap_map]
    rw [← List.filterMap_eq_map]
    rfl
  refine ⟨table_inv_of_equiv c _ hinv (heap_equiv_refl _) rfl rfl, ?_, ?_, ?_, ?_, rfl, ?_⟩
  · intro cell hc
    simp only [create_workingset, List.mem_map] at hc
    obtain ⟨p, hp, rfl⟩ := hc
    exact (hr.1 p hp).1
  · rw [hidx]; exact hr.2
  · rw [hidx]
    intro i hi
    obtain ⟨p, hp, rfl⟩ := List.mem_map.mp hi
    obtain ⟨a, b⟩ := hr.1 p hp
    have := (hinv.2.1 p a b).1
    have h1 := hinv.2.2.1
    have h2 := hinv.2.2.2
    omega
  · rw [hnvs]; exact hnd
  · intro cell hc
    simp only [create_workingset, List.mem_map] at hc
    obtain ⟨p, hp, rfl⟩ := hc
    exact ⟨_, _, rfl⟩

end Nghttp2

namespace Nghttp2

/-! ### A header block: deflated, then inflated -/

theorem inflate_loop_at_last (mem : Nat → Nat) (last : Nat) (c : nghttp2_hd_context) :
    ∀ fuel, inflate_loop mem last fuel last c = (c, .ok ()) := by
  intro fuel
  cases fuel <;> simp [inflate_loop]

theorem build_nv_array_dc (c : nghttp2_hd_context) :
    build_nv_array (context_downcase c) =
      nghttp2_nv_array_sort ((ws_nvs c).map nv_downcase) := by
  rw [← ws_nvs_dc]
  rfl

theorem deflate_inflate_block (d : nghttp2_hd_context) (buf : List Nat) (off : Nat)
    (H : List nghttp2_nv) (d1 : nghttp2_hd_context) (buf1 : List Nat) (n : Nat)
    (hinv : table_inv d) (hr : refset_inv d) (hnd : (refset_nvs d).Nodup)
    (h : nghttp2_hd_deflate_hd d buf off H = (d1, buf1, .ok n)) :
    d.bad = false ∧ d1.bad = false ∧ table_inv d1 ∧ ws_valid d1.heap d1.ws ∧ d1.refset = [] ∧
    (ws_nvs d1).Nodup ∧ (∀ x, x ∈ ws_nvs d1 ↔ x ∈ H) ∧
    (∀ i, i < off → buf1.getD i 0 = buf.getD i 0) ∧
    (0 < n → off + n ≤ NGHTTP2_MAX_FRAME_LENGTH) ∧
    (∀ mem, mem_agrees mem buf1 off (off + n) →
      nghttp2_hd_inflate_hd (context_downcase d) mem off n =
        (context_downcase d1, .ok (nghttp2_nv_array_sort ((ws_nvs d1).map nv_downcase)))) ∧
    ∀ p, p < d1.heap.length →
      (p < d.heap.length ∧ (heap_get d1.heap p).nv = (heap_get d.heap p).nv) ∨
        (heap_get d1.heap p).nv ∈ H := by
  unfold nghttp2_hd_deflate_hd at h
  by_cases hb : d.bad = true
  · simp [hb] at h
  have hbf : d.bad = false := by simpa using hb
  simp only [hb, if_false] at h
  obtain ⟨c1, c2, c3, c4, c5, c6, c7⟩ := create_workingset_spec d hinv hr hnd
  generalize hc0 : create_workingset d = c0 at h c1 c2 c3 c4 c5 c6 c7
  generalize hq : deflate_toggle_loop H c0.ws c0.heap buf off = q at h
  obtain ⟨ws, heap, bufT, offT, rT⟩ := q
  cases rT with
  | error rv => simp at h
  | ok u =>
    simp only at h
    generalize hq2 : deflate_nv_loop H { c0 with ws := ws, heap := heap } bufT offT = q2 at h
    obtain ⟨cN, bufN, offN, rN⟩ := q2
    cases rN with
    | error rv => simp at h
    | ok u2 =>
      simp only [Prod.mk.injEq, Except.ok.injEq] at h
      obtain ⟨rfl, rfl, rfl⟩ := h
      obtain ⟨t1, t2, t3, t4, t5⟩ :=
        deflate_toggle_loop_spec H c0 c0.ws [] c0.heap buf off ws heap bufT offT hq
          (by simpa using c3) c4
      simp only [List.nil_append] at t1
      have hTinv : table_inv { c0 with ws := ws, heap := heap } :=
        table_inv_of_equiv c0 _ c1 t2 rfl rfl
      have hTv : ws_valid heap ws := by
        intro cell hc
        rcases t5 cell hc with e | e
        · have := c2 cell e
          rw [t2.1]
          exact this
        · subst e; trivial
      have hTnvs : ws_nvs { c0 with ws := ws, heap := heap } =
          ws.filterMap (ws_entry_nv c0.heap) :=
        ws_nvs_congr_all heap c0.heap (fun p => (t2.2 p).2) ws
      obtain ⟨n0, n1, n2, n3, n4, n5, n6, n7, n8, n9⟩ :=
        deflate_nv_loop_spec H { c0 with ws := ws, heap := heap } bufT offT d1 buf1 offN
          hTinv hTv hq2
      have hem := emits_trans _ _ _ _ _ _ _ _ _ t1 n0
      obtain ⟨e1, e2, e3, e4⟩ := hem
      have hoff : off + (offN - off) = offN := by omega
      refine ⟨hbf, by rw [n4]; show c0.bad = false; rw [← hc0]; exact hbf, n1, n2,
        by rw [n3]; exact c6, ?_, ?_, e3, ?_, ?_, ?_⟩
      · apply n8
        rw [hTnvs]
        exact List.Nodup.sublist t3 c5
      · intro x
        rw [n9 x, hTnvs]
        constructor
        · rintro (hx | hx)
          · exact t4 x hx
          · exact hx
        · exact fun hx => Or.inr hx
      · intro hpos
        rw [hoff]
        exact e2 (by omega)
      · intro mem hag
        rw [hoff] at hag
        unfold nghttp2_hd_inflate_hd
        have hbd : ¬ (context_downcase d).bad = true := hb
        simp only [hbd, if_false]
        rw [create_workingset_dc, hc0, hoff]
        have hreach := e4 mem offN hag (le_refl _)
        have hc0eq : ({ c0 with ws := c0.ws, heap := c0.heap } : nghttp2_hd_context) = c0 := rfl
        rw [hc0eq] at hreach
        rw [hreach (context_downcase d1, .ok ())
          (fun fuel _ => inflate_loop_at_last mem offN _ fuel) (offN - off) (le_refl _)]
        simp only [build_nv_array_dc]
        simp
      · intro p hp
        have hheap : c0.heap = d.heap := by rw [← hc0]; rfl
        by_cases hlt : p < heap.length
        · left
          refine ⟨by rw [← hheap, ← t2.1]; exact hlt, ?_⟩
          rw [n6 p hlt, ← hheap]
          exact (t2.2 p).2
        · right
          exact n7 p (by simpa using hlt) hp

/-! ### Fresh contexts -/

theorem fresh_table_inv (side : nghttp2_hd_side) : table_inv (nghttp2_hd_deflate_init side) := by
  cases side <;> (unfold table_inv; decide)

theorem fresh_refset (side : nghttp2_hd_side) : (nghttp2_hd_deflate_init side).refset = [] := by
  cases side <;> decide

theorem fresh_names_lower (side : nghttp2_hd_side) :
    ∀ p, p < (nghttp2_hd_deflate_init side).heap.length →
      nghttp2_downcase (heap_get (nghttp2_hd_deflate_init side).heap p).nv.name =
        (heap_get (nghttp2_hd_deflate_init side).heap p).nv.name := by
  cases side <;> decide

theorem fresh_paired (side : nghttp2_hd_side) :
    nghttp2_hd_inflate_init side.flip = context_downcase (nghttp2_hd_deflate_init side) := by
  cases side <;> decide

theorem refset_inv_of_nil (c : nghttp2_hd_context) (h : c.refset = []) :
    refset_inv c ∧ (refset_nvs c).Nodup := by
  unfold refset_inv refset_nvs
  rw [h]
  simp

end Nghttp2

namespace Nghttp2

/-! ### Lockstep runs -/

theorem lockstep_spec (buf : List Nat) (off : Nat) :
    ∀ (Hs : List (List nghttp2_nv)) (d : nghttp2_hd_context),
    table_inv d → refset_inv d → (refset_nvs d).Nodup →
    ((lockstep buf off d (context_downcase d) Hs).2 = none ∨
      ∃ rv, (lockstep buf off d (context_downcase d) Hs).2 = some (.deflate_failed rv)) ∧
    ((lockstep buf off d (context_downcase d) Hs).2 = none →
      (lockstep buf off d (context_downcase d) Hs).1.length = Hs.length) ∧
    List.Forall₂ (fun H r =>
        r.inflater = context_downcase r.deflater ∧ table_inv r.deflater ∧
        ∃ l : List nghttp2_nv, l.Nodup ∧ (∀ x, x ∈ l ↔ x ∈ H) ∧
          r.output = nghttp2_nv_array_sort (l.map nv_downcase))
      (Hs.take (lockstep buf off d (context_downcase d) Hs).1.length)
      (lockstep buf off d (context_downcase d) Hs).1 ∧
    (names_lower d → (∀ H ∈ Hs, ∀ nv ∈ H, nghttp2_downcase nv.name = nv.name) →
      ∀ r ∈ (lockstep buf off d (context_downcase d) Hs).1, names_lower r.deflater) := by
  intro Hs
  induction Hs with
  | nil =>
    intro d _ _ _
    simp [lockstep]
  | cons H rest ih =>
    intro d hinv hr hnd
    generalize hq : nghttp2_hd_deflate_hd d buf off H = q
    obtain ⟨d1, buf1, rv⟩ := q
    cases rv with
    | error e =>
      have hL : lockstep buf off d (context_downcase d) (H :: rest) =
          ([], some (.deflate_failed e)) := by
        simp only [lockstep, hq]
      rw [hL]
      simp
    | ok n =>
      obtain ⟨b1, b2, b3, b4, b5, b6, b7, b8, b9, b10, b11⟩ :=
        deflate_inflate_block d buf off H d1 buf1 n hinv hr hnd hq
      obtain ⟨d2, hE, e1, e2, e3, e4, e5, e6⟩ := nghttp2_hd_end_headers_spec d1 b3 b4 b5 b6
      have hI := b10 (memOf buf1) (fun i _ _ => rfl)
      have hE2 : nghttp2_hd_end_headers (context_downcase d1) = .ok (context_downcase d2) := by
        rw [nghttp2_hd_end_headers_dc, hE]
        rfl
      have hL : lockstep buf off d (context_downcase d) (H :: rest) =
          ({ deflater := d2, inflater := context_downcase d2,
             output := nghttp2_nv_array_sort ((ws_nvs d1).map nv_downcase) } ::
            (lockstep buf off d2 (context_downcase d2) rest).1,
           (lockstep buf off d2 (context_downcase d2) rest).2) := by
        simp only [lockstep, hq, hE, hI, hE2]
      rw [hL]
      obtain ⟨i1, i2, i3, i4⟩ := ih d2 e1 e2 e3
      refine ⟨i1, fun hn => by simp [i2 hn], ?_, ?_⟩
      · simp only [List.length_cons, List.take_succ_cons]
        exact List.Forall₂.cons ⟨rfl, e1, ws_nvs d1, b6, b7, rfl⟩ i3
      · intro hlow hH r hr
        have hlow2 : names_lower d2 := by
          intro p hp
          rw [e6.1] at hp
          rw [(e6.2 p).2]
          rcases b11 p hp with ⟨hp0, heq⟩ | hin
          · rw [heq]; exact hlow p hp0
          · exact hH H (List.mem_cons_self _ _) _ hin
        rcases List.mem_cons.mp hr with e | e
        · subst e; exact hlow2
        · exact i4 hlow2 (fun H1 h1 => hH H1 (List.mem_cons_of_mem _ h1)) r e

theorem sorted_perm_of_nodup (l H : List nghttp2_nv) (hl : l.Nodup) (hH : H.Nodup)
    (hm : ∀ x, x ∈ l ↔ x ∈ H) :
    List.Perm (nghttp2_nv_array_sort (l.map nv_downcase)) (H.map nv_downcase) :=
  (List.perm_insertionSort _ _).trans (((List.perm_ext_iff_of_nodup hl hH).mpr hm).map _)

theorem sorted_mem_iff (l H : List nghttp2_nv) (hm : ∀ x, x ∈ l ↔ x ∈ H) (y : nghttp2_nv) :
    y ∈ nghttp2_nv_array_sort (l.map nv_downcase) ↔ y ∈ H.map nv_downcase := by
  unfold nghttp2_nv_array_sort
  rw [(List.perm_insertionSort _ _).mem_iff]
  simp only [List.mem_map, hm]

theorem forall2_right_mem {α β : Type} (R : α → β → Prop) (l1 : List α) (l2 : List β)
    (h : List.Forall₂ R l1 l2) : ∀ r ∈ l2, ∃ H, R H r := by
  induction h with
  | nil => intro r hr; simp at hr
  | cons hab _ ih =>
    intro r hr
    rcases List.mem_cons.mp hr with e | e
    · subst e; exact ⟨_, hab⟩
    · exact ih r e

theorem table_nv_dc (c : nghttp2_hd_context) (i : Nat) :
    table_nv (context_downcase c) i = nv_downcase (table_nv c i) := by
  unfold table_nv
  rw [context_downcase_heap, heap_get_map_dc]
  rfl

/-- C1 (amended): in a lockstep run of a fresh deflater and the paired fresh
inflater over any sequence of header sets, the only call that can fail is
`nghttp2_hd_deflate_hd`; every round before that is completed (all rounds when no
call fails), so `nghttp2_hd_inflate_hd` succeeds there, and the array it returns
holds exactly the pairs of `Hi` with the names lowercased; it is a permutation of
`Hi` with the names lowercased when `Hi` holds no pair twice. -/
theorem lockstep_returns_headers (side : nghttp2_hd_side) (buf : List Nat) (nv_offset : Nat)
    (Hs : List (List nghttp2_nv)) :
    ((lockstep buf nv_offset (nghttp2_hd_deflate_init side)
        (nghttp2_hd_inflate_init side.flip) Hs).2 = none ∨
      ∃ rv, (lockstep buf nv_offset (nghttp2_hd_deflate_init side)
        (nghttp2_hd_inflate_init side.flip) Hs).2 = some (.deflate_failed rv)) ∧
    ((lockstep buf nv_offset (nghttp2_hd_deflate_init side)
        (nghttp2_hd_inflate_init side.flip) Hs).2 = none →
      (lockstep buf nv_offset (nghttp2_hd_deflate_init side)
        (nghttp2_hd_inflate_init side.flip) Hs).1.length = Hs.length) ∧
    List.Forall₂ (fun H r =>
        (∀ x, x ∈ r.output ↔ x ∈ H.map nv_downcase) ∧
        (H.Nodup → List.Perm r.output (H.map nv_downcase)))
      (Hs.take (lockstep buf nv_offset (nghttp2_hd_deflate_init side)
        (nghttp2_hd_inflate_init side.flip) Hs).1.length)
      (lockstep buf nv_offset (nghttp2_hd_deflate_init side)
        (nghttp2_hd_inflate_init side.flip) Hs).1 := by
  rw [fresh_paired]
  obtain ⟨h1, h2, h3⟩ := lockstep_spec buf nv_offset Hs (nghttp2_hd_deflate_init side)
    (fresh_table_inv side) (refset_inv_of_nil _ (fresh_refset side)).1
    (refset_inv_of_nil _ (fresh_refset side)).2
  obtain ⟨h3, _⟩ := h3
  refine ⟨h1, h2, h3.imp ?_⟩
  intro H r ⟨_, _, l, hl, hm, ho⟩
  rw [ho]
  exact ⟨sorted_mem_iff l H hm, fun hH => sorted_perm_of_nodup l H hl hH hm⟩

/-- C2 (amended): in a lockstep run of a fresh deflater and the paired fresh
inflater over any sequence of header sets, the only call that can fail is
`nghttp2_hd_deflate_hd`, and after every completed round the header tables of the
two contexts have the same length and, at every index, entries with equal value
bytes, the name of the inflater being the name of the deflater lowercased; the
entries are equal when no name of the header sets holds an upper-case letter. -/
theorem lockstep_tables_agree (side : nghttp2_hd_side) (buf : List Nat) (nv_offset : Nat)
    (Hs : List (List nghttp2_nv)) :
    ((lockstep buf nv_offset (nghttp2_hd_deflate_init side)
        (nghttp2_hd_inflate_init side.flip) Hs).2 = none ∨
      ∃ rv, (lockstep buf nv_offset (nghttp2_hd_deflate_init side)
        (nghttp2_hd_inflate_init side.flip) Hs).2 = some (.deflate_failed rv)) ∧
    ((lockstep buf nv_offset (nghttp2_hd_deflate_init side)
        (nghttp2_hd_inflate_init side.flip) Hs).2 = none →
      (lockstep buf nv_offset (nghttp2_hd_deflate_init side)
        (nghttp2_hd_inflate_init side.flip) Hs).1.length = Hs.length) ∧
    ∀ r ∈ (lockstep buf nv_offset (nghttp2_hd_deflate_init side)
        (nghttp2_hd_inflate_init side.flip) Hs).1,
      r.inflater.hd_table.length = r.deflater.hd_table.length ∧
      ∀ i, i < r.deflater.hd_table.length →
        (table_nv r.inflater i).value = (table_nv r.deflater i).value ∧
        (table_nv r.inflater i).name = nghttp2_downcase (table_nv r.deflater i).name ∧
        ((∀ H ∈ Hs, ∀ nv ∈ H, nghttp2_downcase nv.name = nv.name) →
          table_nv r.inflater i = table_nv r.deflater i) := by
  rw [fresh_paired]
  obtain ⟨h1, h2, h3⟩ := lockstep_spec buf nv_offset Hs (nghttp2_hd_deflate_init side)
    (fresh_table_inv side) (refset_inv_of_nil _ (fresh_refset side)).1
    (refset_inv_of_nil _ (fresh_refset side)).2
  obtain ⟨h3, h4⟩ := h3
  refine ⟨h1, h2, ?_⟩
  intro r hr
  obtain ⟨H, hs, hti, _⟩ := forall2_right_mem _ _ _ h3 r hr
  rw [hs]
  refine ⟨rfl, fun i hi => ?_⟩
  rw [table_nv_dc]
  refine ⟨rfl, rfl, fun hlow => ?_⟩
  have hl := h4 (fresh_names_lower side) hlow r hr (r.deflater.hd_table.getD i 0) (hti.1 i hi).1
  unfold table_nv nv_downcase
  rw [hl]

end Nghttp2

namespace Nghttp2

/-- An instance of `lockstep_returns_headers`: a client deflater and the paired
inflater over two header sets, the second one sharing a header with the first;
both rounds are completed. -/
theorem lockstep_returns_headers_witness :
    (lockstep [] 0 (nghttp2_hd_deflate_init .NGHTTP2_HD_SIDE_CLIENT)
      (nghttp2_hd_inflate_init nghttp2_hd_side.NGHTTP2_HD_SIDE_CLIENT.flip)
      [[⟨cstr ":path", cstr "/index.html"⟩, ⟨cstr "X-Custom", cstr "v"⟩],
       [⟨cstr "X-Custom", cstr "v"⟩, ⟨cstr "cookie", cstr "k"⟩]]).1.length = 2 ∧
    List.Forall₂ (fun H r =>
        (∀ x, x ∈ r.output ↔ x ∈ H.map nv_downcase) ∧
        (H.Nodup → List.Perm r.output (H.map nv_downcase)))
      (([[⟨cstr ":path", cstr "/index.html"⟩, ⟨cstr "X-Custom", cstr "v"⟩],
        [⟨cstr "X-Custom", cstr "v"⟩, ⟨cstr "cookie", cstr "k"⟩]] :
          List (List nghttp2_nv)).take
        (lockstep [] 0 (nghttp2_hd_deflate_init .NGHTTP2_HD_SIDE_CLIENT)
          (nghttp2_hd_inflate_init nghttp2_hd_side.NGHTTP2_HD_SIDE_CLIENT.flip)
          [[⟨cstr ":path", cstr "/index.html"⟩, ⟨cstr "X-Custom", cstr "v"⟩],
           [⟨cstr "X-Custom", cstr "v"⟩, ⟨cstr "cookie", cstr "k"⟩]]).1.length)
      (lockstep [] 0 (nghttp2_hd_deflate_init .NGHTTP2_HD_SIDE_CLIENT)
        (nghttp2_hd_inflate_init nghttp2_hd_side.NGHTTP2_HD_SIDE_CLIENT.flip)
        [[⟨cstr ":path", cstr "/index.html"⟩, ⟨cstr "X-Custom", cstr "v"⟩],
         [⟨cstr "X-Custom", cstr "v"⟩, ⟨cstr "cookie", cstr "k"⟩]]).1 :=
  ⟨by decide, (lockstep_returns_headers .NGHTTP2_HD_SIDE_CLIENT [] 0 _).2.2⟩

/-- C1 as stated fails: for the header set that holds the pair (a, b) twice the
run is completed, and `nghttp2_hd_inflate_hd` returns the pair once, which is not
the multiset of the header set. -/
theorem lockstep_duplicate_counterexample :
    (lockstep [] 0 (nghttp2_hd_deflate_init .NGHTTP2_HD_SIDE_CLIENT)
      (nghttp2_hd_inflate_init nghttp2_hd_side.NGHTTP2_HD_SIDE_CLIENT.flip)
      [[⟨[97], [98]⟩, ⟨[97], [98]⟩]]).2 = none ∧
    (lockstep [] 0 (nghttp2_hd_deflate_init .NGHTTP2_HD_SIDE_CLIENT)
      (nghttp2_hd_inflate_init nghttp2_hd_side.NGHTTP2_HD_SIDE_CLIENT.flip)
      [[⟨[97], [98]⟩, ⟨[97], [98]⟩]]).1.map lockstep_round.output = [[⟨[97], [98]⟩]] ∧
    ¬ List.Perm [(⟨[97], [98]⟩ : nghttp2_nv)]
      (([⟨[97], [98]⟩, ⟨[97], [98]⟩] : List nghttp2_nv).map nv_downcase) := by
  refine ⟨by decide, by decide, ?_⟩
  intro h
  have := h.length_eq
  simp at this

/-- An instance of `lockstep_tables_agree`: a client deflater and the paired
inflater over two header sets with names in lower case; both rounds are
completed. -/
theorem lockstep_tables_agree_witness :
    (lockstep [] 0 (nghttp2_hd_deflate_init .NGHTTP2_HD_SIDE_CLIENT)
      (nghttp2_hd_inflate_init nghttp2_hd_side.NGHTTP2_HD_SIDE_CLIENT.flip)
      [[⟨cstr ":path", cstr "/index.html"⟩, ⟨cstr "x-custom", cstr "v"⟩],
       [⟨cstr "x-custom", cstr "v"⟩, ⟨cstr "cookie", cstr "k"⟩]]).1.length = 2 ∧
    ∀ r ∈ (lockstep [] 0 (nghttp2_hd_deflate_init .NGHTTP2_HD_SIDE_CLIENT)
      (nghttp2_hd_inflate_init nghttp2_hd_side.NGHTTP2_HD_SIDE_CLIENT.flip)
      [[⟨cstr ":path", cstr "/index.html"⟩, ⟨cstr "x-custom", cstr "v"⟩],
       [⟨cstr "x-custom", cstr "v"⟩, ⟨cstr "cookie", cstr "k"⟩]]).1,
      r.inflater.hd_table.length = r.deflater.hd_table.length ∧
      ∀ i, i < r.deflater.hd_table.length →
        (table_nv r.inflater i).value = (table_nv r.deflater i).value ∧
        (table_nv r.inflater i).name = nghttp2_downcase (table_nv r.deflater i).name ∧
        ((∀ H ∈ ([[⟨cstr ":path", cstr "/index.html"⟩, ⟨cstr "x-custom", cstr "v"⟩],
            [⟨cstr "x-custom", cstr "v"⟩, ⟨cstr "cookie", cstr "k"⟩]] :
              List (List nghttp2_nv)), ∀ nv ∈ H, nghttp2_downcase nv.name = nv.name) →
          table_nv r.inflater i = table_nv r.deflater i) :=
  ⟨by decide, (lockstep_tables_agree .NGHTTP2_HD_SIDE_CLIENT [] 0 _).2.2⟩

/-- C2 as stated fails: after one round with the header (A, b) the two tables
have 39 entries, and the names of the entries at index 38 differ: the deflater
holds `A`, the inflater `a`. -/
theorem lockstep_uppercase_counterexample :
    (lockstep [] 0 (nghttp2_hd_deflate_init .NGHTTP2_HD_SIDE_CLIENT)
      (nghttp2_hd_inflate_init nghttp2_hd_side.NGHTTP2_HD_SIDE_CLIENT.flip)
      [[⟨[65], [98]⟩]]).1.map
        (fun r => (r.deflater.hd_table.length, r.inflater.hd_table.length,
          (table_nv r.deflater 38).name, (table_nv r.inflater 38).name)) =
      [(39, 39, [65], [97])] := by
  decide

end Nghttp2

namespace Nghttp2

/-! ### HEADERS frames -/

theorem memOf_tail (X bufD : List Nat) (nv i : Nat) (hX : X.length = nv) (hi : nv ≤ i) :
    memOf (X ++ bufD.drop nv) i = bufD.getD i 0 := by
  obtain ⟨j, rfl⟩ : ∃ j, i = X.length + j := ⟨i - nv, by omega⟩
  rw [memOf_append_right]
  unfold memOf
  simp only [List.getD_eq_getElem?_getD, List.getElem?_drop, hX]

/-- The buffer that `nghttp2_frame_pack_headers` leaves when the deflater
succeeds. -/
theorem pack_headers_shape (flag_priority : Nat) (buf : List Nat) (F : nghttp2_headers)
    (d dD : nghttp2_hd_context) (bufD : List Nat) (n : Nat)
    (hq : nghttp2_hd_deflate_hd d buf (headers_nv_offset flag_priority F) F.nva =
      (dD, bufD, .ok n)) :
    nghttp2_frame_pack_headers flag_priority buf F d =
      (nghttp2_headers.mk (nghttp2_frame_hd.mk
          ((n + headers_nv_offset flag_priority F - 8) % 2 ^ 16) F.hd.typ F.hd.flags
          F.hd.stream_id) F.pri F.nva,
        dD,
        (if F.hd.flags &&& flag_priority ≠ 0 then
          frame_hd_bytes (nghttp2_frame_hd.mk
            ((n + headers_nv_offset flag_priority F - 8) % 2 ^ 16) F.hd.typ F.hd.flags
            F.hd.stream_id) ++ nghttp2_put_uint32be (to_uint32 F.pri) ++ bufD.drop 12
         else
          frame_hd_bytes (nghttp2_frame_hd.mk
            ((n + headers_nv_offset flag_priority F - 8) % 2 ^ 16) F.hd.typ F.hd.flags
            F.hd.stream_id) ++ bufD.drop 8),
        .ok (n + headers_nv_offset flag_priority F)) := by
  unfold nghttp2_frame_pack_headers
  simp only [hq]
  by_cases hf : F.hd.flags &&& flag_priority ≠ 0
  · have hnv : headers_nv_offset flag_priority F = 12 := by
      simp [headers_nv_offset, hf, NGHTTP2_FRAME_HEAD_LENGTH]
    simp only [hnv, hf, ne_eq, not_false_eq_true, if_true, NGHTTP2_FRAME_HEAD_LENGTH]
    rw [pack_fixed4 _ _ _ (put_uint32be_length _)]
  · have hnv : headers_nv_offset flag_priority F = 8 := by
      simp [headers_nv_offset, hf, NGHTTP2_FRAME_HEAD_LENGTH]
    simp only [hnv, hf, if_false, NGHTTP2_FRAME_HEAD_LENGTH]
    rw [memset_zero_reserve, pack_frame_hd_eq]
    simp [List.drop_append, List.drop_drop]

theorem frame_hd_bytes_typ_mod (l t f : Nat) (s : Int) :
    frame_hd_bytes (nghttp2_frame_hd.mk l (t % 256) f s) =
      frame_hd_bytes (nghttp2_frame_hd.mk l t f s) := by
  simp [frame_hd_bytes]

/-- What `nghttp2_frame_unpack_headers` does on a head with the PRIORITY flag,
the priority and the header block. -/
theorem unpack_headers_priority (flag_priority : Nat) (pri_default : Int)
    (hd : nghttp2_frame_hd) (hwf : frame_hd_wf hd) (pri : Int) (rest : List Nat)
    (inflater : nghttp2_hd_context) (n : Nat) (hf : hd.flags &&& flag_priority ≠ 0)
    (hp0 : 0 ≤ pri) (hp1 : pri < 2 ^ 31) :
    nghttp2_frame_unpack_headers flag_priority pri_default
      ((frame_hd_bytes hd ++ nghttp2_put_uint32be (to_uint32 pri) ++ rest).take 8)
      (memOf (frame_hd_bytes hd ++ nghttp2_put_uint32be (to_uint32 pri) ++ rest)) 8 (n + 4)
      inflater =
      match nghttp2_hd_inflate_hd inflater
        (memOf (frame_hd_bytes hd ++ nghttp2_put_uint32be (to_uint32 pri) ++ rest)) 12 n with
      | (inflater, .error rv) => (nghttp2_headers.mk hd pri [], inflater, .error rv)
      | (inflater, .ok nva) => (nghttp2_headers.mk hd pri nva, inflater, .ok ()) := by
  have htake : (frame_hd_bytes hd ++ nghttp2_put_uint32be (to_uint32 pri) ++ rest).take 8 =
      frame_hd_bytes hd := by
    rw [List.append_assoc, take8_hd]
  have hh := unpack_frame_hd_bytes_nil hd hwf
  have h3 : memOf (frame_hd_bytes hd) 3 = hd.flags := congrArg nghttp2_frame_hd.flags hh
  obtain ⟨u1, u2⟩ := to_uint32_of_nonneg pri hp0 hp1
  have hpri : ((nghttp2_get_uint32
      (memOf (frame_hd_bytes hd ++ nghttp2_put_uint32be (to_uint32 pri) ++ rest)) 8 &&&
        NGHTTP2_PRIORITY_MASK : Nat) : Int) = pri := by
    rw [List.append_assoc]
    have := get_uint32_append_right (frame_hd_bytes hd)
      (nghttp2_put_uint32be (to_uint32 pri) ++ rest) 0
    rw [frame_hd_bytes_length] at this
    rw [this, get_uint32_put _ _ (by omega), NGHTTP2_PRIORITY_MASK, mask31, u1,
      Nat.mod_eq_of_lt u2]
    omega
  unfold nghttp2_frame_unpack_headers nghttp2_frame_unpack_headers_without_nv
  rw [htake, hh, h3]
  have h4 : ¬ n + 4 < 4 := by omega
  simp only [hf, ne_eq, not_false_eq_true, if_true, h4, if_false, hpri, headers_nv_offset,
    NGHTTP2_FRAME_HEAD_LENGTH, Nat.add_sub_cancel_left, Nat.add_sub_cancel] <;> rfl

/-- What `nghttp2_frame_unpack_headers` does on a head without the PRIORITY flag
and the header block. -/
theorem unpack_headers_plain (flag_priority : Nat) (pri_default : Int)
    (hd : nghttp2_frame_hd) (hwf : frame_hd_wf hd) (rest : List Nat)
    (inflater : nghttp2_hd_context) (n : Nat) (hf : ¬ hd.flags &&& flag_priority ≠ 0) :
    nghttp2_frame_unpack_headers flag_priority pri_default
      ((frame_hd_bytes hd ++ rest).take 8) (memOf (frame_hd_bytes hd ++ rest)) 8 n inflater =
      match nghttp2_hd_inflate_hd inflater (memOf (frame_hd_bytes hd ++ rest)) 8 n with
      | (inflater, .error rv) => (nghttp2_headers.mk hd pri_default [], inflater, .error rv)
      | (inflater, .ok nva) => (nghttp2_headers.mk hd pri_default nva, inflater, .ok ()) := by
  have hh := unpack_frame_hd_bytes_nil hd hwf
  have h3 : memOf (frame_hd_bytes hd) 3 = hd.flags := congrArg nghttp2_frame_hd.flags hh
  unfold nghttp2_frame_unpack_headers nghttp2_frame_unpack_headers_without_nv
  rw [take8_hd, hh, h3]
  simp only [hf, if_false, headers_nv_offset, NGHTTP2_FRAME_HEAD_LENGTH, Nat.sub_self,
    Nat.add_zero, Nat.sub_zero] <;> rfl

/-- C4 (amended): a HEADERS frame whose flags fit a byte, whose stream id is in
the 31-bit range and whose pri, when the PRIORITY flag is set, is in the 31-bit
range, packed by `nghttp2_frame_pack_headers` with a fresh deflater: when the
pack succeeds the head written has the length field returned size - 8, and
`nghttp2_frame_unpack_headers` of that head and payload with the paired fresh
inflater returns 0 and yields the same flags and stream id, the pri of the frame
when the PRIORITY flag is set and `NGHTTP2_PRI_DEFAULT` otherwise, and a header
array that holds exactly the pairs of the frame with the names lowercased; it is a
permutation of the header array with the names lowercased when that holds no
pair twice. -/
theorem headers_pack_unpack (flag_priority : Nat) (pri_default : Int) (side : nghttp2_hd_side)
    (buf : List Nat) (F F1 : nghttp2_headers) (d1 : nghttp2_hd_context) (buf1 : List Nat)
    (framelen : Nat)
    (hflags : F.hd.flags < 256) (hsid : 0 ≤ F.hd.stream_id ∧ F.hd.stream_id < 2 ^ 31)
    (hpri : F.hd.flags &&& flag_priority ≠ 0 → 0 ≤ F.pri ∧ F.pri < 2 ^ 31)
    (hpack : nghttp2_frame_pack_headers flag_priority buf F (nghttp2_hd_deflate_init side) =
      (F1, d1, buf1, .ok framelen)) :
    nghttp2_get_uint16 (memOf buf1) 0 = framelen - 8 ∧
    ∃ G i1, nghttp2_frame_unpack_headers flag_priority pri_default (buf1.take 8) (memOf buf1) 8
        (framelen - 8) (nghttp2_hd_inflate_init side.flip) = (G, i1, .ok ()) ∧
      G.hd.length = framelen - 8 ∧ G.hd.flags = F.hd.flags ∧
      G.hd.stream_id = F.hd.stream_id ∧
      G.pri = (if F.hd.flags &&& flag_priority ≠ 0 then F.pri else pri_default) ∧
      (∀ x, x ∈ G.nva ↔ x ∈ F.nva.map nv_downcase) ∧
      (F.nva.Nodup → List.Perm G.nva (F.nva.map nv_downcase)) := by
  generalize hq : nghttp2_hd_deflate_hd (nghttp2_hd_deflate_init side) buf
    (headers_nv_offset flag_priority F) F.nva = q
  obtain ⟨dD, bufD, rv⟩ := q
  cases rv with
  | error e =>
    unfold nghttp2_frame_pack_headers at hpack
    simp [hq] at hpack
  | ok n =>
    rw [pack_headers_shape flag_priority buf F _ dD bufD n hq] at hpack
    simp only [Prod.mk.injEq, Except.ok.injEq] at hpack
    obtain ⟨_, _, hbuf, hlen⟩ := hpack
    obtain ⟨b1, b2, b3, b4, b5, b6, b7, b8, b9, b10, _⟩ :=
      deflate_inflate_block (nghttp2_hd_deflate_init side) buf
        (headers_nv_offset flag_priority F) F.nva dD bufD n (fresh_table_inv side)
        (refset_inv_of_nil _ (fresh_refset side)).1 (refset_inv_of_nil _ (fresh_refset side)).2 hq
    rw [fresh_paired]
    have hsort := sorted_mem_iff (ws_nvs dD) F.nva b7
    have hperm := fun hH => sorted_perm_of_nodup (ws_nvs dD) F.nva b6 hH b7
    unfold NGHTTP2_MAX_FRAME_LENGTH at b9
    subst hlen
    by_cases hf : F.hd.flags &&& flag_priority ≠ 0
    · have hnv : headers_nv_offset flag_priority F = 12 := by
        simp [headers_nv_offset, hf, NGHTTP2_FRAME_HEAD_LENGTH]
      rw [hnv] at hbuf b10 b9 ⊢
      have hlen4 : n + 12 - 8 = n + 4 := by omega
      rw [hlen4] at hbuf ⊢
      have hsmall : n + 4 < 2 ^ 16 := by
        by_cases hn : 0 < n
        · have := b9 hn; omega
        · omega
      rw [if_pos hf, Nat.mod_eq_of_lt hsmall, ← frame_hd_bytes_typ_mod] at hbuf
      have hwf : frame_hd_wf (nghttp2_frame_hd.mk (n + 4) (F.hd.typ % 256) F.hd.flags
          F.hd.stream_id) :=
        ⟨hsmall, Nat.mod_lt _ (by norm_num), hflags, hsid.1, hsid.2⟩
      obtain ⟨p0, p1⟩ := hpri hf
      subst hbuf
      have hI := b10 (memOf (frame_hd_bytes (nghttp2_frame_hd.mk (n + 4) (F.hd.typ % 256)
          F.hd.flags F.hd.stream_id) ++ nghttp2_put_uint32be (to_uint32 F.pri) ++
          bufD.drop 12)) (fun i h1 _ => memOf_tail _ bufD 12 i rfl h1)
      have hU := unpack_headers_priority flag_priority pri_default _ hwf F.pri (bufD.drop 12)
        (context_downcase (nghttp2_hd_deflate_init side)) n hf p0 p1
      rw [hI] at hU
      refine ⟨?_, nghttp2_headers.mk (nghttp2_frame_hd.mk (n + 4) (F.hd.typ % 256) F.hd.flags
          F.hd.stream_id) F.pri (nghttp2_nv_array_sort ((ws_nvs dD).map nv_downcase)),
        context_downcase dD, hU, rfl, rfl, rfl, by rw [if_pos hf], hsort, hperm⟩
      have h16 := congrArg nghttp2_frame_hd.length
        (unpack_frame_hd_bytes _ (nghttp2_put_uint32be (to_uint32 F.pri) ++ bufD.drop 12) hwf)
      rw [← List.append_assoc] at h16
      exact h16
    · have hnv : headers_nv_offset flag_priority F = 8 := by
        simp [headers_nv_offset, hf, NGHTTP2_FRAME_HEAD_LENGTH]
      rw [hnv] at hbuf b10 b9 ⊢
      have hlen0 : n + 8 - 8 = n := by omega
      rw [hlen0] at hbuf ⊢
      have hsmall : n < 2 ^ 16 := by
        by_cases hn : 0 < n
        · have := b9 hn; omega
        · omega
      rw [if_neg hf, Nat.mod_eq_of_lt hsmall, ← frame_hd_bytes_typ_mod] at hbuf
      have hwf : frame_hd_wf (nghttp2_frame_hd.mk n (F.hd.typ % 256) F.hd.flags
          F.hd.stream_id) :=
        ⟨hsmall, Nat.mod_lt _ (by norm_num), hflags, hsid.1, hsid.2⟩
      subst hbuf
      have hI := b10 (memOf (frame_hd_bytes (nghttp2_frame_hd.mk n (F.hd.typ % 256)
          F.hd.flags F.hd.stream_id) ++ bufD.drop 8))
          (fun i h1 _ => memOf_tail _ bufD 8 i rfl h1)
      have hU := unpack_headers_plain flag_priority pri_default _ hwf (bufD.drop 8)
        (context_downcase (nghttp2_hd_deflate_init side)) n hf
      rw [hI] at hU
      refine ⟨?_, nghttp2_headers.mk (nghttp2_frame_hd.mk n (F.hd.typ % 256) F.hd.flags
          F.hd.stream_id) pri_default (nghttp2_nv_array_sort ((ws_nvs dD).map nv_downcase)),
        context_downcase dD, hU, rfl, rfl, rfl, by rw [if_neg hf], hsort, hperm⟩
      exact congrArg nghttp2_frame_hd.length (unpack_frame_hd_bytes _ (bufD.drop 8) hwf)

end Nghttp2

namespace Nghttp2

/-- An instance of `headers_pack_unpack`: the HEADERS frame of stream 1 with the
flags 12, the pri 3 and two headers, with 8 for `NGHTTP2_FLAG_PRIORITY` and 2^30
for `NGHTTP2_PRI_DEFAULT`, packed into an empty buffer with a client deflater;
the pack returns 37. -/
theorem headers_pack_unpack_witness :
    nghttp2_get_uint16 (memOf (nghttp2_frame_pack_headers 8 []
        { hd := { length := 0, typ := 1, flags := 12, stream_id := 1 }, pri := 3,
          nva := [⟨cstr ":path", cstr "/index.html"⟩, ⟨cstr "X-Custom", cstr "v"⟩] }
        (nghttp2_hd_deflate_init .NGHTTP2_HD_SIDE_CLIENT)).2.2.1) 0 = 37 - 8 ∧
    ∃ G i1, nghttp2_frame_unpack_headers 8 (2 ^ 30)
        ((nghttp2_frame_pack_headers 8 []
          { hd := { length := 0, typ := 1, flags := 12, stream_id := 1 }, pri := 3,
            nva := [⟨cstr ":path", cstr "/index.html"⟩, ⟨cstr "X-Custom", cstr "v"⟩] }
          (nghttp2_hd_deflate_init .NGHTTP2_HD_SIDE_CLIENT)).2.2.1.take 8)
        (memOf (nghttp2_frame_pack_headers 8 []
          { hd := { length := 0, typ := 1, flags := 12, stream_id := 1 }, pri := 3,
            nva := [⟨cstr ":path", cstr "/index.html"⟩, ⟨cstr "X-Custom", cstr "v"⟩] }
          (nghttp2_hd_deflate_init .NGHTTP2_HD_SIDE_CLIENT)).2.2.1) 8 (37 - 8)
        (nghttp2_hd_inflate_init nghttp2_hd_side.NGHTTP2_HD_SIDE_CLIENT.flip) =
          (G, i1, .ok ()) ∧
      G.hd.length = 37 - 8 ∧ G.hd.flags = 12 ∧ G.hd.stream_id = 1 ∧
      G.pri = (if 12 &&& 8 ≠ 0 then 3 else 2 ^ 30) ∧
      (∀ x, x ∈ G.nva ↔ x ∈ ([⟨cstr ":path", cstr "/index.html"⟩,
        ⟨cstr "X-Custom", cstr "v"⟩] : List nghttp2_nv).map nv_downcase) ∧
      (([⟨cstr ":path", cstr "/index.html"⟩, ⟨cstr "X-Custom", cstr "v"⟩] :
          List nghttp2_nv).Nodup →
        List.Perm G.nva (([⟨cstr ":path", cstr "/index.html"⟩,
          ⟨cstr "X-Custom", cstr "v"⟩] : List nghttp2_nv).map nv_downcase)) :=
  headers_pack_unpack 8 (2 ^ 30) .NGHTTP2_HD_SIDE_CLIENT []
    { hd := { length := 0, typ := 1, flags := 12, stream_id := 1 }, pri := 3,
      nva := [⟨cstr ":path", cstr "/index.html"⟩, ⟨cstr "X-Custom", cstr "v"⟩] }
    _ _ _ 37 (by decide) (by decide) (by decide)
    (Prod.ext rfl (Prod.ext rfl (Prod.ext rfl (by decide))))

/-- C4 as stated fails: the HEADERS frame of stream 1 with the flags 0 and the
header array that holds the pair (a, b) twice is packed into 13 bytes, and
`nghttp2_frame_unpack_headers` of them returns 0 with a header array of one pair,
which is no permutation of the two pairs of the frame (here with 8 for
`NGHTTP2_FLAG_PRIORITY` and 2^30 for `NGHTTP2_PRI_DEFAULT`; with the flags 0
neither constant plays a part in the header array). -/
theorem headers_duplicate_counterexample :
    (nghttp2_frame_pack_headers 8 []
      { hd := { length := 0, typ := 1, flags := 0, stream_id := 1 }, pri := 1073741824,
        nva := [⟨[97], [98]⟩, ⟨[97], [98]⟩] }
      (nghttp2_hd_deflate_init .NGHTTP2_HD_SIDE_CLIENT)).2.2 =
        ([0, 5, 1, 0, 0, 0, 0, 1, 64, 1, 97, 1, 98], .ok 13) ∧
    (nghttp2_frame_unpack_headers 8 (2 ^ 30)
      [0, 5, 1, 0, 0, 0, 0, 1] (memOf [0, 5, 1, 0, 0, 0, 0, 1, 64, 1, 97, 1, 98]) 8 5
      (nghttp2_hd_inflate_init nghttp2_hd_side.NGHTTP2_HD_SIDE_CLIENT.flip)).2.2 = .ok () ∧
    (nghttp2_frame_unpack_headers 8 (2 ^ 30)
      [0, 5, 1, 0, 0, 0, 0, 1] (memOf [0, 5, 1, 0, 0, 0, 0, 1, 64, 1, 97, 1, 98]) 8 5
      (nghttp2_hd_inflate_init nghttp2_hd_side.NGHTTP2_HD_SIDE_CLIENT.flip)).1 =
        { hd := { length := 5, typ := 1, flags := 0, stream_id := 1 }, pri := 1073741824,
          nva := [⟨[97], [98]⟩] } ∧
    ¬ List.Perm [(⟨[97], [98]⟩ : nghttp2_nv)] [⟨[97], [98]⟩, ⟨[97], [98]⟩] := by
  refine ⟨by decide, by decide, by decide, ?_⟩
  intro h
  have := h.length_eq
  simp at this

end Nghttp2

namespace Nghttp2

/-! ### Validation of the payload length -/

/-- C11: the unpack functions return `NGHTTP2_ERR_INVALID_FRAME` exactly when the
payload length is not 4 for PRIORITY, RST_STREAM and WINDOW_UPDATE, not 8 for
PING, not a multiple of 8 for SETTINGS, below 8 for GOAWAY and below 4 for
PUSH_PROMISE (without the header block); for every other payload length they
return 0. -/
theorem unpack_payload_length_validation (head payload : List Nat) (mem : Nat → Nat)
    (p n : Nat) :
    ((payload.length ≠ 4 →
        nghttp2_frame_unpack_priority head payload = .error .NGHTTP2_ERR_INVALID_FRAME) ∧
      (payload.length = 4 → ∃ f, nghttp2_frame_unpack_priority head payload = .ok f)) ∧
    ((payload.length ≠ 4 →
        nghttp2_frame_unpack_rst_stream head payload = .error .NGHTTP2_ERR_INVALID_FRAME) ∧
      (payload.length = 4 → ∃ f, nghttp2_frame_unpack_rst_stream head payload = .ok f)) ∧
    ((payload.length ≠ 4 →
        nghttp2_frame_unpack_window_update head payload = .error .NGHTTP2_ERR_INVALID_FRAME) ∧
      (payload.length = 4 → ∃ f, nghttp2_frame_unpack_window_update head payload = .ok f)) ∧
    ((payload.length ≠ 8 →
        nghttp2_frame_unpack_ping head payload = .error .NGHTTP2_ERR_INVALID_FRAME) ∧
      (payload.length = 8 → ∃ f, nghttp2_frame_unpack_ping head payload = .ok f)) ∧
    ((payload.length % 8 ≠ 0 →
        nghttp2_frame_unpack_settings head payload = .error .NGHTTP2_ERR_INVALID_FRAME) ∧
      (payload.length % 8 = 0 → ∃ f, nghttp2_frame_unpack_settings head payload = .ok f)) ∧
    ((payload.length < 8 →
        nghttp2_frame_unpack_goaway head payload = .error .NGHTTP2_ERR_INVALID_FRAME) ∧
      (8 ≤ payload.length → ∃ f, nghttp2_frame_unpack_goaway head payload = .ok f)) ∧
    ((n < 4 →
        (nghttp2_frame_unpack_push_promise_without_nv head mem p n).2 =
          .error .NGHTTP2_ERR_INVALID_FRAME) ∧
      (4 ≤ n → (nghttp2_frame_unpack_push_promise_without_nv head mem p n).2 = .ok ())) := by
  refine ⟨⟨?_, ?_⟩, ⟨?_, ?_⟩, ⟨?_, ?_⟩, ⟨?_, ?_⟩, ⟨?_, ?_⟩, ⟨?_, ?_⟩, ⟨?_, ?_⟩⟩
  · intro h; simp [nghttp2_frame_unpack_priority, h]
  · intro h
    unfold nghttp2_frame_unpack_priority
    rw [if_neg (by simp [h])]
    exact ⟨_, rfl⟩
  · intro h; simp [nghttp2_frame_unpack_rst_stream, h]
  · intro h
    unfold nghttp2_frame_unpack_rst_stream
    rw [if_neg (by simp [h])]
    exact ⟨_, rfl⟩
  · intro h; simp [nghttp2_frame_unpack_window_update, h]
  · intro h
    unfold nghttp2_frame_unpack_window_update
    rw [if_neg (by simp [h])]
    exact ⟨_, rfl⟩
  · intro h; simp [nghttp2_frame_unpack_ping, h]
  · intro h
    unfold nghttp2_frame_unpack_ping
    rw [if_neg (by simp [h])]
    exact ⟨_, rfl⟩
  · intro h; simp [nghttp2_frame_unpack_settings, h]
  · intro h
    unfold nghttp2_frame_unpack_settings
    rw [if_neg (by simp [h])]
    exact ⟨_, rfl⟩
  · intro h; simp [nghttp2_frame_unpack_goaway, h]
  · intro h
    have h1 : ¬ payload.length < 8 := by omega
    simp only [nghttp2_frame_unpack_goaway, h1, if_false]
    exact ⟨_, rfl⟩
  · intro h; simp [nghttp2_frame_unpack_push_promise_without_nv, h]
  · intro h
    have h1 : ¬ n < 4 := by omega
    simp [nghttp2_frame_unpack_push_promise_without_nv, h1]

/-- C12 (amended): `nghttp2_frame_unpack_headers_without_nv` returns
`NGHTTP2_ERR_INVALID_FRAME` exactly when the payload is shorter than the offset of
the header block inside the payload, which is 4 (not 8) when the PRIORITY flag is
set in the flags of the head and 0 otherwise; when it succeeds with the flag set,
pri is the big-endian 32-bit value of the first payload bytes masked with
`NGHTTP2_PRIORITY_MASK`, and without the flag pri is `NGHTTP2_PRI_DEFAULT`. -/
theorem unpack_headers_without_nv_validation (flag_priority : Nat) (pri_default : Int)
    (head : List Nat) (mem : Nat → Nat) (payload payloadlen : Nat) :
    (headers_nv_offset flag_priority
        (nghttp2_frame_unpack_headers_without_nv flag_priority pri_default head mem payload
          payloadlen).1 - NGHTTP2_FRAME_HEAD_LENGTH =
      if memOf head 3 &&& flag_priority ≠ 0 then 4 else 0) ∧
    (payloadlen < (if memOf head 3 &&& flag_priority ≠ 0 then 4 else 0) →
      (nghttp2_frame_unpack_headers_without_nv flag_priority pri_default head mem payload
        payloadlen).2 = .error .NGHTTP2_ERR_INVALID_FRAME) ∧
    (¬ payloadlen < (if memOf head 3 &&& flag_priority ≠ 0 then 4 else 0) →
      (nghttp2_frame_unpack_headers_without_nv flag_priority pri_default head mem payload
        payloadlen).2 = .ok ()) ∧
    (memOf head 3 &&& flag_priority ≠ 0 → 4 ≤ payloadlen →
      (nghttp2_frame_unpack_headers_without_nv flag_priority pri_default head mem payload
        payloadlen).1.pri =
        ((nghttp2_get_uint32 mem payload &&& NGHTTP2_PRIORITY_MASK : Nat) : Int)) ∧
    (¬ memOf head 3 &&& flag_priority ≠ 0 →
      (nghttp2_frame_unpack_headers_without_nv flag_priority pri_default head mem payload
        payloadlen).1.pri = pri_default) := by
  have hfl : (nghttp2_frame_unpack_frame_hd (memOf head)).flags = memOf head 3 := rfl
  by_cases hf : memOf head 3 &&& flag_priority ≠ 0
  · by_cases hp : payloadlen < 4
    · refine ⟨?_, ?_, ?_, ?_, ?_⟩
      · simp [nghttp2_frame_unpack_headers_without_nv, hf, hp, headers_nv_offset, hfl,
          NGHTTP2_FRAME_HEAD_LENGTH]
      · intro _
        simp [nghttp2_frame_unpack_headers_without_nv, hf, hp]
      · intro h
        rw [if_pos hf] at h
        exact absurd hp h
      · intro _ h
        omega
      · intro h
        exact absurd hf h
    · refine ⟨?_, ?_, ?_, ?_, ?_⟩
      · simp [nghttp2_frame_unpack_headers_without_nv, hf, hp, headers_nv_offset, hfl,
          NGHTTP2_FRAME_HEAD_LENGTH]
      · intro h
        rw [if_pos hf] at h
        exact absurd h hp
      · intro _
        simp [nghttp2_frame_unpack_headers_without_nv, hf, hp]
      · intro _ _
        simp [nghttp2_frame_unpack_headers_without_nv, hf, hp]
      · intro h
        exact absurd hf h
  · refine ⟨?_, ?_, ?_, ?_, ?_⟩
    · simp [nghttp2_frame_unpack_headers_without_nv, hf, headers_nv_offset, hfl,
        NGHTTP2_FRAME_HEAD_LENGTH]
    · intro h
      rw [if_neg hf] at h
      omega
    · intro _
      simp [nghttp2_frame_unpack_headers_without_nv, hf]
    · intro h
      exact absurd h hf
    · intro _
      simp [nghttp2_frame_unpack_headers_without_nv, hf]

/-- C12 as stated fails: with 8 for `NGHTTP2_FLAG_PRIORITY`, a HEADERS head with
the flags 8 and the 4-byte payload `00 00 00 05`, which is shorter than 8, are
unpacked with the return value 0 and the pri 5. -/
theorem unpack_headers_short_payload_counterexample :
    nghttp2_frame_unpack_headers_without_nv 8 (2 ^ 30) [0, 4, 1, 8, 0, 0, 0, 1]
        (memOf [0, 0, 0, 5]) 0 4 =
      ({ hd := { length := 4, typ := 1, flags := 8, stream_id := 1 }, pri := 5, nva := [] },
        .ok ()) := by
  decide

/-- C14 (amended): `nghttp2_frame_nv_offset` returns where the compressed block
starts counted from the start of the frame, the 8 bytes of the head included: 12
when the type byte is PUSH_PROMISE, 12 when it is HEADERS with the PRIORITY flag
set, 8 when it is HEADERS without the flag, and -1 for every other type byte. -/
theorem frame_nv_offset_values (typ_headers typ_push_promise flag_priority : Nat)
    (head : Nat → Nat) (hne : typ_headers ≠ typ_push_promise) :
    (head 2 = typ_push_promise →
      nghttp2_frame_nv_offset typ_headers typ_push_promise flag_priority head = 12) ∧
    (head 2 = typ_headers → head 3 &&& flag_priority ≠ 0 →
      nghttp2_frame_nv_offset typ_headers typ_push_promise flag_priority head = 12) ∧
    (head 2 = typ_headers → ¬ head 3 &&& flag_priority ≠ 0 →
      nghttp2_frame_nv_offset typ_headers typ_push_promise flag_priority head = 8) ∧
    (head 2 ≠ typ_headers → head 2 ≠ typ_push_promise →
      nghttp2_frame_nv_offset typ_headers typ_push_promise flag_priority head = -1) := by
  unfold nghttp2_frame_nv_offset NGHTTP2_FRAME_HEAD_LENGTH
  refine ⟨?_, ?_, ?_, ?_⟩
  · intro h
    have h1 : ¬ head 2 = typ_headers := by rw [h]; exact fun e => hne e.symm
    rw [if_neg h1, if_pos h]
    rfl
  · intro h hf
    simp [h, hf]
  · intro h hf
    simp [h, hf]
  · intro h1 h2
    simp [h1, h2]

/-- An instance of `frame_nv_offset_values`: with 1, 5 and 8 for `NGHTTP2_HEADERS`,
`NGHTTP2_PUSH_PROMISE` and `NGHTTP2_FLAG_PRIORITY`, the head of a HEADERS frame
with the flags 12. -/
theorem frame_nv_offset_values_witness :
    nghttp2_frame_nv_offset 1 5 8 (memOf [0, 29, 1, 12, 0, 0, 0, 1]) = 12 :=
  (frame_nv_offset_values 1 5 8 (memOf [0, 29, 1, 12, 0, 0, 0, 1]) (by decide)).2.1
    (by decide) (by decide)

/-- C14 as stated fails: with 1, 5 and 8 for `NGHTTP2_HEADERS`,
`NGHTTP2_PUSH_PROMISE` and `NGHTTP2_FLAG_PRIORITY`, the function returns 8 and not
0 on the head of a HEADERS frame without the PRIORITY flag, and 12 and not 4 on
the head of a PUSH_PROMISE frame. -/
theorem frame_nv_offset_counterexample :
    nghttp2_frame_nv_offset 1 5 8 (memOf [0, 0, 1, 0, 0, 0, 0, 1]) = 8 ∧
    nghttp2_frame_nv_offset 1 5 8 (memOf [0, 4, 5, 0, 0, 0, 0, 1]) = 12 := by
  decide

/-! ### PING -/

/-- C20: for every flags byte and 8 opaque bytes `d`, `nghttp2_frame_pack_ping` on
the frame built by `nghttp2_frame_ping_init` returns 16 and writes
`00 08 06 flags 00 00 00 00` followed by `d`; the bytes of the buffer from 16 on
are kept. -/
theorem ping_pack_bytes (buf : List Nat) (flags : Nat) (d : List Nat) (hflags : flags < 256)
    (hd : d.length = 8) :
    nghttp2_frame_pack_ping buf (nghttp2_frame_ping_init flags (some d)) =
      ([0, 8, 6, flags, 0, 0, 0, 0] ++ d ++ buf.drop 16, 16) := by
  have ht : d.take 8 = d := List.take_of_length_le (by omega)
  simp only [nghttp2_frame_pack_ping, nghttp2_frame_ping_init, NGHTTP2_FRAME_HEAD_LENGTH, ht]
  rw [memset_zero_reserve, pack_frame_hd_eq,
    write_bytes_append_left _ _ _ 8 (frame_hd_bytes_length _)]
  have hb : frame_hd_bytes (nghttp2_frame_set_hd 8 NGHTTP2_PING flags 0) =
      [0, 8, 6, flags, 0, 0, 0, 0] := by
    simp [frame_hd_bytes, nghttp2_frame_set_hd, NGHTTP2_PING, nghttp2_put_uint16be,
      nghttp2_put_uint32be, to_uint32, Nat.mod_eq_of_lt hflags]
  rw [hb, hd]
  simp [List.drop_append, List.drop_drop]

/-- The scenario of C20: with the flags 0 and the opaque bytes
`01 02 03 04 05 06 07 08` the output is exactly
`00 08 06 00 00 00 00 00 01 02 03 04 05 06 07 08`. -/
theorem ping_pack_bytes_witness :
    nghttp2_frame_pack_ping [] (nghttp2_frame_ping_init 0 (some [1, 2, 3, 4, 5, 6, 7, 8])) =
      ([0, 8, 6, 0, 0, 0, 0, 0, 1, 2, 3, 4, 5, 6, 7, 8], 16) :=
  ping_pack_bytes [] 0 [1, 2, 3, 4, 5, 6, 7, 8] (by decide) rfl

end Nghttp2

namespace Nghttp2

/-! ### Duplicate check of SETTINGS entries -/

theorem settings_check_duplicate_loop_spec (settings_max : Nat) :
    ∀ (iv : List nghttp2_settings_entry) (check : List Nat),
    check.length = settings_max + 1 → (∀ e ∈ iv, 0 ≤ e.settings_id) →
    (settings_check_duplicate_loop settings_max iv check = .ok 0 ∨
      settings_check_duplicate_loop settings_max iv check = .ok 1) ∧
    (settings_check_duplicate_loop settings_max iv check = .ok 1 ↔
      (∀ e ∈ iv, 0 < e.settings_id ∧ e.settings_id ≤ settings_max ∧
        check.getD e.settings_id.toNat 0 ≠ 1) ∧
      (iv.map nghttp2_settings_entry.settings_id).Nodup) := by
  intro iv
  induction iv with
  | nil =>
    intro check _ _
    simp [settings_check_duplicate_loop]
  | cons e iv ih =>
    intro check hlen hnn
    have he0 : 0 ≤ e.settings_id := hnn e (List.mem_cons_self _ _)
    have hnn1 : ∀ e1 ∈ iv, 0 ≤ e1.settings_id := fun e1 h => hnn e1 (List.mem_cons_of_mem _ h)
    by_cases h1 : e.settings_id > settings_max ∨ e.settings_id = 0
    · have hL : settings_check_duplicate_loop settings_max (e :: iv) check = .ok 0 := by
        simp only [settings_check_duplicate_loop, h1, if_true]
      rw [hL]
      refine ⟨Or.inl rfl, ?_⟩
      constructor
      · intro h; simp at h
      · intro ⟨h, _⟩
        have := h e (List.mem_cons_self _ _)
        omega
    · have h2 : ¬ e.settings_id < 0 := by omega
      by_cases h3 : check.getD e.settings_id.toNat 0 = 1
      · have hL : settings_check_duplicate_loop settings_max (e :: iv) check = .ok 0 := by
          simp only [settings_check_duplicate_loop, h1, h2, h3, if_true, if_false]
        rw [hL]
        refine ⟨Or.inl rfl, ?_⟩
        constructor
        · intro h; simp at h
        · intro ⟨h, _⟩
          exact absurd h3 (h e (List.mem_cons_self _ _)).2.2
      · have hL : settings_check_duplicate_loop settings_max (e :: iv) check =
            settings_check_duplicate_loop settings_max iv (check.set e.settings_id.toNat 1) := by
          simp only [settings_check_duplicate_loop, h1, h2, h3, if_false]
        rw [hL]
        obtain ⟨i1, i2⟩ := ih (check.set e.settings_id.toNat 1) (by simp [hlen]) hnn1
        refine ⟨i1, ?_⟩
        rw [i2]
        have hlt : e.settings_id.toNat < check.length := by omega
        have hset : ∀ e1 : nghttp2_settings_entry, 0 ≤ e1.settings_id →
            ((check.set e.settings_id.toNat 1).getD e1.settings_id.toNat 0 ≠ 1 ↔
              e1.settings_id ≠ e.settings_id ∧ check.getD e1.settings_id.toNat 0 ≠ 1) := by
          intro e1 h10
          rw [checks_getD_set]
          by_cases heq : e.settings_id.toNat = e1.settings_id.toNat
          · have : e1.settings_id = e.settings_id := by omega
            simp [heq, hlt, this]
            omega
          · have : e1.settings_id ≠ e.settings_id := by
              intro h; apply heq; rw [h]
            simp [heq, this]
        simp only [List.map_cons, List.nodup_cons, List.mem_map, List.mem_cons,
          forall_eq_or_imp]
        constructor
        · intro ⟨ha, hb⟩
          refine ⟨⟨⟨by omega, by omega, h3⟩, ?_⟩, ?_, hb⟩
          · intro e1 he1
            obtain ⟨a, b, c⟩ := ha e1 he1
            exact ⟨a, b, ((hset e1 (hnn1 e1 he1)).mp c).2⟩
          · rintro ⟨e1, he1, heq⟩
            exact ((hset e1 (hnn1 e1 he1)).mp (ha e1 he1).2.2).1 heq
        · intro ⟨⟨_, ha⟩, hc, hb⟩
          refine ⟨?_, hb⟩
          intro e1 he1
          obtain ⟨a, b, c⟩ := ha e1 he1
          refine ⟨a, b, (hset e1 (hnn1 e1 he1)).mpr ⟨?_, c⟩⟩
          intro heq
          exact hc ⟨e1, he1, heq⟩

/-- C15 (amended): for every list of SETTINGS entries with ids that are not
negative, `nghttp2_settings_check_duplicate` returns 0 or 1, and it returns 0 if
and only if two entries share the same id, some entry has the id 0, or some entry
has an id greater than `NGHTTP2_SETTINGS_MAX`. -/
theorem settings_check_duplicate_iff (settings_max : Nat) (iv : List nghttp2_settings_entry)
    (hnn : ∀ e ∈ iv, 0 ≤ e.settings_id) :
    (nghttp2_settings_check_duplicate settings_max iv = .ok 0 ∨
      nghttp2_settings_check_duplicate settings_max iv = .ok 1) ∧
    (nghttp2_settings_check_duplicate settings_max iv = .ok 0 ↔
      ¬ (iv.map nghttp2_settings_entry.settings_id).Nodup ∨
        (∃ e ∈ iv, e.settings_id = 0) ∨ (∃ e ∈ iv, e.settings_id > settings_max)) := by
  unfold nghttp2_settings_check_duplicate
  obtain ⟨h1, h2⟩ := settings_check_duplicate_loop_spec settings_max iv
    (List.replicate (settings_max + 1) 0) (by simp) hnn
  refine ⟨h1, ?_⟩
  have hz : ∀ i, (List.replicate (settings_max + 1) 0).getD i 0 ≠ 1 := by
    intro i
    simp only [List.getD_eq_getElem?_getD, List.getElem?_replicate]
    split <;> simp
  constructor
  · intro h0
    by_contra hcon
    push_neg at hcon
    obtain ⟨c1, c2, c3⟩ := hcon
    have : settings_check_duplicate_loop settings_max iv (List.replicate (settings_max + 1) 0) =
        .ok 1 := by
      rw [h2]
      refine ⟨fun e he => ⟨?_, c3 e he, hz _⟩, c1⟩
      have := hnn e he
      have := c2 e he
      omega
    rw [this] at h0
    simp at h0
  · intro h
    rcases h1 with h1 | h1
    · exact h1
    · exfalso
      obtain ⟨a, b⟩ := h2.mp h1
      rcases h with h | ⟨e, he, h⟩ | ⟨e, he, h⟩
      · exact h b
      · have := (a e he).1; omega
      · have := (a e he).2.1; omega

/-- An instance of `settings_check_duplicate_iff`: with 10 for
`NGHTTP2_SETTINGS_MAX`, the entries (4, 100) and (7, 65535) pass, and the list is
refused when (4, 1) is added. -/
theorem settings_check_duplicate_iff_witness :
    nghttp2_settings_check_duplicate 10 [⟨4, 100⟩, ⟨7, 65535⟩] = .ok 1 ∧
    (nghttp2_settings_check_duplicate 10 [⟨4, 100⟩, ⟨7, 65535⟩, ⟨4, 1⟩] = .ok 0 ↔
      ¬ (([⟨4, 100⟩, ⟨7, 65535⟩, ⟨4, 1⟩] : List nghttp2_settings_entry).map
          nghttp2_settings_entry.settings_id).Nodup ∨
        (∃ e ∈ ([⟨4, 100⟩, ⟨7, 65535⟩, ⟨4, 1⟩] : List nghttp2_settings_entry),
          e.settings_id = 0) ∨
        (∃ e ∈ ([⟨4, 100⟩, ⟨7, 65535⟩, ⟨4, 1⟩] : List nghttp2_settings_entry),
          e.settings_id > (10 : Nat))) :=
  ⟨by decide, (settings_check_duplicate_iff 10 [⟨4, 100⟩, ⟨7, 65535⟩, ⟨4, 1⟩] (by decide)).2⟩

/-- C15 as stated fails: with 10 for `NGHTTP2_SETTINGS_MAX`, the one entry with
the id 11 (no id twice, no id 0) makes `nghttp2_settings_check_duplicate`
return 0. -/
theorem settings_check_unknown_id_counterexample :
    nghttp2_settings_check_duplicate 10 [⟨11, 1⟩] = .ok 0 := by
  decide

end Nghttp2

namespace Nghttp2

/-! ### The name comparator -/

theorem name_compar_nil_nil (va vb : List Nat) :
    nghttp2_nv_name_compar ⟨[], va⟩ ⟨[], vb⟩ = 0 := by
  simp [nghttp2_nv_name_compar, memcmp]

theorem name_compar_nil_cons (y : Nat) (ys va vb : List Nat) :
    nghttp2_nv_name_compar ⟨[], va⟩ ⟨y :: ys, vb⟩ = -1 := by
  simp [nghttp2_nv_name_compar, memcmp]

theorem name_compar_cons_nil (x : Nat) (xs va vb : List Nat) :
    nghttp2_nv_name_compar ⟨x :: xs, va⟩ ⟨[], vb⟩ = 1 := by
  simp [nghttp2_nv_name_compar, memcmp]

theorem name_compar_cons_cons (x y : Nat) (xs ys va vb : List Nat) :
    nghttp2_nv_name_compar ⟨x :: xs, va⟩ ⟨y :: ys, vb⟩ =
      if x ≠ y then (x : Int) - (y : Int) else nghttp2_nv_name_compar ⟨xs, va⟩ ⟨ys, vb⟩ := by
  by_cases hxy : x = y
  · subst hxy
    simp only [nghttp2_nv_name_compar, List.length_cons, Nat.add_right_cancel_iff,
      Nat.add_lt_add_iff_right, memcmp, ne_eq, not_true_eq_false, if_false]
  · have hne : (x : Int) - (y : Int) ≠ 0 := by omega
    simp only [nghttp2_nv_name_compar, List.length_cons, memcmp, ne_eq, hxy,
      not_false_eq_true, if_true, hne, if_false]
    split
    · rfl
    · split <;> rfl

theorem name_compar_sign : ∀ (xs ys va vb : List Nat),
    (nghttp2_nv_name_compar ⟨xs, va⟩ ⟨ys, vb⟩ < 0 ↔ List.Lex (· < ·) xs ys) ∧
    (nghttp2_nv_name_compar ⟨xs, va⟩ ⟨ys, vb⟩ = 0 ↔ xs = ys) ∧
    (0 < nghttp2_nv_name_compar ⟨xs, va⟩ ⟨ys, vb⟩ ↔ List.Lex (· < ·) ys xs) := by
  intro xs
  induction xs with
  | nil =>
    intro ys va vb
    cases ys with
    | nil =>
      rw [name_compar_nil_nil]
      refine ⟨⟨fun h => absurd h (by decide), fun h => by cases h⟩, by simp,
        ⟨fun h => absurd h (by decide), fun h => by cases h⟩⟩
    | cons y ys =>
      rw [name_compar_nil_cons]
      refine ⟨⟨fun _ => List.Lex.nil, fun _ => by decide⟩, by simp,
        ⟨fun h => absurd h (by decide), fun h => by cases h⟩⟩
  | cons x xs ih =>
    intro ys va vb
    cases ys with
    | nil =>
      rw [name_compar_cons_nil]
      refine ⟨⟨fun h => absurd h (by decide), fun h => by cases h⟩, by simp,
        ⟨fun _ => List.Lex.nil, fun _ => by decide⟩⟩
    | cons y ys =>
      rw [name_compar_cons_cons]
      by_cases hxy : x = y
      · subst hxy
        simp only [ne_eq, not_true_eq_false, if_false, List.cons.injEq, true_and]
        obtain ⟨i1, i2, i3⟩ := ih ys va vb
        refine ⟨i1.trans ⟨List.Lex.cons, ?_⟩, i2, i3.trans ⟨List.Lex.cons, ?_⟩⟩
        · intro h
          cases h with
          | cons h1 => exact h1
          | rel h1 => exact absurd h1 (lt_irrefl _)
        · intro h
          cases h with
          | cons h1 => exact h1
          | rel h1 => exact absurd h1 (lt_irrefl _)
      · simp only [ne_eq, hxy, not_false_eq_true, if_true, List.cons.injEq, false_and]
        refine ⟨⟨fun h => List.Lex.rel (by omega), ?_⟩, ⟨fun h => by omega, fun h => h.elim⟩,
          ⟨fun h => List.Lex.rel (by omega), ?_⟩⟩
        · intro h
          cases h with
          | cons h1 => exact absurd rfl hxy
          | rel h1 => omega
        · intro h
          cases h with
          | cons h1 => exact absurd rfl hxy
          | rel h1 => omega

theorem nv_name_le_iff (a b : nghttp2_nv) :
    nv_name_le a b ↔ ¬ List.Lex (· < ·) b.name a.name := by
  unfold nv_name_le
  rw [← (name_compar_sign a.name b.name a.value b.value).2.2]
  exact not_lt.symm

theorem nv_name_le_total (a b : nghttp2_nv) : nv_name_le a b ∨ nv_name_le b a := by
  rw [nv_name_le_iff, nv_name_le_iff]
  by_cases h : List.Lex (· < ·) b.name a.name
  · exact Or.inr (fun h1 => asymm_of (List.Lex (· < ·)) h h1)
  · exact Or.inl h

theorem nv_name_le_trans (a b c : nghttp2_nv) (hab : nv_name_le a b) (hbc : nv_name_le b c) :
    nv_name_le a c := by
  rw [nv_name_le_iff] at *
  intro hca
  obtain ⟨s1, s2, s3⟩ := name_compar_sign b.name a.name b.value a.value
  rcases lt_trichotomy (nghttp2_nv_name_compar ⟨b.name, b.value⟩ ⟨a.name, a.value⟩) 0 with
    h | h | h
  · exact hab (s1.mp h)
  · rw [s2.mp h] at hbc; exact hbc hca
  · exact hbc (@trans_of (List Nat) (List.Lex (· < ·)) _ _ _ _ hca (s3.mp h))

theorem nghttp2_nv_array_sort_sorted (l : List nghttp2_nv) :
    (nghttp2_nv_array_sort l).Pairwise nv_name_le := by
  haveI : IsTotal nghttp2_nv nv_name_le := ⟨nv_name_le_total⟩
  haveI : IsTrans nghttp2_nv nv_name_le := ⟨nv_name_le_trans⟩
  exact List.sorted_insertionSort nv_name_le l

/-- C17 (amended): the order used by `nghttp2_nv_array_sort` is the lexicographic
order of the name bytes, not shorter-name-first: `nghttp2_nv_name_compar` is
negative exactly when the name of `a` is before the name of `b` in the
lexicographic order (so a strictly shorter name is first only when no byte before
its end decides otherwise), zero exactly for equal names, positive exactly in the
opposite case; names of equal length are ordered by `memcmp` of their bytes. -/
theorem name_compar_lexicographic (a b : nghttp2_nv) :
    (nghttp2_nv_name_compar a b < 0 ↔ List.Lex (· < ·) a.name b.name) ∧
    (nghttp2_nv_name_compar a b = 0 ↔ a.name = b.name) ∧
    (0 < nghttp2_nv_name_compar a b ↔ List.Lex (· < ·) b.name a.name) ∧
    (a.name.length = b.name.length →
      nghttp2_nv_name_compar a b = memcmp a.name b.name a.name.length) := by
  obtain ⟨h1, h2, h3⟩ := name_compar_sign a.name b.name a.value b.value
  refine ⟨h1, h2, h3, ?_⟩
  intro h
  simp [nghttp2_nv_name_compar, h]

/-- C17 as stated fails: the name `b` is strictly shorter than the name `aa`, and
`nghttp2_nv_name_compar` orders it after `aa` (the result is positive). -/
theorem name_compar_shorter_counterexample :
    ([98] : List Nat).length < ([97, 97] : List Nat).length ∧
    nghttp2_nv_name_compar ⟨[98], []⟩ ⟨[97, 97], []⟩ = 1 ∧
    nghttp2_nv_array_sort [⟨[98], []⟩, ⟨[97, 97], []⟩] = [⟨[97, 97], []⟩, ⟨[98], []⟩] := by
  decide

/-! ### The array returned by the inflater -/

theorem ws_entry_nv_eq_none (heap : List nghttp2_hd_entry) (cell : nghttp2_hd_ws_entry) :
    ws_entry_nv heap cell = none ↔ cell = .none := by
  cases cell <;> simp [ws_entry_nv]

/-- C16: whenever `nghttp2_hd_inflate_hd` succeeds, the returned array is sorted
in non-decreasing order under `nghttp2_nv_name_compar` and holds exactly one
element per working-set cell that is not a tombstone: the pair of the entry for an
INDEXED cell, the name of the entry with the value of the cell for an INDNAME
cell, the pair of the cell for a NEWNAME cell. -/
theorem inflate_output_sorted (inflater : nghttp2_hd_context) (mem : Nat → Nat)
    (inp inlen : Nat) (c1 : nghttp2_hd_context) (out : List nghttp2_nv)
    (h : nghttp2_hd_inflate_hd inflater mem inp inlen = (c1, .ok out)) :
    out.Pairwise (fun a b => nghttp2_nv_name_compar a b ≤ 0) ∧
    List.Perm out (c1.ws.filterMap (ws_entry_nv c1.heap)) ∧
    out.length = (c1.ws.filter (fun cell => decide (cell ≠ .none))).length ∧
    (∀ ent i, ws_entry_nv c1.heap (.indexed ent i) = some (heap_get c1.heap ent).nv) ∧
    (∀ ent v, ws_entry_nv c1.heap (.indname ent v) =
      some ⟨(heap_get c1.heap ent).nv.name, v⟩) ∧
    (∀ nv, ws_entry_nv c1.heap (.newname nv) = some nv) ∧
    ws_entry_nv c1.heap .none = none := by
  unfold nghttp2_hd_inflate_hd at h
  by_cases hb : inflater.bad = true
  · simp [hb] at h
  simp only [hb, if_false] at h
  generalize inflate_loop mem (inp + inlen) inlen inp (create_workingset inflater) = q at h
  obtain ⟨c, r⟩ := q
  cases r with
  | error e => simp at h
  | ok u =>
    simp only [Prod.mk.injEq, Except.ok.injEq] at h
    obtain ⟨rfl, rfl⟩ := h
    refine ⟨nghttp2_nv_array_sort_sorted _, List.perm_insertionSort _ _, ?_,
      fun _ _ => rfl, fun _ _ => rfl, fun _ => rfl, rfl⟩
    unfold build_nv_array nghttp2_nv_array_sort
    rw [(List.perm_insertionSort _ _).length_eq]
    induction c1.ws with
    | nil => rfl
    | cons cell rest ih =>
      cases cell <;> simp [List.filterMap_cons, List.filter_cons, ws_entry_nv, ih]

/-- An instance of `inflate_output_sorted`: the two indexed blocks `80 83` on a
context seeded with the request table; the array holds `:path` before `:scheme`. -/
theorem inflate_output_sorted_witness :
    ([⟨cstr ":path", cstr "/"⟩, ⟨cstr ":scheme", cstr "http"⟩] : List nghttp2_nv).Pairwise
      (fun a b => nghttp2_nv_name_compar a b ≤ 0) ∧
    (nghttp2_hd_inflate_hd (nghttp2_hd_context_init .NGHTTP2_HD_SIDE_CLIENT)
      (memOf [128, 131]) 0 2).2 =
        .ok [⟨cstr ":path", cstr "/"⟩, ⟨cstr ":scheme", cstr "http"⟩] :=
  ⟨(inflate_output_sorted (nghttp2_hd_context_init .NGHTTP2_HD_SIDE_CLIENT)
      (memOf [128, 131]) 0 2 _ _ (Prod.ext rfl (by decide))).1, by decide⟩

end Nghttp2

namespace Nghttp2

/-! ### The reserved bits -/

theorem getD_hd4 (hd : nghttp2_frame_hd) (rest : List Nat) :
    (frame_hd_bytes hd ++ rest).getD 4 0 = (to_uint32 hd.stream_id / 2 ^ 24) % 256 := by
  simp [frame_hd_bytes, nghttp2_put_uint16be, nghttp2_put_uint32be]

theorem getD_hd8 (hd : nghttp2_frame_hd) (v : Nat) (rest : List Nat) :
    (frame_hd_bytes hd ++ nghttp2_put_uint32be v ++ rest).getD 8 0 = (v / 2 ^ 24) % 256 := by
  simp [frame_hd_bytes, nghttp2_put_uint16be, nghttp2_put_uint32be]

theorem top_bit_clear (v : Int) (h0 : 0 ≤ v) (h1 : v < 2 ^ 31) :
    (to_uint32 v / 2 ^ 24) % 256 < 128 := by
  obtain ⟨e1, e2⟩ := to_uint32_of_nonneg v h0 h1
  rw [e1]
  omega

theorem masked_range (n : Nat) :
    0 ≤ ((n &&& (2 ^ 31 - 1) : Nat) : Int) ∧ ((n &&& (2 ^ 31 - 1) : Nat) : Int) < 2 ^ 31 := by
  rw [mask31]
  omega

theorem pack_priority_shape (buf : List Nat) (F : nghttp2_priority) :
    (nghttp2_frame_pack_priority buf F).1 =
      frame_hd_bytes F.hd ++ nghttp2_put_uint32be (to_uint32 F.pri) ++ buf.drop 12 := by
  simp only [nghttp2_frame_pack_priority, NGHTTP2_FRAME_HEAD_LENGTH]
  rw [pack_fixed4 _ _ _ (put_uint32be_length _)]

theorem pack_rst_stream_shape (buf : List Nat) (F : nghttp2_rst_stream) :
    (nghttp2_frame_pack_rst_stream buf F).1 =
      frame_hd_bytes F.hd ++ nghttp2_put_uint32be (F.error_code % 2 ^ 32) ++ buf.drop 12 := by
  simp only [nghttp2_frame_pack_rst_stream, NGHTTP2_FRAME_HEAD_LENGTH]
  rw [pack_fixed4 _ _ _ (put_uint32be_length _)]

theorem pack_window_update_shape (buf : List Nat) (F : nghttp2_window_update) :
    (nghttp2_frame_pack_window_update buf F).1 =
      frame_hd_bytes F.hd ++ nghttp2_put_uint32be (to_uint32 F.window_size_increment) ++
        buf.drop 12 := by
  simp only [nghttp2_frame_pack_window_update, NGHTTP2_FRAME_HEAD_LENGTH]
  rw [pack_fixed4 _ _ _ (put_uint32be_length _)]

theorem pack_ping_shape (buf : List Nat) (F : nghttp2_ping) :
    ∃ rest, (nghttp2_frame_pack_ping buf F).1 = frame_hd_bytes F.hd ++ rest := by
  simp only [nghttp2_frame_pack_ping, NGHTTP2_FRAME_HEAD_LENGTH]
  rw [memset_zero_reserve, pack_frame_hd_eq,
    write_bytes_append_left _ _ _ 8 (frame_hd_bytes_length _), List.append_assoc]
  exact ⟨_, rfl⟩

theorem pack_goaway_shape (buf : List Nat) (F : nghttp2_goaway) :
    ∃ rest, (nghttp2_frame_pack_goaway buf F).1 =
      frame_hd_bytes F.hd ++ nghttp2_put_uint32be (to_uint32 F.last_stream_id) ++ rest := by
  simp only [nghttp2_frame_pack_goaway, NGHTTP2_FRAME_HEAD_LENGTH]
  rw [memset_zero_reserve, pack_frame_hd_eq,
    write_bytes_append_left _ _ _ 8 (frame_hd_bytes_length _),
    write_bytes_append_left _ _ _ 12 (by simp [frame_hd_bytes_length, put_uint32be_length]),
    write_bytes_append_left _ _ _ 16 (by simp [frame_hd_bytes_length, put_uint32be_length])]
  simp only [List.append_assoc]
  exact ⟨_, rfl⟩

theorem write_bytes_keeps (buf data : List Nat) (off i : Nat) (hi : i < off)
    (hl : i < buf.length) :
    (write_bytes buf off data).getD i 0 = buf.getD i 0 ∧ i < (write_bytes buf off data).length := by
  unfold write_bytes
  have h1 : i < (buf.take off).length := by simp; omega
  constructor
  · simp only [List.getD_eq_getElem?_getD, List.append_assoc]
    rw [List.getElem?_append_left h1, List.getElem?_take_of_lt hi]
  · simp only [List.length_append]
    omega

theorem pack_settings_payload_keeps (i : Nat) :
    ∀ (iv : List nghttp2_settings_entry) (buf : List Nat) (off : Nat), i < off →
      i < buf.length →
      (nghttp2_frame_pack_settings_payload buf off iv).getD i 0 = buf.getD i 0 := by
  intro iv
  induction iv with
  | nil => intro buf off _ _; rfl
  | cons e iv ih =>
    intro buf off hi hl
    simp only [nghttp2_frame_pack_settings_payload]
    obtain ⟨a1, a2⟩ := write_bytes_keeps buf (nghttp2_put_uint32be (to_uint32 e.settings_id))
      off i hi hl
    obtain ⟨b1, b2⟩ := write_bytes_keeps _ (nghttp2_put_uint32be (e.value % 2 ^ 32))
      (off + 4) i (by omega) a2
    rw [ih _ (off + 8) (by omega) b2, b1, a1]

theorem pack_settings_byte4 (buf : List Nat) (F : nghttp2_settings) :
    (nghttp2_frame_pack_settings buf F).1.getD 4 0 = (to_uint32 F.hd.stream_id / 2 ^ 24) % 256 := by
  simp only [nghttp2_frame_pack_settings, NGHTTP2_FRAME_HEAD_LENGTH]
  rw [memset_zero_reserve, pack_frame_hd_eq,
    pack_settings_payload_keeps 4 _ _ 8 (by omega)
      (by rw [List.length_append, frame_hd_bytes_length]; omega),
    getD_hd4]

/-- The buffer that `nghttp2_frame_pack_push_promise` leaves when the deflater
succeeds. -/
theorem pack_push_promise_shape (buf : List Nat) (F F1 : nghttp2_push_promise)
    (d d1 : nghttp2_hd_context) (buf1 : List Nat) (n : Nat)
    (h : nghttp2_frame_pack_push_promise buf F d = (F1, d1, buf1, .ok n)) :
    ∃ len rest, buf1 = frame_hd_bytes (nghttp2_frame_hd.mk len F.hd.typ F.hd.flags
        F.hd.stream_id) ++ nghttp2_put_uint32be (to_uint32 F.promised_stream_id) ++ rest := by
  generalize hq : nghttp2_hd_deflate_hd d buf (NGHTTP2_FRAME_HEAD_LENGTH + 4) F.nva = q
  obtain ⟨dD, bufD, rv⟩ := q
  cases rv with
  | error e => simp [nghttp2_frame_pack_push_promise, hq] at h
  | ok m =>
    simp only [nghttp2_frame_pack_push_promise, hq, Prod.mk.injEq, Except.ok.injEq] at h
    obtain ⟨_, _, hb, _⟩ := h
    simp only [NGHTTP2_FRAME_HEAD_LENGTH] at hb
    rw [pack_fixed4 _ _ _ (put_uint32be_length _)] at hb
    exact ⟨_, _, hb.symm⟩

/-- The buffer that `nghttp2_frame_pack_headers` leaves when the deflater
succeeds, up to the bytes behind the head and the priority. -/
theorem pack_headers_head (flag_priority : Nat) (buf : List Nat) (F F1 : nghttp2_headers)
    (d d1 : nghttp2_hd_context) (buf1 : List Nat) (n : Nat)
    (h : nghttp2_frame_pack_headers flag_priority buf F d = (F1, d1, buf1, .ok n)) :
    ∃ len, (∃ rest, buf1 = frame_hd_bytes (nghttp2_frame_hd.mk len F.hd.typ F.hd.flags
        F.hd.stream_id) ++ rest) ∧
      (F.hd.flags &&& flag_priority ≠ 0 →
        ∃ rest, buf1 = frame_hd_bytes (nghttp2_frame_hd.mk len F.hd.typ F.hd.flags
          F.hd.stream_id) ++ nghttp2_put_uint32be (to_uint32 F.pri) ++ rest) := by
  generalize hq : nghttp2_hd_deflate_hd d buf (headers_nv_offset flag_priority F) F.nva = q
  obtain ⟨dD, bufD, rv⟩ := q
  cases rv with
  | error e =>
    unfold nghttp2_frame_pack_headers at h
    simp [hq] at h
  | ok m =>
    rw [pack_headers_shape flag_priority buf F d dD bufD m hq] at h
    simp only [Prod.mk.injEq, Except.ok.injEq] at h
    obtain ⟨_, _, hb, _⟩ := h
    refine ⟨(m + headers_nv_offset flag_priority F - 8) % 2 ^ 16, ?_, ?_⟩
    · by_cases hf : F.hd.flags &&& flag_priority ≠ 0
      · rw [if_pos hf, List.append_assoc] at hb
        exact ⟨_, hb.symm⟩
      · rw [if_neg hf] at hb
        exact ⟨_, hb.symm⟩
    · intro hf
      rw [if_pos hf] at hb
      exact ⟨_, hb.symm⟩

end Nghttp2

namespace Nghttp2

/-- C13 (amended): for frame values whose stream id, priority, promised stream
id, last stream id and window size increment are in the 31-bit range, the bytes
written by the pack functions have the top bit of the stream id (byte 4 of the
head) and of the PRIORITY/HEADERS priority, PUSH_PROMISE promised stream id, GOAWAY
last stream id and WINDOW_UPDATE increment (byte 8) equal to 0, a byte below 128;
and every unpack function clears that bit in the value it stores, which is in
the 31-bit range. -/
theorem reserved_bits_emit_parse :
    (∀ (buf : List Nat) (F : nghttp2_priority), 0 ≤ F.hd.stream_id → F.hd.stream_id < 2 ^ 31 →
      (nghttp2_frame_pack_priority buf F).1.getD 4 0 < 128) ∧
    (∀ (buf : List Nat) (F : nghttp2_rst_stream), 0 ≤ F.hd.stream_id →
      F.hd.stream_id < 2 ^ 31 → (nghttp2_frame_pack_rst_stream buf F).1.getD 4 0 < 128) ∧
    (∀ (buf : List Nat) (F : nghttp2_settings), 0 ≤ F.hd.stream_id → F.hd.stream_id < 2 ^ 31 →
      (nghttp2_frame_pack_settings buf F).1.getD 4 0 < 128) ∧
    (∀ (buf : List Nat) (F : nghttp2_ping), 0 ≤ F.hd.stream_id → F.hd.stream_id < 2 ^ 31 →
      (nghttp2_frame_pack_ping buf F).1.getD 4 0 < 128) ∧
    (∀ (buf : List Nat) (F : nghttp2_goaway), 0 ≤ F.hd.stream_id → F.hd.stream_id < 2 ^ 31 →
      (nghttp2_frame_pack_goaway buf F).1.getD 4 0 < 128) ∧
    (∀ (buf : List Nat) (F : nghttp2_window_update), 0 ≤ F.hd.stream_id →
      F.hd.stream_id < 2 ^ 31 → (nghttp2_frame_pack_window_update buf F).1.getD 4 0 < 128) ∧
    (∀ (flag_priority : Nat) (buf : List Nat) (F F1 : nghttp2_headers)
      (d d1 : nghttp2_hd_context) (buf1 : List Nat) (n : Nat),
      0 ≤ F.hd.stream_id → F.hd.stream_id < 2 ^ 31 →
      nghttp2_frame_pack_headers flag_priority buf F d = (F1, d1, buf1, .ok n) →
      buf1.getD 4 0 < 128) ∧
    (∀ (buf : List Nat) (F F1 : nghttp2_push_promise) (d d1 : nghttp2_hd_context)
      (buf1 : List Nat) (n : Nat), 0 ≤ F.hd.stream_id → F.hd.stream_id < 2 ^ 31 →
      nghttp2_frame_pack_push_promise buf F d = (F1, d1, buf1, .ok n) →
      buf1.getD 4 0 < 128) ∧
    (∀ (buf : List Nat) (F : nghttp2_priority), 0 ≤ F.pri → F.pri < 2 ^ 31 →
      (nghttp2_frame_pack_priority buf F).1.getD 8 0 < 128) ∧
    (∀ (flag_priority : Nat) (buf : List Nat) (F F1 : nghttp2_headers)
      (d d1 : nghttp2_hd_context) (buf1 : List Nat) (n : Nat),
      F.hd.flags &&& flag_priority ≠ 0 → 0 ≤ F.pri → F.pri < 2 ^ 31 →
      nghttp2_frame_pack_headers flag_priority buf F d = (F1, d1, buf1, .ok n) →
      buf1.getD 8 0 < 128) ∧
    (∀ (buf : List Nat) (F F1 : nghttp2_push_promise) (d d1 : nghttp2_hd_context)
      (buf1 : List Nat) (n : Nat), 0 ≤ F.promised_stream_id → F.promised_stream_id < 2 ^ 31 →
      nghttp2_frame_pack_push_promise buf F d = (F1, d1, buf1, .ok n) →
      buf1.getD 8 0 < 128) ∧
    (∀ (buf : List Nat) (F : nghttp2_goaway), 0 ≤ F.last_stream_id →
      F.last_stream_id < 2 ^ 31 → (nghttp2_frame_pack_goaway buf F).1.getD 8 0 < 128) ∧
    (∀ (buf : List Nat) (F : nghttp2_window_update), 0 ≤ F.window_size_increment →
      F.window_size_increment < 2 ^ 31 →
      (nghttp2_frame_pack_window_update buf F).1.getD 8 0 < 128) ∧
    (∀ head : Nat → Nat, 0 ≤ (nghttp2_frame_unpack_frame_hd head).stream_id ∧
      (nghttp2_frame_unpack_frame_hd head).stream_id < 2 ^ 31) ∧
    (∀ (head payload : List Nat) (f : nghttp2_priority),
      nghttp2_frame_unpack_priority head payload = .ok f → 0 ≤ f.pri ∧ f.pri < 2 ^ 31) ∧
    (∀ (flag_priority : Nat) (pri_default : Int) (head : List Nat) (mem : Nat → Nat)
      (payload payloadlen : Nat), memOf head 3 &&& flag_priority ≠ 0 → 4 ≤ payloadlen →
      0 ≤ (nghttp2_frame_unpack_headers_without_nv flag_priority pri_default head mem payload
        payloadlen).1.pri ∧
      (nghttp2_frame_unpack_headers_without_nv flag_priority pri_default head mem payload
        payloadlen).1.pri < 2 ^ 31) ∧
    (∀ (head : List Nat) (mem : Nat → Nat) (payload payloadlen : Nat),
      0 ≤ (nghttp2_frame_unpack_push_promise_without_nv head mem payload
        payloadlen).1.promised_stream_id ∧
      (nghttp2_frame_unpack_push_promise_without_nv head mem payload
        payloadlen).1.promised_stream_id < 2 ^ 31) ∧
    (∀ (head payload : List Nat) (f : nghttp2_goaway),
      nghttp2_frame_unpack_goaway head payload = .ok f →
      0 ≤ f.last_stream_id ∧ f.last_stream_id < 2 ^ 31) ∧
    (∀ (head payload : List Nat) (f : nghttp2_window_update),
      nghttp2_frame_unpack_window_update head payload = .ok f →
      0 ≤ f.window_size_increment ∧ f.window_size_increment < 2 ^ 31) := by
  refine ⟨?_, ?_, ?_, ?_, ?_, ?_, ?_, ?_, ?_, ?_, ?_, ?_, ?_, ?_, ?_, ?_, ?_, ?_, ?_⟩
  · intro buf F h0 h1
    rw [pack_priority_shape, List.append_assoc, getD_hd4]
    exact top_bit_clear _ h0 h1
  · intro buf F h0 h1
    rw [pack_rst_stream_shape, List.append_assoc, getD_hd4]
    exact top_bit_clear _ h0 h1
  · intro buf F h0 h1
    rw [pack_settings_byte4]
    exact top_bit_clear _ h0 h1
  · intro buf F h0 h1
    obtain ⟨rest, hr⟩ := pack_ping_shape buf F
    rw [hr, getD_hd4]
    exact top_bit_clear _ h0 h1
  · intro buf F h0 h1
    obtain ⟨rest, hr⟩ := pack_goaway_shape buf F
    rw [hr, List.append_assoc, getD_hd4]
    exact top_bit_clear _ h0 h1
  · intro buf F h0 h1
    rw [pack_window_update_shape, List.append_assoc, getD_hd4]
    exact top_bit_clear _ h0 h1
  · intro fp buf F F1 d d1 buf1 n h0 h1 h
    obtain ⟨len, ⟨rest, hr⟩, _⟩ := pack_headers_head fp buf F F1 d d1 buf1 n h
    rw [hr, getD_hd4]
    exact top_bit_clear _ h0 h1
  · intro buf F F1 d d1 buf1 n h0 h1 h
    obtain ⟨len, rest, hr⟩ := pack_push_promise_shape buf F F1 d d1 buf1 n h
    rw [hr, List.append_assoc, getD_hd4]
    exact top_bit_clear _ h0 h1
  · intro buf F h0 h1
    rw [pack_priority_shape, getD_hd8]
    exact top_bit_clear _ h0 h1
  · intro fp buf F F1 d d1 buf1 n hf h0 h1 h
    obtain ⟨len, _, h2⟩ := pack_headers_head fp buf F F1 d d1 buf1 n h
    obtain ⟨rest, hr⟩ := h2 hf
    rw [hr, getD_hd8]
    exact top_bit_clear _ h0 h1
  · intro buf F F1 d d1 buf1 n h0 h1 h
    obtain ⟨len, rest, hr⟩ := pack_push_promise_shape buf F F1 d d1 buf1 n h
    rw [hr, getD_hd8]
    exact top_bit_clear _ h0 h1
  · intro buf F h0 h1
    obtain ⟨rest, hr⟩ := pack_goaway_shape buf F
    rw [hr, getD_hd8]
    exact top_bit_clear _ h0 h1
  · intro buf F h0 h1
    rw [pack_window_update_shape, getD_hd8]
    exact top_bit_clear _ h0 h1
  · intro head
    exact masked_range _
  · intro head payload f h
    unfold nghttp2_frame_unpack_priority at h
    split at h
    · simp at h
    · simp only [Except.ok.injEq] at h
      rw [← h]
      exact masked_range _
  · intro fp pd head mem payload payloadlen hf hp
    have hp1 : ¬ payloadlen < 4 := by omega
    simp only [nghttp2_frame_unpack_headers_without_nv, hf, ne_eq, not_false_eq_true, if_true,
      hp1, if_false]
    exact masked_range _
  · intro head mem payload payloadlen
    unfold nghttp2_frame_unpack_push_promise_without_nv
    simp only
    split
    · simp
    · exact masked_range _
  · intro head payload f h
    unfold nghttp2_frame_unpack_goaway at h
    simp only at h
    split at h
    · simp at h
    · simp only [Except.ok.injEq] at h
      rw [← h]
      exact masked_range _
  · intro head payload f h
    unfold nghttp2_frame_unpack_window_update at h
    split at h
    · simp at h
    · simp only [Except.ok.injEq] at h
      rw [← h]
      exact masked_range _

/-- An instance of `reserved_bits_emit_parse`: the WINDOW_UPDATE frame of stream 1
with the increment 32768 is packed as `00 04 08 00 00 00 00 01 00 00 80 00`. -/
theorem reserved_bits_emit_parse_witness :
    (nghttp2_frame_pack_window_update []
      { hd := { length := 4, typ := 8, flags := 0, stream_id := 1 },
        window_size_increment := 32768 }).1 = [0, 4, 8, 0, 0, 0, 0, 1, 0, 0, 128, 0] ∧
    (nghttp2_frame_pack_window_update []
      { hd := { length := 4, typ := 8, flags := 0, stream_id := 1 },
        window_size_increment := 32768 }).1.getD 8 0 < 128 :=
  ⟨by decide, reserved_bits_emit_parse.2.2.2.2.2.2.2.2.2.2.2.2.1 []
    { hd := { length := 4, typ := 8, flags := 0, stream_id := 1 },
      window_size_increment := 32768 } (by decide) (by decide)⟩

/-- C13 as stated fails: the PRIORITY frame with the stream id -1 and the pri -1
(both `int32_t` values) is packed with the bytes 4 and 8 equal to `ff`: the top
bits are written as they are. -/
theorem reserved_bits_emit_counterexample :
    (nghttp2_frame_pack_priority []
      { hd := { length := 4, typ := 2, flags := 0, stream_id := -1 }, pri := -1 }).1 =
      [0, 4, 2, 0, 255, 255, 255, 255, 255, 255, 255, 255] := by
  decide

end Nghttp2

namespace Nghttp2

/-! ### One indexed block on a context between two header blocks -/

theorem inflate_hd_one_step (c cs : nghttp2_hd_context) (mem : Nat → Nat) (p len : Nat)
    (hb : c.bad = false) (hpos : 0 < len)
    (hstep : inflate_step mem (p + len) p (create_workingset c) = .next (p + len) cs) :
    nghttp2_hd_inflate_hd c mem p len = (cs, .ok (build_nv_array cs)) := by
  unfold nghttp2_hd_inflate_hd
  have hb1 : ¬ c.bad = true := by simp [hb]
  simp only [hb1, if_false]
  have hr := inflate_reaches_step mem (p + len) p (p + len) _ _ (by omega) (le_refl _) hstep
  rw [hr (cs, .ok ()) (fun fuel _ => inflate_loop_at_last mem (p + len) cs fuel) len (by omega)]
  simp

theorem create_workingset_indices (c : nghttp2_hd_context) (l : List Nat) :
    ws_indices (l.map fun p => nghttp2_hd_ws_entry.indexed p (heap_get c.heap p).index) =
      l.map fun p => (heap_get c.heap p).index := by
  induction l with
  | nil => rfl
  | cons a l ih =>
    simp only [List.map_cons, ws_indices, List.filterMap_cons]
    unfold ws_indices at ih
    rw [ih]

theorem create_workingset_nvs (heap : List nghttp2_hd_entry) (c : nghttp2_hd_context)
    (hnv : ∀ p, (heap_get heap p).nv = (heap_get c.heap p).nv) (l : List Nat) :
    (l.map fun p => nghttp2_hd_ws_entry.indexed p (heap_get c.heap p).index).filterMap
      (ws_entry_nv heap) = l.map fun p => (heap_get c.heap p).nv := by
  induction l with
  | nil => rfl
  | cons a l ih =>
    simp only [List.map_cons, List.filterMap_cons, ws_entry_nv, hnv, ih]

/-- An indexed block for an entry of the reference set: the entry is removed from
the output of the block. -/
theorem inflate_indexed_in_refset (c : nghttp2_hd_context) (i : Nat) (mem : Nat → Nat)
    (p : Nat) (hinv : table_inv c) (hr : refset_inv c) (hb : c.bad = false)
    (hi : i < c.hd_table.length) (hm : mem_holds mem p (indexed_block i))
    (hin : c.hd_table.getD i 0 ∈ c.refset) :
    ∃ c1, nghttp2_hd_inflate_hd c mem p (indexed_block i).length =
      (c1, .ok (nghttp2_nv_array_sort
        ((c.refset.erase (c.hd_table.getD i 0)).map fun q => (heap_get c.heap q).nv))) := by
  obtain ⟨A, B, hAB⟩ := List.append_of_mem hin
  have hidx : (heap_get c.heap (c.hd_table.getD i 0)).index = i := (hinv.1 i hi).2
  have hle : i ≤ 65535 := by
    have := hinv.2.2.1
    have := hinv.2.2.2
    omega
  have hnd := hr.2
  rw [hAB, List.map_append, List.map_cons, hidx] at hnd
  have hA : i ∉ A.map fun q => (heap_get c.heap q).index := by
    intro h
    exact (List.nodup_append.mp hnd).2.2 h (List.mem_cons_self _ _)
  have hB : i ∉ B.map fun q => (heap_get c.heap q).index :=
    (List.nodup_cons.mp (List.nodup_append.mp hnd).2.1).1
  have heA : c.hd_table.getD i 0 ∉ A := by
    intro h
    apply hA
    rw [List.mem_map]
    exact ⟨_, h, hidx⟩
  have hws : (create_workingset c).ws =
      (A.map fun q => nghttp2_hd_ws_entry.indexed q (heap_get c.heap q).index) ++
        .indexed (c.hd_table.getD i 0) i ::
        (B.map fun q => nghttp2_hd_ws_entry.indexed q (heap_get c.heap q).index) := by
    simp only [create_workingset, hAB, List.map_append, List.map_cons, hidx]
  have hrem : remove_from_workingset_by_index (create_workingset c) i =
      ({ create_workingset c with
          ws := (A.map fun q => nghttp2_hd_ws_entry.indexed q (heap_get c.heap q).index) ++
            .none :: (B.map fun q => nghttp2_hd_ws_entry.indexed q (heap_get c.heap q).index)
          heap := ref_dec c.heap (c.hd_table.getD i 0) }, 1) := by
    unfold remove_from_workingset_by_index
    simp only
    rw [hws, remove_from_workingset_loop_unique i _ _
      (ws_entry_has_index_false i _ (by rw [create_workingset_indices]; exact hB)) _ _
      (ws_entry_has_index_false i _ (by rw [create_workingset_indices]; exact hA))]
    rfl
  have hstep := inflate_step_indexed_block mem (p + (indexed_block i).length) p i
    (create_workingset c) hle hm (le_refl _)
  rw [hrem] at hstep
  simp only [one_ne_zero, if_false] at hstep
  have hE := inflate_hd_one_step c _ mem p _ hb
    (List.length_pos.mpr (indexed_block_ne_nil i)) hstep
  rw [hE]
  refine ⟨_, Prod.ext rfl (congrArg Except.ok ?_)⟩
  unfold build_nv_array
  simp only
  rw [List.filterMap_append, List.filterMap_cons]
  simp only [ws_entry_nv]
  rw [create_workingset_nvs _ c (by simp), create_workingset_nvs _ c (by simp), hAB,
    List.erase_append_right _ heA, List.erase_cons_head, List.map_append]

/-- An indexed block for an entry of the table that is not in the reference set:
the entry is added to the output of the block. -/
theorem inflate_indexed_not_in_refset (c : nghttp2_hd_context) (i : Nat) (mem : Nat → Nat)
    (p : Nat) (hinv : table_inv c) (hr : refset_inv c) (hb : c.bad = false)
    (hi : i < c.hd_table.length) (hm : mem_holds mem p (indexed_block i))
    (hnin : c.hd_table.getD i 0 ∉ c.refset) (hcap : c.refset.length ≠ c.ws_capacity) :
    ∃ c1, nghttp2_hd_inflate_hd c mem p (indexed_block i).length =
      (c1, .ok (nghttp2_nv_array_sort (refset_nvs c ++ [table_nv c i]))) := by
  have hle : i ≤ 65535 := by
    have := hinv.2.2.1
    have := hinv.2.2.2
    omega
  have hnone : i ∉ ws_indices (create_workingset c).ws := by
    simp only [create_workingset]
    rw [create_workingset_indices, List.mem_map]
    rintro ⟨q, hq, hqi⟩
    obtain ⟨q1, q2⟩ := hr.1 q hq
    have := (hinv.2.1 q q1 q2).2
    rw [hqi] at this
    rw [this] at hnin
    exact hnin hq
  have hrem : remove_from_workingset_by_index (create_workingset c) i =
      (create_workingset c, 0) := by
    unfold remove_from_workingset_by_index
    rw [remove_from_workingset_loop_none i _ _ (ws_entry_has_index_false i _ hnone)]
  have hstep := inflate_step_indexed_block mem (p + (indexed_block i).length) p i
    (create_workingset c) hle hm (le_refl _)
  rw [hrem] at hstep
  have hlen : ¬ (create_workingset c).hd_table.length ≤ i := by
    simp only [create_workingset]; omega
  have hcap1 : ¬ (create_workingset c).ws.length = (create_workingset c).ws_capacity := by
    simp only [create_workingset, List.length_map]; exact hcap
  simp only [if_true, hlen, if_false, add_workingset, hcap1] at hstep
  have hE := inflate_hd_one_step c _ mem p _ hb
    (List.length_pos.mpr (indexed_block_ne_nil i)) hstep
  rw [hE]
  refine ⟨_, Prod.ext rfl (congrArg Except.ok ?_)⟩
  unfold build_nv_array
  simp only [create_workingset]
  rw [List.filterMap_append, create_workingset_nvs _ c (by simp)]
  simp [ws_entry_nv, refset_nvs, table_nv]

end Nghttp2

namespace Nghttp2

theorem pair_of_snd {α β : Type} (x : α × β) (o : β) (h : x.2 = o) : x = (x.1, o) :=
  Prod.ext rfl h

theorem except_ok_of_isSome {ε α : Type} (e : Except ε α) (d : α)
    (h : e.toOption.isSome = true) : e = .ok (e.toOption.getD d) := by
  cases e <;> simp_all [Except.toOption]

/-- C18: on a fresh context seeded with the request table, `nghttp2_hd_inflate_hd`
of the single byte `80` returns exactly the pair (`:scheme`, `http`), and after
`nghttp2_hd_end_headers` the reference set is exactly the table entry at index 0;
a second `nghttp2_hd_inflate_hd` of the same byte returns an empty array, and
after `nghttp2_hd_end_headers` the working set and the reference set are empty.
Generally, on a context between two header blocks, an indexed block for an index
`i` of the table whose entry is in the reference set removes it from the output of
the block, and otherwise (the working set not being full) adds the table entry
`i`. -/
theorem indexed_toggle :
    (∃ i1 c1 i2 c2,
      nghttp2_hd_inflate_hd (nghttp2_hd_context_init .NGHTTP2_HD_SIDE_CLIENT) (memOf [128]) 0 1 =
        (i1, .ok [⟨cstr ":scheme", cstr "http"⟩]) ∧
      nghttp2_hd_end_headers i1 = .ok c1 ∧
      c1.ws = [] ∧ c1.refset = [c1.hd_table.getD 0 0] ∧
      table_nv c1 0 = ⟨cstr ":scheme", cstr "http"⟩ ∧
      nghttp2_hd_inflate_hd c1 (memOf [128]) 0 1 = (i2, .ok []) ∧
      nghttp2_hd_end_headers i2 = .ok c2 ∧
      c2.ws = [] ∧ c2.refset = []) ∧
    (∀ (c : nghttp2_hd_context) (i : Nat) (mem : Nat → Nat) (p : Nat),
      table_inv c → refset_inv c → c.bad = false → i < c.hd_table.length →
      mem_holds mem p (indexed_block i) →
      (c.hd_table.getD i 0 ∈ c.refset →
        ∃ c1, nghttp2_hd_inflate_hd c mem p (indexed_block i).length =
          (c1, .ok (nghttp2_nv_array_sort
            ((c.refset.erase (c.hd_table.getD i 0)).map fun q => (heap_get c.heap q).nv)))) ∧
      (c.hd_table.getD i 0 ∉ c.refset → c.refset.length ≠ c.ws_capacity →
        ∃ c1, nghttp2_hd_inflate_hd c mem p (indexed_block i).length =
          (c1, .ok (nghttp2_nv_array_sort (refset_nvs c ++ [table_nv c i]))))) := by
  refine ⟨⟨_, _, _, _, pair_of_snd _ _ (by decide),
    except_ok_of_isSome _ (nghttp2_hd_context_init .NGHTTP2_HD_SIDE_CLIENT) (by decide),
    by decide, by decide, by decide, pair_of_snd _ _ (by decide),
    except_ok_of_isSome _ (nghttp2_hd_context_init .NGHTTP2_HD_SIDE_CLIENT) (by decide),
    by decide, by decide⟩, ?_⟩
  intro c i mem p hinv hr hb hi hm
  exact ⟨inflate_indexed_in_refset c i mem p hinv hr hb hi hm,
    inflate_indexed_not_in_refset c i mem p hinv hr hb hi hm⟩

/-- An instance of the general part of `indexed_toggle`: the indexed block for the
index 3 on a fresh context seeded with the request table adds the pair
(`:path`, `/`). -/
theorem indexed_toggle_witness :
    ∃ c1, nghttp2_hd_inflate_hd (nghttp2_hd_context_init .NGHTTP2_HD_SIDE_CLIENT)
        (memOf [131]) 0 (indexed_block 3).length =
      (c1, .ok (nghttp2_nv_array_sort
        (refset_nvs (nghttp2_hd_context_init .NGHTTP2_HD_SIDE_CLIENT) ++
          [table_nv (nghttp2_hd_context_init .NGHTTP2_HD_SIDE_CLIENT) 3]))) :=
  (indexed_toggle.2 (nghttp2_hd_context_init .NGHTTP2_HD_SIDE_CLIENT) 3 (memOf [131]) 0
    (fresh_table_inv .NGHTTP2_HD_SIDE_CLIENT)
    (refset_inv_of_nil _ (fresh_refset .NGHTTP2_HD_SIDE_CLIENT)).1 (by decide) (by decide)
    (by decide)).2 (by decide) (by decide)

/-- C19: inflating the block `40 08 "x-custom" 01 "v"` (a literal with incremental
indexing and a new name) on a fresh context returns the pair (`x-custom`, `v`),
appends one new entry (`x-custom`, `v`) at the end of the header table with the
index `N`, the length of the table before, leaves the earlier entries unchanged
and increases the buffer size of the table by 41; after `nghttp2_hd_end_headers`
the entry is the reference set, and it is the entry that the indexed block for `N`
of a later call designates: that block alone removes it from the output, and the
same block in the call after that adds it again. -/
theorem inflate_new_name_incremental (side : nghttp2_hd_side) :
    ∃ i1 c1 i2 c2 i3,
      nghttp2_hd_inflate_hd (nghttp2_hd_context_init side)
        (memOf ([64, 8] ++ cstr "x-custom" ++ [1] ++ cstr "v")) 0 12 =
          (i1, .ok [⟨cstr "x-custom", cstr "v"⟩]) ∧
      i1.hd_table.length = (nghttp2_hd_context_init side).hd_table.length + 1 ∧
      table_nv i1 (nghttp2_hd_context_init side).hd_table.length =
        ⟨cstr "x-custom", cstr "v"⟩ ∧
      (heap_get i1.heap
        (i1.hd_table.getD (nghttp2_hd_context_init side).hd_table.length 0)).index =
          (nghttp2_hd_context_init side).hd_table.length ∧
      (∀ k, k < (nghttp2_hd_context_init side).hd_table.length →
        i1.hd_table.getD k 0 = (nghttp2_hd_context_init side).hd_table.getD k 0 ∧
        heap_get i1.heap (i1.hd_table.getD k 0) =
          heap_get (nghttp2_hd_context_init side).heap
            ((nghttp2_hd_context_init side).hd_table.getD k 0)) ∧
      i1.hd_table_bufsize = (nghttp2_hd_context_init side).hd_table_bufsize + 41 ∧
      nghttp2_hd_end_headers i1 = .ok c1 ∧
      c1.refset = [c1.hd_table.getD (nghttp2_hd_context_init side).hd_table.length 0] ∧
      nghttp2_hd_inflate_hd c1
        (memOf (indexed_block (nghttp2_hd_context_init side).hd_table.length)) 0
        (indexed_block (nghttp2_hd_context_init side).hd_table.length).length =
          (i2, .ok []) ∧
      nghttp2_hd_end_headers i2 = .ok c2 ∧
      nghttp2_hd_inflate_hd c2
        (memOf (indexed_block (nghttp2_hd_context_init side).hd_table.length)) 0
        (indexed_block (nghttp2_hd_context_init side).hd_table.length).length =
          (i3, .ok [⟨cstr "x-custom", cstr "v"⟩]) := by
  cases side
  · exact ⟨_, _, _, _, _, pair_of_snd _ _ (by decide), by decide, by decide, by decide,
      by decide, by decide,
      except_ok_of_isSome _ (nghttp2_hd_context_init .NGHTTP2_HD_SIDE_CLIENT) (by decide),
      by decide, pair_of_snd _ _ (by decide),
      except_ok_of_isSome _ (nghttp2_hd_context_init .NGHTTP2_HD_SIDE_CLIENT) (by decide),
      pair_of_snd _ _ (by decide)⟩
  · exact ⟨_, _, _, _, _, pair_of_snd _ _ (by decide), by decide, by decide, by decide,
      by decide, by decide,
      except_ok_of_isSome _ (nghttp2_hd_context_init .NGHTTP2_HD_SIDE_CLIENT) (by decide),
      by decide, pair_of_snd _ _ (by decide),
      except_ok_of_isSome _ (nghttp2_hd_context_init .NGHTTP2_HD_SIDE_CLIENT) (by decide),
      pair_of_snd _ _ (by decide)⟩

end Nghttp2

namespace Nghttp2

/-! ### WINDOW_UPDATE -/

/-- C21: for every stream id `s` and increment `w` in `[0, 2^31)`,
`nghttp2_frame_pack_window_update` on the frame built by
`nghttp2_frame_window_update_init` with flags 0 returns 12 and writes
`00 04 08 00`, then `s` and `w` as big-endian 32-bit values (the bytes of the buffer
from 12 on are kept); with `s = 1` and `w = 32768` on an empty buffer the output
is exactly `00 04 08 00 00 00 00 01 00 00 80 00`. -/
theorem window_update_pack_bytes (buf : List Nat) (s w : Nat) (hs : s < 2 ^ 31)
    (hw : w < 2 ^ 31) :
    nghttp2_frame_pack_window_update buf
        (nghttp2_frame_window_update_init 0 (s : Int) (w : Int)) =
      ([0, 4, 8, 0, s / 2 ^ 24 % 256, s / 2 ^ 16 % 256, s / 2 ^ 8 % 256, s % 256,
        w / 2 ^ 24 % 256, w / 2 ^ 16 % 256, w / 2 ^ 8 % 256, w % 256] ++ buf.drop 12, 12) ∧
    nghttp2_frame_pack_window_update []
        (nghttp2_frame_window_update_init 0 (1 : Int) (32768 : Int)) =
      ([0, 4, 8, 0, 0, 0, 0, 1, 0, 0, 128, 0], 12) := by
  refine ⟨?_, by decide⟩
  have h1 : (nghttp2_frame_pack_window_update buf
      (nghttp2_frame_window_update_init 0 (s : Int) (w : Int))).2 = 12 := rfl
  refine Prod.ext ?_ h1
  rw [pack_window_update_shape]
  have hs1 : to_uint32 (s : Int) = s := by
    rw [(to_uint32_of_nonneg (s : Int) (by omega) (by omega)).1]; simp
  have hw1 : to_uint32 (w : Int) = w := by
    rw [(to_uint32_of_nonneg (w : Int) (by omega) (by omega)).1]; simp
  simp [nghttp2_frame_window_update_init, frame_hd_bytes, nghttp2_frame_set_hd,
    NGHTTP2_WINDOW_UPDATE, nghttp2_put_uint16be, nghttp2_put_uint32be, hs1, hw1]

/-- The scenario of C21 on a buffer that holds other bytes: stream 1, increment
32768. -/
theorem window_update_pack_bytes_witness :
    nghttp2_frame_pack_window_update (List.replicate 14 255)
        (nghttp2_frame_window_update_init 0 (1 : Int) (32768 : Int)) =
      ([0, 4, 8, 0, 0, 0, 0, 1, 0, 0, 128, 0, 255, 255], 12) :=
  (window_update_pack_bytes (List.replicate 14 255) 1 32768 (by decide) (by decide)).1

/-! ### Empty names -/

/-- C23 (what the code does): `nghttp2_hd_inflate_hd` takes a literal block with a
new name of length 0.  On the fresh context seeded with the request table, the
block `60 00 01 76` (without indexing) is returned as the pair with the empty name
and the value `v`; the block `40 00 01 76` (incremental indexing) is returned
likewise and puts an entry with the empty name at position 38 of the header table;
the block `00 00 00 01 76` (substitution indexing at index 0) is returned likewise
and puts an entry with the empty name at position 0 of the header table. -/
theorem inflate_accepts_empty_name :
    (nghttp2_hd_inflate_hd (nghttp2_hd_context_init .NGHTTP2_HD_SIDE_CLIENT)
        (memOf [0x60, 0, 1, 118]) 0 4).2 = .ok [{ name := [], value := [118] }] ∧
    (nghttp2_hd_inflate_hd (nghttp2_hd_context_init .NGHTTP2_HD_SIDE_CLIENT)
        (memOf [0x40, 0, 1, 118]) 0 4).2 = .ok [{ name := [], value := [118] }] ∧
    table_nv (nghttp2_hd_inflate_hd (nghttp2_hd_context_init .NGHTTP2_HD_SIDE_CLIENT)
        (memOf [0x40, 0, 1, 118]) 0 4).1 38 = { name := [], value := [118] } ∧
    (nghttp2_hd_inflate_hd (nghttp2_hd_context_init .NGHTTP2_HD_SIDE_CLIENT)
        (memOf [0x40, 0, 1, 118]) 0 4).1.hd_table.length = 39 ∧
    (nghttp2_hd_inflate_hd (nghttp2_hd_context_init .NGHTTP2_HD_SIDE_CLIENT)
        (memOf [0, 0, 0, 1, 118]) 0 5).2 = .ok [{ name := [], value := [118] }] ∧
    table_nv (nghttp2_hd_inflate_hd (nghttp2_hd_context_init .NGHTTP2_HD_SIDE_CLIENT)
        (memOf [0, 0, 0, 1, 118]) 0 5).1 0 = { name := [], value := [118] } := by
  decide

/-! ### Name/value arrays from C strings -/

/-- The strings of a list of pairs, one after the other. -/
theorem nv_array_from_cstr_loop_pairs (pairs : List (List Nat × List Nat)) :
    nv_array_from_cstr_loop (pairs.flatMap fun p => [p.1, p.2]) =
      .ok (pairs.map fun p =>
        { name := nghttp2_downcase (p.1.take (strlen p.1 % 2 ^ 16))
          value := p.2.take (strlen p.2 % 2 ^ 16) }) := by
  induction pairs with
  | nil => rfl
  | cons p rest ih =>
    simp only [List.flatMap_cons, List.cons_append, List.nil_append, List.map_cons]
    rw [nv_array_from_cstr_loop, ih]

theorem strlen_of_no_nul (s : List Nat) (h : 0 ∉ s) : strlen s = s.length := by
  unfold strlen
  congr 1
  rw [List.takeWhile_eq_self_iff]
  intro b hb
  have : b ≠ 0 := fun e => h (e ▸ hb)
  simpa using this

theorem sum_strlen_pairs (pairs : List (List Nat × List Nat)) :
    ((pairs.flatMap fun p => [p.1, p.2]).map strlen).sum =
      (pairs.map fun p => strlen p.1 + strlen p.2).sum := by
  induction pairs with
  | nil => rfl
  | cons p rest ih =>
    simp only [List.flatMap_cons, List.map_append, List.sum_append, List.map_cons, List.sum_cons,
      List.map_nil, List.sum_nil, ih]
    omega

theorem length_flatMap_pairs (pairs : List (List Nat × List Nat)) :
    (pairs.flatMap fun p => [p.1, p.2]).length = 2 * pairs.length := by
  induction pairs with
  | nil => rfl
  | cons p rest ih =>
    simp only [List.flatMap_cons, List.length_append, List.length_cons, List.length_nil, ih]
    omega

/-- C24 (amended): `nghttp2_nv_array_from_cstr` does not deduplicate.  For every
list of pairs of C strings, none longer than `max_hd_value_length` (below 2^16),
given as the null-terminated list of their strings: when some string is not empty,
the call succeeds, the array it returns holds one element per input pair, the
name down-cased and the value as given (it is a permutation of these, sorted by
name), and the returned count is the number of input pairs, equal pairs
included; when every string is empty it returns the count 0 and no array. -/
theorem nv_array_from_cstr_spec (max_hd_value_length : Nat)
    (pairs : List (List Nat × List Nat)) (hmax : max_hd_value_length < 2 ^ 16)
    (hstr : ∀ p ∈ pairs, 0 ∉ p.1 ∧ 0 ∉ p.2 ∧ p.1.length ≤ max_hd_value_length ∧
      p.2.length ≤ max_hd_value_length) :
    ((∃ p ∈ pairs, p.1 ≠ [] ∨ p.2 ≠ []) →
      ∃ nva, nghttp2_nv_array_from_cstr max_hd_value_length (pairs.flatMap fun p => [p.1, p.2]) =
          .ok (some nva, pairs.length) ∧
        nva.Perm (pairs.map fun p => { name := nghttp2_downcase p.1, value := p.2 }) ∧
        nva.Pairwise (fun a b => nghttp2_nv_name_compar a b ≤ 0) ∧
        nva.length = pairs.length) ∧
    ((∀ p ∈ pairs, p.1 = [] ∧ p.2 = []) →
      nghttp2_nv_array_from_cstr max_hd_value_length (pairs.flatMap fun p => [p.1, p.2]) =
        .ok (none, 0)) := by
  have hany : (List.any (pairs.flatMap fun p => [p.1, p.2])
      fun s => decide (strlen s > max_hd_value_length)) = false := by
    rw [List.any_eq_false]
    intro s hs
    simp only [List.mem_flatMap, List.mem_cons, List.mem_singleton, List.not_mem_nil,
      or_false] at hs
    obtain ⟨p, hp, e⟩ := hs
    obtain ⟨a, b, c, d⟩ := hstr p hp
    rcases e with e | e
    · subst e; rw [strlen_of_no_nul _ a]; simpa using c
    · subst e; rw [strlen_of_no_nul _ b]; simpa using d
  have hmap : (pairs.map fun p : List Nat × List Nat =>
      ({ name := nghttp2_downcase (p.1.take (strlen p.1 % 2 ^ 16))
         value := p.2.take (strlen p.2 % 2 ^ 16) } : nghttp2_nv)) =
      pairs.map fun p => { name := nghttp2_downcase p.1, value := p.2 } := by
    apply List.map_congr_left
    intro p hp
    obtain ⟨a, b, c, d⟩ := hstr p hp
    rw [strlen_of_no_nul _ a, strlen_of_no_nul _ b, Nat.mod_eq_of_lt (by omega),
      Nat.mod_eq_of_lt (by omega), List.take_length, List.take_length]
  constructor
  · rintro ⟨p, hp, hne⟩
    have hlen : pairs.length ≠ 0 := by
      intro h0
      rw [List.length_eq_zero] at h0
      rw [h0] at hp
      exact absurd hp (List.not_mem_nil _)
    have hsum : ((pairs.flatMap fun p => [p.1, p.2]).map strlen).sum ≠ 0 := by
      rw [sum_strlen_pairs]
      intro h0
      rw [List.sum_eq_zero_iff] at h0
      have := h0 _ (List.mem_map.mpr ⟨p, hp, rfl⟩)
      obtain ⟨a, b, -, -⟩ := hstr p hp
      rw [strlen_of_no_nul _ a, strlen_of_no_nul _ b] at this
      rcases hne with h | h
      · exact h (List.length_eq_zero.mp (by omega))
      · exact h (List.length_eq_zero.mp (by omega))
    refine ⟨nghttp2_nv_array_sort
      (pairs.map fun p => { name := nghttp2_downcase p.1, value := p.2 }), ?_, ?_, ?_, ?_⟩
    · unfold nghttp2_nv_array_from_cstr
      rw [hany]
      simp only [Bool.false_eq_true, if_false, length_flatMap_pairs]
      rw [if_neg (by
        rw [not_or]
        exact ⟨by omega, hsum⟩), nv_array_from_cstr_loop_pairs, hmap]
      simp
    · exact List.perm_insertionSort _ _
    · exact nghttp2_nv_array_sort_sorted _
    · unfold nghttp2_nv_array_sort
      rw [List.length_insertionSort, List.length_map]
  · intro hall
    have hsum : ((pairs.flatMap fun p => [p.1, p.2]).map strlen).sum = 0 := by
      rw [sum_strlen_pairs, List.sum_eq_zero_iff]
      intro x hx
      obtain ⟨p, hp, rfl⟩ := List.mem_map.mp hx
      obtain ⟨a, b⟩ := hall p hp
      rw [a, b]
      rfl
    unfold nghttp2_nv_array_from_cstr
    rw [hany]
    simp only [Bool.false_eq_true, if_false]
    rw [if_pos (Or.inr hsum)]

/-- The amended C24 at work: the strings `Host`, `a`, `accept`, `b`. -/
theorem nv_array_from_cstr_spec_witness :
    nghttp2_nv_array_from_cstr 4096
        [cstr "Host", cstr "a", cstr "accept", cstr "b"] =
      .ok (some [{ name := cstr "accept", value := cstr "b" },
        { name := cstr "host", value := cstr "a" }], 2) ∧
    ∃ nva, nghttp2_nv_array_from_cstr 4096
        ([(cstr "Host", cstr "a"), (cstr "accept", cstr "b")].flatMap fun p => [p.1, p.2]) =
          .ok (some nva, [(cstr "Host", cstr "a"), (cstr "accept", cstr "b")].length) ∧
        nva.Perm ([(cstr "Host", cstr "a"), (cstr "accept", cstr "b")].map
          fun p => { name := nghttp2_downcase p.1, value := p.2 }) ∧
        nva.Pairwise (fun a b => nghttp2_nv_name_compar a b ≤ 0) ∧
        nva.length = [(cstr "Host", cstr "a"), (cstr "accept", cstr "b")].length :=
  ⟨by decide,
    (nv_array_from_cstr_spec 4096 [(cstr "Host", cstr "a"), (cstr "accept", cstr "b")]
      (by decide) (by decide)).1 ⟨(cstr "Host", cstr "a"), by decide, by decide⟩⟩

/-- The claim C24 fails on the strings `a`, `b`, `a`, `b`: the array returned holds
the pair `a: b` twice and the returned count is 2, not 1. -/
theorem nv_array_from_cstr_duplicate_counterexample :
    nghttp2_nv_array_from_cstr 4096 [cstr "a", cstr "b", cstr "a", cstr "b"] =
      .ok (some [{ name := cstr "a", value := cstr "b" },
        { name := cstr "a", value := cstr "b" }], 2) := by
  decide

end Nghttp2

namespace Nghttp2

/-! ### A HEADERS frame without headers -/

theorem indexed_block_length_le : ∀ i, i < 128 → (indexed_block i).length ≤ 2 := by
  decide

theorem emit_indexed_block_some (buf : List Nat) (off index : Nat)
    (h : off + (indexed_block index).length ≤ NGHTTP2_MAX_FRAME_LENGTH) :
    emit_indexed_block buf off index =
      .ok (write_bytes (nghttp2_reserve_buffer buf (off + (indexed_block index).length)) off
        (indexed_block index), off + (indexed_block index).length) := by
  cases he : emit_indexed_block buf off index with
  | ok r =>
    obtain ⟨b, o⟩ := r
    obtain ⟨h1, _, h3⟩ := emit_indexed_block_ok _ _ _ _ _ he
    rw [h1, h3]
  | error e =>
    exfalso
    unfold emit_indexed_block ensure_write_buffer at he
    simp only [count_encoded_length_eq] at he
    have hlen : (indexed_block index).length = (encode_length index 7).1.length := by
      unfold indexed_block; rw [or_head_length]
    rw [hlen] at h
    rw [if_neg (by omega)] at he
    simp at he

/-- The first loop of the deflater when there is no input header: every cell is
sent as an indexed block and made a tombstone. -/
theorem deflate_toggle_loop_nil : ∀ (ws : List nghttp2_hd_ws_entry)
    (heap : List nghttp2_hd_entry) (buf : List Nat) (off : Nat),
    (∀ cell ∈ ws, ∃ ent i, cell = nghttp2_hd_ws_entry.indexed ent i) →
    off + ((ws_indices ws).flatMap indexed_block).length ≤ NGHTTP2_MAX_FRAME_LENGTH →
    ∃ heap1 buf1, deflate_toggle_loop [] ws heap buf off =
        (ws.map (fun _ => nghttp2_hd_ws_entry.none), heap1, buf1,
          off + ((ws_indices ws).flatMap indexed_block).length, .ok ()) ∧
      heap_equiv heap1 heap ∧ (∀ i, i < off → buf1.getD i 0 = buf.getD i 0) ∧
      mem_holds (memOf buf1) off ((ws_indices ws).flatMap indexed_block) := by
  intro ws
  induction ws with
  | nil =>
    intro heap buf off _ _
    refine ⟨heap, buf, rfl, heap_equiv_refl _, fun _ _ => rfl, ?_⟩
    intro i hi
    simp [ws_indices] at hi
  | cons cell rest ih =>
    intro heap buf off hcells hlen
    obtain ⟨ent, index, rfl⟩ := hcells _ (List.mem_cons_self _ _)
    have hcons : ws_indices (.indexed ent index :: rest) = index :: ws_indices rest := by
      simp [ws_indices]
    rw [hcons, List.flatMap_cons, List.length_append] at hlen
    rw [hcons, List.flatMap_cons]
    have hem := emit_indexed_block_some buf off index (by omega)
    obtain ⟨heap1, buf1, r1, r2, r3, r4⟩ := ih (ref_dec heap ent)
      (write_bytes (nghttp2_reserve_buffer buf (off + (indexed_block index).length)) off
        (indexed_block index)) (off + (indexed_block index).length)
      (fun cell hc => hcells cell (List.mem_cons_of_mem _ hc)) (by omega)
    obtain ⟨p1, p2⟩ := put_block_spec buf (indexed_block index) off
    refine ⟨heap1, buf1, ?_, heap_equiv_trans r2 (heap_equiv_ref_dec _ _), ?_, ?_⟩
    · simp only [deflate_toggle_loop, List.any_nil, Bool.false_eq_true, if_false, hem, r1,
        List.map_cons, List.length_append, Nat.add_assoc]
    · intro i hi
      rw [r3 i (by omega), p1 i hi]
    · rw [mem_holds_append]
      refine ⟨?_, r4⟩
      intro i hi
      unfold memOf
      rw [r3 (off + i) (by omega)]
      exact p2 i hi

theorem nodup_lt_length_le (l : List Nat) (n : Nat) (hnd : l.Nodup) (hlt : ∀ i ∈ l, i < n) :
    l.length ≤ n := by
  have h1 : l.toFinset ⊆ Finset.range n := by
    intro i hi
    rw [List.mem_toFinset] at hi
    exact Finset.mem_range.mpr (hlt i hi)
  have h2 := Finset.card_le_card h1
  rw [List.toFinset_card_of_nodup hnd, Finset.card_range] at h2
  exact h2

theorem flatMap_length_le (l : List Nat) (f : Nat → List Nat) (k : Nat)
    (h : ∀ i ∈ l, (f i).length ≤ k) : (l.flatMap f).length ≤ k * l.length := by
  induction l with
  | nil => simp
  | cons a rest ih =>
    rw [List.flatMap_cons, List.length_append, List.length_cons, Nat.mul_succ]
    have h1 := h a (List.mem_cons_self _ _)
    have h2 := ih (fun i hi => h i (List.mem_cons_of_mem _ hi))
    omega

/-- The indexed blocks that toggle the entries of the reference set off. -/
theorem refset_blocks_length (d : nghttp2_hd_context) (hinv : table_inv d)
    (href : refset_inv d) :
    ((d.refset.map fun p => (heap_get d.heap p).index).flatMap indexed_block).length ≤ 256 := by
  have hlt : ∀ i ∈ d.refset.map (fun p => (heap_get d.heap p).index), i < 128 := by
    intro i hi
    obtain ⟨p, hp, rfl⟩ := List.mem_map.mp hi
    obtain ⟨a, b⟩ := href.1 p hp
    have := (hinv.2.1 p a b).1
    have h1 := hinv.2.2.1
    have h2 := hinv.2.2.2
    omega
  have h1 := nodup_lt_length_le _ 128 href.2 hlt
  have h2 := flatMap_length_le _ indexed_block 2 (fun i hi => indexed_block_length_le i (hlt i hi))
  omega

/-- The function `nghttp2_hd_deflate_hd` without input headers: one indexed block
per entry of the reference set. -/
theorem deflate_hd_no_nv (d : nghttp2_hd_context) (buf : List Nat) (off : Nat)
    (hbad : d.bad = false) (hinv : table_inv d) (href : refset_inv d) (hoff : off ≤ 12) :
    ∃ d1 buf1, nghttp2_hd_deflate_hd d buf off [] = (d1, buf1, .ok
        ((d.refset.map fun p => (heap_get d.heap p).index).flatMap indexed_block).length) ∧
      (∀ i, i < off → buf1.getD i 0 = buf.getD i 0) ∧
      mem_holds (memOf buf1) off
        ((d.refset.map fun p => (heap_get d.heap p).index).flatMap indexed_block) ∧
      d1.hd_table = d.hd_table ∧ d1.refset = [] ∧
      d1.ws = d.refset.map (fun _ => nghttp2_hd_ws_entry.none) := by
  have hidx : ws_indices (create_workingset d).ws =
      d.refset.map fun p => (heap_get d.heap p).index :=
    create_workingset_indices d d.refset
  have hL := refset_blocks_length d hinv href
  obtain ⟨heap1, buf1, r1, r2, r3, r4⟩ := deflate_toggle_loop_nil (create_workingset d).ws
    (create_workingset d).heap buf off
    (by
      intro cell hc
      simp only [create_workingset, List.mem_map] at hc
      obtain ⟨p, _, rfl⟩ := hc
      exact ⟨_, _, rfl⟩)
    (by rw [hidx]; simp only [NGHTTP2_MAX_FRAME_LENGTH]; omega)
  rw [hidx] at r1 r4
  have hE : nghttp2_hd_deflate_hd d buf off [] =
      ({ create_workingset d with
          ws := (create_workingset d).ws.map (fun _ => nghttp2_hd_ws_entry.none)
          heap := heap1 }, buf1, .ok
        ((d.refset.map fun p => (heap_get d.heap p).index).flatMap indexed_block).length) := by
    unfold nghttp2_hd_deflate_hd
    simp only [hbad, Bool.false_eq_true, if_false, r1, deflate_nv_loop, Nat.add_sub_cancel_left]
  refine ⟨_, buf1, hE, r3, r4, rfl, rfl, ?_⟩
  show List.map (fun _ => nghttp2_hd_ws_entry.none) (List.map
    (fun p => nghttp2_hd_ws_entry.indexed p (heap_get d.heap p).index) d.refset) = _
  rw [List.map_map]
  rfl

end Nghttp2

namespace Nghttp2

/-- C22 (amended): for every HEADERS frame without input name/value pairs and
every deflater that is not poisoned (with a consistent table and reference set),
`nghttp2_frame_pack_headers` succeeds and writes the 8-byte head with the type, the
flags and the stream id of the frame; the payload is the priority (4 bytes, with
`FLAG_PRIORITY`) and one indexed block per entry of the reference set of the
deflater, which toggles it off; the length field and the returned value count
them.  The payload has length 0 (the call returns 8) when the reference set is
empty and `FLAG_PRIORITY` is not set. -/
theorem pack_headers_no_nv (flag_priority : Nat) (buf : List Nat) (F : nghttp2_headers)
    (d : nghttp2_hd_context) (hnva : F.nva = []) (hbad : d.bad = false)
    (hinv : table_inv d) (href : refset_inv d) :
    ∃ d1 buf1,
      nghttp2_frame_pack_headers flag_priority buf F d =
        (nghttp2_headers.mk (nghttp2_frame_hd.mk
            (headers_nv_offset flag_priority F - 8 + (refset_toggle_blocks d).length)
            F.hd.typ F.hd.flags F.hd.stream_id) F.pri F.nva,
          d1, buf1,
          .ok (headers_nv_offset flag_priority F + (refset_toggle_blocks d).length)) ∧
      buf1.take 8 = frame_hd_bytes (nghttp2_frame_hd.mk
        (headers_nv_offset flag_priority F - 8 + (refset_toggle_blocks d).length)
        F.hd.typ F.hd.flags F.hd.stream_id) ∧
      mem_read (memOf buf1) (headers_nv_offset flag_priority F)
        (refset_toggle_blocks d).length = refset_toggle_blocks d ∧
      (d.refset = [] → F.hd.flags &&& flag_priority = 0 →
        headers_nv_offset flag_priority F + (refset_toggle_blocks d).length = 8 ∧
        headers_nv_offset flag_priority F - 8 + (refset_toggle_blocks d).length = 0) := by
  have hoff : headers_nv_offset flag_priority F = 8 ∨ headers_nv_offset flag_priority F = 12 := by
    unfold headers_nv_offset NGHTTP2_FRAME_HEAD_LENGTH
    split
    · exact Or.inr rfl
    · exact Or.inl rfl
  have hL : (refset_toggle_blocks d).length ≤ 256 := refset_blocks_length d hinv href
  obtain ⟨d1, bufD, r1, r2, r3, -, -, -⟩ := deflate_hd_no_nv d buf
    (headers_nv_offset flag_priority F) hbad hinv href (by omega)
  have hq : nghttp2_hd_deflate_hd d buf (headers_nv_offset flag_priority F) F.nva =
      (d1, bufD, .ok (refset_toggle_blocks d).length) := by rw [hnva]; exact r1
  have hsh := pack_headers_shape flag_priority buf F d d1 bufD _ hq
  have hmod : ((refset_toggle_blocks d).length + headers_nv_offset flag_priority F - 8) % 2 ^ 16 =
      headers_nv_offset flag_priority F - 8 + (refset_toggle_blocks d).length := by
    rw [Nat.mod_eq_of_lt (by omega)]; omega
  rw [hmod, Nat.add_comm (refset_toggle_blocks d).length] at hsh
  refine ⟨d1, _, hsh, ?_, ?_, ?_⟩
  · split
    · rw [List.append_assoc, List.take_left' (frame_hd_bytes_length _)]
    · rw [List.take_left' (frame_hd_bytes_length _)]
  · apply mem_read_of_holds
    apply mem_holds_of_agree _ (memOf bufD) _ _ r3
    intro i h1 h2
    by_cases hf : F.hd.flags &&& flag_priority ≠ 0
    · have hnv : headers_nv_offset flag_priority F = 12 := by
        simp [headers_nv_offset, hf, NGHTTP2_FRAME_HEAD_LENGTH]
      rw [if_pos hf]
      rw [hnv] at h1
      exact memOf_tail _ bufD 12 i (by
        rw [List.length_append, frame_hd_bytes_length, put_uint32be_length]) h1
    · have hnv : headers_nv_offset flag_priority F = 8 := by
        simp [headers_nv_offset, hf, NGHTTP2_FRAME_HEAD_LENGTH]
      rw [if_neg hf]
      rw [hnv] at h1
      exact memOf_tail _ bufD 8 i (frame_hd_bytes_length _) h1
  · intro hr hf
    have hnv : headers_nv_offset flag_priority F = 8 := by
      simp [headers_nv_offset, hf, NGHTTP2_FRAME_HEAD_LENGTH]
    have h0 : (refset_toggle_blocks d).length = 0 := by
      unfold refset_toggle_blocks
      rw [hr]
      rfl
    omega

/-- The amended C22 at work: after a block with the header `:path: /` the
reference set of the client deflater holds the entry 3, and a HEADERS frame
without headers is packed into 9 bytes. -/
theorem pack_headers_no_nv_witness :
    (nghttp2_frame_pack_headers 8 []
      { hd := { length := 0, typ := 1, flags := 4, stream_id := 1 }, pri := 0, nva := [] }
      ((hd_calls_run (nghttp2_hd_deflate_init .NGHTTP2_HD_SIDE_CLIENT)
        [.deflate_hd [] 8 [{ name := cstr ":path", value := cstr "/" }], .end_headers]).getD
          (nghttp2_hd_deflate_init .NGHTTP2_HD_SIDE_CLIENT))).2.2.2 = .ok 9 := by
  obtain ⟨d1, buf1, h, -⟩ := pack_headers_no_nv 8 []
    { hd := { length := 0, typ := 1, flags := 4, stream_id := 1 }, pri := 0, nva := [] }
    ((hd_calls_run (nghttp2_hd_deflate_init .NGHTTP2_HD_SIDE_CLIENT)
      [.deflate_hd [] 8 [{ name := cstr ":path", value := cstr "/" }], .end_headers]).getD
        (nghttp2_hd_deflate_init .NGHTTP2_HD_SIDE_CLIENT))
    rfl (by decide) (by unfold table_inv; decide) (by unfold refset_inv; decide)
  rw [h]
  exact congrArg Except.ok (by decide)

/-- The claim C22 fails in two ways.  After a block with the header `:path: /`, a
HEADERS frame without headers is packed as `00 01 01 04 00 00 00 01 83`: the
length field is 1, the payload is the indexed block that toggles the entry 3 off.
On a fresh deflater, with `FLAG_PRIORITY` (taken as 8) set, the payload is the 4
bytes of the priority and the call returns 12. -/
theorem pack_headers_no_nv_counterexample :
    (nghttp2_frame_pack_headers 8 []
      { hd := { length := 0, typ := 1, flags := 4, stream_id := 1 }, pri := 0, nva := [] }
      ((hd_calls_run (nghttp2_hd_deflate_init .NGHTTP2_HD_SIDE_CLIENT)
        [.deflate_hd [] 8 [{ name := cstr ":path", value := cstr "/" }], .end_headers]).getD
          (nghttp2_hd_deflate_init .NGHTTP2_HD_SIDE_CLIENT))).2.2 =
      ([0, 1, 1, 4, 0, 0, 0, 1, 0x83], .ok 9) ∧
    (nghttp2_frame_pack_headers 8 []
      { hd := { length := 0, typ := 1, flags := 12, stream_id := 1 }, pri := 5, nva := [] }
      (nghttp2_hd_deflate_init .NGHTTP2_HD_SIDE_CLIENT)).2.2 =
      ([0, 4, 1, 12, 0, 0, 0, 1, 0, 0, 0, 5], .ok 12) := by
  decide

end Nghttp2

namespace Nghttp2

/-! ### The accounting of the rooms -/

theorem heap_room_congr (H H1 : List nghttp2_hd_entry)
    (h : ∀ p, (heap_get H1 p).nv = (heap_get H p).nv) (p : Nat) :
    heap_room H1 p = heap_room H p := by
  unfold heap_room; rw [h]

theorem map_heap_room_congr (H H1 : List nghttp2_hd_entry) (l : List Nat)
    (h : ∀ p ∈ l, (heap_get H1 p).nv = (heap_get H p).nv) :
    l.map (heap_room H1) = l.map (heap_room H) := by
  apply List.map_congr_left
  intro p hp
  unfold heap_room
  rw [h p hp]

theorem table_room_congr (c c1 : nghttp2_hd_context) (ht : c1.hd_table = c.hd_table)
    (h : ∀ p, (heap_get c1.heap p).nv = (heap_get c.heap p).nv) :
    table_room c1 = table_room c := by
  unfold table_room
  rw [ht, map_heap_room_congr c.heap c1.heap _ (fun p _ => h p)]

/-- The context keeps what holds of it when the arena changes in the reference
counts only. -/
theorem hd_inv_of_equiv (c c1 : nghttp2_hd_context) (hinv : hd_inv c)
    (he : heap_equiv c1.heap c.heap) (ht : c1.hd_table = c.hd_table)
    (hc : c1.hd_table_capacity = c.hd_table_capacity)
    (hw : ws_valid c.heap c1.ws) (hb : c1.hd_table_bufsize = c.hd_table_bufsize) :
    hd_inv c1 := by
  obtain ⟨i1, i2, i3, i4⟩ := hinv
  refine ⟨table_inv_of_equiv c c1 i1 he ht hc, ?_, ?_, by rw [hb]; exact i4⟩
  · exact ws_valid_mono c.heap c1.heap c1.ws hw (by rw [he.1])
  · rw [hb, i3, table_room_congr c c1 ht (fun p => (he.2 p).2)]

theorem table_inv_not_mem (c : nghttp2_hd_context) (hinv : table_inv c) (p : Nat)
    (hp : p < c.heap.length) (hn : p ∉ c.hd_table) :
    (heap_get c.heap p).index = NGHTTP2_HD_INVALID_INDEX := by
  by_contra hne
  obtain ⟨a, b⟩ := hinv.2.1 p hp hne
  apply hn
  rw [← b, List.getD_eq_getElem _ _ a]
  exact List.getElem_mem _

/-- A table laid out in the arena: the entry at position `j` has index `j`, and
the entries of the arena that are not in the table have the index INVALID. -/
theorem table_inv_of_layout (c : nghttp2_hd_context)
    (h1 : ∀ j, j < c.hd_table.length →
      c.hd_table.getD j 0 < c.heap.length ∧ (heap_get c.heap (c.hd_table.getD j 0)).index = j)
    (h2 : ∀ p, p < c.heap.length → p ∉ c.hd_table →
      (heap_get c.heap p).index = NGHTTP2_HD_INVALID_INDEX)
    (h3 : c.hd_table.length ≤ c.hd_table_capacity) (h4 : c.hd_table_capacity ≤ 128) :
    table_inv c := by
  refine ⟨h1, fun p hp hne => ?_, h3, h4⟩
  by_cases hm : p ∈ c.hd_table
  · obtain ⟨j, hj, rfl⟩ := List.getElem_of_mem hm
    have := (h1 j hj).2
    rw [List.getD_eq_getElem _ _ hj] at this
    rw [this]
    exact ⟨hj, List.getD_eq_getElem _ _ hj⟩
  · exact absurd (h2 p hp hm) hne

/-- The eviction loop of `add_hd_table_incremental` and the accounting: it stops
as soon as the size fits. -/
theorem evict_loop_room : ∀ (t : List Nat) (H : List nghttp2_hd_entry) (b X : Nat),
    b = X + (t.map (heap_room H)).sum →
    ∃ k, k ≤ t.length ∧ (evict_loop t H b).1 = t.drop k ∧
      (evict_loop t H b).2.2 = X + ((t.drop k).map (heap_room H)).sum ∧
      (k = t.length ∨ (evict_loop t H b).2.2 ≤ NGHTTP2_HD_MAX_BUFFER_SIZE) ∧
      ∀ m, m < k → X + ((t.drop m).map (heap_room H)).sum > NGHTTP2_HD_MAX_BUFFER_SIZE := by
  intro t
  induction t with
  | nil =>
    intro H b X hb
    exact ⟨0, le_refl _, rfl, by simpa [evict_loop] using hb, Or.inl rfl,
      fun m hm => absurd hm (Nat.not_lt_zero _)⟩
  | cons p rest ih =>
    intro H b X hb
    simp only [List.map_cons, List.sum_cons] at hb
    unfold evict_loop
    split
    · rename_i hgt
      have hrooms : rest.map (heap_room (ref_dec (set_index H p NGHTTP2_HD_INVALID_INDEX) p)) =
          rest.map (heap_room H) := by
        apply List.map_congr_left
        intro q _
        simp
      obtain ⟨k, hk, r1, r2, r3, r4⟩ := ih (ref_dec (set_index H p NGHTTP2_HD_INVALID_INDEX) p)
        (b - heap_room H p) X (by rw [hrooms]; omega)
      have hrooms2 : ∀ m, (rest.drop m).map
          (heap_room (ref_dec (set_index H p NGHTTP2_HD_INVALID_INDEX) p)) =
          (rest.drop m).map (heap_room H) := by
        intro m
        apply List.map_congr_left
        intro q _
        simp
      refine ⟨k + 1, by simp only [List.length_cons]; omega, ?_, ?_, ?_, ?_⟩
      · simpa using r1
      · simp only [List.drop_succ_cons]
        rw [r2, hrooms2]
      · rcases r3 with r3 | r3
        · exact Or.inl (by simp only [List.length_cons]; omega)
        · exact Or.inr r3
      · intro m hm
        cases m with
        | zero =>
          simp only [List.drop_zero, List.map_cons, List.sum_cons]
          omega
        | succ m =>
          simp only [List.drop_succ_cons]
          have := r4 m (by omega)
          rw [hrooms2] at this
          exact this
    · rename_i hgt
      refine ⟨0, Nat.zero_le _, rfl, ?_, Or.inr (by simpa using hgt),
        fun m hm => absurd hm (Nat.not_lt_zero _)⟩
      simp only [List.drop_zero, List.map_cons, List.sum_cons]
      exact hb

/-- The table and the size that a successful `add_hd_table_incremental` leaves. -/
theorem add_hd_table_incremental_table (c c1 : nghttp2_hd_context) (nv : nghttp2_nv)
    (new : Nat) (h : add_hd_table_incremental c nv = (c1, some new)) :
    c1.hd_table = (evict_loop c.hd_table c.heap
      (c.hd_table_bufsize + entry_room nv.name.length nv.value.length)).1 ++ [new] ∧
    c1.hd_table_bufsize = (evict_loop c.hd_table c.heap
      (c.hd_table_bufsize + entry_room nv.name.length nv.value.length)).2.2 ∧
    entry_room nv.name.length nv.value.length ≤ NGHTTP2_HD_MAX_BUFFER_SIZE ∧
    c.hd_table.length < c.hd_table_capacity ∨ c.hd_table_capacity < c.hd_table.length := by
  simp only [add_hd_table_incremental] at h
  split at h
  · simp at h
  · rename_i hcond
    simp only [not_or, not_lt] at hcond
    simp only [Prod.mk.injEq, Option.some.injEq] at h
    obtain ⟨rfl, hn⟩ := h
    by_cases hl : c.hd_table.length < c.hd_table_capacity
    · exact Or.inl ⟨by rw [← hn], rfl, hcond.2, hl⟩
    · exact Or.inr (by have := hcond.1; omega)

/-- The function `add_hd_table_incremental` keeps what holds of a context; the
entries behind the evicted ones stay in their order, the new entry is the last
one, and no more entries are evicted than needed. -/
theorem add_hd_table_incremental_inv (c : nghttp2_hd_context) (nv : nghttp2_nv)
    (hinv : hd_inv c) :
    hd_inv (add_hd_table_incremental c nv).1 ∧
    (add_hd_table_incremental c nv).1.refset = c.refset ∧
    (add_hd_table_incremental c nv).1.ws = c.ws ∧
    (add_hd_table_incremental c nv).1.bad = c.bad ∧
    c.heap.length ≤ (add_hd_table_incremental c nv).1.heap.length ∧
    ∀ new, (add_hd_table_incremental c nv).2 = some new →
      new = c.heap.length ∧ new < (add_hd_table_incremental c nv).1.heap.length ∧
      (heap_get (add_hd_table_incremental c nv).1.heap new).nv = nv ∧
      (heap_get (add_hd_table_incremental c nv).1.heap new).index =
        (add_hd_table_incremental c nv).1.hd_table.length - 1 ∧
      ∃ k, k ≤ c.hd_table.length ∧
        (add_hd_table_incremental c nv).1.hd_table = c.hd_table.drop k ++ [new] ∧
        ∀ m, m < k → entry_room nv.name.length nv.value.length +
          ((c.hd_table.drop m).map (heap_room c.heap)).sum > NGHTTP2_HD_MAX_BUFFER_SIZE := by
  generalize hq : add_hd_table_incremental c nv = q
  obtain ⟨c1, o⟩ := q
  cases o with
  | none =>
    have := add_hd_table_incremental_none c c1 nv hq
    subst this
    exact ⟨hinv, rfl, rfl, rfl, le_refl _, fun new h => by simp at h⟩
  | some new =>
    obtain ⟨i1, i2, i3, i4⟩ := hinv
    obtain ⟨s1, s2, s3, s4, s5, s6, _, _, s9, _, s11⟩ :=
      add_hd_table_incremental_some c c1 nv new i1 hq
    have hT := add_hd_table_incremental_table c c1 nv new hq
    have hcap := i1.2.2.1
    rcases hT with ⟨t1, t2, t3, -⟩ | hT
    swap
    · omega
    obtain ⟨k, hk, e1, e2, e3, e4⟩ := evict_loop_room c.hd_table c.heap
      (c.hd_table_bufsize + entry_room nv.name.length nv.value.length)
      (entry_room nv.name.length nv.value.length) (by rw [i3]; unfold table_room; omega)
    rw [e1] at t1
    rw [e2] at t2
    have hmem := table_mem_lt c i1
    have hroom : table_room c1 = entry_room nv.name.length nv.value.length +
        ((c.hd_table.drop k).map (heap_room c.heap)).sum := by
      unfold table_room
      rw [t1, List.map_append, List.sum_append, List.map_singleton, List.sum_singleton]
      have hn : heap_room c1.heap new = entry_room nv.name.length nv.value.length := by
        unfold heap_room
        rw [s4]
        rfl
      rw [hn, map_heap_room_congr c.heap c1.heap _ (fun p hp =>
        s3 p (hmem p (List.mem_of_mem_drop hp)))]
      omega
    simp only
    refine ⟨⟨s11, ?_, ?_, ?_⟩, s6, s5, s9, by omega, ?_⟩
    · rw [s5]; exact ws_valid_mono c.heap _ c.ws i2 (by omega)
    · rw [t2, hroom]
    · rw [t2]
      rcases e3 with e3 | e3
      · rw [e3, List.drop_length]
        simpa using t3
      · rw [e2] at e3; exact e3
    · intro n hn
      simp only [Option.some.injEq] at hn
      subst hn
      refine ⟨s1, by omega, ?_, ?_, k, hk, t1, e4⟩
      · rw [s4]; rfl
      · rw [s4]
        simp only [nghttp2_hd_entry_init]
        have := s11.2.2.1
        have := s11.2.2.2
        have hpos : 0 < c1.hd_table.length := by rw [t1]; simp
        exact Nat.mod_eq_of_lt (by omega)

end Nghttp2

namespace Nghttp2

/-! ### Substitution in the header table -/

theorem room_le_sum (H : List nghttp2_hd_entry) : ∀ (l : List Nat) (j : Nat), j < l.length →
    heap_room H (l.getD j 0) ≤ (l.map (heap_room H)).sum := by
  intro l
  induction l with
  | nil => intro j hj; simp at hj
  | cons a rest ih =>
    intro j hj
    cases j with
    | zero => simp
    | succ j =>
      have := ih j (by simpa using hj)
      simp only [List.getD_cons_succ, List.map_cons, List.sum_cons]
      omega

@[simp] theorem evict_loop_subst_length (sub : Nat) : ∀ (t : List Nat) (i : Nat)
    (H : List nghttp2_hd_entry) (b : Nat),
    (evict_loop_subst sub t i H b).2.2.1.length = H.length := by
  intro t
  induction t with
  | nil => intro i H b; rfl
  | cons p rest ih =>
    intro i H b
    unfold evict_loop_subst
    split
    · simp [ih]
    · rfl

/-- The eviction loop of `add_hd_table_subst`: `d` is the room of the entry at
`subindex`, which has been taken off the size before the loop. -/
theorem evict_loop_subst_spec (sub d : Nat) : ∀ (t : List Nat) (i : Nat)
    (H : List nghttp2_hd_entry) (b X : Nat),
    (∀ p ∈ t, p < H.length) → sub < i + t.length →
    (i ≤ sub → d = heap_room H (t.getD (sub - i) 0)) →
    b + (if i ≤ sub then d else 0) = X + (t.map (heap_room H)).sum →
    ∃ k, k ≤ t.length ∧ (evict_loop_subst sub t i H b).1 = t.drop k ∧
      (evict_loop_subst sub t i H b).2.1 = i + k ∧
      (∀ p, (heap_get (evict_loop_subst sub t i H b).2.2.1 p).nv = (heap_get H p).nv) ∧
      (∀ p, (heap_get (evict_loop_subst sub t i H b).2.2.1 p).index =
        if p ∈ t.take k then NGHTTP2_HD_INVALID_INDEX else (heap_get H p).index) ∧
      (evict_loop_subst sub t i H b).2.2.2 + (if i + k ≤ sub then d else 0) =
        X + ((t.drop k).map (heap_room H)).sum ∧
      (k = t.length ∨ (evict_loop_subst sub t i H b).2.2.2 ≤ NGHTTP2_HD_MAX_BUFFER_SIZE) ∧
      ∀ m, m < k → X + ((t.drop m).map (heap_room H)).sum >
        NGHTTP2_HD_MAX_BUFFER_SIZE + (if i + m ≤ sub then d else 0) := by
  intro t
  induction t with
  | nil =>
    intro i H b X _ hsub _ hb
    refine ⟨0, le_refl _, rfl, rfl, fun _ => rfl, fun _ => by simp [evict_loop_subst], ?_,
      Or.inl rfl, fun m hm => absurd hm (Nat.not_lt_zero _)⟩
    simpa [evict_loop_subst] using hb
  | cons p rest ih =>
    intro i H b X hlt hsub hd hb
    simp only [List.map_cons, List.sum_cons] at hb
    simp only [List.length_cons] at hsub
    have hp : p < H.length := hlt p (List.mem_cons_self _ _)
    unfold evict_loop_subst
    split
    · rename_i hgt
      have hrooms : ∀ l : List Nat,
          l.map (heap_room (ref_dec (set_index H p NGHTTP2_HD_INVALID_INDEX) p)) =
          l.map (heap_room H) := by
        intro l
        apply List.map_congr_left
        intro q _
        simp
      have hstep : (if i ≠ sub then b - heap_room H p else b) +
          (if i + 1 ≤ sub then d else 0) = X + (rest.map (heap_room H)).sum := by
        rcases Nat.lt_trichotomy i sub with h | h | h
        · have hd1 := hd (by omega)
          have hj : sub - i = (sub - i - 1) + 1 := by omega
          rw [hj, List.getD_cons_succ] at hd1
          have hle := room_le_sum H rest (sub - i - 1) (by omega)
          rw [← hd1] at hle
          rw [if_pos (by omega), if_pos (by omega)]
          rw [if_pos (by omega)] at hb
          omega
        · have hd1 := hd (by omega)
          rw [h, Nat.sub_self, List.getD_cons_zero] at hd1
          rw [if_neg (by omega), if_neg (by omega)]
          rw [if_pos (by omega)] at hb
          omega
        · rw [if_pos (by omega), if_neg (by omega)]
          rw [if_neg (by omega)] at hb
          omega
      obtain ⟨k, hk, r1, r2, r3, r4, r5, r6, r7⟩ :=
        ih (i + 1) (ref_dec (set_index H p NGHTTP2_HD_INVALID_INDEX) p)
          (if i ≠ sub then b - heap_room H p else b) X
          (fun q hq => by simpa using hlt q (List.mem_cons_of_mem _ hq)) (by omega)
          (fun hle => by
            have hd1 := hd (by omega)
            have hj : sub - i = (sub - (i + 1)) + 1 := by omega
            rw [hj, List.getD_cons_succ] at hd1
            rw [hd1]
            simp)
          (by rw [hrooms]; exact hstep)
      refine ⟨k + 1, by simp only [List.length_cons]; omega, by simpa using r1,
        by rw [r2]; omega, fun q => by rw [r3]; simp, fun q => ?_, ?_, ?_, ?_⟩
      · rw [r4]
        simp only [List.take_succ_cons, List.mem_cons, heap_get_ref_dec_index,
          heap_get_set_index_index]
        by_cases hq : q ∈ rest.take k
        · simp [hq]
        · by_cases hpq : p = q
          · subst hpq; simp [hp]
          · have : ¬ q = p := fun h => hpq h.symm
            simp [hq, hpq, this]
      · simp only [List.drop_succ_cons]
        rw [← hrooms, ← r5]
        have : i + 1 + k = i + (k + 1) := by omega
        rw [this]
      · rcases r6 with r6 | r6
        · exact Or.inl (by simp only [List.length_cons]; omega)
        · exact Or.inr r6
      · intro m hm
        cases m with
        | zero =>
          simp only [List.drop_zero, List.map_cons, List.sum_cons, Nat.add_zero]
          omega
        | succ m =>
          simp only [List.drop_succ_cons]
          have := r7 m (by omega)
          rw [hrooms] at this
          have e : i + 1 + m = i + (m + 1) := by omega
          rw [e] at this
          exact this
    · rename_i hgt
      refine ⟨0, Nat.zero_le _, rfl, rfl, fun _ => rfl, fun _ => by simp, ?_,
        Or.inr (by simpa using hgt), fun m hm => absurd hm (Nat.not_lt_zero _)⟩
      simp only [List.drop_zero, List.map_cons, List.sum_cons, Nat.add_zero]
      exact hb

theorem add_hd_table_subst_none (c c1 : nghttp2_hd_context) (nv : nghttp2_nv) (sub : Nat)
    (h : add_hd_table_subst c nv sub = (c1, none)) : c1 = c := by
  simp only [add_hd_table_subst] at h
  split at h
  · simp only [Prod.mk.injEq, and_true] at h; exact h.symm
  · simp at h

/-- The arena after the compaction loop that follows an eviction of the first `k`
entries of the table: the entries left are numbered from `j0` on, every other
entry of the arena has no valid index. -/
theorem compaction_layout (c : nghttp2_hd_context) (hinv : table_inv c) (k j0 : Nat)
    (H1 : List nghttp2_hd_entry) (hlen : H1.length = c.heap.length)
    (hnv : ∀ p, (heap_get H1 p).nv = (heap_get c.heap p).nv)
    (hidx : ∀ p, (heap_get H1 p).index =
      if p ∈ c.hd_table.take k then NGHTTP2_HD_INVALID_INDEX else (heap_get c.heap p).index)
    (hk : k ≤ c.hd_table.length) (hj0 : j0 ≤ 1) (h0 : k = 0 → j0 = 0) :
    (if k > 0 then reindex_loop (c.hd_table.drop k) j0 H1 else H1).length = c.heap.length ∧
    (∀ p, (heap_get (if k > 0 then reindex_loop (c.hd_table.drop k) j0 H1 else H1) p).nv =
      (heap_get c.heap p).nv) ∧
    (∀ j, j < (c.hd_table.drop k).length →
      (heap_get (if k > 0 then reindex_loop (c.hd_table.drop k) j0 H1 else H1)
        ((c.hd_table.drop k).getD j 0)).index = j0 + j) ∧
    (∀ p, p < c.heap.length → p ∉ c.hd_table.drop k →
      (heap_get (if k > 0 then reindex_loop (c.hd_table.drop k) j0 H1 else H1) p).index =
        NGHTTP2_HD_INVALID_INDEX) := by
  obtain ⟨i1, i2, i3, i4⟩ := hinv
  have hnd := table_nodup c ⟨i1, i2, i3, i4⟩
  have hmem := table_mem_lt c ⟨i1, i2, i3, i4⟩
  have hrnd : (c.hd_table.drop k).Nodup := hnd.sublist (List.drop_sublist _ _)
  have hrmem : ∀ p ∈ c.hd_table.drop k, p < H1.length := by
    intro p hp; rw [hlen]; exact hmem p (List.mem_of_mem_drop hp)
  have hrl : (c.hd_table.drop k).length = c.hd_table.length - k := by simp
  obtain ⟨r1, r2, r3⟩ := reindex_loop_spec (c.hd_table.drop k) j0 H1 hrnd hrmem
  have hout : ∀ p, p < c.heap.length → p ∉ c.hd_table.drop k →
      (heap_get H1 p).index = NGHTTP2_HD_INVALID_INDEX := by
    intro p hp hn
    rw [hidx]
    by_cases hpt : p ∈ c.hd_table.take k
    · rw [if_pos hpt]
    · rw [if_neg hpt]
      apply table_inv_not_mem c ⟨i1, i2, i3, i4⟩ p hp
      intro hpin
      rw [← List.take_append_drop k c.hd_table, List.mem_append] at hpin
      rcases hpin with hh | hh
      · exact hpt hh
      · exact hn hh
  by_cases hk0 : k > 0
  · simp only [hk0, if_true]
    refine ⟨by rw [reindex_loop_length, hlen], fun p => by rw [r1, hnv], fun j hj => ?_,
      fun p hp hn => by rw [r2 p hn]; exact hout p hp hn⟩
    rw [List.getD_eq_getElem _ _ hj, r3 j hj]
    exact Nat.mod_eq_of_lt (by omega)
  · have hk1 : k = 0 := by omega
    have hj1 := h0 hk1
    subst hk1
    subst hj1
    simp only [gt_iff_lt, Nat.lt_irrefl, if_false, List.drop_zero, Nat.zero_add]
    refine ⟨hlen, hnv, fun j hj => ?_, fun p hp hn => ?_⟩
    · rw [hidx]
      simp only [List.take_zero, List.not_mem_nil, if_false]
      exact (i1 j (by simpa using hj)).2
    · have := hout p hp (by simpa using hn)
      exact this

end Nghttp2

namespace Nghttp2

theorem sum_map_set (f : Nat → Nat) (l : List Nat) (s n : Nat) (hs : s < l.length) :
    ((l.set s n).map f).sum + f (l.getD s 0) = f n + (l.map f).sum := by
  have h1 : l.set s n = l.take s ++ n :: l.drop (s + 1) := by
    rw [List.set_eq_take_append_cons_drop, if_pos hs]
  have h2 : l = l.take s ++ l.getD s 0 :: l.drop (s + 1) := by
    rw [List.getD_eq_getElem _ _ hs, List.getElem_cons_drop, List.take_append_drop]
  rw [h1]
  conv_rhs => rw [h2]
  simp only [List.map_append, List.map_cons, List.sum_append, List.sum_cons]
  omega

theorem getD_set (l : List Nat) (s n j : Nat) (hs : s < l.length) :
    (l.set s n).getD j 0 = if j = s then n else l.getD j 0 := by
  simp only [List.getD_eq_getElem?_getD, List.getElem?_set]
  by_cases h : s = j
  · subst h; simp [hs]
  · have : ¬ j = s := fun e => h e.symm
    simp [h, this]

theorem getD_drop (l : List Nat) (k j : Nat) : (l.drop k).getD j 0 = l.getD (k + j) 0 := by
  simp only [List.getD_eq_getElem?_getD, List.getElem?_drop]

/-- The function `add_hd_table_subst` keeps what holds of a context.  With `k`
entries evicted, the new entry replaces the entry at `subindex` when that one is
not evicted (it is then at position `subindex - k`); when it is evicted, the new
entry is the first one of the table. -/
theorem add_hd_table_subst_inv (c : nghttp2_hd_context) (nv : nghttp2_nv) (sub : Nat)
    (hinv : hd_inv c) :
    hd_inv (add_hd_table_subst c nv sub).1 ∧
    (add_hd_table_subst c nv sub).1.refset = c.refset ∧
    (add_hd_table_subst c nv sub).1.ws = c.ws ∧
    (add_hd_table_subst c nv sub).1.bad = c.bad ∧
    c.heap.length ≤ (add_hd_table_subst c nv sub).1.heap.length ∧
    ∀ new, (add_hd_table_subst c nv sub).2 = some new →
      new = c.heap.length ∧ new < (add_hd_table_subst c nv sub).1.heap.length ∧
      (heap_get (add_hd_table_subst c nv sub).1.heap new).nv = nv ∧
      sub < c.hd_table.length ∧
      ∃ k, k ≤ c.hd_table.length ∧
        (k ≤ sub → (add_hd_table_subst c nv sub).1.hd_table =
            (c.hd_table.drop k).set (sub - k) new ∧
          (heap_get (add_hd_table_subst c nv sub).1.heap new).index = sub - k) ∧
        (sub < k → (add_hd_table_subst c nv sub).1.hd_table = new :: c.hd_table.drop k ∧
          (heap_get (add_hd_table_subst c nv sub).1.heap new).index = 0) ∧
        ∀ m, m < k → entry_room nv.name.length nv.value.length +
            ((c.hd_table.drop m).map (heap_room c.heap)).sum >
          NGHTTP2_HD_MAX_BUFFER_SIZE +
            (if m ≤ sub then heap_room c.heap (c.hd_table.getD sub 0) else 0) := by
  generalize hq : add_hd_table_subst c nv sub = q
  obtain ⟨c1, o⟩ := q
  cases o with
  | none =>
    have := add_hd_table_subst_none c c1 nv sub hq
    subst this
    exact ⟨hinv, rfl, rfl, rfl, le_refl _, fun new h => by simp at h⟩
  | some new =>
    obtain ⟨i1, i2, i3, i4⟩ := hinv
    have hnd := table_nodup c i1
    have hmem := table_mem_lt c i1
    have hcap := i1.2.2.1
    have hcap2 := i1.2.2.2
    simp only [add_hd_table_subst] at hq
    split at hq
    · simp at hq
    rename_i hcond
    simp only [not_or, not_lt, not_le] at hcond
    obtain ⟨hroom, hsub⟩ := hcond
    have hdle := room_le_sum c.heap c.hd_table sub hsub
    obtain ⟨k, hk, e1, e2, e3, e4, e5, e6, e7⟩ := evict_loop_subst_spec sub
      (heap_room c.heap (c.hd_table.getD sub 0)) c.hd_table 0 c.heap
      (c.hd_table_bufsize - heap_room c.heap (c.hd_table.getD sub 0) +
        entry_room nv.name.length nv.value.length)
      (entry_room nv.name.length nv.value.length) hmem (by omega) (fun _ => rfl)
      (by
        rw [if_pos (Nat.zero_le _), i3]
        unfold table_room
        omega)
    have hlen1 := evict_loop_subst_length sub c.hd_table 0 c.heap
      (c.hd_table_bufsize - heap_room c.heap (c.hd_table.getD sub 0) +
        entry_room nv.name.length nv.value.length)
    generalize hr : evict_loop_subst sub c.hd_table 0 c.heap
      (c.hd_table_bufsize - heap_room c.heap (c.hd_table.getD sub 0) +
        entry_room nv.name.length nv.value.length) = r at hq e1 e2 e3 e4 e5 e6 e7 hlen1
    obtain ⟨rest, i, H1, b1⟩ := r
    simp only [Nat.zero_add] at hq e1 e2 e3 e4 e5 e6 e7 hlen1
    subst e2
    subst e1
    have hrl : (c.hd_table.drop i).length = c.hd_table.length - i := by simp
    have hrmem : ∀ p ∈ c.hd_table.drop i, p < c.heap.length :=
      fun p hp => hmem p (List.mem_of_mem_drop hp)
    have hrnd : (c.hd_table.drop i).Nodup := hnd.sublist (List.drop_sublist _ _)
    by_cases hik : i ≤ sub
    · -- the entry at `subindex` is still in the table
      have c1' : ((sub : Int) - (i : Int) ≥ 0) := by omega
      have c2' : ¬ ((sub : Int) - (i : Int) < 0) := by omega
      have c3' : ((sub : Int) - (i : Int)).toNat = sub - i := by omega
      have ht : (if i > 0 then c.hd_table.drop i else c.hd_table) = c.hd_table.drop i := by
        split
        · rfl
        · rename_i h0
          have : i = 0 := by omega
          rw [this, List.drop_zero]
      simp only [c1', c2', c3', if_true, if_false, ht] at hq
      obtain ⟨l1, l2, l3, l4⟩ := compaction_layout c i1 i 0 H1 hlen1 e3 e4 hk (by omega)
        (fun _ => rfl)
      generalize hH2 : (if i > 0 then reindex_loop (c.hd_table.drop i) 0 H1 else H1) = H2
        at hq l1 l2 l3 l4
      have hidx : (nghttp2_hd_entry_init (sub - i)
          (NGHTTP2_HD_FLAG_NAME_ALLOC ||| NGHTTP2_HD_FLAG_VALUE_ALLOC) nv.name nv.value).index =
          sub - i := by
        simp only [nghttp2_hd_entry_init]
        exact Nat.mod_eq_of_lt (by omega)
      rw [hidx] at hq
      simp only [Prod.mk.injEq, Option.some.injEq] at hq
      obtain ⟨hc1, hnew⟩ := hq
      rw [l1] at hnew
      subst hnew
      have hs : sub - i < (c.hd_table.drop i).length := by omega
      have hq2 : (c.hd_table.drop i).getD (sub - i) 0 < H2.length := by
        rw [l1, List.getD_eq_getElem _ _ hs]
        exact hrmem _ (List.getElem_mem _)
      have hheap3 : (ref_dec (set_index H2 ((c.hd_table.drop i).getD (sub - i) 0)
          NGHTTP2_HD_INVALID_INDEX) ((c.hd_table.drop i).getD (sub - i) 0)).length =
          c.heap.length := by simp [l1]
      have hgetnew : heap_get c1.heap c.heap.length = nghttp2_hd_entry_init (sub - i)
          (NGHTTP2_HD_FLAG_NAME_ALLOC ||| NGHTTP2_HD_FLAG_VALUE_ALLOC) nv.name nv.value := by
        rw [← hc1]
        simp only
        rw [← hheap3, heap_get_append_new]
      have hgetold : ∀ p, p < c.heap.length → heap_get c1.heap p =
          heap_get (ref_dec (set_index H2 ((c.hd_table.drop i).getD (sub - i) 0)
            NGHTTP2_HD_INVALID_INDEX) ((c.hd_table.drop i).getD (sub - i) 0)) p := by
        intro p hp
        rw [← hc1]
        simp only
        rw [heap_get_append_left _ _ _ (by rw [hheap3]; exact hp)]
      have hnvold : ∀ p, p < c.heap.length → (heap_get c1.heap p).nv = (heap_get c.heap p).nv := by
        intro p hp
        rw [hgetold p hp]
        simp only [heap_get_ref_dec_nv, heap_get_set_index_nv, l2]
      have hidxold : ∀ p, p < c.heap.length → (heap_get c1.heap p).index =
          if (c.hd_table.drop i).getD (sub - i) 0 = p then NGHTTP2_HD_INVALID_INDEX
          else (heap_get H2 p).index := by
        intro p hp
        rw [hgetold p hp]
        simp only [heap_get_ref_dec_index, heap_get_set_index_index, hq2, and_true]
      have htab : c1.hd_table = (c.hd_table.drop i).set (sub - i) c.heap.length := by
        rw [← l1, ← hc1]
      have hheaplen : c1.heap.length = c.heap.length + 1 := by
        rw [← hc1]
        simp only [List.length_append, List.length_singleton, hheap3]
      have hb : c1.hd_table_bufsize = b1 := by rw [← hc1]
      have hws : c1.ws = c.ws := by rw [← hc1]
      have hrs : c1.refset = c.refset := by rw [← hc1]
      have hbad : c1.bad = c.bad := by rw [← hc1]
      have hcp : c1.hd_table_capacity = c.hd_table_capacity := by rw [← hc1]
      have hinv1 : table_inv c1 := by
        apply table_inv_of_layout
        · intro j hj
          rw [htab, List.length_set] at hj
          rw [htab, getD_set _ _ _ _ hs]
          by_cases hjs : j = sub - i
          · rw [if_pos hjs, hgetnew, hidx, hheaplen]
            exact ⟨by omega, hjs.symm⟩
          · rw [if_neg hjs]
            have hpl : (c.hd_table.drop i).getD j 0 < c.heap.length := by
              rw [List.getD_eq_getElem _ _ hj]
              exact hrmem _ (List.getElem_mem _)
            refine ⟨by omega, ?_⟩
            rw [hidxold _ hpl, if_neg, l3 j hj, Nat.zero_add]
            rw [List.getD_eq_getElem _ _ hs, List.getD_eq_getElem _ _ hj]
            intro heq
            exact hjs ((hrnd.getElem_inj_iff).mp heq).symm
        · intro p hp hn
          rw [hheaplen] at hp
          rw [htab] at hn
          by_cases hpn : p = c.heap.length
          · exfalso
            apply hn
            rw [hpn]
            exact List.mem_set _ _ hs _
          · have hp1 : p < c.heap.length := by omega
            rw [hidxold p hp1]
            split
            · rfl
            · rename_i hpq
              apply l4 p hp1
              intro hpr
              apply hn
              obtain ⟨j, hj, hjp⟩ := List.getElem_of_mem hpr
              have hjs : j ≠ sub - i := by
                intro e
                apply hpq
                rw [List.getD_eq_getElem _ _ hs, ← hjp]
                congr 1
                exact e.symm
              have : ((c.hd_table.drop i).set (sub - i) c.heap.length).getD j 0 = p := by
                rw [getD_set _ _ _ _ hs, if_neg hjs, List.getD_eq_getElem _ _ hj, hjp]
              rw [← this, List.getD_eq_getElem _ _ (by rw [List.length_set]; exact hj)]
              exact List.getElem_mem _
        · rw [htab, List.length_set, hcp]; omega
        · rw [hcp]; exact hcap2
      have hroomeq : table_room c1 + heap_room c.heap (c.hd_table.getD sub 0) =
          entry_room nv.name.length nv.value.length +
            ((c.hd_table.drop i).map (heap_room c.heap)).sum := by
        unfold table_room
        rw [htab]
        have h1 := sum_map_set (heap_room c1.heap) (c.hd_table.drop i) (sub - i) c.heap.length hs
        have h2 : heap_room c1.heap c.heap.length = entry_room nv.name.length nv.value.length := by
          unfold heap_room
          rw [hgetnew]
          rfl
        have h3 : heap_room c1.heap ((c.hd_table.drop i).getD (sub - i) 0) =
            heap_room c.heap (c.hd_table.getD sub 0) := by
          rw [getD_drop]
          have : i + (sub - i) = sub := by omega
          rw [this]
          unfold heap_room
          rw [hnvold _ (by
            rw [List.getD_eq_getElem _ _ hsub]
            exact hmem _ (List.getElem_mem _))]
        have h4 : (c.hd_table.drop i).map (heap_room c1.heap) =
            (c.hd_table.drop i).map (heap_room c.heap) :=
          map_heap_room_congr c.heap c1.heap _ (fun p hp => hnvold p (hrmem p hp))
        rw [h2, h3, h4] at h1
        exact h1
      rw [if_pos hik] at e5
      simp only
      refine ⟨⟨hinv1, ?_, ?_, ?_⟩, hrs, hws, hbad, by omega, ?_⟩
      · rw [hws]; exact ws_valid_mono c.heap _ c.ws i2 (by omega)
      · rw [hb]; omega
      · rw [hb]
        rcases e6 with e6 | e6
        · omega
        · exact e6
      · intro n hn
        simp only [Option.some.injEq] at hn
        subst hn
        refine ⟨rfl, by omega, ?_, hsub, i, hk, fun _ => ⟨htab, ?_⟩,
          fun h => absurd h (by omega), e7⟩
        · rw [hgetnew]; rfl
        · rw [hgetnew, hidx]
    · -- the entry at `subindex` has been evicted
      have hi0 : i > 0 := by omega
      have c1' : ¬ ((sub : Int) - (i : Int) ≥ 0) := by omega
      have c2' : ((sub : Int) - (i : Int) < 0) := by omega
      simp only [c1', c2', hi0, if_true, if_false] at hq
      obtain ⟨l1, l2, l3, l4⟩ := compaction_layout c i1 i 1 H1 hlen1 e3 e4 hk (by omega)
        (fun h => by omega)
      simp only [hi0, if_true] at l1 l2 l3 l4
      generalize hH2 : reindex_loop (c.hd_table.drop i) 1 H1 = H2 at hq l1 l2 l3 l4
      have hidx : (nghttp2_hd_entry_init 0
          (NGHTTP2_HD_FLAG_NAME_ALLOC ||| NGHTTP2_HD_FLAG_VALUE_ALLOC) nv.name nv.value).index =
          0 := rfl
      rw [hidx] at hq
      have htake : c.hd_table.take 1 = [c.hd_table.getD 0 0] := by
        cases hct : c.hd_table with
        | nil => rw [hct] at hsub; simp at hsub
        | cons a l => rfl
      rw [htake, List.singleton_append, List.set_cons_zero] at hq
      simp only [Prod.mk.injEq, Option.some.injEq] at hq
      obtain ⟨hc1, hnew⟩ := hq
      rw [l1] at hnew
      subst hnew
      have hgetnew : heap_get c1.heap c.heap.length = nghttp2_hd_entry_init 0
          (NGHTTP2_HD_FLAG_NAME_ALLOC ||| NGHTTP2_HD_FLAG_VALUE_ALLOC) nv.name nv.value := by
        rw [← hc1]
        simp only
        rw [← l1, heap_get_append_new]
      have hgetold : ∀ p, p < c.heap.length → heap_get c1.heap p = heap_get H2 p := by
        intro p hp
        rw [← hc1]
        simp only
        rw [heap_get_append_left _ _ _ (by rw [l1]; exact hp)]
      have hnvold : ∀ p, p < c.heap.length → (heap_get c1.heap p).nv = (heap_get c.heap p).nv := by
        intro p hp
        rw [hgetold p hp, l2]
      have htab : c1.hd_table = c.heap.length :: c.hd_table.drop i := by
        rw [← l1, ← hc1]
      have hheaplen : c1.heap.length = c.heap.length + 1 := by
        rw [← hc1]
        simp only [List.length_append, List.length_singleton, l1]
      have hb : c1.hd_table_bufsize = b1 := by rw [← hc1]
      have hws : c1.ws = c.ws := by rw [← hc1]
      have hrs : c1.refset = c.refset := by rw [← hc1]
      have hbad : c1.bad = c.bad := by rw [← hc1]
      have hcp : c1.hd_table_capacity = c.hd_table_capacity := by rw [← hc1]
      have hinv1 : table_inv c1 := by
        apply table_inv_of_layout
        · intro j hj
          rw [htab, List.length_cons] at hj
          rw [htab]
          cases j with
          | zero =>
            rw [List.getD_cons_zero, hgetnew, hheaplen]
            exact ⟨by omega, rfl⟩
          | succ j =>
            rw [List.getD_cons_succ]
            have hj1 : j < (c.hd_table.drop i).length := by omega
            have hpl : (c.hd_table.drop i).getD j 0 < c.heap.length := by
              rw [List.getD_eq_getElem _ _ hj1]
              exact hrmem _ (List.getElem_mem _)
            refine ⟨by omega, ?_⟩
            rw [hgetold _ hpl, l3 j hj1]
            omega
        · intro p hp hn
          rw [hheaplen] at hp
          rw [htab, List.mem_cons, not_or] at hn
          have hp1 : p < c.heap.length := by
            have := hn.1
            omega
          rw [hgetold p hp1]
          exact l4 p hp1 hn.2
        · rw [htab, List.length_cons, hcp]; omega
        · rw [hcp]; exact hcap2
      have hroomeq : table_room c1 = entry_room nv.name.length nv.value.length +
            ((c.hd_table.drop i).map (heap_room c.heap)).sum := by
        unfold table_room
        rw [htab, List.map_cons, List.sum_cons]
        have h2 : heap_room c1.heap c.heap.length = entry_room nv.name.length nv.value.length := by
          unfold heap_room
          rw [hgetnew]
          rfl
        have h4 : (c.hd_table.drop i).map (heap_room c1.heap) =
            (c.hd_table.drop i).map (heap_room c.heap) :=
          map_heap_room_congr c.heap c1.heap _ (fun p hp => hnvold p (hrmem p hp))
        rw [h2, h4]
      rw [if_neg hik] at e5
      simp only
      refine ⟨⟨hinv1, ?_, ?_, ?_⟩, hrs, hws, hbad, by omega, ?_⟩
      · rw [hws]; exact ws_valid_mono c.heap _ c.ws i2 (by omega)
      · rw [hb]; omega
      · rw [hb]
        rcases e6 with e6 | e6
        · rw [e6, List.drop_length] at e5
          simp only [List.map_nil, List.sum_nil] at e5
          omega
        · exact e6
      · intro n hn
        simp only [Option.some.injEq] at hn
        subst hn
        refine ⟨rfl, by omega, ?_, hsub, i, hk, fun h => absurd h hik,
          fun _ => ⟨htab, ?_⟩, e7⟩
        · rw [hgetnew]; rfl
        · rw [hgetnew]; rfl

end Nghttp2

namespace Nghttp2

/-! ### What the steps of a header block keep -/

theorem hd_keeps_refl (c : nghttp2_hd_context) (hinv : hd_inv c) : hd_keeps c c := ⟨hinv, rfl⟩

theorem hd_keeps_trans (c c1 c2 : nghttp2_hd_context) (h1 : hd_keeps c c1)
    (h2 : hd_keeps c1 c2) : hd_keeps c c2 := ⟨h2.1, h2.2.trans h1.2⟩

theorem hd_keeps_bad (c c1 : nghttp2_hd_context) (b : Bool) (h : hd_keeps c c1) :
    hd_keeps c { c1 with bad := b } := h

theorem hd_keeps_add_workingset (c c1 : nghttp2_hd_context) (ent : Nat) (hinv : hd_inv c)
    (he : ent < c.heap.length) (ha : add_workingset c ent = .ok c1) : hd_keeps c c1 := by
  rw [add_workingset_ok c c1 ent ha]
  refine ⟨hd_inv_of_equiv c _ hinv (heap_equiv_ref_inc _ _) rfl rfl ?_ rfl, rfl⟩
  exact ws_valid_append _ _ _ hinv.2.1 he

theorem hd_keeps_add_workingset_indname (c c1 : nghttp2_hd_context) (ent : Nat)
    (value : List Nat) (hinv : hd_inv c) (he : ent < c.heap.length)
    (ha : add_workingset_indname c ent value = .ok c1) : hd_keeps c c1 := by
  rw [add_workingset_indname_ok c c1 ent value ha]
  refine ⟨hd_inv_of_equiv c _ hinv (heap_equiv_ref_inc _ _) rfl rfl ?_ rfl, rfl⟩
  exact ws_valid_append _ _ _ hinv.2.1 he

theorem hd_keeps_add_workingset_newname (c c1 : nghttp2_hd_context) (nv : nghttp2_nv)
    (hinv : hd_inv c) (ha : add_workingset_newname c nv = .ok c1) : hd_keeps c c1 := by
  rw [add_workingset_newname_ok c c1 nv ha]
  refine ⟨hd_inv_of_equiv c _ hinv (heap_equiv_refl _) rfl rfl ?_ rfl, rfl⟩
  exact ws_valid_append _ _ _ hinv.2.1 trivial

theorem remove_from_workingset_loop_keeps (index : Nat) :
    ∀ (ws : List nghttp2_hd_ws_entry) (heap : List nghttp2_hd_entry),
    heap_equiv (remove_from_workingset_loop index ws heap).2.1 heap ∧
    (∀ cell ∈ (remove_from_workingset_loop index ws heap).1,
      cell ∈ ws ∨ cell = nghttp2_hd_ws_entry.none) := by
  intro ws
  induction ws with
  | nil => intro heap; exact ⟨heap_equiv_refl _, fun _ h => by simp [remove_from_workingset_loop] at h⟩
  | cons cell rest ih =>
    intro heap
    have hmem : ∀ (H : List nghttp2_hd_entry) (x : nghttp2_hd_ws_entry) (y : nghttp2_hd_ws_entry),
        (y = cell ∨ y = .none) →
        x ∈ y :: (remove_from_workingset_loop index rest H).1 →
        x ∈ cell :: rest ∨ x = nghttp2_hd_ws_entry.none := by
      intro H x y hy hx
      rcases List.mem_cons.mp hx with e | e
      · rcases hy with hy | hy
        · left; rw [e, hy]; exact List.mem_cons_self _ _
        · right; rw [e, hy]
      · rcases (ih H).2 x e with e1 | e1
        · exact Or.inl (List.mem_cons_of_mem _ e1)
        · exact Or.inr e1
    cases cell with
    | indexed ent i =>
      by_cases hi : i = index
      · subst hi
        simp only [remove_from_workingset_loop, if_true]
        exact ⟨heap_equiv_trans (ih _).1 (heap_equiv_ref_dec _ _),
          fun x hx => hmem _ x _ (Or.inr rfl) hx⟩
      · simp only [remove_from_workingset_loop, hi, if_false]
        exact ⟨(ih _).1, fun x hx => hmem _ x _ (Or.inl rfl) hx⟩
    | indname ent v =>
      simp only [remove_from_workingset_loop]
      exact ⟨(ih _).1, fun x hx => hmem _ x _ (Or.inl rfl) hx⟩
    | newname nv =>
      simp only [remove_from_workingset_loop]
      exact ⟨(ih _).1, fun x hx => hmem _ x _ (Or.inl rfl) hx⟩
    | none =>
      simp only [remove_from_workingset_loop]
      exact ⟨(ih _).1, fun x hx => hmem _ x _ (Or.inl rfl) hx⟩

theorem ws_valid_of_cells (heap : List nghttp2_hd_entry) (ws ws1 : List nghttp2_hd_ws_entry)
    (h : ws_valid heap ws)
    (hc : ∀ cell ∈ ws1, cell ∈ ws ∨ cell = nghttp2_hd_ws_entry.none) : ws_valid heap ws1 := by
  intro cell hm
  rcases hc cell hm with e | e
  · exact h cell e
  · subst e; trivial

theorem hd_keeps_remove (c : nghttp2_hd_context) (index : Nat) (hinv : hd_inv c) :
    hd_keeps c (remove_from_workingset_by_index c index).1 := by
  obtain ⟨h1, h2⟩ := remove_from_workingset_loop_keeps index c.ws c.heap
  unfold remove_from_workingset_by_index
  exact ⟨hd_inv_of_equiv c _ hinv h1 rfl rfl (ws_valid_of_cells _ _ _ hinv.2.1 h2) rfl, rfl⟩

theorem remove_keeps_table (c : nghttp2_hd_context) (index : Nat) :
    (remove_from_workingset_by_index c index).1.hd_table = c.hd_table := rfl

theorem hd_keeps_ref_inc (c : nghttp2_hd_context) (ent : Nat) (hinv : hd_inv c) :
    hd_keeps c { c with heap := ref_inc c.heap ent } :=
  ⟨hd_inv_of_equiv c _ hinv (heap_equiv_ref_inc _ _) rfl rfl hinv.2.1 rfl, rfl⟩

theorem hd_keeps_ref_dec (c : nghttp2_hd_context) (ent : Nat) (hinv : hd_inv c) :
    hd_keeps c { c with heap := ref_dec c.heap ent } :=
  ⟨hd_inv_of_equiv c _ hinv (heap_equiv_ref_dec _ _) rfl rfl hinv.2.1 rfl, rfl⟩

theorem table_getD_lt (c : nghttp2_hd_context) (hinv : hd_inv c) (i : Nat)
    (hi : i < c.hd_table.length) : c.hd_table.getD i 0 < c.heap.length :=
  (hinv.1.1 i hi).1

theorem int_index_lt (n : Nat) (index : Int) (h0 : 0 ≤ index) (h1 : index < 65536)
    (h : ¬ ((n : Int) ≤ to_size_t index)) : index.toNat < n := by
  unfold to_size_t at h
  have : index % 2 ^ 64 = index := Int.emod_eq_of_lt h0 (by omega)
  omega

/-- The integer that `decode_length` stores is -1 or below 65536. -/
theorem decode_length_lt (mem : Nat → Nat) (a last p : Nat)
    (hp : p = 5 ∨ p = 6 ∨ p = 7 ∨ p = 8) :
    (decode_length mem a last p).1 = -1 ∨ (decode_length mem a last p).1 < 65536 := by
  have hk : 2 ^ p - 1 < 256 := by rcases hp with rfl | rfl | rfl | rfl <;> norm_num
  unfold decode_length
  simp only [one_shl]
  split
  · left; rfl
  · split
    · exact decode_length_loop_bound mem _ _ _ _ (by omega)
    · right
      have : mem a &&& (2 ^ p - 1) ≤ 2 ^ p - 1 := Nat.and_le_right
      simp only
      omega

/-- An indexed block. -/
theorem inflate_indexed_keeps (mem : Nat → Nat) (last inp : Nat) (c : nghttp2_hd_context)
    (hinv : hd_inv c) : hd_keeps c (inflate_indexed mem last inp c).ctx := by
  unfold inflate_indexed
  have hb := decode_length_lt mem inp last 7 (by omega)
  generalize decode_length mem inp last 7 = d at hb
  obtain ⟨index, inp1⟩ := d
  simp only at hb ⊢
  split
  · exact ⟨hinv, rfl⟩
  rename_i hneg
  cases inp1 with
  | none => exact ⟨hinv, rfl⟩
  | some inp1 =>
    simp only
    have hk := hd_keeps_remove c index.toNat hinv
    generalize remove_from_workingset_by_index c index.toNat = r at hk
    obtain ⟨c1, removed⟩ := r
    simp only at hk ⊢
    split
    · split
      · exact hk
      · rename_i hlt
        split
        · exact hk
        · rename_i c2 ha
          refine hd_keeps_trans c c1 c2 hk
            (hd_keeps_add_workingset c1 c2 _ hk.1 (table_getD_lt c1 hk.1 _ ?_) ha)
          exact int_index_lt _ _ (by omega) (by omega) hlt
    · exact hk

/-- An insertion followed by the addition of the new entry to the working set. -/
theorem hd_keeps_incremental_add (c : nghttp2_hd_context) (nv : nghttp2_nv) (inp : Nat)
    (hinv : hd_inv c) :
    hd_keeps c (match add_hd_table_incremental c nv with
      | (c1, none) => inflate_step_result.fail .NGHTTP2_ERR_HEADER_COMP c1
      | (c1, some ent) =>
        match add_workingset c1 ent with
        | .error rv => .fail rv c1
        | .ok c2 => .next inp c2).ctx := by
  have hk := add_hd_table_incremental_inv c nv hinv
  generalize add_hd_table_incremental c nv = r at hk
  obtain ⟨c1, o⟩ := r
  obtain ⟨k1, k2, -, -, -, k6⟩ := hk
  cases o with
  | none => exact ⟨k1, k2⟩
  | some ent =>
    simp only
    split
    · exact ⟨k1, k2⟩
    · rename_i c2 ha
      exact hd_keeps_trans c c1 c2 ⟨k1, k2⟩
        (hd_keeps_add_workingset c1 c2 ent k1 (k6 ent rfl).2.1 ha)

/-- A literal block with a new name. -/
theorem inflate_newname_keeps (mem : Nat → Nat) (last inp : Nat) (c : nghttp2_hd_context)
    (first : Nat) (hinv : hd_inv c) :
    hd_keeps c (inflate_newname mem last inp c first).ctx := by
  unfold inflate_newname
  simp only
  split
  · exact ⟨hinv, rfl⟩
  generalize decode_length mem (inp + 1) last 8 = d1
  obtain ⟨namelen, inp1⟩ := d1
  simp only
  split
  · exact ⟨hinv, rfl⟩
  cases inp1 with
  | none => exact ⟨hinv, rfl⟩
  | some inp1 =>
    simp only
    split
    · exact ⟨hinv, rfl⟩
    generalize decode_length mem (inp1 + namelen.toNat) last 8 = d2
    obtain ⟨valuelen, inp3⟩ := d2
    simp only
    split
    · exact ⟨hinv, rfl⟩
    cases inp3 with
    | none => exact ⟨hinv, rfl⟩
    | some inp3 =>
      simp only
      split
      · exact ⟨hinv, rfl⟩
      split
      · split
        · exact ⟨hinv, rfl⟩
        · rename_i c1 ha
          exact hd_keeps_add_workingset_newname c c1 _ hinv ha
      · exact hd_keeps_incremental_add c _ _ hinv

/-- A literal block with an indexed name. -/
theorem inflate_indname_keeps (mem : Nat → Nat) (last inp : Nat) (c : nghttp2_hd_context)
    (first : Nat) (hinv : hd_inv c) :
    hd_keeps c (inflate_indname mem last inp c first).ctx := by
  unfold inflate_indname
  have hb := decode_length_lt mem inp last 5 (by omega)
  generalize decode_length mem inp last 5 = d1 at hb
  obtain ⟨index, inp1⟩ := d1
  simp only at hb ⊢
  split
  · exact ⟨hinv, rfl⟩
  cases inp1 with
  | none => exact ⟨hinv, rfl⟩
  | some inp1 =>
    simp only
    split
    · exact ⟨hinv, rfl⟩
    rename_i hneg hlt
    have hent : c.hd_table.getD (index - 1).toNat 0 < c.heap.length := by
      apply table_getD_lt c hinv
      have h0 : 0 ≤ index - 1 := by
        by_contra hc
        apply hlt
        have hi : index = 0 := by omega
        have h3 : to_size_t (0 - 1) = 2 ^ 64 - 1 := by decide
        rw [hi, h3]
        have h1 := hinv.1.2.2.1
        have h2 := hinv.1.2.2.2
        omega
      exact int_index_lt _ _ h0 (by omega) hlt
    generalize decode_length mem inp1 last 8 = d2
    obtain ⟨valuelen, inp2⟩ := d2
    simp only
    split
    · exact ⟨hinv, rfl⟩
    cases inp2 with
    | none => exact ⟨hinv, rfl⟩
    | some inp2 =>
      simp only
      split
      · exact ⟨hinv, rfl⟩
      split
      · split
        · exact ⟨hinv, rfl⟩
        · rename_i c1 ha
          exact hd_keeps_add_workingset_indname c c1 _ _ hinv hent ha
      · have h0 := hd_keeps_ref_inc c (c.hd_table.getD (index - 1).toNat 0) hinv
        have hk := add_hd_table_incremental_inv
          { c with heap := ref_inc c.heap (c.hd_table.getD (index - 1).toNat 0) }
          { name := (heap_get (ref_inc c.heap (c.hd_table.getD (index - 1).toNat 0))
              (c.hd_table.getD (index - 1).toNat 0)).nv.name
            value := mem_read mem inp2 valuelen.toNat } h0.1
        generalize add_hd_table_incremental
          { c with heap := ref_inc c.heap (c.hd_table.getD (index - 1).toNat 0) }
          { name := (heap_get (ref_inc c.heap (c.hd_table.getD (index - 1).toNat 0))
              (c.hd_table.getD (index - 1).toNat 0)).nv.name
            value := mem_read mem inp2 valuelen.toNat } = r at hk
        obtain ⟨c1, o⟩ := r
        obtain ⟨k1, k2, -, -, -, k6⟩ := hk
        have hd := hd_keeps_ref_dec c1 (c.hd_table.getD (index - 1).toNat 0) k1
        have hkd : hd_keeps c
            { c1 with heap := ref_dec c1.heap (c.hd_table.getD (index - 1).toNat 0) } :=
          ⟨hd.1, k2⟩
        cases o with
        | none => exact hkd
        | some ent =>
          simp only
          split
          · exact hkd
          · rename_i c2 ha
            exact hd_keeps_trans c _ c2 hkd
              (hd_keeps_add_workingset _ c2 ent hd.1 (by
                have := (k6 ent rfl).2.1
                simpa using this) ha)

end Nghttp2

namespace Nghttp2

theorem table_index_lt (c : nghttp2_hd_context) (hinv : hd_inv c) (index : Int)
    (h0 : ¬ index < 0) (hb : index = -1 ∨ index < 65536)
    (hlt : ¬ ((c.hd_table.length : Int) ≤ to_size_t (index - 1))) :
    (index - 1).toNat < c.hd_table.length := by
  have h1 : 0 ≤ index - 1 := by
    by_contra hc
    apply hlt
    have hi : index = 0 := by omega
    have h3 : to_size_t (0 - 1) = 2 ^ 64 - 1 := by decide
    rw [hi, h3]
    have h1 := hinv.1.2.2.1
    have h2 := hinv.1.2.2.2
    omega
  exact int_index_lt _ _ h1 (by omega) hlt

/-- A substitution followed by the addition of the new entry to the working set. -/
theorem hd_keeps_subst_add (c : nghttp2_hd_context) (nv : nghttp2_nv) (sub inp : Nat)
    (hinv : hd_inv c) :
    hd_keeps c (match add_hd_table_subst c nv sub with
      | (c1, none) => inflate_step_result.fail .NGHTTP2_ERR_HEADER_COMP c1
      | (c1, some ent) =>
        match add_workingset c1 ent with
        | .error rv => .fail rv c1
        | .ok c2 => .next inp c2).ctx := by
  have hk := add_hd_table_subst_inv c nv sub hinv
  generalize add_hd_table_subst c nv sub = r at hk
  obtain ⟨c1, o⟩ := r
  obtain ⟨k1, k2, -, -, -, k6⟩ := hk
  cases o with
  | none => exact ⟨k1, k2⟩
  | some ent =>
    simp only
    split
    · exact ⟨k1, k2⟩
    · rename_i c2 ha
      exact hd_keeps_trans c c1 c2 ⟨k1, k2⟩
        (hd_keeps_add_workingset c1 c2 ent k1 (k6 ent rfl).2.1 ha)

/-- A literal block with substitution indexing and a new name. -/
theorem inflate_subst_newname_keeps (mem : Nat → Nat) (last inp : Nat)
    (c : nghttp2_hd_context) (hinv : hd_inv c) :
    hd_keeps c (inflate_subst_newname mem last inp c).ctx := by
  unfold inflate_subst_newname
  simp only
  split
  · exact ⟨hinv, rfl⟩
  generalize decode_length mem (inp + 1) last 8 = d1
  obtain ⟨namelen, inp1⟩ := d1
  simp only
  split
  · exact ⟨hinv, rfl⟩
  cases inp1 with
  | none => exact ⟨hinv, rfl⟩
  | some inp1 =>
    simp only
    split
    · exact ⟨hinv, rfl⟩
    generalize decode_length mem (inp1 + namelen.toNat) last 8 = d2
    obtain ⟨subindex, inp3⟩ := d2
    simp only
    split
    · exact ⟨hinv, rfl⟩
    cases inp3 with
    | none => exact ⟨hinv, rfl⟩
    | some inp3 =>
      simp only
      generalize decode_length mem inp3 last 8 = d3
      obtain ⟨valuelen, inp4⟩ := d3
      simp only
      split
      · exact ⟨hinv, rfl⟩
      cases inp4 with
      | none => exact ⟨hinv, rfl⟩
      | some inp4 =>
        simp only
        split
        · exact ⟨hinv, rfl⟩
        · exact hd_keeps_subst_add c _ _ _ hinv

/-- A literal block with substitution indexing and an indexed name. -/
theorem inflate_subst_indname_keeps (mem : Nat → Nat) (last inp : Nat)
    (c : nghttp2_hd_context) (hinv : hd_inv c) :
    hd_keeps c (inflate_subst_indname mem last inp c).ctx := by
  unfold inflate_subst_indname
  have hb := decode_length_lt mem inp last 6 (by omega)
  generalize decode_length mem inp last 6 = d1 at hb
  obtain ⟨index, inp1⟩ := d1
  simp only at hb ⊢
  split
  · exact ⟨hinv, rfl⟩
  cases inp1 with
  | none => exact ⟨hinv, rfl⟩
  | some inp1 =>
    simp only
    split
    · exact ⟨hinv, rfl⟩
    rename_i hneg hlt
    have hent : c.hd_table.getD (index - 1).toNat 0 < c.heap.length :=
      table_getD_lt c hinv _ (table_index_lt c hinv index hneg hb hlt)
    generalize decode_length mem inp1 last 8 = d2
    obtain ⟨subindex, inp2⟩ := d2
    simp only
    split
    · exact ⟨hinv, rfl⟩
    cases inp2 with
    | none => exact ⟨hinv, rfl⟩
    | some inp2 =>
      simp only
      generalize decode_length mem inp2 last 8 = d3
      obtain ⟨valuelen, inp3⟩ := d3
      simp only
      split
      · exact ⟨hinv, rfl⟩
      cases inp3 with
      | none => exact ⟨hinv, rfl⟩
      | some inp3 =>
        simp only
        split
        · exact ⟨hinv, rfl⟩
        · have h0 := hd_keeps_ref_inc c (c.hd_table.getD (index - 1).toNat 0) hinv
          have hk := add_hd_table_subst_inv
            { c with heap := ref_inc c.heap (c.hd_table.getD (index - 1).toNat 0) }
            { name := (heap_get (ref_inc c.heap (c.hd_table.getD (index - 1).toNat 0))
                (c.hd_table.getD (index - 1).toNat 0)).nv.name
              value := mem_read mem inp3 valuelen.toNat } subindex.toNat h0.1
          generalize add_hd_table_subst
            { c with heap := ref_inc c.heap (c.hd_table.getD (index - 1).toNat 0) }
            { name := (heap_get (ref_inc c.heap (c.hd_table.getD (index - 1).toNat 0))
                (c.hd_table.getD (index - 1).toNat 0)).nv.name
              value := mem_read mem inp3 valuelen.toNat } subindex.toNat = r at hk
          obtain ⟨c1, o⟩ := r
          obtain ⟨k1, k2, -, -, -, k6⟩ := hk
          have hd := hd_keeps_ref_dec c1 (c.hd_table.getD (index - 1).toNat 0) k1
          have hkd : hd_keeps c
              { c1 with heap := ref_dec c1.heap (c.hd_table.getD (index - 1).toNat 0) } :=
            ⟨hd.1, k2⟩
          cases o with
          | none => exact hkd
          | some ent =>
            simp only
            split
            · exact hkd
            · rename_i c2 ha
              exact hd_keeps_trans c _ c2 hkd
                (hd_keeps_add_workingset _ c2 ent hd.1 (by
                  have := (k6 ent rfl).2.1
                  simpa using this) ha)

/-- One iteration of the loop of the inflater keeps what holds of the context. -/
theorem inflate_step_keeps (mem : Nat → Nat) (last inp : Nat) (c : nghttp2_hd_context)
    (hinv : hd_inv c) : hd_keeps c (inflate_step mem last inp c).ctx := by
  unfold inflate_step
  simp only
  split
  · exact inflate_indexed_keeps mem last inp c hinv
  split
  · exact inflate_newname_keeps mem last inp c _ hinv
  split
  · exact inflate_indname_keeps mem last inp c _ hinv
  split
  · exact inflate_subst_newname_keeps mem last inp c hinv
  · exact inflate_subst_indname_keeps mem last inp c hinv

theorem inflate_loop_keeps (mem : Nat → Nat) (last : Nat) :
    ∀ (fuel inp : Nat) (c : nghttp2_hd_context), hd_inv c →
      hd_keeps c (inflate_loop mem last fuel inp c).1 := by
  intro fuel
  induction fuel with
  | zero =>
    intro inp c hinv
    unfold inflate_loop
    split <;> exact ⟨hinv, rfl⟩
  | succ fuel ih =>
    intro inp c hinv
    unfold inflate_loop
    split
    · exact ⟨hinv, rfl⟩
    split
    · exact ⟨hinv, rfl⟩
    have hs := inflate_step_keeps mem last inp c hinv
    generalize inflate_step mem last inp c = r at hs
    cases r with
    | fail rv c1 => exact hs
    | next inp1 c1 => exact hd_keeps_trans c c1 _ hs (ih inp1 c1 hs.1)

theorem hd_inv_create_workingset (c : nghttp2_hd_context) (hinv : hd_inv c)
    (href : refset_inv c) : hd_inv (create_workingset c) ∧ (create_workingset c).refset = [] := by
  refine ⟨hd_inv_of_equiv c _ hinv (heap_equiv_refl _) rfl rfl ?_ rfl, rfl⟩
  intro cell hc
  simp only [create_workingset, List.mem_map] at hc
  obtain ⟨p, hp, rfl⟩ := hc
  exact (href.1 p hp).1

/-- The function `nghttp2_hd_inflate_hd` keeps what holds of a context between two
calls. -/
theorem inflate_hd_keeps (c : nghttp2_hd_context) (mem : Nat → Nat) (inp inlen : Nat)
    (hinv : hd_inv c) (href : refset_inv c) :
    hd_inv (nghttp2_hd_inflate_hd c mem inp inlen).1 ∧
      refset_inv (nghttp2_hd_inflate_hd c mem inp inlen).1 := by
  unfold nghttp2_hd_inflate_hd
  split
  · exact ⟨hinv, href⟩
  obtain ⟨h1, h2⟩ := hd_inv_create_workingset c hinv href
  have hk := inflate_loop_keeps mem (inp + inlen) inlen inp (create_workingset c) h1
  simp only
  generalize inflate_loop mem (inp + inlen) inlen inp (create_workingset c) = r at hk
  obtain ⟨c1, rv⟩ := r
  cases rv with
  | error e => exact ⟨hk.1, (refset_inv_of_nil _ (hk.2.trans h2)).1⟩
  | ok u => exact ⟨hk.1, (refset_inv_of_nil _ (hk.2.trans h2)).1⟩

end Nghttp2

namespace Nghttp2

/-! ### The deflater -/

theorem deflate_toggle_loop_keeps (nva : List nghttp2_nv) :
    ∀ (rest : List nghttp2_hd_ws_entry) (heap : List nghttp2_hd_entry) (buf : List Nat)
      (off : Nat),
    heap_equiv (deflate_toggle_loop nva rest heap buf off).2.1 heap ∧
    (∀ cell ∈ (deflate_toggle_loop nva rest heap buf off).1,
      cell ∈ rest ∨ cell = nghttp2_hd_ws_entry.none) := by
  intro rest
  induction rest with
  | nil =>
    intro heap buf off
    exact ⟨heap_equiv_refl _, fun _ h => by simp [deflate_toggle_loop] at h⟩
  | cons cell rest ih =>
    intro heap buf off
    have hmem : ∀ (H : List nghttp2_hd_entry) (b : List Nat) (o : Nat)
        (x y : nghttp2_hd_ws_entry), (y = cell ∨ y = .none) →
        x ∈ y :: (deflate_toggle_loop nva rest H b o).1 →
        x ∈ cell :: rest ∨ x = nghttp2_hd_ws_entry.none := by
      intro H b o x y hy hx
      rcases List.mem_cons.mp hx with e | e
      · rcases hy with hy | hy
        · left; rw [e, hy]; exact List.mem_cons_self _ _
        · right; rw [e, hy]
      · rcases (ih H b o).2 x e with e1 | e1
        · exact Or.inl (List.mem_cons_of_mem _ e1)
        · exact Or.inr e1
    cases cell with
    | indexed ent index =>
      unfold deflate_toggle_loop
      split
      · exact ⟨(ih _ _ _).1, fun x hx => hmem _ _ _ x _ (Or.inl rfl) hx⟩
      · split
        · exact ⟨heap_equiv_refl _, fun x hx => Or.inl hx⟩
        · exact ⟨heap_equiv_trans (ih _ _ _).1 (heap_equiv_ref_dec _ _),
            fun x hx => hmem _ _ _ x _ (Or.inr rfl) hx⟩
    | indname ent v =>
      simp only [deflate_toggle_loop]
      exact ⟨heap_equiv_refl _, fun x hx => Or.inl hx⟩
    | newname nv =>
      simp only [deflate_toggle_loop]
      exact ⟨heap_equiv_refl _, fun x hx => Or.inl hx⟩
    | none =>
      simp only [deflate_toggle_loop]
      exact ⟨heap_equiv_refl _, fun x hx => Or.inl hx⟩

theorem deflate_incremental_add_keeps (c : nghttp2_hd_context) (nv : nghttp2_nv)
    (buf : List Nat) (off : Nat)
    (em : Except nghttp2_error (List Nat × Nat)) (hinv : hd_inv c) :
    hd_keeps c (match add_hd_table_incremental c nv with
      | (c1, none) => (c1, buf, off, Except.error nghttp2_error.NGHTTP2_ERR_HEADER_COMP)
      | (c1, some new_ent) =>
        match add_workingset c1 new_ent with
        | .error rv => (c1, buf, off, .error rv)
        | .ok c2 =>
          match em with
          | .error rv => (c2, buf, off, .error rv)
          | .ok (buf, offset) => (c2, buf, offset, .ok ())).1 := by
  have hk := add_hd_table_incremental_inv c nv hinv
  generalize add_hd_table_incremental c nv = r at hk
  obtain ⟨c1, o⟩ := r
  obtain ⟨k1, k2, -, -, -, k6⟩ := hk
  cases o with
  | none => exact ⟨k1, k2⟩
  | some ent =>
    simp only
    split
    · exact ⟨k1, k2⟩
    · rename_i c2 ha
      have := hd_keeps_trans c c1 c2 ⟨k1, k2⟩
        (hd_keeps_add_workingset c1 c2 ent k1 (k6 ent rfl).2.1 ha)
      split <;> exact this

theorem deflate_nv_literal_keeps (c : nghttp2_hd_context) (buf : List Nat) (off : Nat)
    (nv : nghttp2_nv) (hinv : hd_inv c) : hd_keeps c (deflate_nv_literal c buf off nv).1 := by
  unfold deflate_nv_literal
  split
  · rename_i ent hf
    have hent : ent < c.heap.length :=
      table_mem_lt c hinv.1 ent (find_name_in_hd_table_some c nv ent hf).1
    simp only
    split
    · exact deflate_incremental_add_keeps c nv buf off _ hinv
    · split
      · exact ⟨hinv, rfl⟩
      · rename_i c1 ha
        have := hd_keeps_add_workingset_indname c c1 ent nv.value hinv hent ha
        split <;> exact this
  · split
    · exact deflate_incremental_add_keeps c nv buf off _ hinv
    · split
      · exact ⟨hinv, rfl⟩
      · rename_i c1 ha
        have := hd_keeps_add_workingset_newname c c1 nv hinv ha
        split <;> exact this

theorem deflate_nv_keeps (c : nghttp2_hd_context) (buf : List Nat) (off : Nat)
    (nv : nghttp2_nv) (hinv : hd_inv c) : hd_keeps c (deflate_nv c buf off nv).1 := by
  unfold deflate_nv
  split
  · exact ⟨hinv, rfl⟩
  split
  · rename_i ent hf
    have hent : ent < c.heap.length :=
      table_mem_lt c hinv.1 ent (find_in_hd_table_some c nv ent hf).1
    split
    · split
      · exact ⟨hinv, rfl⟩
      · rename_i c1 ha
        have := hd_keeps_add_workingset c c1 ent hinv hent ha
        split <;> exact this
    · exact deflate_nv_literal_keeps c buf off nv hinv
  · exact deflate_nv_literal_keeps c buf off nv hinv

theorem deflate_nv_loop_keeps : ∀ (nva : List nghttp2_nv) (c : nghttp2_hd_context)
    (buf : List Nat) (off : Nat), hd_inv c → hd_keeps c (deflate_nv_loop nva c buf off).1 := by
  intro nva
  induction nva with
  | nil => intro c buf off hinv; exact ⟨hinv, rfl⟩
  | cons nv rest ih =>
    intro c buf off hinv
    unfold deflate_nv_loop
    have hk := deflate_nv_keeps c buf off nv hinv
    generalize deflate_nv c buf off nv = r at hk
    obtain ⟨c1, b1, o1, rv⟩ := r
    cases rv with
    | error e => exact hk
    | ok u => exact hd_keeps_trans c c1 _ hk (ih c1 b1 o1 hk.1)

/-- The function `nghttp2_hd_deflate_hd` keeps what holds of a context between two
calls. -/
theorem deflate_hd_keeps (c : nghttp2_hd_context) (buf : List Nat) (off : Nat)
    (nva : List nghttp2_nv) (hinv : hd_inv c) (href : refset_inv c) :
    hd_inv (nghttp2_hd_deflate_hd c buf off nva).1 ∧
      refset_inv (nghttp2_hd_deflate_hd c buf off nva).1 := by
  unfold nghttp2_hd_deflate_hd
  split
  · exact ⟨hinv, href⟩
  obtain ⟨h1, h2⟩ := hd_inv_create_workingset c hinv href
  obtain ⟨t1, t2⟩ := deflate_toggle_loop_keeps nva (create_workingset c).ws
    (create_workingset c).heap buf off
  simp only
  generalize deflate_toggle_loop nva (create_workingset c).ws (create_workingset c).heap buf off =
    r at t1 t2
  obtain ⟨ws, heap, b1, o1, rv⟩ := r
  simp only at t1 t2
  have h3 : hd_inv { create_workingset c with ws := ws, heap := heap } :=
    hd_inv_of_equiv (create_workingset c) _ h1 t1 rfl rfl
      (ws_valid_of_cells _ _ _ h1.2.1 t2) rfl
  cases rv with
  | error e => exact ⟨h3, (refset_inv_of_nil _ rfl).1⟩
  | ok u =>
    simp only
    have hk := deflate_nv_loop_keeps nva { create_workingset c with ws := ws, heap := heap }
      b1 o1 h3
    generalize deflate_nv_loop nva { create_workingset c with ws := ws, heap := heap } b1 o1 =
      r2 at hk
    obtain ⟨c2, b2, o2, rv2⟩ := r2
    cases rv2 with
    | error e => exact ⟨hk.1, (refset_inv_of_nil _ hk.2).1⟩
    | ok u => exact ⟨hk.1, (refset_inv_of_nil _ hk.2).1⟩

/-! ### The end of a block -/

/-- The function `nghttp2_hd_end_headers` keeps what holds of a context and leaves
a consistent reference set. -/
theorem end_headers_keeps (c c1 : nghttp2_hd_context) (hinv : hd_inv c)
    (h : nghttp2_hd_end_headers c = .ok c1) : hd_inv c1 ∧ refset_inv c1 := by
  unfold nghttp2_hd_end_headers at h
  split at h
  · simp at h
  rename_i hr
  have hr0 : c.refset = [] := by
    cases hrs : c.refset with
    | nil => rfl
    | cons a l => rw [hrs] at hr; simp at hr
  simp only [Except.ok.injEq] at h
  have hv := hinv.2.1
  have hsp := end_headers_loop_spec (fun p => (heap_get c.heap p).index)
    (fun p => (heap_get c.heap p).nv) c.ws (List.replicate 128 0) c.heap [] (fun _ => ⟨rfl, rfl⟩)
    (by simp) (by simp) (by simp)
    (by
      intro ent i hm hne
      have hlt : ent < c.heap.length := hv _ hm
      have := (hinv.1.2.1 ent hlt hne).1
      have h1 := hinv.1.2.2.1
      have h2 := hinv.1.2.2.2
      show (heap_get c.heap ent).index < 128
      omega)
  obtain ⟨r1, r2, sub, r3, r4, r5⟩ := hsp
  rw [hr0] at h
  generalize hq : end_headers_loop c.ws (List.replicate 128 0) c.heap [] = q at r1 r2 r3 h
  obtain ⟨q1, q2⟩ := q
  simp only [List.nil_append] at r1 r2 r3 h
  subst r3
  subst h
  refine ⟨hd_inv_of_equiv c _ hinv r1 rfl rfl (fun _ hc => by simp at hc) rfl, ?_, ?_⟩
  · intro p hp
    obtain ⟨a, i, b⟩ := r4 p hp
    refine ⟨?_, ?_⟩
    · show p < q1.length
      rw [r1.1]; exact hv _ b
    · show (heap_get q1 p).index ≠ NGHTTP2_HD_INVALID_INDEX
      rw [(r1.2 p).1]; exact a
  · show (List.map (fun p => (heap_get q1 p).index) q2).Nodup
    have : List.map (fun p => (heap_get q1 p).index) q2 =
        List.map (fun p => (heap_get c.heap p).index) q2 := by
      apply List.map_congr_left
      intro p _
      exact (r1.2 p).1
    rw [this]
    exact r2

/-! ### Runs of calls -/

theorem fresh_hd_inv (side : nghttp2_hd_side) :
    hd_inv (nghttp2_hd_context_init side) ∧ refset_inv (nghttp2_hd_context_init side) := by
  refine ⟨⟨fresh_table_inv side, ?_, ?_, ?_⟩, (refset_inv_of_nil _ (fresh_refset side)).1⟩
  · intro cell hc
    have : (nghttp2_hd_context_init side).ws = [] := by cases side <;> decide
    rw [this] at hc
    simp at hc
  · cases side <;> decide
  · cases side <;> decide

theorem hd_call_apply_keeps (c c1 : nghttp2_hd_context) (call : hd_call) (hinv : hd_inv c)
    (href : refset_inv c) (h : hd_call_apply c call = some c1) : hd_inv c1 ∧ refset_inv c1 := by
  cases call with
  | deflate_hd buf off nva =>
    have hk := deflate_hd_keeps c buf off nva hinv href
    simp only [hd_call_apply] at h
    generalize nghttp2_hd_deflate_hd c buf off nva = r at hk h
    obtain ⟨c2, b, rv⟩ := r
    split at h
    · simp at h
    · rename_i heq
      simp only [Option.some.injEq] at h
      simp only [Prod.mk.injEq] at heq
      rw [← h, ← heq.1]
      exact hk
  | inflate_hd mem inp inlen =>
    have hk := inflate_hd_keeps c mem inp inlen hinv href
    simp only [hd_call_apply] at h
    generalize nghttp2_hd_inflate_hd c mem inp inlen = r at hk h
    obtain ⟨c2, rv⟩ := r
    split at h
    · simp at h
    · rename_i heq
      simp only [Option.some.injEq] at h
      simp only [Prod.mk.injEq] at heq
      rw [← h, ← heq.1]
      exact hk
  | end_headers =>
    simp only [hd_call_apply] at h
    split at h
    · simp at h
    · rename_i c2 heq
      simp only [Option.some.injEq] at h
      subst h
      exact end_headers_keeps c c2 hinv heq

/-- Every state reached by a run of calls from a state of which the invariants
hold. -/
theorem hd_calls_run_keeps : ∀ (calls : List hd_call) (c c1 : nghttp2_hd_context),
    hd_inv c → refset_inv c → hd_calls_run c calls = some c1 → hd_inv c1 ∧ refset_inv c1 := by
  intro calls
  induction calls with
  | nil =>
    intro c c1 hinv href h
    simp only [hd_calls_run, Option.some.injEq] at h
    subst h
    exact ⟨hinv, href⟩
  | cons call rest ih =>
    intro c c1 hinv href h
    unfold hd_calls_run at h
    split at h
    · simp at h
    · rename_i c2 heq
      obtain ⟨a, b⟩ := hd_call_apply_keeps c c2 call hinv href heq
      exact ih c2 c1 a b h

end Nghttp2

namespace Nghttp2

/-! ### The invariants of the header table -/

theorem option_some_of_isSome {α : Type} (o : Option α) (d : α) (h : o.isSome = true) :
    o = some (o.getD d) := by
  cases o with
  | none => simp at h
  | some x => rfl

/-- C26: in every state reached from a freshly initialised context (either seed
table) by calls of `nghttp2_hd_deflate_hd`, `nghttp2_hd_inflate_hd` and
`nghttp2_hd_end_headers`, `hd_table_bufsize` is the sum over the entries of the
header table of `entry_room`, which is 32 + name length + value length. -/
theorem bufsize_is_sum_of_rooms (side : nghttp2_hd_side) (calls : List hd_call)
    (c : nghttp2_hd_context)
    (h : hd_calls_run (nghttp2_hd_context_init side) calls = some c) :
    c.hd_table_bufsize =
      (c.hd_table.map fun p =>
        entry_room (heap_get c.heap p).nv.name.length (heap_get c.heap p).nv.value.length).sum ∧
    ∀ namelen valuelen, entry_room namelen valuelen = 32 + namelen + valuelen := by
  obtain ⟨a, b⟩ := fresh_hd_inv side
  exact ⟨(hd_calls_run_keeps calls _ c a b h).1.2.2.1, fun _ _ => rfl⟩

set_option maxRecDepth 20000 in
/-- An instance of `bufsize_is_sum_of_rooms`: a context seeded with the request
table takes a block with an indexed header and a literal with substitution
indexing, then, as a deflater, the headers `x-custom: v` and `:path: /index`; the
size goes from 1592 to 1676. -/
theorem bufsize_is_sum_of_rooms_witness :
    ((hd_calls_run (nghttp2_hd_context_init .NGHTTP2_HD_SIDE_CLIENT)
      [.inflate_hd (memOf [0x83, 0x04, 0x03, 0x01, 0x78]) 0 5, .end_headers,
        .deflate_hd [] 0 [{ name := cstr "x-custom", value := cstr "v" },
          { name := cstr ":path", value := cstr "/index" }], .end_headers]).getD
      (nghttp2_hd_context_init .NGHTTP2_HD_SIDE_CLIENT)).hd_table_bufsize = 1676 ∧
    ((hd_calls_run (nghttp2_hd_context_init .NGHTTP2_HD_SIDE_CLIENT)
      [.inflate_hd (memOf [0x83, 0x04, 0x03, 0x01, 0x78]) 0 5, .end_headers,
        .deflate_hd [] 0 [{ name := cstr "x-custom", value := cstr "v" },
          { name := cstr ":path", value := cstr "/index" }], .end_headers]).getD
      (nghttp2_hd_context_init .NGHTTP2_HD_SIDE_CLIENT)).hd_table.length = 40 :=
  have h := bufsize_is_sum_of_rooms .NGHTTP2_HD_SIDE_CLIENT
    [.inflate_hd (memOf [0x83, 0x04, 0x03, 0x01, 0x78]) 0 5, .end_headers,
      .deflate_hd [] 0 [{ name := cstr "x-custom", value := cstr "v" },
        { name := cstr ":path", value := cstr "/index" }], .end_headers]
    ((hd_calls_run (nghttp2_hd_context_init .NGHTTP2_HD_SIDE_CLIENT)
      [.inflate_hd (memOf [0x83, 0x04, 0x03, 0x01, 0x78]) 0 5, .end_headers,
        .deflate_hd [] 0 [{ name := cstr "x-custom", value := cstr "v" },
          { name := cstr ":path", value := cstr "/index" }], .end_headers]).getD
      (nghttp2_hd_context_init .NGHTTP2_HD_SIDE_CLIENT))
    (option_some_of_isSome _ _ (by decide))
  ⟨h.1.trans (by decide), by decide⟩

/-- C27: in every state reached from a freshly initialised context (either seed
table) by calls of `nghttp2_hd_deflate_hd`, `nghttp2_hd_inflate_hd` and
`nghttp2_hd_end_headers`, `hd_table_bufsize` is at most
`NGHTTP2_HD_MAX_BUFFER_SIZE`, 4096.  Both insertions evict the oldest entries
until this holds: `add_hd_table_incremental` leaves the table without its first
`k` entries and with the new entry at the end, `add_hd_table_subst` leaves it
without its first `k` entries and with the new entry in the place of the one at
`subindex` (at position 0 when that one is among the `k`), the size is then at
most 4096, and with fewer than `k` entries evicted the size is above 4096. -/
theorem bufsize_bounded :
    (∀ (side : nghttp2_hd_side) (calls : List hd_call) (c : nghttp2_hd_context),
      hd_calls_run (nghttp2_hd_context_init side) calls = some c →
      c.hd_table_bufsize ≤ NGHTTP2_HD_MAX_BUFFER_SIZE) ∧
    NGHTTP2_HD_MAX_BUFFER_SIZE = 4096 ∧
    (∀ (c : nghttp2_hd_context) (nv : nghttp2_nv) (c1 : nghttp2_hd_context) (new : Nat),
      hd_inv c → add_hd_table_incremental c nv = (c1, some new) →
      ∃ k, k ≤ c.hd_table.length ∧ c1.hd_table = c.hd_table.drop k ++ [new] ∧
        c1.hd_table_bufsize = table_room c1 ∧
        c1.hd_table_bufsize ≤ NGHTTP2_HD_MAX_BUFFER_SIZE ∧
        ∀ m, m < k → entry_room nv.name.length nv.value.length +
          ((c.hd_table.drop m).map (heap_room c.heap)).sum > NGHTTP2_HD_MAX_BUFFER_SIZE) ∧
    (∀ (c : nghttp2_hd_context) (nv : nghttp2_nv) (subindex : Nat) (c1 : nghttp2_hd_context)
      (new : Nat),
      hd_inv c → add_hd_table_subst c nv subindex = (c1, some new) →
      ∃ k, k ≤ c.hd_table.length ∧
        (k ≤ subindex → c1.hd_table = (c.hd_table.drop k).set (subindex - k) new) ∧
        (subindex < k → c1.hd_table = new :: c.hd_table.drop k) ∧
        c1.hd_table_bufsize = table_room c1 ∧
        c1.hd_table_bufsize ≤ NGHTTP2_HD_MAX_BUFFER_SIZE ∧
        ∀ m, m < k → entry_room nv.name.length nv.value.length +
            ((c.hd_table.drop m).map (heap_room c.heap)).sum >
          NGHTTP2_HD_MAX_BUFFER_SIZE +
            (if m ≤ subindex then heap_room c.heap (c.hd_table.getD subindex 0) else 0)) := by
  refine ⟨?_, rfl, ?_, ?_⟩
  · intro side calls c h
    obtain ⟨a, b⟩ := fresh_hd_inv side
    exact (hd_calls_run_keeps calls _ c a b h).1.2.2.2
  · intro c nv c1 new hinv h
    obtain ⟨k1, -, -, -, -, k6⟩ := add_hd_table_incremental_inv c nv hinv
    rw [h] at k1 k6
    obtain ⟨-, -, -, -, k, hk, ht, hm⟩ := k6 new rfl
    exact ⟨k, hk, ht, k1.2.2.1, k1.2.2.2, hm⟩
  · intro c nv sub c1 new hinv h
    obtain ⟨k1, -, -, -, -, k6⟩ := add_hd_table_subst_inv c nv sub hinv
    rw [h] at k1 k6
    obtain ⟨-, -, -, -, k, hk, ha, hb, hm⟩ := k6 new rfl
    exact ⟨k, hk, fun h1 => (ha h1).1, fun h1 => (hb h1).1, k1.2.2.1, k1.2.2.2, hm⟩

set_option maxRecDepth 20000 in
/-- An instance of `bufsize_bounded`: the run of the instance of
`bufsize_is_sum_of_rooms` ends with the size 1676, at most 4096. -/
theorem bufsize_bounded_witness :
    ((hd_calls_run (nghttp2_hd_context_init .NGHTTP2_HD_SIDE_CLIENT)
      [.inflate_hd (memOf [0x83, 0x04, 0x03, 0x01, 0x78]) 0 5, .end_headers,
        .deflate_hd [] 0 [{ name := cstr "x-custom", value := cstr "v" },
          { name := cstr ":path", value := cstr "/index" }], .end_headers]).getD
      (nghttp2_hd_context_init .NGHTTP2_HD_SIDE_CLIENT)).hd_table_bufsize ≤
      NGHTTP2_HD_MAX_BUFFER_SIZE :=
  bufsize_bounded.1 .NGHTTP2_HD_SIDE_CLIENT
    [.inflate_hd (memOf [0x83, 0x04, 0x03, 0x01, 0x78]) 0 5, .end_headers,
      .deflate_hd [] 0 [{ name := cstr "x-custom", value := cstr "v" },
        { name := cstr ":path", value := cstr "/index" }], .end_headers]
    _ (option_some_of_isSome _ _ (by decide))

/-- C28: in every state reached from a freshly initialised context by calls of
`nghttp2_hd_deflate_hd`, `nghttp2_hd_inflate_hd` and `nghttp2_hd_end_headers`, the
entry at position `i` of the header table has index `i`; every entry held by the
table, by the reference set or by a cell of the working set whose index is not
INVALID has an index below the length of the table and is the entry of the table
at that index; and every entry of the arena that is no longer in the table (it
has been evicted or replaced) has the index INVALID. -/
theorem entries_index_consistent (side : nghttp2_hd_side) (calls : List hd_call)
    (c : nghttp2_hd_context)
    (h : hd_calls_run (nghttp2_hd_context_init side) calls = some c) :
    (∀ i, i < c.hd_table.length → (heap_get c.heap (c.hd_table.getD i 0)).index = i) ∧
    (∀ p, entry_held c p → (heap_get c.heap p).index ≠ NGHTTP2_HD_INVALID_INDEX →
      (heap_get c.heap p).index < c.hd_table.length ∧
        c.hd_table.getD (heap_get c.heap p).index 0 = p) ∧
    (∀ p, p < c.heap.length → p ∉ c.hd_table →
      (heap_get c.heap p).index = NGHTTP2_HD_INVALID_INDEX) := by
  obtain ⟨a, b⟩ := fresh_hd_inv side
  obtain ⟨⟨i1, i2, -, -⟩, r1, -⟩ := hd_calls_run_keeps calls _ c a b h
  refine ⟨fun i hi => (i1.1 i hi).2, fun p hp hne => ?_,
    fun p hp hn => table_inv_not_mem c i1 p hp hn⟩
  have hlt : p < c.heap.length := by
    rcases hp with hp | hp | ⟨i, hp⟩ | ⟨v, hp⟩
    · exact table_mem_lt c i1 p hp
    · exact (r1 p hp).1
    · exact i2 _ hp
    · exact i2 _ hp
  exact i1.2.1 p hlt hne

set_option maxRecDepth 20000 in
/-- An instance of `entries_index_consistent`: after the block `83 04 03 01 78`
(an indexed header, then a literal that replaces the entry 3) and, as a deflater,
the headers `x-custom: v` and `:path: /index`, the entry 3 of the arena, which was
replaced, has the index INVALID and the entry that replaced it has the index 3. -/
theorem entries_index_consistent_witness :
    (heap_get ((hd_calls_run (nghttp2_hd_context_init .NGHTTP2_HD_SIDE_CLIENT)
      [.inflate_hd (memOf [0x83, 0x04, 0x03, 0x01, 0x78]) 0 5, .end_headers,
        .deflate_hd [] 0 [{ name := cstr "x-custom", value := cstr "v" },
          { name := cstr ":path", value := cstr "/index" }]]).getD
      (nghttp2_hd_context_init .NGHTTP2_HD_SIDE_CLIENT)).heap 3).index =
      NGHTTP2_HD_INVALID_INDEX ∧
    (heap_get ((hd_calls_run (nghttp2_hd_context_init .NGHTTP2_HD_SIDE_CLIENT)
      [.inflate_hd (memOf [0x83, 0x04, 0x03, 0x01, 0x78]) 0 5, .end_headers,
        .deflate_hd [] 0 [{ name := cstr "x-custom", value := cstr "v" },
          { name := cstr ":path", value := cstr "/index" }]]).getD
      (nghttp2_hd_context_init .NGHTTP2_HD_SIDE_CLIENT)).heap 38).index = 3 :=
  have h := entries_index_consistent .NGHTTP2_HD_SIDE_CLIENT
    [.inflate_hd (memOf [0x83, 0x04, 0x03, 0x01, 0x78]) 0 5, .end_headers,
      .deflate_hd [] 0 [{ name := cstr "x-custom", value := cstr "v" },
        { name := cstr ":path", value := cstr "/index" }]]
    ((hd_calls_run (nghttp2_hd_context_init .NGHTTP2_HD_SIDE_CLIENT)
      [.inflate_hd (memOf [0x83, 0x04, 0x03, 0x01, 0x78]) 0 5, .end_headers,
        .deflate_hd [] 0 [{ name := cstr "x-custom", value := cstr "v" },
          { name := cstr ":path", value := cstr "/index" }]]).getD
      (nghttp2_hd_context_init .NGHTTP2_HD_SIDE_CLIENT))
    (option_some_of_isSome _ _ (by decide))
  ⟨h.2.2 3 (by decide) (by decide), (h.1 3 (by decide)).symm ▸ by decide⟩

end Nghttp2

namespace Nghttp2

/-! ### The reference set that the end of a block leaves -/

/-- The loop of `nghttp2_hd_end_headers`: every INDEXED cell whose entry has a
valid index is represented in the reference set, and what is added to the
reference set is taken from these cells, in their order. -/
theorem end_headers_loop_exact (idx : Nat → Nat) :
    ∀ (ws : List nghttp2_hd_ws_entry) (checks : List Nat) (heap : List nghttp2_hd_entry)
      (refset : List Nat),
    (∀ p, (heap_get heap p).index = idx p) →
    checks.length = 128 →
    (∀ i, i < 128 → (checks.getD i 0 ≠ 0 ↔ i ∈ refset.map idx)) →
    (∀ ent i, nghttp2_hd_ws_entry.indexed ent i ∈ ws →
      idx ent ≠ NGHTTP2_HD_INVALID_INDEX → idx ent < 128) →
    ∃ sub, (end_headers_loop ws checks heap refset).2 = refset ++ sub ∧
      List.Sublist sub (ws.filterMap fun cell => match cell with
        | .indexed ent _ => if idx ent ≠ NGHTTP2_HD_INVALID_INDEX then some ent else none
        | _ => none) ∧
      ∀ ent i, nghttp2_hd_ws_entry.indexed ent i ∈ ws →
        idx ent ≠ NGHTTP2_HD_INVALID_INDEX → idx ent ∈ (refset ++ sub).map idx := by
  intro ws
  induction ws with
  | nil =>
    intro checks heap refset _ _ _ _
    exact ⟨[], by simp [end_headers_loop], by simp, fun ent i h => by simp at h⟩
  | cons cell rest ih =>
    intro checks heap refset hh hlen hmark hidx
    have hidx1 : ∀ ent i, nghttp2_hd_ws_entry.indexed ent i ∈ rest →
        idx ent ≠ NGHTTP2_HD_INVALID_INDEX → idx ent < 128 :=
      fun ent i hm => hidx ent i (List.mem_cons_of_mem _ hm)
    have hdec : ∀ e p, (heap_get (ref_dec heap e) p).index = idx p := by
      intro e p; simp [hh p]
    cases cell with
    | indexed ent i0 =>
      by_cases hc : idx ent ≠ NGHTTP2_HD_INVALID_INDEX ∧ checks.getD (idx ent) 0 = 0
      · have hlt : idx ent < 128 := hidx ent i0 (List.mem_cons_self _ _) hc.1
        have hstep : end_headers_loop (.indexed ent i0 :: rest) checks heap refset =
            end_headers_loop rest (checks.set (idx ent) 1) heap (refset ++ [ent]) := by
          simp only [end_headers_loop, hh ent, hc, ne_eq, not_false_eq_true, and_self,
            if_true]
        rw [hstep]
        obtain ⟨sub, r1, r2, r3⟩ := ih (checks.set (idx ent) 1) heap (refset ++ [ent]) hh
          (by simp [hlen])
          (by
            intro j hj
            rw [checks_getD_set, List.map_append, List.mem_append, List.map_singleton,
              List.mem_singleton]
            by_cases hje : idx ent = j
            · rw [if_pos ⟨hje, by omega⟩]
              exact ⟨fun _ => Or.inr hje.symm, fun _ => one_ne_zero⟩
            · rw [if_neg (fun h => hje h.1), hmark j hj]
              exact ⟨Or.inl, fun h => h.resolve_right (fun e => hje e.symm)⟩)
          hidx1
        refine ⟨ent :: sub, by rw [r1]; simp, ?_, ?_⟩
        · simp only [List.filterMap_cons, hc.1, ne_eq, not_false_eq_true, if_true]
          exact List.Sublist.cons₂ _ r2
        · intro e i hm hne
          have hsame : refset ++ ent :: sub = (refset ++ [ent]) ++ sub := by simp
          rw [hsame]
          rcases List.mem_cons.mp hm with h | h
          · simp only [nghttp2_hd_ws_entry.indexed.injEq] at h
            rw [h.1]
            simp
          · exact r3 e i h hne
      · have hstep : end_headers_loop (.indexed ent i0 :: rest) checks heap refset =
            end_headers_loop rest checks (ref_dec heap ent) refset := by
          simp only [end_headers_loop, hh ent, hc, if_false]
        rw [hstep]
        obtain ⟨sub, r1, r2, r3⟩ := ih checks (ref_dec heap ent) refset (hdec ent) hlen hmark
          hidx1
        refine ⟨sub, r1, ?_, ?_⟩
        · simp only [List.filterMap_cons]
          split
          · exact r2
          · exact List.Sublist.cons _ r2
        · intro e i hm hne
          rcases List.mem_cons.mp hm with h | h
          · simp only [nghttp2_hd_ws_entry.indexed.injEq] at h
            rw [h.1]
            rw [h.1] at hne
            have hlt : idx ent < 128 := hidx ent i0 (List.mem_cons_self _ _) hne
            have hne0 : checks.getD (idx ent) 0 ≠ 0 := fun h0 => hc ⟨hne, h0⟩
            have := (hmark (idx ent) hlt).mp hne0
            rw [List.map_append, List.mem_append]
            exact Or.inl this
          · exact r3 e i h hne
    | indname ent v =>
      have hstep : end_headers_loop (.indname ent v :: rest) checks heap refset =
          end_headers_loop rest checks (ref_dec heap ent) refset := by
        simp only [end_headers_loop]
      rw [hstep]
      obtain ⟨sub, r1, r2, r3⟩ := ih checks (ref_dec heap ent) refset (hdec ent) hlen hmark
        hidx1
      refine ⟨sub, r1, by simpa only [List.filterMap_cons] using r2, ?_⟩
      intro e i hm hne
      rcases List.mem_cons.mp hm with h | h
      · simp at h
      · exact r3 e i h hne
    | newname nv =>
      have hstep : end_headers_loop (.newname nv :: rest) checks heap refset =
          end_headers_loop rest checks heap refset := by
        simp only [end_headers_loop]
      rw [hstep]
      obtain ⟨sub, r1, r2, r3⟩ := ih checks heap refset hh hlen hmark hidx1
      refine ⟨sub, r1, by simpa only [List.filterMap_cons] using r2, ?_⟩
      intro e i hm hne
      rcases List.mem_cons.mp hm with h | h
      · simp at h
      · exact r3 e i h hne
    | none =>
      have hstep : end_headers_loop (.none :: rest) checks heap refset =
          end_headers_loop rest checks heap refset := by
        simp only [end_headers_loop]
      rw [hstep]
      obtain ⟨sub, r1, r2, r3⟩ := ih checks heap refset hh hlen hmark hidx1
      refine ⟨sub, r1, by simpa only [List.filterMap_cons] using r2, ?_⟩
      intro e i hm hne
      rcases List.mem_cons.mp hm with h | h
      · simp at h
      · exact r3 e i h hne

theorem mem_ws_live_entries (heap : List nghttp2_hd_entry) (ws : List nghttp2_hd_ws_entry)
    (p : Nat) : p ∈ ws_live_entries heap ws ↔
      (∃ i, nghttp2_hd_ws_entry.indexed p i ∈ ws) ∧
        (heap_get heap p).index ≠ NGHTTP2_HD_INVALID_INDEX := by
  unfold ws_live_entries
  rw [List.mem_filterMap]
  constructor
  · rintro ⟨cell, hc, h⟩
    cases cell with
    | indexed ent i =>
      simp only at h
      split at h
      · rename_i hne
        simp only [Option.some.injEq] at h
        subst h
        exact ⟨⟨i, hc⟩, hne⟩
      · simp at h
    | indname ent v => simp at h
    | newname nv => simp at h
    | none => simp at h
  · rintro ⟨⟨i, hc⟩, hne⟩
    exact ⟨_, hc, by simp [hne]⟩

/-- C29: `nghttp2_hd_end_headers` on a context with a consistent table (and the
empty reference set that the `assert` asks for) succeeds; after it the working set
is empty and the reference set consists of exactly the entries of the INDEXED
cells of the working set that are still in the header table (their index is not
INVALID), each once and in the order of the cells: the entries of the reference
set are pairwise distinct and have pairwise distinct valid indices, and the cells
INDNAME, NEWNAME, the tombstones, the cells of evicted entries and the second cell
of an entry add nothing.  The table and, but for the reference counts, the entries
are left as they are. -/
theorem end_headers_refset (c : nghttp2_hd_context) (hinv : table_inv c)
    (hv : ws_valid c.heap c.ws) (hr : c.refset = []) :
    ∃ c2, nghttp2_hd_end_headers c = .ok c2 ∧ c2.ws = [] ∧ c2.hd_table = c.hd_table ∧
      heap_equiv c2.heap c.heap ∧
      (∀ p, p ∈ c2.refset ↔
        (∃ i, nghttp2_hd_ws_entry.indexed p i ∈ c.ws) ∧ p ∈ c.hd_table) ∧
      (∀ p, p ∈ c2.refset ↔
        (∃ i, nghttp2_hd_ws_entry.indexed p i ∈ c.ws) ∧
          (heap_get c.heap p).index ≠ NGHTTP2_HD_INVALID_INDEX) ∧
      List.Sublist c2.refset (ws_live_entries c.heap c.ws) ∧
      c2.refset.Nodup ∧
      (c2.refset.map fun p => (heap_get c2.heap p).index).Nodup ∧
      ∀ p ∈ c2.refset, (heap_get c2.heap p).index < c2.hd_table.length ∧
        c2.hd_table.getD (heap_get c2.heap p).index 0 = p := by
  have hidx128 : ∀ ent i, nghttp2_hd_ws_entry.indexed ent i ∈ c.ws →
      (heap_get c.heap ent).index ≠ NGHTTP2_HD_INVALID_INDEX →
      (heap_get c.heap ent).index < 128 := by
    intro ent i hm hne
    have hlt : ent < c.heap.length := hv _ hm
    have := (hinv.2.1 ent hlt hne).1
    have h1 := hinv.2.2.1
    have h2 := hinv.2.2.2
    omega
  obtain ⟨r1, r2, sub0, r3, r4, -⟩ := end_headers_loop_spec
    (fun p => (heap_get c.heap p).index)
    (fun p => (heap_get c.heap p).nv) c.ws (List.replicate 128 0) c.heap [] (fun _ => ⟨rfl, rfl⟩)
    (by simp) (by simp) (by simp) hidx128
  obtain ⟨sub, s1, s2, s3⟩ := end_headers_loop_exact (fun p => (heap_get c.heap p).index)
    c.ws (List.replicate 128 0) c.heap [] (fun _ => rfl) (by simp)
    (by
      intro i hi
      rw [List.getD_eq_getElem?_getD, List.getElem?_replicate, if_pos hi]
      simp)
    hidx128
  generalize hq : end_headers_loop c.ws (List.replicate 128 0) c.heap [] = q at r1 r2 r3 s1
  obtain ⟨q1, q2⟩ := q
  simp only [List.nil_append] at r1 r2 r3 s1 s3
  subst r3
  subst s1
  have hE : nghttp2_hd_end_headers c = .ok { c with heap := q1, refset := q2, ws := [] } := by
    unfold nghttp2_hd_end_headers
    rw [if_neg (by simp [hr]), hr, hq]
  have hsub : ∀ p ∈ q2, p < c.heap.length ∧
      (heap_get c.heap p).index ≠ NGHTTP2_HD_INVALID_INDEX ∧
      ∃ i, nghttp2_hd_ws_entry.indexed p i ∈ c.ws := by
    intro p hp
    obtain ⟨a, i, b⟩ := r4 p hp
    exact ⟨hv _ b, a, i, b⟩
  have hiff : ∀ p, p ∈ q2 ↔ (∃ i, nghttp2_hd_ws_entry.indexed p i ∈ c.ws) ∧
      (heap_get c.heap p).index ≠ NGHTTP2_HD_INVALID_INDEX := by
    intro p
    constructor
    · intro hp
      obtain ⟨_, a, b⟩ := hsub p hp
      exact ⟨b, a⟩
    · rintro ⟨⟨i, hm⟩, hne⟩
      have := s3 p i hm hne
      obtain ⟨q, hq1, hq2⟩ := List.mem_map.mp this
      obtain ⟨ql, qne, -⟩ := hsub q hq1
      have e1 := (hinv.2.1 q ql qne).2
      have e2 := (hinv.2.1 p (hv _ hm) hne).2
      rw [hq2] at e1
      rw [← e1.symm.trans e2]
      exact hq1
  have hndidx : (q2.map fun p => (heap_get c.heap p).index).Nodup := r2
  refine ⟨_, hE, rfl, rfl, r1, fun p => ?_, hiff, ?_, ?_, ?_, ?_⟩
  · rw [hiff]
    constructor
    · rintro ⟨⟨i, hm⟩, hne⟩
      refine ⟨⟨i, hm⟩, ?_⟩
      obtain ⟨a, b⟩ := hinv.2.1 p (hv _ hm) hne
      rw [← b, List.getD_eq_getElem _ _ a]
      exact List.getElem_mem _
    · rintro ⟨⟨i, hm⟩, hin⟩
      refine ⟨⟨i, hm⟩, ?_⟩
      obtain ⟨j, hj, rfl⟩ := List.getElem_of_mem hin
      have := (hinv.1 j hj).2
      rw [List.getD_eq_getElem _ _ hj] at this
      rw [this]
      have h1 := hinv.2.2.1
      have h2 := hinv.2.2.2
      unfold NGHTTP2_HD_INVALID_INDEX
      omega
  · exact s2
  · exact List.Nodup.of_map _ hndidx
  · show (List.map (fun p => (heap_get q1 p).index) q2).Nodup
    have : List.map (fun p => (heap_get q1 p).index) q2 =
        List.map (fun p => (heap_get c.heap p).index) q2 := by
      apply List.map_congr_left
      intro p _
      exact (r1.2 p).1
    rw [this]
    exact hndidx
  · intro p hp
    show (heap_get q1 p).index < c.hd_table.length ∧
      c.hd_table.getD (heap_get q1 p).index 0 = p
    rw [(r1.2 p).1]
    obtain ⟨a, b, -⟩ := hsub p hp
    exact hinv.2.1 p a b

end Nghttp2

namespace Nghttp2

/-! ### The choice between the literal representations in the deflater -/

theorem tag_bits : ∀ x, x < 32 →
    ((x ||| 0x40) % 256) &&& 0xE0 = 0x40 ∧ ((x ||| 0x60) % 256) &&& 0xE0 = 0x60 := by
  decide

theorem indname_block_tag (index : Nat) (value : List Nat) (inc : Bool) :
    ∀ b ∈ (indname_block index value inc).head?, b &&& 0xE0 = if inc then 0x40 else 0x60 := by
  obtain ⟨x, rest, hcons⟩ := List.exists_cons_of_ne_nil (encode_length_ne_nil (index + 1) 5)
  have hx : x < 32 := by
    have := encode_length_head_lt (index + 1) 5 (by decide) x (by rw [hcons]; simp)
    simpa using this
  intro b hb
  unfold indname_block at hb
  rw [hcons] at hb
  simp only [List.cons_append, or_head, List.head?_cons, Option.mem_def,
    Option.some.injEq] at hb
  subst hb
  cases inc
  · simpa using (tag_bits x hx).2
  · simpa using (tag_bits x hx).1

theorem newname_block_tag (nv : nghttp2_nv) (inc : Bool) :
    ∀ b ∈ (newname_block nv inc).head?, b &&& 0xE0 = if inc then 0x40 else 0x60 := by
  intro b hb
  unfold newname_block at hb
  simp only [List.singleton_append, List.cons_append, List.head?_cons, Option.mem_def,
    Option.some.injEq] at hb
  subst hb
  cases inc <;> decide

theorem deflate_nv_is_literal (c : nghttp2_hd_context) (buf : List Nat) (off : Nat)
    (nv : nghttp2_nv) (hws : (find_in_workingset c nv).isSome = false)
    (hfull : ∀ ent, find_in_hd_table c nv = some ent →
      (find_in_workingset_by_index c (heap_get c.heap ent).index).isNone = false) :
    deflate_nv c buf off nv = deflate_nv_literal c buf off nv := by
  unfold deflate_nv
  rw [if_neg (by simp [hws])]
  cases hf : find_in_hd_table c nv with
  | none => rfl
  | some ent =>
    simp only
    rw [if_neg (by simp [hfull ent hf])]

/-- C25: in `nghttp2_hd_deflate_hd`, for a header that no cell of the working set
represents and that has no full match usable in the table (none, or one whose index
a cell of the working set has frozen), `entry_room` = 32 + name length + value
length decides.  Below `NGHTTP2_HD_MAX_ENTRY_SIZE` (3072) the header is inserted
into the header table, behind the entries that the insertion leaves, its INDEXED
cell is added to the working set, and it is sent as a literal with incremental
indexing (tag bits 0x40; the name as an index when the table has the name).
Otherwise the header table and `hd_table_bufsize` are left as they are, the cell
added is INDNAME or NEWNAME, and the header is sent as a literal without indexing
(tag bits 0x60). -/
theorem deflate_literal_indexing (c : nghttp2_hd_context) (buf : List Nat) (off : Nat)
    (nv : nghttp2_nv) (hinv : hd_inv c)
    (hws : (find_in_workingset c nv).isSome = false)
    (hfull : ∀ ent, find_in_hd_table c nv = some ent →
      (find_in_workingset_by_index c (heap_get c.heap ent).index).isNone = false) :
    NGHTTP2_HD_MAX_ENTRY_SIZE = 3072 ∧
    entry_room nv.name.length nv.value.length = 32 + nv.name.length + nv.value.length ∧
    (entry_room nv.name.length nv.value.length < NGHTTP2_HD_MAX_ENTRY_SIZE →
      ∀ c1 buf1 off1, deflate_nv c buf off nv = (c1, buf1, off1, .ok ()) →
        ∃ new k B, k ≤ c.hd_table.length ∧ c1.hd_table = c.hd_table.drop k ++ [new] ∧
          (heap_get c1.heap new).nv = nv ∧
          c1.ws = c.ws ++ [.indexed new (c1.hd_table.length - 1)] ∧
          (heap_get c1.heap new).index = c1.hd_table.length - 1 ∧
          ((find_name_in_hd_table c nv = none ∧ B = newname_block nv true) ∨
            ∃ ent, find_name_in_hd_table c nv = some ent ∧
              B = indname_block (heap_get c.heap ent).index nv.value true) ∧
          buf1 = write_bytes (nghttp2_reserve_buffer buf (off + B.length)) off B ∧
          off1 = off + B.length ∧ ∀ b ∈ B.head?, b &&& 0xE0 = 0x40) ∧
    (¬ entry_room nv.name.length nv.value.length < NGHTTP2_HD_MAX_ENTRY_SIZE →
      (deflate_nv c buf off nv).1.hd_table = c.hd_table ∧
      (deflate_nv c buf off nv).1.hd_table_bufsize = c.hd_table_bufsize ∧
      ∀ c1 buf1 off1, deflate_nv c buf off nv = (c1, buf1, off1, .ok ()) →
        ∃ cell B, c1.ws = c.ws ++ [cell] ∧
          ((find_name_in_hd_table c nv = none ∧ cell = .newname nv ∧
              B = newname_block nv false) ∨
            ∃ ent, find_name_in_hd_table c nv = some ent ∧ cell = .indname ent nv.value ∧
              B = indname_block (heap_get c.heap ent).index nv.value false) ∧
          buf1 = write_bytes (nghttp2_reserve_buffer buf (off + B.length)) off B ∧
          off1 = off + B.length ∧ ∀ b ∈ B.head?, b &&& 0xE0 = 0x60) := by
  rw [deflate_nv_is_literal c buf off nv hws hfull]
  refine ⟨rfl, rfl, ?_, ?_⟩
  · intro hroom c1 buf1 off1 h
    have hadd : ∀ cm new_ent, add_hd_table_incremental c nv = (cm, some new_ent) →
        add_workingset cm new_ent = .ok c1 →
        ∃ k, k ≤ c.hd_table.length ∧ c1.hd_table = c.hd_table.drop k ++ [new_ent] ∧
          (heap_get c1.heap new_ent).nv = nv ∧
          c1.ws = c.ws ++ [.indexed new_ent (c1.hd_table.length - 1)] ∧
          (heap_get c1.heap new_ent).index = c1.hd_table.length - 1 := by
      intro cm new_ent ha hw
      obtain ⟨-, -, k3, -, -, k6⟩ := add_hd_table_incremental_inv c nv hinv
      rw [ha] at k3 k6
      obtain ⟨-, -, n1, n2, k, hk, ht, -⟩ := k6 new_ent rfl
      simp only at k3 n1 n2 ht
      rw [add_workingset_ok cm c1 new_ent hw]
      simp only [heap_get_ref_inc_nv, heap_get_ref_inc_index]
      exact ⟨k, hk, ht, n1, by rw [k3, n2], n2⟩
    rcases deflate_nv_literal_cases c buf off nv c1 buf1 off1 h with
      ⟨ent, cm, new_ent, hf, ha, hw, he⟩ | ⟨ent, hf, hw, he⟩ |
      ⟨cm, new_ent, hf, ha, hw, he⟩ | ⟨hf, hw, he⟩
    · obtain ⟨k, a1, a2, a3, a4, a5⟩ := hadd cm new_ent ha hw
      obtain ⟨e1, -, e3⟩ := emit_indname_block_ok _ _ _ _ _ _ _ he
      exact ⟨new_ent, k, _, a1, a2, a3, a4, a5, Or.inr ⟨ent, hf, rfl⟩, e3, e1,
        fun b hb => by simpa using indname_block_tag _ _ true b hb⟩
    · exfalso
      unfold deflate_nv_literal at h
      simp only [hf, hroom, if_true] at h
      generalize add_hd_table_incremental c nv = q at h
      obtain ⟨cm, o⟩ := q
      cases o with
      | none => simp at h
      | some new_ent =>
        simp only at h
        cases ha : add_workingset cm new_ent with
        | error rv => simp [ha] at h
        | ok c2 =>
          have e1 := add_workingset_ok cm c2 new_ent ha
          have e2 := add_workingset_indname_ok c c1 ent nv.value hw
          simp only [ha] at h
          split at h
          · simp at h
          · simp only [Prod.mk.injEq] at h
            have e3 := h.1
            rw [e1, e2] at e3
            have := congrArg (fun x => x.ws.getLast?) e3
            simp at this
    · obtain ⟨k, a1, a2, a3, a4, a5⟩ := hadd cm new_ent ha hw
      obtain ⟨e1, -, e3⟩ := emit_newname_block_ok _ _ _ _ _ _ he
      exact ⟨new_ent, k, _, a1, a2, a3, a4, a5, Or.inl ⟨hf, rfl⟩, e3, e1,
        fun b hb => by simpa using newname_block_tag _ true b hb⟩
    · exfalso
      unfold deflate_nv_literal at h
      simp only [hf, hroom, if_true] at h
      generalize add_hd_table_incremental c nv = q at h
      obtain ⟨cm, o⟩ := q
      cases o with
      | none => simp at h
      | some new_ent =>
        simp only at h
        cases ha : add_workingset cm new_ent with
        | error rv => simp [ha] at h
        | ok c2 =>
          have e1 := add_workingset_ok cm c2 new_ent ha
          have e2 := add_workingset_newname_ok c c1 nv hw
          simp only [ha] at h
          split at h
          · simp at h
          · simp only [Prod.mk.injEq] at h
            have e3 := h.1
            rw [e1, e2] at e3
            have := congrArg (fun x => x.ws.getLast?) e3
            simp at this
  · intro hroom
    refine ⟨?_, ?_, ?_⟩
    · unfold deflate_nv_literal
      simp only [hroom, if_false]
      split
      · split
        · rfl
        · rename_i c1 ha
          rw [add_workingset_indname_ok c c1 _ _ ha]
          split <;> rfl
      · split
        · rfl
        · rename_i c1 ha
          rw [add_workingset_newname_ok c c1 _ ha]
          split <;> rfl
    · unfold deflate_nv_literal
      simp only [hroom, if_false]
      split
      · split
        · rfl
        · rename_i c1 ha
          rw [add_workingset_indname_ok c c1 _ _ ha]
          split <;> rfl
      · split
        · rfl
        · rename_i c1 ha
          rw [add_workingset_newname_ok c c1 _ ha]
          split <;> rfl
    · intro c1 buf1 off1 h
      unfold deflate_nv_literal at h
      simp only [hroom, if_false] at h
      cases hf : find_name_in_hd_table c nv with
      | some ent =>
        simp only [hf] at h
        cases hw : add_workingset_indname c ent nv.value with
        | error rv => simp [hw] at h
        | ok c2 =>
          simp only [hw] at h
          cases he : emit_indname_block buf off (heap_get c.heap ent).index nv.value false with
          | error rv => simp [he] at h
          | ok r =>
            obtain ⟨b, o⟩ := r
            simp only [he, Prod.mk.injEq, and_true] at h
            obtain ⟨rfl, rfl, rfl⟩ := h
            obtain ⟨e1, -, e3⟩ := emit_indname_block_ok _ _ _ _ _ _ _ he
            refine ⟨.indname ent nv.value, _, ?_, Or.inr ⟨ent, rfl, rfl, rfl⟩, e3, e1,
              fun b hb => by simpa using indname_block_tag _ _ false b hb⟩
            rw [add_workingset_indname_ok c _ ent nv.value hw]
      | none =>
        simp only [hf] at h
        cases hw : add_workingset_newname c nv with
        | error rv => simp [hw] at h
        | ok c2 =>
          simp only [hw] at h
          cases he : emit_newname_block buf off nv false with
          | error rv => simp [he] at h
          | ok r =>
            obtain ⟨b, o⟩ := r
            simp only [he, Prod.mk.injEq, and_true] at h
            obtain ⟨rfl, rfl, rfl⟩ := h
            obtain ⟨e1, -, e3⟩ := emit_newname_block_ok _ _ _ _ _ _ he
            refine ⟨.newname nv, _, ?_, Or.inl ⟨rfl, rfl, rfl⟩, e3, e1,
              fun b hb => by simpa using newname_block_tag _ false b hb⟩
            rw [add_workingset_newname_ok c _ nv hw]

end Nghttp2

namespace Nghttp2

/-- An instance of `deflate_literal_indexing`: on the fresh deflater seeded with the
request table, a header `x` with a value of 3039 bytes (room 3072) leaves the
table and its size as they are; the header `x-custom: v` (room 41) is inserted as
entry 38 and sent with the tag 0x40. -/
theorem deflate_literal_indexing_witness :
    ((deflate_nv (nghttp2_hd_deflate_init .NGHTTP2_HD_SIDE_CLIENT) [] 0
        { name := cstr "x", value := List.replicate 3039 97 }).1.hd_table =
      (nghttp2_hd_deflate_init .NGHTTP2_HD_SIDE_CLIENT).hd_table ∧
    (deflate_nv (nghttp2_hd_deflate_init .NGHTTP2_HD_SIDE_CLIENT) [] 0
        { name := cstr "x", value := List.replicate 3039 97 }).1.hd_table_bufsize =
      (nghttp2_hd_deflate_init .NGHTTP2_HD_SIDE_CLIENT).hd_table_bufsize) ∧
    (deflate_nv (nghttp2_hd_deflate_init .NGHTTP2_HD_SIDE_CLIENT) [] 0
        { name := cstr "x-custom", value := cstr "v" }).2.2.2 = .ok () ∧
    (deflate_nv (nghttp2_hd_deflate_init .NGHTTP2_HD_SIDE_CLIENT) [] 0
        { name := cstr "x-custom", value := cstr "v" }).2.1.head? = some 0x40 ∧
    table_nv (deflate_nv (nghttp2_hd_deflate_init .NGHTTP2_HD_SIDE_CLIENT) [] 0
        { name := cstr "x-custom", value := cstr "v" }).1 38 =
      { name := cstr "x-custom", value := cstr "v" } :=
  have hshort : ∀ p ∈ (nghttp2_hd_deflate_init .NGHTTP2_HD_SIDE_CLIENT).hd_table,
      (heap_get (nghttp2_hd_deflate_init .NGHTTP2_HD_SIDE_CLIENT).heap p).nv.value.length ≤ 5 := by
    decide
  have h := (deflate_literal_indexing (nghttp2_hd_deflate_init .NGHTTP2_HD_SIDE_CLIENT) [] 0
    { name := cstr "x", value := List.replicate 3039 97 }
    (fresh_hd_inv .NGHTTP2_HD_SIDE_CLIENT).1 (by decide)
    (fun ent he => by
      obtain ⟨m1, m2⟩ := find_in_hd_table_some _ _ ent he
      have h5 := hshort ent m1
      rw [m2] at h5
      simp only [List.length_replicate] at h5
      omega)).2.2.2
    (by
      unfold entry_room NGHTTP2_HD_ENTRY_OVERHEAD NGHTTP2_HD_MAX_ENTRY_SIZE
      simp only [List.length_replicate]
      decide)
  ⟨⟨h.1, h.2.1⟩, by decide, by decide, by decide⟩

end Nghttp2

namespace Nghttp2

/-! ### The frozen indices of the working set -/

theorem ws_indices_cons_indexed (ent i : Nat) (ws : List nghttp2_hd_ws_entry) :
    ws_indices (.indexed ent i :: ws) = i :: ws_indices ws := by
  simp [ws_indices]

theorem ws_indices_cons_other (cell : nghttp2_hd_ws_entry) (ws : List nghttp2_hd_ws_entry)
    (h : ∀ ent i, cell ≠ .indexed ent i) : ws_indices (cell :: ws) = ws_indices ws := by
  cases cell with
  | indexed ent i => exact absurd rfl (h ent i)
  | indname ent v => simp [ws_indices]
  | newname nv => simp [ws_indices]
  | none => simp [ws_indices]

theorem ws_indices_remove (index : Nat) :
    ∀ (ws : List nghttp2_hd_ws_entry) (heap : List nghttp2_hd_entry),
    List.Sublist (ws_indices (remove_from_workingset_loop index ws heap).1) (ws_indices ws) ∧
    index ∉ ws_indices (remove_from_workingset_loop index ws heap).1 := by
  intro ws
  induction ws with
  | nil => intro heap; simp [remove_from_workingset_loop, ws_indices]
  | cons cell rest ih =>
    intro heap
    cases cell with
    | indexed ent i =>
      by_cases hi : i = index
      · subst hi
        simp only [remove_from_workingset_loop, if_true]
        rw [ws_indices_cons_other _ _ (by intro _ _ h; cases h), ws_indices_cons_indexed]
        exact ⟨List.Sublist.cons _ (ih _).1, (ih _).2⟩
      · simp only [remove_from_workingset_loop, hi, if_false]
        rw [ws_indices_cons_indexed, ws_indices_cons_indexed]
        refine ⟨List.Sublist.cons₂ _ (ih _).1, ?_⟩
        rw [List.mem_cons, not_or]
        exact ⟨fun h => hi h.symm, (ih _).2⟩
    | indname ent v =>
      simp only [remove_from_workingset_loop]
      rw [ws_indices_cons_other _ _ (by intro _ _ h; cases h),
        ws_indices_cons_other _ _ (by intro _ _ h; cases h)]
      exact ih _
    | newname nv =>
      simp only [remove_from_workingset_loop]
      rw [ws_indices_cons_other _ _ (by intro _ _ h; cases h),
        ws_indices_cons_other _ _ (by intro _ _ h; cases h)]
      exact ih _
    | none =>
      simp only [remove_from_workingset_loop]
      rw [ws_indices_cons_other _ _ (by intro _ _ h; cases h),
        ws_indices_cons_other _ _ (by intro _ _ h; cases h)]
      exact ih _

theorem ws_indices_toggle (nva : List nghttp2_nv) :
    ∀ (ws : List nghttp2_hd_ws_entry) (heap : List nghttp2_hd_entry) (buf : List Nat)
      (off : Nat),
    List.Sublist (ws_indices (deflate_toggle_loop nva ws heap buf off).1) (ws_indices ws) := by
  intro ws
  induction ws with
  | nil => intro heap buf off; simp [deflate_toggle_loop, ws_indices]
  | cons cell rest ih =>
    intro heap buf off
    cases cell with
    | indexed ent index =>
      unfold deflate_toggle_loop
      split
      · simp only
        rw [ws_indices_cons_indexed, ws_indices_cons_indexed]
        exact List.Sublist.cons₂ _ (ih _ _ _)
      · split
        · exact List.Sublist.refl _
        · simp only
          rw [ws_indices_cons_other _ _ (by intro _ _ h; cases h), ws_indices_cons_indexed]
          exact List.Sublist.cons _ (ih _ _ _)
    | indname ent v => simp only [deflate_toggle_loop]; exact List.Sublist.refl _
    | newname nv => simp only [deflate_toggle_loop]; exact List.Sublist.refl _
    | none => simp only [deflate_toggle_loop]; exact List.Sublist.refl _

theorem ws_frozen_inv_of_eq (c c1 : nghttp2_hd_context) (h : ws_frozen_inv c)
    (hw : c1.ws = c.ws) (ht : c1.hd_table = c.hd_table) : ws_frozen_inv c1 := by
  unfold ws_frozen_inv
  rw [hw, ht]
  exact h

theorem ws_frozen_inv_sublist (c c1 : nghttp2_hd_context) (h : ws_frozen_inv c)
    (hw : List.Sublist (ws_indices c1.ws) (ws_indices c.ws))
    (ht : c.hd_table.length ≤ c1.hd_table.length) : ws_frozen_inv c1 :=
  ⟨h.1.sublist hw, fun i hi => lt_of_lt_of_le (h.2 i (hw.subset hi)) ht⟩

/-- The addition of an INDEXED cell whose frozen index no cell has. -/
theorem ws_frozen_inv_add (c c1 : nghttp2_hd_context) (ent n : Nat)
    (hnd : (ws_indices c.ws).Nodup) (hlt : ∀ i ∈ ws_indices c.ws, i < c.hd_table.length)
    (hidx : (heap_get c.heap ent).index = n) (hn : n ∉ ws_indices c.ws)
    (hnl : n < c.hd_table.length) (ha : add_workingset c ent = .ok c1) :
    ws_frozen_inv c1 ∧ c1.hd_table = c.hd_table := by
  rw [add_workingset_ok c c1 ent ha]
  refine ⟨⟨?_, ?_⟩, rfl⟩
  · show (ws_indices (c.ws ++ [.indexed ent (heap_get c.heap ent).index])).Nodup
    rw [ws_indices_append, hidx]
    have : ws_indices [nghttp2_hd_ws_entry.indexed ent n] = [n] := by simp [ws_indices]
    rw [this]
    exact List.Nodup.append hnd (List.nodup_singleton _) (by
      intro a ha1 ha2
      rw [List.mem_singleton] at ha2
      subst ha2
      exact hn ha1)
  · intro i hi
    show i < c.hd_table.length
    have hi' : i ∈ ws_indices (c.ws ++ [.indexed ent (heap_get c.heap ent).index]) := hi
    rw [ws_indices_append, hidx, List.mem_append] at hi'
    rcases hi' with h | h
    · exact hlt i h
    · have : ws_indices [nghttp2_hd_ws_entry.indexed ent n] = [n] := by simp [ws_indices]
      rw [this, List.mem_singleton] at h
      rw [h]; exact hnl

theorem ws_frozen_inv_add_other (c c1 : nghttp2_hd_context) (cell : nghttp2_hd_ws_entry)
    (h : ws_frozen_inv c) (hc : ∀ ent i, cell ≠ .indexed ent i)
    (hw : c1.ws = c.ws ++ [cell]) (ht : c1.hd_table = c.hd_table) : ws_frozen_inv c1 := by
  unfold ws_frozen_inv
  rw [hw, ht, ws_indices_append]
  have : ws_indices [cell] = [] := by
    rw [ws_indices_cons_other _ _ hc]; rfl
  rw [this, List.append_nil]
  exact h

/-- An insertion that leaves the entries of the table where they are evicts
none: the new entry is behind them. -/
theorem incremental_prefix (c c1 : nghttp2_hd_context) (nv : nghttp2_nv) (new : Nat)
    (hinv : hd_inv c) (h : add_hd_table_incremental c nv = (c1, some new))
    (hp : c.hd_table <+: c1.hd_table) :
    c1.hd_table = c.hd_table ++ [new] ∧ (heap_get c1.heap new).index = c.hd_table.length ∧
    c1.ws = c.ws := by
  obtain ⟨-, -, k3, -, -, k6⟩ := add_hd_table_incremental_inv c nv hinv
  rw [h] at k3 k6
  obtain ⟨n0, -, -, n2, k, hk, ht, -⟩ := k6 new rfl
  simp only at k3 n0 n2 ht
  obtain ⟨s, hs⟩ := hp
  have hlen := congrArg List.length hs
  rw [ht] at hlen
  simp only [List.length_append, List.length_drop, List.length_singleton] at hlen
  have hk0 : k = 0 := by
    by_contra hne
    have hk1 : k = 1 := by omega
    have hs0 : s = [] := List.length_eq_zero.mp (by omega)
    rw [hs0, List.append_nil, ht, hk1] at hs
    have hmem : new ∈ c.hd_table := by
      rw [hs]; simp
    have := table_mem_lt c hinv.1 new hmem
    omega
  rw [hk0, List.drop_zero] at ht
  refine ⟨ht, ?_, k3⟩
  rw [n2, ht]
  simp

/-- A substitution never leaves the entries of the table where they are. -/
theorem subst_not_prefix (c c1 : nghttp2_hd_context) (nv : nghttp2_nv) (sub new : Nat)
    (hinv : hd_inv c) (h : add_hd_table_subst c nv sub = (c1, some new)) :
    ¬ c.hd_table <+: c1.hd_table := by
  obtain ⟨-, -, -, -, -, k6⟩ := add_hd_table_subst_inv c nv sub hinv
  rw [h] at k6
  obtain ⟨n0, -, -, hsub, k, hk, ha, hb, -⟩ := k6 new rfl
  simp only at n0 ha hb
  intro hp
  have hfacts : new ∈ c1.hd_table ∧ c1.hd_table.length ≤ c.hd_table.length := by
    by_cases hks : k ≤ sub
    · rw [(ha hks).1]
      exact ⟨List.mem_set _ _ (by simp; omega) _, by simp⟩
    · rw [(hb (by omega)).1]
      exact ⟨List.mem_cons_self _ _, by simp; omega⟩
  have heq : c.hd_table = c1.hd_table := hp.eq_of_length_le hfacts.2
  have := table_mem_lt c hinv.1 new (heq ▸ hfacts.1)
  omega

end Nghttp2

namespace Nghttp2

theorem frozen_kept_refl (c : nghttp2_hd_context) (hJ : ws_frozen_inv c) : frozen_kept c c :=
  fun _ => hJ

theorem frozen_after_incremental (c c1 c1' : nghttp2_hd_context) (nv : nghttp2_nv) (new : Nat)
    (hinv : hd_inv c) (hJ : ws_frozen_inv c)
    (h : add_hd_table_incremental c nv = (c1, some new))
    (hw : c1'.ws = c1.ws) (ht : c1'.hd_table = c1.hd_table)
    (hi : (heap_get c1'.heap new).index = (heap_get c1.heap new).index) :
    frozen_kept c c1' ∧ ∀ c2, add_workingset c1' new = .ok c2 → frozen_kept c c2 := by
  constructor
  · intro hp
    rw [ht] at hp
    obtain ⟨a, -, b⟩ := incremental_prefix c c1 nv new hinv h hp
    apply ws_frozen_inv_sublist c c1' hJ
    · rw [hw, b]
    · rw [ht, a]; simp
  · intro c2 ha hp
    have ht2 : c2.hd_table = c1'.hd_table := by rw [add_workingset_ok c1' c2 new ha]
    rw [ht2, ht] at hp
    obtain ⟨a, b, d⟩ := incremental_prefix c c1 nv new hinv h hp
    exact (ws_frozen_inv_add c1' c2 new c.hd_table.length (by rw [hw, d]; exact hJ.1)
      (by
        rw [hw, d, ht, a]
        intro i hi1
        have := hJ.2 i hi1
        simp only [List.length_append, List.length_singleton]
        omega)
      (by rw [hi, b])
      (by
        rw [hw, d]
        intro hin
        exact absurd (hJ.2 _ hin) (lt_irrefl _))
      (by rw [ht, a]; simp) ha).1

theorem frozen_after_subst (c c1 c1' : nghttp2_hd_context) (nv : nghttp2_nv) (sub new : Nat)
    (hinv : hd_inv c) (h : add_hd_table_subst c nv sub = (c1, some new))
    (ht : c1'.hd_table = c1.hd_table) :
    frozen_kept c c1' ∧ ∀ c2, add_workingset c1' new = .ok c2 → frozen_kept c c2 := by
  have hn := subst_not_prefix c c1 nv sub new hinv h
  constructor
  · intro hp
    rw [ht] at hp
    exact absurd hp hn
  · intro c2 ha hp
    have ht2 : c2.hd_table = c1'.hd_table := by rw [add_workingset_ok c1' c2 new ha]
    rw [ht2, ht] at hp
    exact absurd hp hn

/-- An indexed block keeps the frozen indices apart. -/
theorem inflate_indexed_frozen (mem : Nat → Nat) (last inp : Nat) (c : nghttp2_hd_context)
    (hinv : hd_inv c) (hJ : ws_frozen_inv c) :
    frozen_kept c (inflate_indexed mem last inp c).ctx := by
  unfold inflate_indexed
  have hb := decode_length_lt mem inp last 7 (by omega)
  generalize decode_length mem inp last 7 = d at hb
  obtain ⟨index, inp1⟩ := d
  simp only at hb ⊢
  split
  · exact frozen_kept_refl c hJ
  rename_i hneg
  cases inp1 with
  | none => exact frozen_kept_refl c hJ
  | some inp1 =>
    simp only
    have hk := hd_keeps_remove c index.toNat hinv
    obtain ⟨s1, s2⟩ := ws_indices_remove index.toNat c.ws c.heap
    have hws : (remove_from_workingset_by_index c index.toNat).1.ws =
        (remove_from_workingset_loop index.toNat c.ws c.heap).1 := rfl
    have htab : (remove_from_workingset_by_index c index.toNat).1.hd_table = c.hd_table := rfl
    rw [← hws] at s1 s2
    generalize remove_from_workingset_by_index c index.toNat = r at hk s1 s2 htab
    obtain ⟨c1, removed⟩ := r
    simp only at hk s1 s2 htab ⊢
    have hJ1 : ws_frozen_inv c1 := ws_frozen_inv_sublist c c1 hJ s1 (by rw [htab])
    have hfk : frozen_kept c c1 := fun _ => hJ1
    split
    · split
      · exact hfk
      · rename_i hlt
        split
        · exact hfk
        · rename_i c2 ha
          have hil : index.toNat < c1.hd_table.length :=
            int_index_lt _ _ (by omega) (by omega) hlt
          intro _
          exact (ws_frozen_inv_add c1 c2 _ index.toNat hJ1.1 hJ1.2
            (hk.1.1.1 index.toNat hil).2 s2 hil ha).1
    · exact hfk

/-- An insertion followed by the addition of the new entry to the working set. -/
theorem frozen_incremental_add (c : nghttp2_hd_context) (nv : nghttp2_nv) (inp : Nat)
    (hinv : hd_inv c) (hJ : ws_frozen_inv c) :
    frozen_kept c (match add_hd_table_incremental c nv with
      | (c1, none) => inflate_step_result.fail .NGHTTP2_ERR_HEADER_COMP c1
      | (c1, some ent) =>
        match add_workingset c1 ent with
        | .error rv => .fail rv c1
        | .ok c2 => .next inp c2).ctx := by
  generalize hq : add_hd_table_incremental c nv = r
  obtain ⟨c1, o⟩ := r
  cases o with
  | none =>
    rw [add_hd_table_incremental_none c c1 nv hq]
    exact frozen_kept_refl c hJ
  | some ent =>
    obtain ⟨f1, f2⟩ := frozen_after_incremental c c1 c1 nv ent hinv hJ hq rfl rfl rfl
    simp only
    split
    · exact f1
    · rename_i c2 ha
      exact f2 c2 ha

/-- A literal block with a new name keeps the frozen indices apart. -/
theorem inflate_newname_frozen (mem : Nat → Nat) (last inp : Nat) (c : nghttp2_hd_context)
    (first : Nat) (hinv : hd_inv c) (hJ : ws_frozen_inv c) :
    frozen_kept c (inflate_newname mem last inp c first).ctx := by
  unfold inflate_newname
  simp only
  split
  · exact frozen_kept_refl c hJ
  generalize decode_length mem (inp + 1) last 8 = d1
  obtain ⟨namelen, inp1⟩ := d1
  simp only
  split
  · exact frozen_kept_refl c hJ
  cases inp1 with
  | none => exact frozen_kept_refl c hJ
  | some inp1 =>
    simp only
    split
    · exact frozen_kept_refl c hJ
    generalize decode_length mem (inp1 + namelen.toNat) last 8 = d2
    obtain ⟨valuelen, inp3⟩ := d2
    simp only
    split
    · exact frozen_kept_refl c hJ
    cases inp3 with
    | none => exact frozen_kept_refl c hJ
    | some inp3 =>
      simp only
      split
      · exact frozen_kept_refl c hJ
      split
      · split
        · exact frozen_kept_refl c hJ
        · rename_i c1 ha
          intro _
          exact ws_frozen_inv_add_other c c1 (nghttp2_hd_ws_entry.newname _) hJ
            (by intro _ _ h; cases h)
            (by rw [add_workingset_newname_ok c c1 _ ha])
            (by rw [add_workingset_newname_ok c c1 _ ha])
      · exact frozen_incremental_add c _ _ hinv hJ

/-- A literal block with an indexed name keeps the frozen indices apart. -/
theorem inflate_indname_frozen (mem : Nat → Nat) (last inp : Nat) (c : nghttp2_hd_context)
    (first : Nat) (hinv : hd_inv c) (hJ : ws_frozen_inv c) :
    frozen_kept c (inflate_indname mem last inp c first).ctx := by
  unfold inflate_indname
  generalize decode_length mem inp last 5 = d1
  obtain ⟨index, inp1⟩ := d1
  simp only
  split
  · exact frozen_kept_refl c hJ
  cases inp1 with
  | none => exact frozen_kept_refl c hJ
  | some inp1 =>
    simp only
    split
    · exact frozen_kept_refl c hJ
    generalize decode_length mem inp1 last 8 = d2
    obtain ⟨valuelen, inp2⟩ := d2
    simp only
    split
    · exact frozen_kept_refl c hJ
    cases inp2 with
    | none => exact frozen_kept_refl c hJ
    | some inp2 =>
      simp only
      split
      · exact frozen_kept_refl c hJ
      split
      · split
        · exact frozen_kept_refl c hJ
        · rename_i c1 ha
          intro _
          exact ws_frozen_inv_add_other c c1 (nghttp2_hd_ws_entry.indname _ _) hJ
            (by intro _ _ h; cases h)
            (by rw [add_workingset_indname_ok c c1 _ _ ha])
            (by rw [add_workingset_indname_ok c c1 _ _ ha])
      · have h0 := hd_keeps_ref_inc c (c.hd_table.getD (index - 1).toNat 0) hinv
        generalize hq : add_hd_table_incremental
          { c with heap := ref_inc c.heap (c.hd_table.getD (index - 1).toNat 0) }
          { name := (heap_get (ref_inc c.heap (c.hd_table.getD (index - 1).toNat 0))
              (c.hd_table.getD (index - 1).toNat 0)).nv.name
            value := mem_read mem inp2 valuelen.toNat } = r
        obtain ⟨c1, o⟩ := r
        cases o with
        | none =>
          rw [add_hd_table_incremental_none _ c1 _ hq]
          exact frozen_kept_refl c hJ
        | some ent =>
          obtain ⟨f1, f2⟩ := frozen_after_incremental _ c1
            { c1 with heap := ref_dec c1.heap (c.hd_table.getD (index - 1).toNat 0) } _ ent
            h0.1 (ws_frozen_inv_of_eq c _ hJ rfl rfl) hq rfl rfl (by simp)
          simp only
          split
          · exact f1
          · rename_i c2 ha
            exact f2 c2 ha

/-- A substitution followed by the addition of the new entry to the working set. -/
theorem frozen_subst_add (c : nghttp2_hd_context) (nv : nghttp2_nv) (sub inp : Nat)
    (hinv : hd_inv c) (hJ : ws_frozen_inv c) :
    frozen_kept c (match add_hd_table_subst c nv sub with
      | (c1, none) => inflate_step_result.fail .NGHTTP2_ERR_HEADER_COMP c1
      | (c1, some ent) =>
        match add_workingset c1 ent with
        | .error rv => .fail rv c1
        | .ok c2 => .next inp c2).ctx := by
  generalize hq : add_hd_table_subst c nv sub = r
  obtain ⟨c1, o⟩ := r
  cases o with
  | none =>
    rw [add_hd_table_subst_none c c1 nv sub hq]
    exact frozen_kept_refl c hJ
  | some ent =>
    obtain ⟨f1, f2⟩ := frozen_after_subst c c1 c1 nv sub ent hinv hq rfl
    simp only
    split
    · exact f1
    · rename_i c2 ha
      exact f2 c2 ha

/-- A literal block with substitution indexing and a new name. -/
theorem inflate_subst_newname_frozen (mem : Nat → Nat) (last inp : Nat)
    (c : nghttp2_hd_context) (hinv : hd_inv c) (hJ : ws_frozen_inv c) :
    frozen_kept c (inflate_subst_newname mem last inp c).ctx := by
  unfold inflate_subst_newname
  simp only
  split
  · exact frozen_kept_refl c hJ
  generalize decode_length mem (inp + 1) last 8 = d1
  obtain ⟨namelen, inp1⟩ := d1
  simp only
  split
  · exact frozen_kept_refl c hJ
  cases inp1 with
  | none => exact frozen_kept_refl c hJ
  | some inp1 =>
    simp only
    split
    · exact frozen_kept_refl c hJ
    generalize decode_length mem (inp1 + namelen.toNat) last 8 = d2
    obtain ⟨subindex, inp3⟩ := d2
    simp only
    split
    · exact frozen_kept_refl c hJ
    cases inp3 with
    | none => exact frozen_kept_refl c hJ
    | some inp3 =>
      simp only
      generalize decode_length mem inp3 last 8 = d3
      obtain ⟨valuelen, inp4⟩ := d3
      simp only
      split
      · exact frozen_kept_refl c hJ
      cases inp4 with
      | none => exact frozen_kept_refl c hJ
      | some inp4 =>
        simp only
        split
        · exact frozen_kept_refl c hJ
        · exact frozen_subst_add c _ _ _ hinv hJ

/-- A literal block with substitution indexing and an indexed name. -/
theorem inflate_subst_indname_frozen (mem : Nat → Nat) (last inp : Nat)
    (c : nghttp2_hd_context) (hinv : hd_inv c) (hJ : ws_frozen_inv c) :
    frozen_kept c (inflate_subst_indname mem last inp c).ctx := by
  unfold inflate_subst_indname
  generalize decode_length mem inp last 6 = d1
  obtain ⟨index, inp1⟩ := d1
  simp only
  split
  · exact frozen_kept_refl c hJ
  cases inp1 with
  | none => exact frozen_kept_refl c hJ
  | some inp1 =>
    simp only
    split
    · exact frozen_kept_refl c hJ
    generalize decode_length mem inp1 last 8 = d2
    obtain ⟨subindex, inp2⟩ := d2
    simp only
    split
    · exact frozen_kept_refl c hJ
    cases inp2 with
    | none => exact frozen_kept_refl c hJ
    | some inp2 =>
      simp only
      generalize decode_length mem inp2 last 8 = d3
      obtain ⟨valuelen, inp3⟩ := d3
      simp only
      split
      · exact frozen_kept_refl c hJ
      cases inp3 with
      | none => exact frozen_kept_refl c hJ
      | some inp3 =>
        simp only
        split
        · exact frozen_kept_refl c hJ
        · have h0 := hd_keeps_ref_inc c (c.hd_table.getD (index - 1).toNat 0) hinv
          generalize hq : add_hd_table_subst
            { c with heap := ref_inc c.heap (c.hd_table.getD (index - 1).toNat 0) }
            { name := (heap_get (ref_inc c.heap (c.hd_table.getD (index - 1).toNat 0))
                (c.hd_table.getD (index - 1).toNat 0)).nv.name
              value := mem_read mem inp3 valuelen.toNat } subindex.toNat = r
          obtain ⟨c1, o⟩ := r
          cases o with
          | none =>
            rw [add_hd_table_subst_none _ c1 _ _ hq]
            exact frozen_kept_refl c hJ
          | some ent =>
            obtain ⟨f1, f2⟩ := frozen_after_subst _ c1
              { c1 with heap := ref_dec c1.heap (c.hd_table.getD (index - 1).toNat 0) } _ _ ent
              h0.1 hq rfl
            simp only
            split
            · exact f1
            · rename_i c2 ha
              exact f2 c2 ha

theorem inflate_step_frozen (mem : Nat → Nat) (last inp : Nat) (c : nghttp2_hd_context)
    (hinv : hd_inv c) (hJ : ws_frozen_inv c) :
    frozen_kept c (inflate_step mem last inp c).ctx := by
  unfold inflate_step
  simp only
  split
  · exact inflate_indexed_frozen mem last inp c hinv hJ
  split
  · exact inflate_newname_frozen mem last inp c _ hinv hJ
  split
  · exact inflate_indname_frozen mem last inp c _ hinv hJ
  split
  · exact inflate_subst_newname_frozen mem last inp c hinv hJ
  · exact inflate_subst_indname_frozen mem last inp c hinv hJ

end Nghttp2

namespace Nghttp2

theorem not_mem_ws_indices_of_find (c : nghttp2_hd_context) (n : Nat)
    (h : (find_in_workingset_by_index c n).isNone = true) : n ∉ ws_indices c.ws := by
  intro hin
  unfold ws_indices at hin
  rw [List.mem_filterMap] at hin
  obtain ⟨cell, hc, hm⟩ := hin
  unfold find_in_workingset_by_index at h
  rw [Option.isNone_iff_eq_none, List.find?_eq_none] at h
  have := h cell hc
  cases cell with
  | indexed ent i =>
    simp only [Option.some.injEq] at hm
    subst hm
    simp [ws_entry_has_index] at this
  | indname ent v => simp at hm
  | newname nv => simp at hm
  | none => simp at hm

theorem deflate_incremental_add_frozen (c : nghttp2_hd_context) (nv : nghttp2_nv)
    (buf : List Nat) (off : Nat)
    (em : Except nghttp2_error (List Nat × Nat)) (hinv : hd_inv c) (hJ : ws_frozen_inv c) :
    frozen_kept c (match add_hd_table_incremental c nv with
      | (c1, none) => (c1, buf, off, Except.error nghttp2_error.NGHTTP2_ERR_HEADER_COMP)
      | (c1, some new_ent) =>
        match add_workingset c1 new_ent with
        | .error rv => (c1, buf, off, .error rv)
        | .ok c2 =>
          match em with
          | .error rv => (c2, buf, off, .error rv)
          | .ok (buf, offset) => (c2, buf, offset, .ok ())).1 := by
  generalize hq : add_hd_table_incremental c nv = r
  obtain ⟨c1, o⟩ := r
  cases o with
  | none =>
    rw [add_hd_table_incremental_none c c1 nv hq]
    exact frozen_kept_refl c hJ
  | some ent =>
    obtain ⟨f1, f2⟩ := frozen_after_incremental c c1 c1 nv ent hinv hJ hq rfl rfl rfl
    simp only
    split
    · exact f1
    · rename_i c2 ha
      have := f2 c2 ha
      split <;> exact this

theorem deflate_nv_literal_frozen (c : nghttp2_hd_context) (buf : List Nat) (off : Nat)
    (nv : nghttp2_nv) (hinv : hd_inv c) (hJ : ws_frozen_inv c) :
    frozen_kept c (deflate_nv_literal c buf off nv).1 := by
  unfold deflate_nv_literal
  split
  · rename_i ent hf
    simp only
    split
    · exact deflate_incremental_add_frozen c nv buf off _ hinv hJ
    · split
      · exact frozen_kept_refl c hJ
      · rename_i c1 ha
        have : frozen_kept c c1 := fun _ =>
          ws_frozen_inv_add_other c c1 (nghttp2_hd_ws_entry.indname _ _) hJ
            (by intro _ _ h; cases h)
            (by rw [add_workingset_indname_ok c c1 _ _ ha])
            (by rw [add_workingset_indname_ok c c1 _ _ ha])
        split <;> exact this
  · split
    · exact deflate_incremental_add_frozen c nv buf off _ hinv hJ
    · split
      · exact frozen_kept_refl c hJ
      · rename_i c1 ha
        have : frozen_kept c c1 := fun _ =>
          ws_frozen_inv_add_other c c1 (nghttp2_hd_ws_entry.newname _) hJ
            (by intro _ _ h; cases h)
            (by rw [add_workingset_newname_ok c c1 _ ha])
            (by rw [add_workingset_newname_ok c c1 _ ha])
        split <;> exact this

theorem deflate_nv_frozen (c : nghttp2_hd_context) (buf : List Nat) (off : Nat)
    (nv : nghttp2_nv) (hinv : hd_inv c) (hJ : ws_frozen_inv c) :
    frozen_kept c (deflate_nv c buf off nv).1 := by
  unfold deflate_nv
  split
  · exact frozen_kept_refl c hJ
  split
  · rename_i ent hf
    split
    · rename_i hnone
      split
      · exact frozen_kept_refl c hJ
      · rename_i c1 ha
        have hm := (find_in_hd_table_some c nv ent hf).1
        obtain ⟨-, t3, -, -⟩ := table_inv_mem c hinv.1 ent hm
        have : frozen_kept c c1 := fun _ =>
          (ws_frozen_inv_add c c1 ent _ hJ.1 hJ.2 rfl
            (not_mem_ws_indices_of_find c _ hnone) t3 ha).1
        split <;> exact this
    · exact deflate_nv_literal_frozen c buf off nv hinv hJ
  · exact deflate_nv_literal_frozen c buf off nv hinv hJ

theorem create_workingset_frozen (c : nghttp2_hd_context) (hinv : hd_inv c)
    (href : refset_inv c) : ws_frozen_inv (create_workingset c) := by
  have hidx : ws_indices (create_workingset c).ws =
      c.refset.map fun p => (heap_get c.heap p).index := create_workingset_indices c c.refset
  refine ⟨by rw [hidx]; exact href.2, ?_⟩
  rw [hidx]
  intro i hi
  obtain ⟨p, hp, rfl⟩ := List.mem_map.mp hi
  obtain ⟨a, b⟩ := href.1 p hp
  exact (hinv.1.2.1 p a b).1

/-- C30 (amended): at the start of a block, the working set that
`create_workingset` builds from the reference set holds at most one INDEXED cell
per frozen index (and the frozen indices are below the length of the table); the
first loop of the deflater only turns cells into tombstones; and every step of the
second loop of the deflater and of the loop of the inflater that leaves the
entries of the header table where they are (the table before the step is the
beginning of the table after it: the step evicts and replaces no entry) keeps this.
A literal with substitution indexing always replaces an entry, and an insertion
that evicts entries moves the ones left; after such a step two INDEXED cells can
have the same frozen index. -/
theorem frozen_index_unique :
    (∀ c : nghttp2_hd_context, hd_inv c → refset_inv c →
      ws_frozen_inv (create_workingset c) ∧ hd_inv (create_workingset c)) ∧
    (∀ (nva : List nghttp2_nv) (ws : List nghttp2_hd_ws_entry) (heap : List nghttp2_hd_entry)
      (buf : List Nat) (off : Nat),
      List.Sublist (ws_indices (deflate_toggle_loop nva ws heap buf off).1) (ws_indices ws)) ∧
    (∀ (c : nghttp2_hd_context) (buf : List Nat) (off : Nat) (nv : nghttp2_nv),
      hd_inv c → ws_frozen_inv c →
      hd_inv (deflate_nv c buf off nv).1 ∧
      (c.hd_table <+: (deflate_nv c buf off nv).1.hd_table →
        (ws_indices (deflate_nv c buf off nv).1.ws).Nodup ∧
        ∀ i ∈ ws_indices (deflate_nv c buf off nv).1.ws,
          i < (deflate_nv c buf off nv).1.hd_table.length)) ∧
    (∀ (mem : Nat → Nat) (last inp : Nat) (c : nghttp2_hd_context),
      hd_inv c → ws_frozen_inv c →
      hd_inv (inflate_step mem last inp c).ctx ∧
      (c.hd_table <+: (inflate_step mem last inp c).ctx.hd_table →
        (ws_indices (inflate_step mem last inp c).ctx.ws).Nodup ∧
        ∀ i ∈ ws_indices (inflate_step mem last inp c).ctx.ws,
          i < (inflate_step mem last inp c).ctx.hd_table.length)) ∧
    (∀ (c : nghttp2_hd_context) (nv : nghttp2_nv) (subindex : Nat) (c1 : nghttp2_hd_context)
      (new : Nat), hd_inv c → add_hd_table_subst c nv subindex = (c1, some new) →
      ¬ c.hd_table <+: c1.hd_table) := by
  refine ⟨fun c hinv href => ⟨create_workingset_frozen c hinv href,
      (hd_inv_create_workingset c hinv href).1⟩,
    ws_indices_toggle, fun c buf off nv hinv hJ => ⟨(deflate_nv_keeps c buf off nv hinv).1,
      deflate_nv_frozen c buf off nv hinv hJ⟩,
    fun mem last inp c hinv hJ => ⟨(inflate_step_keeps mem last inp c hinv).1,
      inflate_step_frozen mem last inp c hinv hJ⟩,
    fun c nv sub c1 new hinv h => subst_not_prefix c c1 nv sub new hinv h⟩

set_option maxRecDepth 20000 in
/-- An instance of `frozen_index_unique`: on the fresh context seeded with the
request table, after the indexed block `83` the literal block `44 01 78` with
incremental indexing (the name of entry 3, the value `x`) appends the entry 38; the
frozen indices of the working set are 3 and 38. -/
theorem frozen_index_unique_witness :
    ws_indices (inflate_step (memOf [0x83, 0x44, 0x01, 0x78]) 4 1
      (inflate_step (memOf [0x83, 0x44, 0x01, 0x78]) 4 0
        (create_workingset (nghttp2_hd_context_init .NGHTTP2_HD_SIDE_CLIENT))).ctx).ctx.ws =
      [3, 38] ∧
    (ws_indices (inflate_step (memOf [0x83, 0x44, 0x01, 0x78]) 4 1
      (inflate_step (memOf [0x83, 0x44, 0x01, 0x78]) 4 0
        (create_workingset (nghttp2_hd_context_init .NGHTTP2_HD_SIDE_CLIENT))).ctx).ctx.ws).Nodup :=
  have h0 := frozen_index_unique.1 (nghttp2_hd_context_init .NGHTTP2_HD_SIDE_CLIENT)
    (fresh_hd_inv .NGHTTP2_HD_SIDE_CLIENT).1 (fresh_hd_inv .NGHTTP2_HD_SIDE_CLIENT).2
  have h1 := frozen_index_unique.2.2.2.1 (memOf [0x83, 0x44, 0x01, 0x78]) 4 0
    (create_workingset (nghttp2_hd_context_init .NGHTTP2_HD_SIDE_CLIENT)) h0.2 h0.1
  have h2 := frozen_index_unique.2.2.2.1 (memOf [0x83, 0x44, 0x01, 0x78]) 4 1
    (inflate_step (memOf [0x83, 0x44, 0x01, 0x78]) 4 0
      (create_workingset (nghttp2_hd_context_init .NGHTTP2_HD_SIDE_CLIENT))).ctx
    h1.1 (h1.2 (by decide))
  ⟨by decide, (h2.2 (by decide)).1⟩

set_option maxRecDepth 20000 in
/-- The claim C30 fails after a literal with substitution indexing and after an
insertion that evicts.  In the inflater, the indexed block `83` and the literal
block `04 03 01 78` (substitution at index 3) leave two INDEXED cells with the
frozen index 3.  In the deflater, four headers of room 600 and a header of room
120 on the fresh request table: the last insertion evicts the entry 0, the new
entry gets the index 41, which the cell of the header before it has frozen. -/
theorem frozen_index_counterexample :
    ws_indices (nghttp2_hd_inflate_hd (nghttp2_hd_context_init .NGHTTP2_HD_SIDE_CLIENT)
      (memOf [0x83, 0x04, 0x03, 0x01, 0x78]) 0 5).1.ws = [3, 3] ∧
    (nghttp2_hd_inflate_hd (nghttp2_hd_context_init .NGHTTP2_HD_SIDE_CLIENT)
      (memOf [0x83, 0x04, 0x03, 0x01, 0x78]) 0 5).2 =
      .ok [{ name := cstr ":path", value := cstr "/" },
        { name := cstr ":path", value := cstr "x" }] ∧
    ws_indices (nghttp2_hd_deflate_hd (nghttp2_hd_deflate_init .NGHTTP2_HD_SIDE_CLIENT) [] 0
      [{ name := cstr "a", value := List.replicate 567 97 },
       { name := cstr "b", value := List.replicate 567 97 },
       { name := cstr "c", value := List.replicate 567 97 },
       { name := cstr "d", value := List.replicate 567 97 },
       { name := cstr "e", value := List.replicate 87 97 }]).1.ws = [38, 39, 40, 41, 41] := by
  refine ⟨by decide, by decide, ?_⟩
  decide

end Nghttp2

namespace Nghttp2

set_option maxRecDepth 20000 in
/-- An instance of `end_headers_refset`: the inflater seeded with the request
table has read the blocks `80 80` (entry 0 toggled on and off: a tombstone), `83`
(entry 3), `04 03 01 78` (a literal that replaces entry 3 by the new entry 38),
`60 01 61 01 62` (a NEWNAME cell) and `65 01 63` (an INDNAME cell).  The working set
then has the five cells tombstone, INDEXED of the evicted entry 3, INDEXED of
entry 38, NEWNAME and INDNAME; `nghttp2_hd_end_headers` succeeds, empties the working
set and leaves the reference set with the one entry 38. -/
theorem end_headers_refset_witness :
    (nghttp2_hd_inflate_hd (nghttp2_hd_context_init .NGHTTP2_HD_SIDE_CLIENT)
      (memOf [0x80, 0x80, 0x83, 0x04, 0x03, 0x01, 0x78, 0x60, 0x01, 0x61, 0x01, 0x62,
        0x65, 0x01, 0x63]) 0 15).1.ws.length = 5 ∧
    ∃ c2, nghttp2_hd_end_headers (nghttp2_hd_inflate_hd
        (nghttp2_hd_context_init .NGHTTP2_HD_SIDE_CLIENT)
        (memOf [0x80, 0x80, 0x83, 0x04, 0x03, 0x01, 0x78, 0x60, 0x01, 0x61, 0x01, 0x62,
          0x65, 0x01, 0x63]) 0 15).1 = .ok c2 ∧ c2.ws = [] ∧ c2.refset = [38] ∧
      c2.refset.Nodup :=
  have hk := inflate_hd_keeps (nghttp2_hd_context_init .NGHTTP2_HD_SIDE_CLIENT)
    (memOf [0x80, 0x80, 0x83, 0x04, 0x03, 0x01, 0x78, 0x60, 0x01, 0x61, 0x01, 0x62,
      0x65, 0x01, 0x63]) 0 15 (fresh_hd_inv .NGHTTP2_HD_SIDE_CLIENT).1
    (fresh_hd_inv .NGHTTP2_HD_SIDE_CLIENT).2
  have hr : ((nghttp2_hd_end_headers (nghttp2_hd_inflate_hd
        (nghttp2_hd_context_init .NGHTTP2_HD_SIDE_CLIENT)
        (memOf [0x80, 0x80, 0x83, 0x04, 0x03, 0x01, 0x78, 0x60, 0x01, 0x61, 0x01, 0x62,
          0x65, 0x01, 0x63]) 0 15).1).toOption.map fun c => c.refset) = some [38] := by
    decide
  ⟨by decide,
    (end_headers_refset _ hk.1.1 hk.1.2.1 (by decide)).imp fun c2 h =>
      ⟨h.1, h.2.1, by rw [h.1] at hr; simpa [Except.toOption] using hr, h.2.2.2.2.2.2.2.1⟩⟩

end Nghttp2

namespace Nghttp2

/-! ### The name comparator as an order -/

theorem lex_of_proper_pfx : ∀ (xs ys : List Nat), xs <+: ys → xs ≠ ys →
    List.Lex (· < ·) xs ys := by
  intro xs
  induction xs with
  | nil =>
    intro ys _ hne
    cases ys with
    | nil => exact absurd rfl hne
    | cons y ys => exact List.Lex.nil
  | cons x xs ih =>
    intro ys hp hne
    cases ys with
    | nil => exact absurd (List.prefix_nil.mp hp) (by simp)
    | cons y ys =>
      obtain ⟨t, ht⟩ := hp
      simp only [List.cons_append, List.cons.injEq] at ht
      obtain ⟨rfl, ht⟩ := ht
      exact List.Lex.cons (ih ys ⟨t, ht⟩ (fun h => hne (by rw [h])))

theorem name_compar_swap (a b : nghttp2_nv) :
    (nghttp2_nv_name_compar a b < 0 ↔ 0 < nghttp2_nv_name_compar b a) ∧
    (nghttp2_nv_name_compar a b = 0 ↔ nghttp2_nv_name_compar b a = 0) := by
  obtain ⟨h1, h2, -⟩ := name_compar_sign a.name b.name a.value b.value
  obtain ⟨-, g2, g3⟩ := name_compar_sign b.name a.name b.value a.value
  exact ⟨h1.trans g3.symm, h2.trans (eq_comm.trans g2.symm)⟩

/-- C39: `nghttp2_nv_name_compar` is the lexicographic order of the name bytes
(the bytes compared as unsigned numbers, a proper beginning of a name before the
name) and does not look at the values: it is negative exactly when the name of `a`
is before the name of `b`, zero exactly when the two names are equal, positive
exactly in the opposite case; its sign is antisymmetric; and it is transitive (for
"at most", "before" and "equal"), and any two pairs are comparable: a total
preorder for sorting. -/
theorem name_compar_total_preorder (a b c : nghttp2_nv) :
    (nghttp2_nv_name_compar a b < 0 ↔ List.Lex (· < ·) a.name b.name) ∧
    (0 < nghttp2_nv_name_compar a b ↔ List.Lex (· < ·) b.name a.name) ∧
    (nghttp2_nv_name_compar a b = 0 ↔ a.name = b.name) ∧
    (a.name <+: b.name → a.name ≠ b.name → nghttp2_nv_name_compar a b < 0) ∧
    (∀ va vb : List Nat, nghttp2_nv_name_compar ⟨a.name, va⟩ ⟨b.name, vb⟩ =
      nghttp2_nv_name_compar a b) ∧
    Int.sign (nghttp2_nv_name_compar a b) = - Int.sign (nghttp2_nv_name_compar b a) ∧
    (nghttp2_nv_name_compar a b ≤ 0 → nghttp2_nv_name_compar b c ≤ 0 →
      nghttp2_nv_name_compar a c ≤ 0) ∧
    (nghttp2_nv_name_compar a b < 0 → nghttp2_nv_name_compar b c < 0 →
      nghttp2_nv_name_compar a c < 0) ∧
    (nghttp2_nv_name_compar a b = 0 → nghttp2_nv_name_compar b c = 0 →
      nghttp2_nv_name_compar a c = 0) ∧
    (nghttp2_nv_name_compar a b ≤ 0 ∨ nghttp2_nv_name_compar b a ≤ 0) := by
  obtain ⟨h1, h2, h3⟩ := name_compar_sign a.name b.name a.value b.value
  obtain ⟨s1, s2⟩ := name_compar_swap a b
  refine ⟨h1, h3, h2, fun hp hne => h1.mpr (lex_of_proper_pfx _ _ hp hne), fun _ _ => rfl,
    ?_, nv_name_le_trans a b c, ?_, ?_, nv_name_le_total a b⟩
  · rcases lt_trichotomy (nghttp2_nv_name_compar a b) 0 with h | h | h
    · rw [Int.sign_eq_neg_one_of_neg h, Int.sign_eq_one_of_pos (s1.mp h)]
    · rw [h, s2.mp h]; rfl
    · have hb : nghttp2_nv_name_compar b a < 0 := (name_compar_swap b a).1.mpr h
      rw [Int.sign_eq_one_of_pos h, Int.sign_eq_neg_one_of_neg hb]; rfl
  · intro hab hbc
    have hac : nghttp2_nv_name_compar a c ≤ 0 :=
      nv_name_le_trans a b c (le_of_lt hab) (le_of_lt hbc)
    rcases lt_or_eq_of_le hac with h | h
    · exact h
    · exfalso
      have e1 : a.name = c.name := (name_compar_sign a.name c.name a.value c.value).2.1.mp h
      have hcb : List.Lex (· < ·) c.name b.name := by rw [← e1]; exact h1.mp hab
      have : 0 < nghttp2_nv_name_compar b c :=
        (name_compar_sign b.name c.name b.value c.value).2.2.mpr hcb
      omega
  · intro hab hbc
    have e1 : a.name = b.name := h2.mp hab
    have e2 : b.name = c.name := (name_compar_sign b.name c.name b.value c.value).2.1.mp hbc
    exact (name_compar_sign a.name c.name a.value c.value).2.1.mpr (e1.trans e2)

/-- An instance of `name_compar_total_preorder`: `ab` is before `abc` (a proper
beginning), `abc` is before `b`, so `ab` is before `b`; the values play no part. -/
theorem name_compar_total_preorder_witness :
    nghttp2_nv_name_compar ⟨cstr "ab", cstr "z"⟩ ⟨cstr "abc", cstr "y"⟩ < 0 ∧
    nghttp2_nv_name_compar ⟨cstr "abc", cstr "y"⟩ ⟨cstr "b", cstr "x"⟩ < 0 ∧
    nghttp2_nv_name_compar ⟨cstr "ab", cstr "z"⟩ ⟨cstr "b", cstr "x"⟩ < 0 :=
  ⟨by decide, by decide,
    (name_compar_total_preorder ⟨cstr "ab", cstr "z"⟩ ⟨cstr "abc", cstr "y"⟩
      ⟨cstr "b", cstr "x"⟩).2.2.2.2.2.2.2.1 (by decide) (by decide)⟩

/-! ### The reserved block length -/

/-- C40: for every `n` and every width of the prefix (5, 6, 7 and 8 among them),
`count_encoded_length` is the number of bytes that `encode_length` stores, which is
also the count that `encode_length` returns.  So the block length that
`emit_indexed_block`, `emit_indname_block` and `emit_newname_block` reserve is the
length of the block they write, the `assert` of `emit_indname_block` never fails,
and a call that succeeds moves the offset by the length of the block. -/
theorem count_is_encoded_length (n p : Nat) :
    count_encoded_length n p = (encode_length n p).1.length ∧
    (encode_length n p).2 = (encode_length n p).1.length ∧
    (∀ index : Nat, count_encoded_length index 7 = (indexed_block index).length) ∧
    (∀ (index : Nat) (value : List Nat) (inc : Bool),
      count_encoded_length (index + 1) 5 + count_encoded_length value.length 8 + value.length =
        (indname_block index value inc).length) ∧
    (∀ (nv : nghttp2_nv) (inc : Bool),
      1 + count_encoded_length nv.name.length 8 + nv.name.length +
        count_encoded_length nv.value.length 8 + nv.value.length =
        (newname_block nv inc).length) ∧
    (∀ (buf : List Nat) (off index : Nat) (value : List Nat) (inc : Bool),
      emit_indname_block buf off index value inc ≠ .error .ABORTED) ∧
    (∀ (buf : List Nat) (off index : Nat) (value : List Nat) (inc : Bool),
      emit_indname_block buf off index value inc =
        if off + (indname_block index value inc).length ≤ NGHTTP2_MAX_FRAME_LENGTH then
          .ok (write_bytes (nghttp2_reserve_buffer buf
            (off + (indname_block index value inc).length)) off
              (indname_block index value inc), off + (indname_block index value inc).length)
        else .error .NGHTTP2_ERR_HEADER_COMP) := by
  have hA : ∀ (buf : List Nat) (off index : Nat) (value : List Nat) (inc : Bool),
      emit_indname_block buf off index value inc =
        if off + (indname_block index value inc).length ≤ NGHTTP2_MAX_FRAME_LENGTH then
          .ok (write_bytes (nghttp2_reserve_buffer buf
            (off + (indname_block index value inc).length)) off
              (indname_block index value inc), off + (indname_block index value inc).length)
        else .error .NGHTTP2_ERR_HEADER_COMP := by
    intro buf off index value inc
    generalize hr : emit_indname_block buf off index value inc = r
    cases r with
    | ok v =>
      obtain ⟨buf1, off1⟩ := v
      obtain ⟨e1, e2, e3⟩ := emit_indname_block_ok buf off index value inc buf1 off1 hr
      rw [if_pos (by omega), e1, e3]
    | error rv =>
      unfold emit_indname_block ensure_write_buffer at hr
      simp only [count_encoded_length_eq, encode_length_snd] at hr
      rw [indname_block_length]
      by_cases hgt : (encode_length (index + 1) 5).1.length +
          (encode_length value.length 8).1.length + value.length + off >
          NGHTTP2_MAX_FRAME_LENGTH
      · simp only [hgt, if_true, Except.error.injEq] at hr
        rw [if_neg (by omega), ← hr]
      · exfalso
        have hassert : off + (encode_length (index + 1) 5).1.length +
            (encode_length value.length 8).1.length + value.length - off =
            (encode_length (index + 1) 5).1.length + (encode_length value.length 8).1.length +
              value.length := by omega
        simp only [hgt, if_false, hassert, ne_eq, not_true_eq_false] at hr
        cases hr
  refine ⟨count_encoded_length_eq n p, encode_length_snd n p, ?_, ?_, ?_, ?_, hA⟩
  · intro index
    rw [count_encoded_length_eq, indexed_block, or_head_length]
  · intro index value inc
    rw [count_encoded_length_eq, count_encoded_length_eq, indname_block_length]
  · intro nv inc
    rw [count_encoded_length_eq, count_encoded_length_eq, newname_block_length]
  · intro buf off index value inc h
    rw [hA] at h
    split at h <;> cases h

/-! ### The inflater on an empty input -/

/-- C37: on a context that is not poisoned, `nghttp2_hd_inflate_hd` on an input
of length 0 succeeds and returns the name/value pairs of the entries of the
reference set, one per entry, sorted by name; the header table, its entries and
`hd_table_bufsize` are left as they are (the reference set becomes the working
set of the block). -/
theorem inflate_empty_input (c : nghttp2_hd_context) (mem : Nat → Nat) (inp : Nat)
    (hbad : c.bad = false) :
    nghttp2_hd_inflate_hd c mem inp 0 =
      (create_workingset c, .ok (nghttp2_nv_array_sort (refset_nvs c))) ∧
    List.Perm (nghttp2_nv_array_sort (refset_nvs c)) (refset_nvs c) ∧
    (nghttp2_nv_array_sort (refset_nvs c)).Pairwise nv_name_le ∧
    (nghttp2_nv_array_sort (refset_nvs c)).length = c.refset.length ∧
    (create_workingset c).hd_table = c.hd_table ∧
    (create_workingset c).heap = c.heap ∧
    (create_workingset c).hd_table_bufsize = c.hd_table_bufsize ∧
    (create_workingset c).bad = false := by
  refine ⟨?_, List.perm_insertionSort _ _, nghttp2_nv_array_sort_sorted _, ?_, rfl, rfl, rfl,
    hbad⟩
  · unfold nghttp2_hd_inflate_hd
    rw [if_neg (by rw [hbad]; simp)]
    have hl : inflate_loop mem (inp + 0) 0 inp (create_workingset c) =
        (create_workingset c, .ok ()) := by
      simp [inflate_loop]
    simp only [hl]
    have : build_nv_array (create_workingset c) = nghttp2_nv_array_sort (refset_nvs c) := by
      unfold build_nv_array refset_nvs
      exact congrArg nghttp2_nv_array_sort
        (create_workingset_nvs (create_workingset c).heap c (fun _ => rfl) c.refset)
    rw [this]
  · show (List.insertionSort nv_name_le (refset_nvs c)).length = c.refset.length
    rw [List.length_insertionSort]
    unfold refset_nvs
    rw [List.length_map]

set_option maxRecDepth 20000 in
/-- An instance of `inflate_empty_input`: after a block that put `:path: /` and
`:method: GET` (entries 3 and 4 of the request table) into the reference set, the
empty block returns the two pairs, `:method` first. -/
theorem inflate_empty_input_witness :
    (nghttp2_hd_inflate_hd
      ((nghttp2_hd_end_headers (nghttp2_hd_inflate_hd
        (nghttp2_hd_context_init .NGHTTP2_HD_SIDE_CLIENT) (memOf [0x83, 0x84]) 0 2).1).toOption.getD
        (nghttp2_hd_context_init .NGHTTP2_HD_SIDE_CLIENT)) (memOf []) 0 0).2 =
      .ok [⟨cstr ":method", cstr "GET"⟩, ⟨cstr ":path", cstr "/"⟩] :=
  ((inflate_empty_input
      ((nghttp2_hd_end_headers (nghttp2_hd_inflate_hd
        (nghttp2_hd_context_init .NGHTTP2_HD_SIDE_CLIENT) (memOf [0x83, 0x84]) 0 2).1).toOption.getD
        (nghttp2_hd_context_init .NGHTTP2_HD_SIDE_CLIENT)) (memOf []) 0 (by decide)).1 ▸
    (by decide :
      (Except.ok (nghttp2_nv_array_sort (refset_nvs
        ((nghttp2_hd_end_headers (nghttp2_hd_inflate_hd
          (nghttp2_hd_context_init .NGHTTP2_HD_SIDE_CLIENT) (memOf [0x83, 0x84]) 0 2).1).toOption.getD
          (nghttp2_hd_context_init .NGHTTP2_HD_SIDE_CLIENT)))) :
        Except nghttp2_error (List nghttp2_nv)) =
      .ok [⟨cstr ":method", cstr "GET"⟩, ⟨cstr ":path", cstr "/"⟩]))

end Nghttp2

namespace Nghttp2

/-! ### The frame limit in the deflater -/

/-- What a piece of the deflater does to the offset: it does not move back, and
when it has moved it is within the frame limit. -/
theorem offset_step_trans (off off1 off2 : Nat)
    (h1 : off ≤ off1 ∧ (off < off1 → off1 ≤ NGHTTP2_MAX_FRAME_LENGTH))
    (h2 : off1 ≤ off2 ∧ (off1 < off2 → off2 ≤ NGHTTP2_MAX_FRAME_LENGTH)) :
    off ≤ off2 ∧ (off < off2 → off2 ≤ NGHTTP2_MAX_FRAME_LENGTH) := by
  refine ⟨by omega, fun h => ?_⟩
  by_cases h3 : off1 < off2
  · exact h2.2 h3
  · have : off1 = off2 := by omega
    subst this
    exact h1.2 h

theorem emit_tail_offset (c2 : nghttp2_hd_context) (buf : List Nat) (off : Nat)
    (em : Except nghttp2_error (List Nat × Nat))
    (hem : ∀ b o, em = .ok (b, o) → off ≤ o ∧ o ≤ NGHTTP2_MAX_FRAME_LENGTH) :
    (off ≤ (match em with
        | .error rv => (c2, buf, off, Except.error rv)
        | .ok (b, o) => (c2, b, o, Except.ok ())).2.2.1 ∧
      (off < (match em with
        | .error rv => (c2, buf, off, Except.error rv)
        | .ok (b, o) => (c2, b, o, Except.ok ())).2.2.1 →
        (match em with
        | .error rv => (c2, buf, off, Except.error rv)
        | .ok (b, o) => (c2, b, o, Except.ok ())).2.2.1 ≤ NGHTTP2_MAX_FRAME_LENGTH)) ∧
    ∀ rv, (match em with
        | .error rv => (c2, buf, off, Except.error rv)
        | .ok (b, o) => (c2, b, o, Except.ok ())).2.2.2 = .error rv →
      (match em with
        | .error rv => (c2, buf, off, Except.error rv)
        | .ok (b, o) => (c2, b, o, Except.ok ())).2.1 = buf ∧
      (match em with
        | .error rv => (c2, buf, off, Except.error rv)
        | .ok (b, o) => (c2, b, o, Except.ok ())).2.2.1 = off := by
  cases em with
  | error rv => exact ⟨⟨le_refl _, fun h => absurd h (lt_irrefl _)⟩, fun _ _ => ⟨rfl, rfl⟩⟩
  | ok v =>
    obtain ⟨b, o⟩ := v
    obtain ⟨h1, h2⟩ := hem b o rfl
    exact ⟨⟨h1, fun _ => h2⟩, fun rv h => by cases h⟩

theorem emit_indexed_offset (buf : List Nat) (off index : Nat) :
    ∀ b o, emit_indexed_block buf off index = .ok (b, o) →
      off ≤ o ∧ o ≤ NGHTTP2_MAX_FRAME_LENGTH := by
  intro b o h
  obtain ⟨h1, h2, -⟩ := emit_indexed_block_ok buf off index b o h
  exact ⟨by omega, h2⟩

theorem emit_indname_offset (buf : List Nat) (off index : Nat) (value : List Nat) (inc : Bool) :
    ∀ b o, emit_indname_block buf off index value inc = .ok (b, o) →
      off ≤ o ∧ o ≤ NGHTTP2_MAX_FRAME_LENGTH := by
  intro b o h
  obtain ⟨h1, h2, -⟩ := emit_indname_block_ok buf off index value inc b o h
  exact ⟨by omega, h2⟩

theorem emit_newname_offset (buf : List Nat) (off : Nat) (nv : nghttp2_nv) (inc : Bool) :
    ∀ b o, emit_newname_block buf off nv inc = .ok (b, o) →
      off ≤ o ∧ o ≤ NGHTTP2_MAX_FRAME_LENGTH := by
  intro b o h
  obtain ⟨h1, h2, -⟩ := emit_newname_block_ok buf off nv inc b o h
  exact ⟨by omega, h2⟩

theorem offset_kept (c : nghttp2_hd_context) (buf : List Nat) (off : Nat)
    (r : Except nghttp2_error Unit) :
    (off ≤ (c, buf, off, r).2.2.1 ∧
      (off < (c, buf, off, r).2.2.1 → (c, buf, off, r).2.2.1 ≤ NGHTTP2_MAX_FRAME_LENGTH)) ∧
    ∀ rv, (c, buf, off, r).2.2.2 = .error rv →
      (c, buf, off, r).2.1 = buf ∧ (c, buf, off, r).2.2.1 = off :=
  ⟨⟨le_refl _, fun h => absurd h (lt_irrefl _)⟩, fun _ _ => ⟨rfl, rfl⟩⟩

theorem deflate_nv_literal_offset (c : nghttp2_hd_context) (buf : List Nat) (off : Nat)
    (nv : nghttp2_nv) :
    (off ≤ (deflate_nv_literal c buf off nv).2.2.1 ∧
      (off < (deflate_nv_literal c buf off nv).2.2.1 →
        (deflate_nv_literal c buf off nv).2.2.1 ≤ NGHTTP2_MAX_FRAME_LENGTH)) ∧
    ∀ rv, (deflate_nv_literal c buf off nv).2.2.2 = .error rv →
      (deflate_nv_literal c buf off nv).2.1 = buf ∧
      (deflate_nv_literal c buf off nv).2.2.1 = off := by
  unfold deflate_nv_literal
  split
  · simp only
    split
    · split
      · exact offset_kept _ _ _ _
      · split
        · exact offset_kept _ _ _ _
        · exact emit_tail_offset _ buf off _ (emit_indname_offset _ _ _ _ _)
    · split
      · exact offset_kept _ _ _ _
      · exact emit_tail_offset _ buf off _ (emit_indname_offset _ _ _ _ _)
  · split
    · split
      · exact offset_kept _ _ _ _
      · split
        · exact offset_kept _ _ _ _
        · exact emit_tail_offset _ buf off _ (emit_newname_offset _ _ _ _)
    · split
      · exact offset_kept _ _ _ _
      · exact emit_tail_offset _ buf off _ (emit_newname_offset _ _ _ _)

theorem deflate_nv_offset (c : nghttp2_hd_context) (buf : List Nat) (off : Nat)
    (nv : nghttp2_nv) :
    (off ≤ (deflate_nv c buf off nv).2.2.1 ∧
      (off < (deflate_nv c buf off nv).2.2.1 →
        (deflate_nv c buf off nv).2.2.1 ≤ NGHTTP2_MAX_FRAME_LENGTH)) ∧
    ∀ rv, (deflate_nv c buf off nv).2.2.2 = .error rv →
      (deflate_nv c buf off nv).2.1 = buf ∧ (deflate_nv c buf off nv).2.2.1 = off := by
  unfold deflate_nv
  split
  · exact offset_kept _ _ _ _
  split
  · split
    · split
      · exact offset_kept _ _ _ _
      · exact emit_tail_offset _ buf off _ (emit_indexed_offset _ _ _)
    · exact deflate_nv_literal_offset c buf off nv
  · exact deflate_nv_literal_offset c buf off nv

theorem deflate_nv_loop_offset : ∀ (nva : List nghttp2_nv) (c : nghttp2_hd_context)
    (buf : List Nat) (off : Nat),
    off ≤ (deflate_nv_loop nva c buf off).2.2.1 ∧
      (off < (deflate_nv_loop nva c buf off).2.2.1 →
        (deflate_nv_loop nva c buf off).2.2.1 ≤ NGHTTP2_MAX_FRAME_LENGTH) := by
  intro nva
  induction nva with
  | nil => intro c buf off; exact ⟨le_refl _, fun h => absurd h (lt_irrefl _)⟩
  | cons nv rest ih =>
    intro c buf off
    have h1 := (deflate_nv_offset c buf off nv).1
    unfold deflate_nv_loop
    generalize deflate_nv c buf off nv = r at h1
    obtain ⟨c1, b1, o1, e⟩ := r
    cases e with
    | error rv => exact h1
    | ok u => exact offset_step_trans off o1 _ h1 (ih c1 b1 o1)

theorem deflate_toggle_loop_offset (nva : List nghttp2_nv) :
    ∀ (ws : List nghttp2_hd_ws_entry) (heap : List nghttp2_hd_entry) (buf : List Nat)
      (off : Nat),
    off ≤ (deflate_toggle_loop nva ws heap buf off).2.2.2.1 ∧
      (off < (deflate_toggle_loop nva ws heap buf off).2.2.2.1 →
        (deflate_toggle_loop nva ws heap buf off).2.2.2.1 ≤ NGHTTP2_MAX_FRAME_LENGTH) := by
  intro ws
  induction ws with
  | nil => intro heap buf off; exact ⟨le_refl _, fun h => absurd h (lt_irrefl _)⟩
  | cons cell rest ih =>
    intro heap buf off
    cases cell with
    | indexed ent index =>
      unfold deflate_toggle_loop
      split
      · exact ih heap buf off
      · generalize he : emit_indexed_block buf off index = e
        cases e with
        | error rv => exact ⟨le_refl _, fun h => absurd h (lt_irrefl _)⟩
        | ok v =>
          obtain ⟨b, o⟩ := v
          have h1 := emit_indexed_offset buf off index b o he
          exact offset_step_trans off o _ ⟨h1.1, fun _ => h1.2⟩ (ih (ref_dec heap ent) b o)
    | indname ent v => exact ⟨le_refl _, fun h => absurd h (lt_irrefl _)⟩
    | newname nv => exact ⟨le_refl _, fun h => absurd h (lt_irrefl _)⟩
    | none => exact ⟨le_refl _, fun h => absurd h (lt_irrefl _)⟩

theorem deflate_hd_offset (d : nghttp2_hd_context) (buf : List Nat) (nv_offset : Nat)
    (nva : List nghttp2_nv) (d1 : nghttp2_hd_context) (buf1 : List Nat) (r : Nat)
    (h : nghttp2_hd_deflate_hd d buf nv_offset nva = (d1, buf1, .ok r)) :
    0 < r → nv_offset + r ≤ NGHTTP2_MAX_FRAME_LENGTH := by
  unfold nghttp2_hd_deflate_hd at h
  split at h
  · cases h
  · simp only at h
    have t := deflate_toggle_loop_offset nva (create_workingset d).ws (create_workingset d).heap
      buf nv_offset
    generalize deflate_toggle_loop nva (create_workingset d).ws (create_workingset d).heap
      buf nv_offset = r1 at h t
    obtain ⟨ws, heap, b1, o1, e1⟩ := r1
    cases e1 with
    | error rv => cases h
    | ok u =>
      simp only at h t
      have t2 := deflate_nv_loop_offset nva { create_workingset d with ws := ws, heap := heap }
        b1 o1
      generalize deflate_nv_loop nva { create_workingset d with ws := ws, heap := heap }
        b1 o1 = r2 at h t2
      obtain ⟨c2, b2, o2, e2⟩ := r2
      cases e2 with
      | error rv => cases h
      | ok u =>
        simp only [Prod.mk.injEq, Except.ok.injEq] at h t2
        obtain ⟨-, -, hr⟩ := h
        have t3 := offset_step_trans nv_offset o1 o2 t t2
        intro hpos
        have := t3.2 (by omega)
        omega

theorem deflate_hd_error_bad (d : nghttp2_hd_context) (buf : List Nat) (nv_offset : Nat)
    (nva : List nghttp2_nv) (d1 : nghttp2_hd_context) (buf1 : List Nat) (rv : nghttp2_error)
    (h : nghttp2_hd_deflate_hd d buf nv_offset nva = (d1, buf1, .error rv)) :
    d1.bad = true := by
  unfold nghttp2_hd_deflate_hd at h
  split at h
  · rename_i hb
    simp only [Prod.mk.injEq] at h
    rw [← h.1]; exact hb
  · simp only at h
    generalize deflate_toggle_loop nva (create_workingset d).ws (create_workingset d).heap
      buf nv_offset = r1 at h
    obtain ⟨ws, heap, b1, o1, e1⟩ := r1
    cases e1 with
    | error rv1 =>
      simp only [Prod.mk.injEq] at h
      rw [← h.1]
    | ok u =>
      simp only at h
      generalize deflate_nv_loop nva { create_workingset d with ws := ws, heap := heap }
        b1 o1 = r2 at h
      obtain ⟨c2, b2, o2, e2⟩ := r2
      cases e2 with
      | error rv2 =>
        simp only [Prod.mk.injEq] at h
        rw [← h.1]
      | ok u => simp at h

theorem emit_indexed_block_over (buf : List Nat) (off index : Nat)
    (h : off + (indexed_block index).length > NGHTTP2_MAX_FRAME_LENGTH) :
    emit_indexed_block buf off index = .error .NGHTTP2_ERR_HEADER_COMP := by
  have hlen : (indexed_block index).length = (encode_length index 7).1.length := by
    unfold indexed_block; rw [or_head_length]
  unfold emit_indexed_block ensure_write_buffer
  simp only [count_encoded_length_eq]
  rw [if_pos (by omega)]

theorem emit_indname_block_over (buf : List Nat) (off index : Nat) (value : List Nat)
    (inc : Bool) (h : off + (indname_block index value inc).length > NGHTTP2_MAX_FRAME_LENGTH) :
    emit_indname_block buf off index value inc = .error .NGHTTP2_ERR_HEADER_COMP := by
  rw [indname_block_length] at h
  unfold emit_indname_block ensure_write_buffer
  simp only [count_encoded_length_eq]
  rw [if_pos (by omega)]

theorem emit_newname_block_over (buf : List Nat) (off : Nat) (nv : nghttp2_nv)
    (inc : Bool) (h : off + (newname_block nv inc).length > NGHTTP2_MAX_FRAME_LENGTH) :
    emit_newname_block buf off nv inc = .error .NGHTTP2_ERR_HEADER_COMP := by
  rw [newname_block_length] at h
  unfold emit_newname_block ensure_write_buffer
  simp only [count_encoded_length_eq]
  rw [if_pos (by omega)]

/-- C38 (amended): whenever `nghttp2_hd_deflate_hd` succeeds with the result `r`
and has written a byte (`0 < r`) or was given an offset within the frame limit,
`nv_offset + r` is at most `NGHTTP2_MAX_FRAME_LENGTH` (16384); a call that writes
nothing succeeds whatever `nv_offset` is.  A block that would end beyond 16384 is
not written: the emit function returns `NGHTTP2_ERR_HEADER_COMP`, the step of the
deflater that called it leaves the buffer and the offset as they are, and a call
of `nghttp2_hd_deflate_hd` that returns an error leaves the context poisoned. -/
theorem deflate_frame_limit (d : nghttp2_hd_context) (buf : List Nat) (nv_offset : Nat)
    (nva : List nghttp2_nv) :
    NGHTTP2_MAX_FRAME_LENGTH = 16384 ∧
    (∀ d1 buf1 r, nghttp2_hd_deflate_hd d buf nv_offset nva = (d1, buf1, .ok r) →
      (0 < r ∨ nv_offset ≤ NGHTTP2_MAX_FRAME_LENGTH) →
      nv_offset + r ≤ NGHTTP2_MAX_FRAME_LENGTH) ∧
    (∀ d1 buf1 rv, nghttp2_hd_deflate_hd d buf nv_offset nva = (d1, buf1, .error rv) →
      d1.bad = true) ∧
    (∀ (b : List Nat) (off index : Nat),
      off + (indexed_block index).length > NGHTTP2_MAX_FRAME_LENGTH →
      emit_indexed_block b off index = .error .NGHTTP2_ERR_HEADER_COMP) ∧
    (∀ (b : List Nat) (off index : Nat) (value : List Nat) (inc : Bool),
      off + (indname_block index value inc).length > NGHTTP2_MAX_FRAME_LENGTH →
      emit_indname_block b off index value inc = .error .NGHTTP2_ERR_HEADER_COMP) ∧
    (∀ (b : List Nat) (off : Nat) (nv : nghttp2_nv) (inc : Bool),
      off + (newname_block nv inc).length > NGHTTP2_MAX_FRAME_LENGTH →
      emit_newname_block b off nv inc = .error .NGHTTP2_ERR_HEADER_COMP) ∧
    (∀ (c : nghttp2_hd_context) (b : List Nat) (off : Nat) (nv : nghttp2_nv)
      (rv : nghttp2_error), (deflate_nv c b off nv).2.2.2 = .error rv →
      (deflate_nv c b off nv).2.1 = b ∧ (deflate_nv c b off nv).2.2.1 = off) ∧
    (∀ (ws : List nghttp2_hd_ws_entry) (heap : List nghttp2_hd_entry) (b : List Nat)
      (off : Nat),
      off < (deflate_toggle_loop nva ws heap b off).2.2.2.1 →
      (deflate_toggle_loop nva ws heap b off).2.2.2.1 ≤ NGHTTP2_MAX_FRAME_LENGTH) ∧
    (∀ (c : nghttp2_hd_context) (b : List Nat) (off : Nat),
      off < (deflate_nv_loop nva c b off).2.2.1 →
      (deflate_nv_loop nva c b off).2.2.1 ≤ NGHTTP2_MAX_FRAME_LENGTH) := by
  refine ⟨rfl, ?_, deflate_hd_error_bad d buf nv_offset nva, emit_indexed_block_over,
    emit_indname_block_over, emit_newname_block_over,
    fun c b off nv => (deflate_nv_offset c b off nv).2,
    fun ws heap b off => (deflate_toggle_loop_offset nva ws heap b off).2,
    fun c b off => (deflate_nv_loop_offset nva c b off).2⟩
  intro d1 buf1 r h hor
  by_cases hr : 0 < r
  · exact deflate_hd_offset d buf nv_offset nva d1 buf1 r h hr
  · rcases hor with h1 | h1
    · exact absurd h1 hr
    · omega

set_option maxRecDepth 20000 in
/-- An instance of `deflate_frame_limit`: on the fresh deflater of the client,
the header `x-custom: v` at the offset 8 takes 12 bytes (8 + 12 is within the
limit); at the offset 16380 the block would end at 16392, the call returns
`NGHTTP2_ERR_HEADER_COMP`, the buffer is left and the context is poisoned. -/
theorem deflate_frame_limit_witness :
    (nghttp2_hd_deflate_hd (nghttp2_hd_deflate_init .NGHTTP2_HD_SIDE_CLIENT) [] 8
      [⟨cstr "x-custom", cstr "v"⟩]).2.2 = .ok 12 ∧
    8 + 12 ≤ NGHTTP2_MAX_FRAME_LENGTH ∧
    (nghttp2_hd_deflate_hd (nghttp2_hd_deflate_init .NGHTTP2_HD_SIDE_CLIENT) [] 16380
      [⟨cstr "x-custom", cstr "v"⟩]).2 = ([], .error .NGHTTP2_ERR_HEADER_COMP) ∧
    (nghttp2_hd_deflate_hd (nghttp2_hd_deflate_init .NGHTTP2_HD_SIDE_CLIENT) [] 16380
      [⟨cstr "x-custom", cstr "v"⟩]).1.bad = true :=
  have h1 : nghttp2_hd_deflate_hd (nghttp2_hd_deflate_init .NGHTTP2_HD_SIDE_CLIENT) [] 8
      [⟨cstr "x-custom", cstr "v"⟩] =
      ((nghttp2_hd_deflate_hd (nghttp2_hd_deflate_init .NGHTTP2_HD_SIDE_CLIENT) [] 8
        [⟨cstr "x-custom", cstr "v"⟩]).1,
       (nghttp2_hd_deflate_hd (nghttp2_hd_deflate_init .NGHTTP2_HD_SIDE_CLIENT) [] 8
        [⟨cstr "x-custom", cstr "v"⟩]).2.1, .ok 12) :=
    Prod.ext rfl (Prod.ext rfl (by decide))
  have h2 : nghttp2_hd_deflate_hd (nghttp2_hd_deflate_init .NGHTTP2_HD_SIDE_CLIENT) [] 16380
      [⟨cstr "x-custom", cstr "v"⟩] =
      ((nghttp2_hd_deflate_hd (nghttp2_hd_deflate_init .NGHTTP2_HD_SIDE_CLIENT) [] 16380
        [⟨cstr "x-custom", cstr "v"⟩]).1, [], .error .NGHTTP2_ERR_HEADER_COMP) :=
    Prod.ext rfl (by decide)
  ⟨by decide,
    (deflate_frame_limit (nghttp2_hd_deflate_init .NGHTTP2_HD_SIDE_CLIENT) [] 8
      [⟨cstr "x-custom", cstr "v"⟩]).2.1 _ _ 12 h1 (Or.inl (by decide)),
    by decide,
    (deflate_frame_limit (nghttp2_hd_deflate_init .NGHTTP2_HD_SIDE_CLIENT) [] 16380
      [⟨cstr "x-custom", cstr "v"⟩]).2.2.1 _ _ _ h2⟩

/-- The claim C38 fails for an offset beyond the limit when nothing is written:
with no header and an empty reference set the call at `nv_offset = 16385` succeeds
with the result 0, and 16385 + 0 is above 16384. -/
theorem deflate_frame_limit_counterexample :
    (nghttp2_hd_deflate_hd (nghttp2_hd_deflate_init .NGHTTP2_HD_SIDE_CLIENT) [] 16385 []).2.2 =
      .ok 0 ∧
    ¬ (16385 + 0 ≤ NGHTTP2_MAX_FRAME_LENGTH) := by
  decide

end Nghttp2

namespace Nghttp2

/-! ### The two insert primitives -/

theorem add_hd_table_incremental_eq_none_iff (c : nghttp2_hd_context) (nv : nghttp2_nv) :
    (add_hd_table_incremental c nv).2 = none ↔
      c.hd_table.length = c.hd_table_capacity ∨
        entry_room nv.name.length nv.value.length > NGHTTP2_HD_MAX_BUFFER_SIZE := by
  unfold add_hd_table_incremental
  simp only
  split
  · rename_i h; simp [h]
  · rename_i h; simp [h]

theorem add_hd_table_subst_eq_none_iff (c : nghttp2_hd_context) (nv : nghttp2_nv)
    (subindex : Nat) :
    (add_hd_table_subst c nv subindex).2 = none ↔
      entry_room nv.name.length nv.value.length > NGHTTP2_HD_MAX_BUFFER_SIZE ∨
        c.hd_table.length ≤ subindex := by
  unfold add_hd_table_subst
  simp only
  split
  · rename_i h; simp [h]
  · rename_i h; simp [h]

/-- C31 (amended): `add_hd_table_incremental` and `add_hd_table_subst` return
`NULL` and leave the context (the header table and `hd_table_bufsize` among the
rest) as it is exactly in these cases: `entry_room` = 32 + name length + value
length is above `NGHTTP2_HD_MAX_BUFFER_SIZE` (4096), for both; the table is at its
capacity, for `add_hd_table_incremental`; `subindex` is not below the length of the
table, for `add_hd_table_subst`.  `NGHTTP2_HD_MAX_ENTRY_SIZE` (3072) is not tested
by the two functions. -/
theorem add_hd_table_rejects (c : nghttp2_hd_context) (nv : nghttp2_nv) (subindex : Nat) :
    NGHTTP2_HD_MAX_BUFFER_SIZE = 4096 ∧
    entry_room nv.name.length nv.value.length = 32 + nv.name.length + nv.value.length ∧
    ((add_hd_table_incremental c nv).2 = none ↔
      c.hd_table.length = c.hd_table_capacity ∨
        entry_room nv.name.length nv.value.length > NGHTTP2_HD_MAX_BUFFER_SIZE) ∧
    ((add_hd_table_subst c nv subindex).2 = none ↔
      entry_room nv.name.length nv.value.length > NGHTTP2_HD_MAX_BUFFER_SIZE ∨
        c.hd_table.length ≤ subindex) ∧
    ((add_hd_table_incremental c nv).2 = none → (add_hd_table_incremental c nv).1 = c) ∧
    ((add_hd_table_subst c nv subindex).2 = none → (add_hd_table_subst c nv subindex).1 = c) :=
  ⟨rfl, rfl, add_hd_table_incremental_eq_none_iff c nv,
    add_hd_table_subst_eq_none_iff c nv subindex,
    fun h => add_hd_table_incremental_none c _ nv (Prod.ext rfl h),
    fun h => add_hd_table_subst_none c _ nv subindex (Prod.ext rfl h)⟩

/-- An instance of `add_hd_table_rejects`: on the fresh context seeded with the
request table, the pair `x` with a value of 4064 bytes has the room 4097; both
functions return `NULL` and leave the context. -/
theorem add_hd_table_rejects_witness :
    add_hd_table_incremental (nghttp2_hd_context_init .NGHTTP2_HD_SIDE_CLIENT)
      ⟨cstr "x", List.replicate 4064 97⟩ =
      (nghttp2_hd_context_init .NGHTTP2_HD_SIDE_CLIENT, none) ∧
    add_hd_table_subst (nghttp2_hd_context_init .NGHTTP2_HD_SIDE_CLIENT)
      ⟨cstr "x", List.replicate 4064 97⟩ 0 =
      (nghttp2_hd_context_init .NGHTTP2_HD_SIDE_CLIENT, none) :=
  have hroom : entry_room (cstr "x").length (List.replicate 4064 97).length >
      NGHTTP2_HD_MAX_BUFFER_SIZE := by
    rw [List.length_replicate]; decide
  have h := add_hd_table_rejects (nghttp2_hd_context_init .NGHTTP2_HD_SIDE_CLIENT)
    ⟨cstr "x", List.replicate 4064 97⟩ 0
  have h1 := h.2.2.1.mpr (Or.inr hroom)
  have h2 := h.2.2.2.1.mpr (Or.inl hroom)
  ⟨Prod.ext (h.2.2.2.2.1 h1) h1, Prod.ext (h.2.2.2.2.2 h2) h2⟩

/-- The claim C31 fails between the two limits: on the fresh context seeded with
the request table, the pair `x` with a value of 3467 bytes has the room 3500,
above `NGHTTP2_HD_MAX_ENTRY_SIZE` (3072); both functions take it and return the
new entry (the entry 38 of the arena), which is then in the header table. -/
theorem add_hd_table_entry_size_counterexample :
    entry_room (cstr "x").length (List.replicate 3467 97).length = 3500 ∧
    3500 > NGHTTP2_HD_MAX_ENTRY_SIZE ∧
    (add_hd_table_incremental (nghttp2_hd_context_init .NGHTTP2_HD_SIDE_CLIENT)
      ⟨cstr "x", List.replicate 3467 97⟩).2 = some 38 ∧
    38 ∈ (add_hd_table_incremental (nghttp2_hd_context_init .NGHTTP2_HD_SIDE_CLIENT)
      ⟨cstr "x", List.replicate 3467 97⟩).1.hd_table ∧
    38 ∉ (nghttp2_hd_context_init .NGHTTP2_HD_SIDE_CLIENT).hd_table ∧
    (add_hd_table_subst (nghttp2_hd_context_init .NGHTTP2_HD_SIDE_CLIENT)
      ⟨cstr "x", List.replicate 3467 97⟩ 0).2 = some 38 ∧
    38 ∈ (add_hd_table_subst (nghttp2_hd_context_init .NGHTTP2_HD_SIDE_CLIENT)
      ⟨cstr "x", List.replicate 3467 97⟩ 0).1.hd_table := by
  have hroom : entry_room (cstr "x").length (List.replicate 3467 97).length = 3500 := by
    rw [List.length_replicate]; decide
  have hlen : (nghttp2_hd_context_init .NGHTTP2_HD_SIDE_CLIENT).heap.length = 38 := by decide
  have htl : (nghttp2_hd_context_init .NGHTTP2_HD_SIDE_CLIENT).hd_table.length = 38 := by
    decide
  have hcap : (nghttp2_hd_context_init .NGHTTP2_HD_SIDE_CLIENT).hd_table_capacity = 128 := by
    decide
  have hinv := (fresh_hd_inv .NGHTTP2_HD_SIDE_CLIENT).1
  have hi : (add_hd_table_incremental (nghttp2_hd_context_init .NGHTTP2_HD_SIDE_CLIENT)
      ⟨cstr "x", List.replicate 3467 97⟩).2 ≠ none := by
    rw [Ne, add_hd_table_incremental_eq_none_iff]
    show ¬ (_ ∨ entry_room (cstr "x").length (List.replicate 3467 97).length > _)
    rw [hroom, htl, hcap]; decide
  have hs : (add_hd_table_subst (nghttp2_hd_context_init .NGHTTP2_HD_SIDE_CLIENT)
      ⟨cstr "x", List.replicate 3467 97⟩ 0).2 ≠ none := by
    rw [Ne, add_hd_table_subst_eq_none_iff]
    show ¬ (entry_room (cstr "x").length (List.replicate 3467 97).length > _ ∨ _)
    rw [hroom, htl]; decide
  obtain ⟨n1, hn1⟩ := Option.ne_none_iff_exists'.mp hi
  obtain ⟨n2, hn2⟩ := Option.ne_none_iff_exists'.mp hs
  obtain ⟨-, -, -, -, -, k1⟩ := add_hd_table_incremental_inv
    (nghttp2_hd_context_init .NGHTTP2_HD_SIDE_CLIENT) ⟨cstr "x", List.replicate 3467 97⟩ hinv
  obtain ⟨e1, -, -, -, k, -, ht, -⟩ := k1 n1 hn1
  obtain ⟨-, -, -, -, -, k2⟩ := add_hd_table_subst_inv
    (nghttp2_hd_context_init .NGHTTP2_HD_SIDE_CLIENT) ⟨cstr "x", List.replicate 3467 97⟩ 0 hinv
  obtain ⟨e2, -, -, -, j, -, hj1, hj2, -⟩ := k2 n2 hn2
  rw [hlen] at e1 e2
  subst e1; subst e2
  refine ⟨hroom, by decide, hn1, ?_, by decide, hn2, ?_⟩
  · rw [ht]; simp
  · by_cases hj : j ≤ 0
    · rw [(hj1 hj).1]
      have hj0 : j = 0 := by omega
      subst hj0
      exact List.mem_iff_getElem.mpr ⟨0, by simp [htl], by simp⟩
    · rw [(hj2 (by omega)).1]; simp

end Nghttp2

namespace Nghttp2

theorem sum_take_add_drop (l : List Nat) (m : Nat) :
    (l.take m).sum + (l.drop m).sum = l.sum := by
  rw [← List.sum_append, List.take_append_drop]

theorem evicted_not_in_drop (l : List Nat) (hnd : l.Nodup) (j k : Nat) (hj : j < k)
    (hk : j < l.length) : l.getD j 0 ∉ l.drop k := by
  intro hm
  obtain ⟨i, hi, he⟩ := List.getElem_of_mem hm
  rw [List.getElem_drop] at he
  rw [List.length_drop] at hi
  rw [List.getD_eq_getElem _ _ hk] at he
  have := (List.Nodup.getElem_inj_iff hnd).mp he
  omega

/-- C33: when `add_hd_table_incremental` succeeds on a context whose accounting
is right, it evicts the `k` oldest entries (the positions 0 to `k - 1`), where `k`
is the least number for which the room of the entries left plus the room of the
new pair, which is `hd_table_bufsize` with the new room added and the rooms of the
evicted entries taken off, is at most `NGHTTP2_HD_MAX_BUFFER_SIZE` (all entries at
most).  The entries left keep their order and are re-indexed from 0, the evicted
entries get the index `INVALID`, and the new entry, a fresh allocation that holds
the name and the value of the pair, is appended with the index "new length - 1";
`hd_table_bufsize` is the room of what the table holds. -/
theorem incremental_insert_layout (c c1 : nghttp2_hd_context) (nv : nghttp2_nv) (new : Nat)
    (hinv : hd_inv c) (h : add_hd_table_incremental c nv = (c1, some new)) :
    ∃ k, k ≤ c.hd_table.length ∧
      c1.hd_table = c.hd_table.drop k ++ [new] ∧
      (∀ m, c.hd_table_bufsize + entry_room nv.name.length nv.value.length =
        ((c.hd_table.take m).map (heap_room c.heap)).sum +
          (entry_room nv.name.length nv.value.length +
            ((c.hd_table.drop m).map (heap_room c.heap)).sum)) ∧
      entry_room nv.name.length nv.value.length +
        ((c.hd_table.drop k).map (heap_room c.heap)).sum ≤ NGHTTP2_HD_MAX_BUFFER_SIZE ∧
      (∀ m, m < k → entry_room nv.name.length nv.value.length +
        ((c.hd_table.drop m).map (heap_room c.heap)).sum > NGHTTP2_HD_MAX_BUFFER_SIZE) ∧
      c1.hd_table_bufsize = entry_room nv.name.length nv.value.length +
        ((c.hd_table.drop k).map (heap_room c.heap)).sum ∧
      (∀ j, j < c1.hd_table.length → (heap_get c1.heap (c1.hd_table.getD j 0)).index = j) ∧
      (∀ j, j < c.hd_table.length - k →
        c1.hd_table.getD j 0 = c.hd_table.getD (k + j) 0 ∧
        (heap_get c1.heap (c1.hd_table.getD j 0)).nv =
          (heap_get c.heap (c.hd_table.getD (k + j) 0)).nv) ∧
      (∀ j, j < k →
        (heap_get c1.heap (c.hd_table.getD j 0)).index = NGHTTP2_HD_INVALID_INDEX) ∧
      new = c.heap.length ∧ c1.hd_table.getD (c1.hd_table.length - 1) 0 = new ∧
      c1.hd_table.length = c.hd_table.length - k + 1 ∧
      (heap_get c1.heap new).nv = nv ∧
      (heap_get c1.heap new).index = c1.hd_table.length - 1 := by
  obtain ⟨i1, -, -, -, -, i6⟩ := add_hd_table_incremental_inv c nv hinv
  rw [h] at i1 i6
  obtain ⟨e1, e2, e3, e4, k, hk, ht, hmin⟩ := i6 new rfl
  simp only at i1 e2 e3 e4 ht
  obtain ⟨s1, s2, s3, -, -, -, -, -, -, -, -⟩ := add_hd_table_incremental_some c c1 nv new hinv.1 h
  have hmem := table_mem_lt c hinv.1
  have hroom : ∀ m, ((c.hd_table.drop m).map (heap_room c1.heap)) =
      ((c.hd_table.drop m).map (heap_room c.heap)) := fun m =>
    map_heap_room_congr c.heap c1.heap _ (fun p hp => s3 p (hmem p (List.mem_of_mem_drop hp)))
  have hb : c1.hd_table_bufsize = entry_room nv.name.length nv.value.length +
      ((c.hd_table.drop k).map (heap_room c.heap)).sum := by
    rw [i1.2.2.1]
    unfold table_room
    rw [ht, List.map_append, List.sum_append, hroom]
    simp only [List.map_cons, List.map_nil, List.sum_cons, List.sum_nil, Nat.add_zero]
    unfold heap_room
    rw [e3]
    omega
  have hlen : c1.hd_table.length = c.hd_table.length - k + 1 := by
    rw [ht, List.length_append, List.length_drop]; rfl
  have hnd := table_nodup c hinv.1
  refine ⟨k, hk, ht, ?_, ?_, hmin, hb, fun j hj => (i1.1.1 j hj).2, ?_, ?_, e1, ?_, hlen, e3,
    e4⟩
  · intro m
    have := sum_take_add_drop (c.hd_table.map (heap_room c.heap)) m
    rw [← List.map_take, ← List.map_drop] at this
    have hs := hinv.2.2.1
    unfold table_room at hs
    omega
  · rw [← hb]; exact i1.2.2.2
  · intro j hj
    have hg : c1.hd_table.getD j 0 = c.hd_table.getD (k + j) 0 := by
      rw [ht, List.getD_eq_getElem?_getD, List.getD_eq_getElem?_getD,
        List.getElem?_append_left (by rw [List.length_drop]; exact hj), List.getElem?_drop]
    refine ⟨hg, ?_⟩
    rw [hg]
    exact s3 _ (hmem _ (by
      rw [List.getD_eq_getElem _ _ (by omega)]
      exact List.getElem_mem _))
  · intro j hj
    have hjl : j < c.hd_table.length := by omega
    have hp : c.hd_table.getD j 0 < c.heap.length := hmem _ (by
      rw [List.getD_eq_getElem _ _ hjl]; exact List.getElem_mem _)
    refine table_inv_not_mem c1 i1.1 _ (by omega) ?_
    rw [ht, List.mem_append, List.mem_singleton]
    rintro (hm | hm)
    · exact evicted_not_in_drop _ hnd j k hj hjl hm
    · omega
  · rw [hlen, ht, List.getD_eq_getElem?_getD,
      List.getElem?_append_right (by rw [List.length_drop]; omega), List.length_drop]
    simp

set_option maxRecDepth 20000 in
/-- An instance of `incremental_insert_layout`: on the fresh context seeded with
the request table (38 entries, `hd_table_bufsize` 1592), the pair `x-custom: v`
is appended as entry 38 without an eviction. -/
theorem incremental_insert_layout_witness :
    (add_hd_table_incremental (nghttp2_hd_context_init .NGHTTP2_HD_SIDE_CLIENT)
      ⟨cstr "x-custom", cstr "v"⟩).2 = some 38 ∧
    ∃ k, k ≤ 38 ∧
      (add_hd_table_incremental (nghttp2_hd_context_init .NGHTTP2_HD_SIDE_CLIENT)
        ⟨cstr "x-custom", cstr "v"⟩).1.hd_table =
      (nghttp2_hd_context_init .NGHTTP2_HD_SIDE_CLIENT).hd_table.drop k ++ [38] :=
  have h2 : (add_hd_table_incremental (nghttp2_hd_context_init .NGHTTP2_HD_SIDE_CLIENT)
      ⟨cstr "x-custom", cstr "v"⟩).2 = some 38 := by decide
  ⟨h2, (incremental_insert_layout (nghttp2_hd_context_init .NGHTTP2_HD_SIDE_CLIENT) _
      ⟨cstr "x-custom", cstr "v"⟩ 38 (fresh_hd_inv .NGHTTP2_HD_SIDE_CLIENT).1
      (Prod.ext rfl h2)).imp fun _ hk => ⟨hk.1, hk.2.1⟩⟩

/-- C32: when `add_hd_table_subst` succeeds on a context whose accounting is
right (so `subindex` is below the length of the table), having evicted the `e`
oldest entries: for `e ≤ subindex` the new entry is stored at the index
`subindex - e`, in the place of the old entry of `subindex`, and the table is the
old one from `e` on with that one slot replaced; for `e > subindex` (the eviction
took the entry of `subindex`) the new entry is stored at the index 0 and the
entries left, the old ones from `e` on, follow in order at the indices 1, 2, ....
In both cases the old entry of `subindex` is no longer in the table (its index is
`INVALID`), and every entry of the table has its position for index.  The loop
stops at the first `e` for which the rooms fit `NGHTTP2_HD_MAX_BUFFER_SIZE`. -/
theorem subst_insert_position (c c1 : nghttp2_hd_context) (nv : nghttp2_nv)
    (subindex new : Nat) (hinv : hd_inv c)
    (h : add_hd_table_subst c nv subindex = (c1, some new)) :
    subindex < c.hd_table.length ∧ new = c.heap.length ∧ (heap_get c1.heap new).nv = nv ∧
    ∃ e, e ≤ c.hd_table.length ∧
      (e ≤ subindex →
        c1.hd_table = (c.hd_table.drop e).set (subindex - e) new ∧
        c1.hd_table.getD (subindex - e) 0 = new ∧
        (heap_get c1.heap new).index = subindex - e) ∧
      (subindex < e →
        c1.hd_table = new :: c.hd_table.drop e ∧
        (heap_get c1.heap new).index = 0 ∧
        ∀ j, j < c.hd_table.length - e →
          c1.hd_table.getD (j + 1) 0 = c.hd_table.getD (e + j) 0 ∧
          (heap_get c1.heap (c.hd_table.getD (e + j) 0)).index = j + 1) ∧
      (∀ m, m < e → entry_room nv.name.length nv.value.length +
          ((c.hd_table.drop m).map (heap_room c.heap)).sum >
        NGHTTP2_HD_MAX_BUFFER_SIZE +
          (if m ≤ subindex then heap_room c.heap (c.hd_table.getD subindex 0) else 0)) ∧
      c.hd_table.getD subindex 0 ∉ c1.hd_table ∧
      (heap_get c1.heap (c.hd_table.getD subindex 0)).index = NGHTTP2_HD_INVALID_INDEX ∧
      (∀ j, j < c1.hd_table.length → (heap_get c1.heap (c1.hd_table.getD j 0)).index = j) ∧
      c1.hd_table_bufsize ≤ NGHTTP2_HD_MAX_BUFFER_SIZE := by
  obtain ⟨i1, -, -, -, -, i6⟩ := add_hd_table_subst_inv c nv subindex hinv
  rw [h] at i1 i6
  obtain ⟨e1, e2, e3, hsub, k, hk, hle, hgt, hmin⟩ := i6 new rfl
  simp only at i1 e2 e3 hle hgt
  have hmem := table_mem_lt c hinv.1
  have hnd := table_nodup c hinv.1
  have hold : c.hd_table.getD subindex 0 < c.heap.length := hmem _ (by
    rw [List.getD_eq_getElem _ _ hsub]; exact List.getElem_mem _)
  have hnot : c.hd_table.getD subindex 0 ∉ c1.hd_table := by
    by_cases hc : k ≤ subindex
    · rw [(hle hc).1]
      intro hm
      obtain ⟨i, hi, he⟩ := List.getElem_of_mem hm
      rw [List.length_set, List.length_drop] at hi
      rw [List.getElem_set] at he
      split at he
      · omega
      · rw [List.getElem_drop, List.getD_eq_getElem _ _ hsub] at he
        have := (List.Nodup.getElem_inj_iff hnd).mp he
        omega
    · rw [(hgt (by omega)).1, List.mem_cons]
      rintro (hm | hm)
      · omega
      · exact evicted_not_in_drop _ hnd subindex k (by omega) hsub hm
  refine ⟨hsub, e1, e3, k, hk, ?_, ?_, hmin, hnot,
    table_inv_not_mem c1 i1.1 _ (by omega) hnot, fun j hj => (i1.1.1 j hj).2, i1.2.2.2⟩
  · intro hc
    refine ⟨(hle hc).1, ?_, (hle hc).2⟩
    rw [(hle hc).1, List.getD_eq_getElem?_getD, List.getElem?_set_self (by
      rw [List.length_drop]; omega)]
    rfl
  · intro hc
    refine ⟨(hgt hc).1, (hgt hc).2, fun j hj => ?_⟩
    have hg : c1.hd_table.getD (j + 1) 0 = c.hd_table.getD (k + j) 0 := by
      rw [(hgt hc).1, List.getD_eq_getElem?_getD, List.getD_eq_getElem?_getD,
        List.getElem?_cons_succ, List.getElem?_drop]
    refine ⟨hg, ?_⟩
    rw [← hg]
    exact (i1.1.1 (j + 1) (by
      rw [(hgt hc).1, List.length_cons, List.length_drop]; omega)).2

set_option maxRecDepth 20000 in
/-- An instance of `subst_insert_position`: on the fresh context seeded with the
request table, the pair `:path: /index` put in the place of the entry 3 evicts
nothing and is stored at the index 3. -/
theorem subst_insert_position_witness :
    (add_hd_table_subst (nghttp2_hd_context_init .NGHTTP2_HD_SIDE_CLIENT)
      ⟨cstr ":path", cstr "/index"⟩ 3).2 = some 38 ∧
    (add_hd_table_subst (nghttp2_hd_context_init .NGHTTP2_HD_SIDE_CLIENT)
      ⟨cstr ":path", cstr "/index"⟩ 3).1.hd_table.getD 3 0 = 38 ∧
    (3 : Nat) ∉ (add_hd_table_subst (nghttp2_hd_context_init .NGHTTP2_HD_SIDE_CLIENT)
      ⟨cstr ":path", cstr "/index"⟩ 3).1.hd_table :=
  have h2 : (add_hd_table_subst (nghttp2_hd_context_init .NGHTTP2_HD_SIDE_CLIENT)
      ⟨cstr ":path", cstr "/index"⟩ 3).2 = some 38 := by decide
  have h := subst_insert_position (nghttp2_hd_context_init .NGHTTP2_HD_SIDE_CLIENT) _
      ⟨cstr ":path", cstr "/index"⟩ 3 38 (fresh_hd_inv .NGHTTP2_HD_SIDE_CLIENT).1
      (Prod.ext rfl h2)
  ⟨h2, by decide, by
    obtain ⟨-, -, -, e, -, -, -, -, hn, -⟩ := h
    have h3 : (nghttp2_hd_context_init .NGHTTP2_HD_SIDE_CLIENT).hd_table.getD 3 0 = 3 := by
      decide
    rw [h3] at hn
    exact hn⟩

end Nghttp2

namespace Nghttp2

/-! ### The dispatch of the inflater on the first byte -/

set_option maxRecDepth 100000 in
theorem first_byte_tests : ∀ b, b < 256 →
    (0x80 ≤ b ↔ b &&& 0x80 ≠ 0) ∧
    (0x41 ≤ b ∧ b ≤ 0x5F → b &&& 0x60 ≠ 0x60 ∧ b &&& 0x40 = 0x40) ∧
    (0x61 ≤ b ∧ b ≤ 0x7F → b &&& 0x60 = 0x60) ∧
    (b ≤ 0x3F → ¬ (b &&& 0x60 = 0x60 ∨ b &&& 0x40 = 0x40)) := by
  decide

set_option maxRecDepth 100000 in
theorem first_byte_pfx_bits : ∀ b, b < 256 →
    (0x80 ≤ b ∧ b ≤ 0xFE → b &&& (1 <<< 7 - 1) ≠ 1 <<< 7 - 1 ∧ b &&& (1 <<< 7 - 1) = b - 0x80) ∧
    (0x41 ≤ b ∧ b ≤ 0x5E → b &&& (1 <<< 5 - 1) ≠ 1 <<< 5 - 1 ∧ b &&& (1 <<< 5 - 1) = b - 0x40) ∧
    (0x61 ≤ b ∧ b ≤ 0x7E → b &&& (1 <<< 5 - 1) ≠ 1 <<< 5 - 1 ∧ b &&& (1 <<< 5 - 1) = b - 0x60) ∧
    (0x01 ≤ b ∧ b ≤ 0x3E → b &&& (1 <<< 6 - 1) ≠ 1 <<< 6 - 1 ∧ b &&& (1 <<< 6 - 1) = b) := by
  decide

theorem decode_length_one_byte (mem : Nat → Nat) (inp last p v : Nat) (hne : inp ≠ last)
    (h1 : mem inp &&& (1 <<< p - 1) ≠ 1 <<< p - 1) (h2 : mem inp &&& (1 <<< p - 1) = v) :
    decode_length mem inp last p = ((v : Int), some (inp + 1)) := by
  unfold decode_length
  simp only
  rw [if_neg hne, if_neg h1, h2]

theorem inflate_indname_next (mem : Nat → Nat) (last inp : Nat) (c : nghttp2_hd_context)
    (first inp1 : Nat) (c1 : nghttp2_hd_context)
    (h : inflate_indname mem last inp c first = .next inp1 c1) :
    ¬ (decode_length mem inp last 5).1 < 0 ∧
    ¬ ((c.hd_table.length : Int) ≤ to_size_t ((decode_length mem inp last 5).1 - 1)) := by
  unfold inflate_indname at h
  generalize decode_length mem inp last 5 = d at h ⊢
  obtain ⟨index, o⟩ := d
  simp only at h ⊢
  by_cases h0 : index < 0
  · rw [if_pos h0] at h; cases h
  · rw [if_neg h0] at h
    cases o with
    | none => cases h
    | some i1 =>
      simp only at h
      by_cases h1 : (c.hd_table.length : Int) ≤ to_size_t (index - 1)
      · rw [if_pos h1] at h; cases h
      · exact ⟨h0, h1⟩

theorem inflate_subst_indname_next (mem : Nat → Nat) (last inp : Nat) (c : nghttp2_hd_context)
    (inp1 : Nat) (c1 : nghttp2_hd_context)
    (h : inflate_subst_indname mem last inp c = .next inp1 c1) :
    ¬ (decode_length mem inp last 6).1 < 0 ∧
    ¬ ((c.hd_table.length : Int) ≤ to_size_t ((decode_length mem inp last 6).1 - 1)) := by
  unfold inflate_subst_indname at h
  generalize decode_length mem inp last 6 = d at h ⊢
  obtain ⟨index, o⟩ := d
  simp only at h ⊢
  by_cases h0 : index < 0
  · rw [if_pos h0] at h; cases h
  · rw [if_neg h0] at h
    cases o with
    | none => cases h
    | some i1 =>
      simp only at h
      by_cases h1 : (c.hd_table.length : Int) ≤ to_size_t (index - 1)
      · rw [if_pos h1] at h; cases h
      · exact ⟨h0, h1⟩

theorem index_of_not_le (c : nghttp2_hd_context) (hinv : hd_inv c) (index : Int)
    (h0 : ¬ index < 0) (hb : index = -1 ∨ index < 65536)
    (hlt : ¬ ((c.hd_table.length : Int) ≤ to_size_t (index - 1))) :
    1 ≤ index ∧ (index - 1).toNat < c.hd_table.length := by
  refine ⟨?_, table_index_lt c hinv index h0 hb hlt⟩
  by_contra hc
  have hi : index = 0 := by omega
  subst hi
  have h3 : to_size_t (0 - 1) = 2 ^ 64 - 1 := by decide
  rw [h3] at hlt
  have h1 := hinv.1.2.2.1
  have h2 := hinv.1.2.2.2
  omega

/-- C34: the dispatch of `nghttp2_hd_inflate_hd` on the first byte of a block
is a partition of the 256 byte values.  `80` to `FF`: an indexed block (the index
in a 7-bit prefix); exactly `40` and `60`: a literal with a new name (`40` with
incremental indexing, `60` without); `41` to `5F`: a literal with an indexed name
and incremental indexing, `61` to `7F`: the same without indexing (index + 1 in a
5-bit prefix); exactly `00`: a literal with substitution indexing and a new name;
`01` to `3F`: a literal with substitution indexing and an indexed name (index + 1
in a 6-bit prefix).  In the one-byte form of the prefix the decoded integer is the
prefix bits, so the index of the name is the prefix bits less 1, not negative; and
in every case a block with an indexed name that the inflater goes on from has
decoded an integer of at least 1, the index being below the length of the
table. -/
theorem inflate_block_classification (mem : Nat → Nat) (last inp : Nat)
    (c : nghttp2_hd_context) :
    (0x80 ≤ mem inp ∧ mem inp ≤ 0xFF →
      inflate_step mem last inp c = inflate_indexed mem last inp c) ∧
    (mem inp = 0x40 ∨ mem inp = 0x60 →
      inflate_step mem last inp c = inflate_newname mem last inp c (mem inp)) ∧
    (0x41 ≤ mem inp ∧ mem inp ≤ 0x5F →
      inflate_step mem last inp c = inflate_indname mem last inp c (mem inp) ∧
      mem inp &&& 0x60 ≠ 0x60) ∧
    (0x61 ≤ mem inp ∧ mem inp ≤ 0x7F →
      inflate_step mem last inp c = inflate_indname mem last inp c (mem inp) ∧
      mem inp &&& 0x60 = 0x60) ∧
    (mem inp = 0x00 → inflate_step mem last inp c = inflate_subst_newname mem last inp c) ∧
    (0x01 ≤ mem inp ∧ mem inp ≤ 0x3F →
      inflate_step mem last inp c = inflate_subst_indname mem last inp c) ∧
    (inp ≠ last → 0x80 ≤ mem inp ∧ mem inp ≤ 0xFE →
      decode_length mem inp last 7 = (((mem inp - 0x80 : Nat) : Int), some (inp + 1))) ∧
    (inp ≠ last → 0x41 ≤ mem inp ∧ mem inp ≤ 0x5E →
      decode_length mem inp last 5 = (((mem inp - 0x40 : Nat) : Int), some (inp + 1)) ∧
      (0 : Int) ≤ ((mem inp - 0x40 : Nat) : Int) - 1) ∧
    (inp ≠ last → 0x61 ≤ mem inp ∧ mem inp ≤ 0x7E →
      decode_length mem inp last 5 = (((mem inp - 0x60 : Nat) : Int), some (inp + 1)) ∧
      (0 : Int) ≤ ((mem inp - 0x60 : Nat) : Int) - 1) ∧
    (inp ≠ last → 0x01 ≤ mem inp ∧ mem inp ≤ 0x3E →
      decode_length mem inp last 6 = ((mem inp : Int), some (inp + 1)) ∧
      (0 : Int) ≤ (mem inp : Int) - 1) ∧
    (hd_inv c → ∀ first inp1 c1, inflate_indname mem last inp c first = .next inp1 c1 →
      1 ≤ (decode_length mem inp last 5).1 ∧
      ((decode_length mem inp last 5).1 - 1).toNat < c.hd_table.length) ∧
    (hd_inv c → ∀ inp1 c1, inflate_subst_indname mem last inp c = .next inp1 c1 →
      1 ≤ (decode_length mem inp last 6).1 ∧
      ((decode_length mem inp last 6).1 - 1).toNat < c.hd_table.length) := by
  refine ⟨?_, ?_, ?_, ?_, ?_, ?_, ?_, ?_, ?_, ?_, ?_, ?_⟩
  · intro ⟨h1, h2⟩
    have hb := (first_byte_tests (mem inp) (by omega)).1.mp h1
    unfold inflate_step
    simp only
    rw [if_pos hb]
  · intro h
    have hb : ¬ mem inp &&& 0x80 ≠ 0 := by
      rcases h with h | h <;> rw [h] <;> decide
    unfold inflate_step
    simp only
    rw [if_neg hb, if_pos (by rcases h with h | h <;> simp [h])]
  · intro ⟨h1, h2⟩
    have t := first_byte_tests (mem inp) (by omega)
    have hb : ¬ mem inp &&& 0x80 ≠ 0 := fun hc => by have := t.1.mpr hc; omega
    have hc := t.2.1 ⟨h1, h2⟩
    refine ⟨?_, hc.1⟩
    unfold inflate_step
    simp only
    rw [if_neg hb, if_neg (by omega), if_pos (Or.inr hc.2)]
  · intro ⟨h1, h2⟩
    have t := first_byte_tests (mem inp) (by omega)
    have hb : ¬ mem inp &&& 0x80 ≠ 0 := fun hc => by have := t.1.mpr hc; omega
    have hc := t.2.2.1 ⟨h1, h2⟩
    refine ⟨?_, hc⟩
    unfold inflate_step
    simp only
    rw [if_neg hb, if_neg (by omega), if_pos (Or.inl hc)]
  · intro h
    unfold inflate_step
    simp only
    rw [h]
    rfl
  · intro ⟨h1, h2⟩
    have t := first_byte_tests (mem inp) (by omega)
    have hb : ¬ mem inp &&& 0x80 ≠ 0 := fun hc => by have := t.1.mpr hc; omega
    have hc := t.2.2.2 (by omega)
    unfold inflate_step
    simp only
    rw [if_neg hb, if_neg (by omega), if_neg hc, if_neg (by omega)]
  · intro hne ⟨h1, h2⟩
    have t := (first_byte_pfx_bits (mem inp) (by omega)).1 ⟨h1, h2⟩
    exact decode_length_one_byte mem inp last 7 _ hne t.1 t.2
  · intro hne ⟨h1, h2⟩
    have t := (first_byte_pfx_bits (mem inp) (by omega)).2.1 ⟨h1, h2⟩
    exact ⟨decode_length_one_byte mem inp last 5 _ hne t.1 t.2, by omega⟩
  · intro hne ⟨h1, h2⟩
    have t := (first_byte_pfx_bits (mem inp) (by omega)).2.2.1 ⟨h1, h2⟩
    exact ⟨decode_length_one_byte mem inp last 5 _ hne t.1 t.2, by omega⟩
  · intro hne ⟨h1, h2⟩
    have t := (first_byte_pfx_bits (mem inp) (by omega)).2.2.2 ⟨h1, h2⟩
    exact ⟨decode_length_one_byte mem inp last 6 _ hne t.1 t.2, by omega⟩
  · intro hinv first inp1 c1 h
    obtain ⟨h0, h1⟩ := inflate_indname_next mem last inp c first inp1 c1 h
    exact index_of_not_le c hinv _ h0
      (decode_length_lt mem inp last 5 (Or.inl rfl)) h1
  · intro hinv inp1 c1 h
    obtain ⟨h0, h1⟩ := inflate_subst_indname_next mem last inp c inp1 c1 h
    exact index_of_not_le c hinv _ h0
      (decode_length_lt mem inp last 6 (Or.inr (Or.inl rfl))) h1

/-- An instance of `inflate_block_classification`: the byte `44` starts a literal
with an indexed name and incremental indexing, with the index 3 of the name. -/
theorem inflate_block_classification_witness :
    inflate_step (memOf [0x44, 0x01, 0x78]) 3 0
        (create_workingset (nghttp2_hd_context_init .NGHTTP2_HD_SIDE_CLIENT)) =
      inflate_indname (memOf [0x44, 0x01, 0x78]) 3 0
        (create_workingset (nghttp2_hd_context_init .NGHTTP2_HD_SIDE_CLIENT)) 0x44 ∧
    decode_length (memOf [0x44, 0x01, 0x78]) 0 3 5 = (4, some 1) :=
  ⟨((inflate_block_classification (memOf [0x44, 0x01, 0x78]) 3 0
      (create_workingset (nghttp2_hd_context_init .NGHTTP2_HD_SIDE_CLIENT))).2.2.1
      (by decide)).1,
    ((inflate_block_classification (memOf [0x44, 0x01, 0x78]) 3 0
      (create_workingset (nghttp2_hd_context_init .NGHTTP2_HD_SIDE_CLIENT))).2.2.2.2.2.2.2.1
      (by decide) (by decide)).1⟩

end Nghttp2

namespace Nghttp2

/-! ### The restricted round trip -/

theorem downcase_of_no_upper (s : List Nat) (h : ∀ b ∈ s, ¬ (65 ≤ b ∧ b ≤ 90)) :
    nghttp2_downcase s = s := by
  unfold nghttp2_downcase
  conv => rhs; rw [← List.map_id s]
  apply List.map_congr_left
  intro b hb
  rw [if_neg (h b hb)]
  rfl

theorem nv_downcase_of_lower (nv : nghttp2_nv) (h : nghttp2_downcase nv.name = nv.name) :
    nv_downcase nv = nv := by
  unfold nv_downcase
  rw [h]

theorem map_nv_downcase_of_lower (H : List nghttp2_nv)
    (h : ∀ nv ∈ H, nghttp2_downcase nv.name = nv.name) : H.map nv_downcase = H := by
  conv => rhs; rw [← List.map_id H]
  apply List.map_congr_left
  intro nv hnv
  rw [nv_downcase_of_lower nv (h nv hnv)]
  rfl

theorem heap_downcase_of_lower (c : nghttp2_hd_context) (h : names_lower c) :
    c.heap.map entry_downcase = c.heap := by
  conv => rhs; rw [← List.map_id c.heap]
  apply List.map_congr_left
  intro e he
  obtain ⟨p, hp, rfl⟩ := List.getElem_of_mem he
  have := h p hp
  unfold heap_get at this
  rw [List.getD_eq_getElem _ _ hp] at this
  unfold entry_downcase
  rw [nv_downcase_of_lower _ this]
  rfl

/-- C35: for every sequence of header sets in which each set has pairwise distinct
pairs whose names are not empty and hold no upper-case ASCII letter, a lockstep
run of a fresh deflater and the paired fresh inflater in which no call of
`nghttp2_hd_deflate_hd` fails is completed without a failure: in every round
`nghttp2_hd_inflate_hd` succeeds and returns a permutation of the header set of the
round that is sorted by name, and after the round (with `nghttp2_hd_end_headers` on
both sides) the two contexts have the same header table, the same reference set and
the same entries. -/
theorem restricted_round_trip (side : nghttp2_hd_side) (buf : List Nat) (nv_offset : Nat)
    (Hs : List (List nghttp2_nv)) (hnd : ∀ H ∈ Hs, H.Nodup)
    (hlow : ∀ H ∈ Hs, ∀ nv ∈ H, nv.name ≠ [] ∧ ∀ b ∈ nv.name, ¬ (65 ≤ b ∧ b ≤ 90))
    (hok : ∀ rv, (lockstep buf nv_offset (nghttp2_hd_deflate_init side)
      (nghttp2_hd_inflate_init side.flip) Hs).2 ≠ some (.deflate_failed rv)) :
    (lockstep buf nv_offset (nghttp2_hd_deflate_init side)
      (nghttp2_hd_inflate_init side.flip) Hs).2 = none ∧
    List.Forall₂ (fun H r =>
        List.Perm r.output H ∧ r.output.Pairwise nv_name_le ∧
        r.inflater.hd_table = r.deflater.hd_table ∧
        r.inflater.refset = r.deflater.refset ∧
        r.inflater.heap = r.deflater.heap ∧
        ∀ i, table_nv r.inflater i = table_nv r.deflater i)
      Hs (lockstep buf nv_offset (nghttp2_hd_deflate_init side)
        (nghttp2_hd_inflate_init side.flip) Hs).1 := by
  have hfix : ∀ H ∈ Hs, ∀ nv ∈ H, nghttp2_downcase nv.name = nv.name :=
    fun H hH nv hnv => downcase_of_no_upper _ (hlow H hH nv hnv).2
  rw [fresh_paired] at hok ⊢
  obtain ⟨h1, h2, h3, h4⟩ := lockstep_spec buf nv_offset Hs (nghttp2_hd_deflate_init side)
    (fresh_table_inv side) (refset_inv_of_nil _ (fresh_refset side)).1
    (refset_inv_of_nil _ (fresh_refset side)).2
  have hnone : (lockstep buf nv_offset (nghttp2_hd_deflate_init side)
      (context_downcase (nghttp2_hd_deflate_init side)) Hs).2 = none := by
    rcases h1 with h | ⟨rv, h⟩
    · exact h
    · exact absurd h (hok rv)
  have hlen := h2 hnone
  have hl := h4 (fresh_names_lower side) hfix
  refine ⟨hnone, ?_⟩
  rw [hlen, List.take_length] at h3
  rw [List.forall₂_iff_get] at h3 ⊢
  refine ⟨h3.1, fun i hi hi2 => ?_⟩
  obtain ⟨e1, -, l, hln, hm, ho⟩ := h3.2 i hi hi2
  have hHm : Hs.get ⟨i, hi⟩ ∈ Hs := List.get_mem _ _ _
  have hrm := List.get_mem (lockstep buf nv_offset (nghttp2_hd_deflate_init side)
      (context_downcase (nghttp2_hd_deflate_init side)) Hs).1 i hi2
  have hnl := hl _ hrm
  have hheap := heap_downcase_of_lower _ hnl
  refine ⟨?_, ?_, ?_, ?_, ?_, ?_⟩
  · rw [ho]
    have := sorted_perm_of_nodup l _ hln (hnd _ hHm) hm
    rw [map_nv_downcase_of_lower _ (hfix _ hHm)] at this
    exact this
  · rw [ho]; exact nghttp2_nv_array_sort_sorted _
  · rw [e1]; rfl
  · rw [e1]; rfl
  · rw [e1, context_downcase_heap, hheap]
  · intro j
    unfold table_nv
    rw [e1, context_downcase_heap, hheap]
    rfl

set_option maxRecDepth 20000 in
/-- An instance of `restricted_round_trip`: two rounds on the client side, the
second one with a header of the first one and a new one. -/
theorem restricted_round_trip_witness :
    (lockstep [] 0 (nghttp2_hd_deflate_init .NGHTTP2_HD_SIDE_CLIENT)
      (nghttp2_hd_inflate_init (nghttp2_hd_side.flip .NGHTTP2_HD_SIDE_CLIENT))
      [[⟨cstr ":path", cstr "/"⟩, ⟨cstr "x-custom", cstr "v"⟩],
       [⟨cstr "x-custom", cstr "v"⟩, ⟨cstr "accept", cstr "a"⟩]]).2 = none ∧
    ((lockstep [] 0 (nghttp2_hd_deflate_init .NGHTTP2_HD_SIDE_CLIENT)
      (nghttp2_hd_inflate_init (nghttp2_hd_side.flip .NGHTTP2_HD_SIDE_CLIENT))
      [[⟨cstr ":path", cstr "/"⟩, ⟨cstr "x-custom", cstr "v"⟩],
       [⟨cstr "x-custom", cstr "v"⟩, ⟨cstr "accept", cstr "a"⟩]]).1.map fun r => r.output) =
      [[⟨cstr ":path", cstr "/"⟩, ⟨cstr "x-custom", cstr "v"⟩],
       [⟨cstr "accept", cstr "a"⟩, ⟨cstr "x-custom", cstr "v"⟩]] :=
  have h2 : (lockstep [] 0 (nghttp2_hd_deflate_init .NGHTTP2_HD_SIDE_CLIENT)
      (nghttp2_hd_inflate_init (nghttp2_hd_side.flip .NGHTTP2_HD_SIDE_CLIENT))
      [[⟨cstr ":path", cstr "/"⟩, ⟨cstr "x-custom", cstr "v"⟩],
       [⟨cstr "x-custom", cstr "v"⟩, ⟨cstr "accept", cstr "a"⟩]]).2 = none := by decide
  ⟨(restricted_round_trip .NGHTTP2_HD_SIDE_CLIENT [] 0
      [[⟨cstr ":path", cstr "/"⟩, ⟨cstr "x-custom", cstr "v"⟩],
       [⟨cstr "x-custom", cstr "v"⟩, ⟨cstr "accept", cstr "a"⟩]]
      (by decide) (by decide) (fun rv h => by rw [h2] at h; cases h)).1, by decide⟩

end Nghttp2

namespace Nghttp2

/-! ### A deflater run without eviction -/

theorem find_in_hd_table_isNone_iff (c : nghttp2_hd_context) (nv : nghttp2_nv) :
    (find_in_hd_table c nv).isNone = true ↔
      ∀ p ∈ c.hd_table, (heap_get c.heap p).nv ≠ nv := by
  unfold find_in_hd_table
  rw [Option.isNone_iff_eq_none, List.find?_eq_none]
  constructor
  · intro h p hp he
    exact h p hp ((nghttp2_nv_equal_iff _ _).mpr he)
  · intro h p hp he
    exact h p hp ((nghttp2_nv_equal_iff _ _).mp he)

theorem missing_room_congr (c c1 : nghttp2_hd_context) (nva : List nghttp2_nv)
    (h : ∀ nv ∈ nva, (find_in_hd_table c1 nv).isNone = (find_in_hd_table c nv).isNone) :
    missing_room c1 nva = missing_room c nva := by
  unfold missing_room
  rw [List.filter_congr h]

theorem missing_room_cons (c : nghttp2_hd_context) (nv : nghttp2_nv) (rest : List nghttp2_nv) :
    missing_room c (nv :: rest) =
      (if (find_in_hd_table c nv).isNone = true then
        entry_room nv.name.length nv.value.length else 0) + missing_room c rest := by
  unfold missing_room
  rw [List.filter_cons]
  split
  · simp only [List.map_cons, List.sum_cons]
  · simp only [Nat.zero_add]

theorem find_in_workingset_of_mem (c : nghttp2_hd_context) (nv : nghttp2_nv) (ent i : Nat)
    (hm : nghttp2_hd_ws_entry.indexed ent i ∈ c.ws) (hnv : (heap_get c.heap ent).nv = nv) :
    (find_in_workingset c nv).isSome = true := by
  unfold find_in_workingset
  rw [List.find?_isSome]
  exact ⟨_, hm, (nghttp2_nv_equal_iff _ _).mpr hnv⟩

theorem index_not_frozen (c : nghttp2_hd_context) (nv : nghttp2_nv) (ent : Nat)
    (hinv : hd_inv c) (hlive : ws_all_live c) (hf : find_in_hd_table c nv = some ent)
    (hws : ¬ (find_in_workingset c nv).isSome = true) :
    (find_in_workingset_by_index c (heap_get c.heap ent).index).isNone = true := by
  by_contra hc
  rw [Option.isNone_iff_eq_none] at hc
  obtain ⟨cell, hcell⟩ := Option.ne_none_iff_exists'.mp hc
  unfold find_in_workingset_by_index at hcell
  have hm := List.mem_of_find?_eq_some hcell
  have hp := List.find?_some hcell
  obtain ⟨e, rfl, he⟩ := hlive cell hm
  simp only [ws_entry_has_index, beq_iff_eq] at hp
  obtain ⟨hent, hnv⟩ := find_in_hd_table_some c nv ent hf
  obtain ⟨-, -, t1, -⟩ := table_inv_mem c hinv.1 e he
  obtain ⟨-, -, t2, -⟩ := table_inv_mem c hinv.1 ent hent
  rw [hp] at t1
  have : e = ent := t1.symm.trans t2
  subst this
  exact hws (find_in_workingset_of_mem c nv e _ hm hnv)

theorem evict_loop_fits (t : List Nat) (H : List nghttp2_hd_entry) (b : Nat)
    (h : b ≤ NGHTTP2_HD_MAX_BUFFER_SIZE) : evict_loop t H b = (t, H, b) := by
  cases t with
  | nil => rfl
  | cons p rest =>
    unfold evict_loop
    rw [if_neg (by omega)]

theorem add_hd_table_incremental_fits (c : nghttp2_hd_context) (nv : nghttp2_nv)
    (hcap : c.hd_table.length ≠ c.hd_table_capacity)
    (hfit : c.hd_table_bufsize + entry_room nv.name.length nv.value.length ≤
      NGHTTP2_HD_MAX_BUFFER_SIZE) :
    add_hd_table_incremental c nv =
      ({ c with
          heap := c.heap ++ [nghttp2_hd_entry_init c.hd_table.length
            (NGHTTP2_HD_FLAG_NAME_ALLOC ||| NGHTTP2_HD_FLAG_VALUE_ALLOC) nv.name nv.value]
          hd_table := c.hd_table ++ [c.heap.length]
          hd_table_bufsize := c.hd_table_bufsize +
            entry_room nv.name.length nv.value.length }, some c.heap.length) := by
  unfold add_hd_table_incremental
  simp only
  rw [if_neg (by
    rintro (h | h)
    · exact hcap h
    · omega)]
  rw [evict_loop_fits _ _ _ hfit]
  simp

/-- One header of the second loop of the deflater when its insertion evicts
nothing. -/
theorem deflate_nv_no_evict (c : nghttp2_hd_context) (buf : List Nat) (off : Nat)
    (nv : nghttp2_nv) (rest : List nghttp2_nv) (c1 : nghttp2_hd_context) (buf1 : List Nat)
    (off1 : Nat) (hinv : hd_inv c) (hlive : ws_all_live c)
    (hroom : entry_room nv.name.length nv.value.length < NGHTTP2_HD_MAX_ENTRY_SIZE)
    (hnv : nv ∉ rest)
    (hfit : c.hd_table_bufsize + missing_room c (nv :: rest) ≤ NGHTTP2_HD_MAX_BUFFER_SIZE)
    (h : deflate_nv c buf off nv = (c1, buf1, off1, .ok ())) :
    ws_all_live c1 ∧
      c1.hd_table_bufsize + missing_room c1 rest ≤ NGHTTP2_HD_MAX_BUFFER_SIZE ∧
      missing_room c1 rest = missing_room c rest := by
  rw [missing_room_cons] at hfit
  have hmem := table_mem_lt c hinv.1
  -- the literal branch
  have hlit : find_in_hd_table c nv = none →
      deflate_nv_literal c buf off nv = (c1, buf1, off1, .ok ()) →
      ws_all_live c1 ∧
        c1.hd_table_bufsize + missing_room c1 rest ≤ NGHTTP2_HD_MAX_BUFFER_SIZE ∧
        missing_room c1 rest = missing_room c rest := by
    intro hf hl
    rw [hf] at hfit
    simp only [Option.isNone_none, if_true] at hfit
    have hex : ∃ cm new, add_hd_table_incremental c nv = (cm, some new) ∧
        add_workingset cm new = .ok c1 := by
      unfold deflate_nv_literal at hl
      split at hl
      · simp only at hl
        rw [if_pos hroom] at hl
        split at hl
        · cases hl
        · rename_i cm new hq
          split at hl
          · cases hl
          · rename_i c2 ha
            split at hl
            · cases hl
            · simp only [Prod.mk.injEq] at hl
              exact ⟨cm, new, hq, by rw [ha, hl.1]⟩
      · rw [if_pos hroom] at hl
        split at hl
        · cases hl
        · rename_i cm new hq
          split at hl
          · cases hl
          · rename_i c2 ha
            split at hl
            · cases hl
            · simp only [Prod.mk.injEq] at hl
              exact ⟨cm, new, hq, by rw [ha, hl.1]⟩
    obtain ⟨cm, new, hq, ha⟩ := hex
    have hcap : c.hd_table.length ≠ c.hd_table_capacity := by
      intro hc
      have := (add_hd_table_incremental_eq_none_iff c nv).mpr (Or.inl hc)
      rw [hq] at this
      cases this
    have hE := add_hd_table_incremental_fits c nv hcap (by omega)
    rw [hq] at hE
    simp only [Prod.mk.injEq, Option.some.injEq] at hE
    obtain ⟨hcm, hnew⟩ := hE
    have hc1 := add_workingset_ok cm c1 new ha
    subst hcm
    subst hnew
    have hnvp : ∀ p, p < c.heap.length → (heap_get c1.heap p).nv = (heap_get c.heap p).nv := by
      intro p hp
      rw [hc1]
      simp only [heap_get_ref_inc_nv]
      rw [heap_get_append_left _ _ _ hp]
    have hidx : ∀ p, p < c.heap.length →
        (heap_get c1.heap p).index = (heap_get c.heap p).index := by
      intro p hp
      rw [hc1]
      simp only [heap_get_ref_inc_index]
      rw [heap_get_append_left _ _ _ hp]
    have hnew : (heap_get c1.heap c.heap.length).nv = nv := by
      rw [hc1]
      simp only [heap_get_ref_inc_nv]
      rw [heap_get_append_new]
      rfl
    have htab : c1.hd_table = c.hd_table ++ [c.heap.length] := by
      rw [hc1]
    have hbuf : c1.hd_table_bufsize = c.hd_table_bufsize +
        entry_room nv.name.length nv.value.length := by
      rw [hc1]
    have hws1 : c1.ws = c.ws ++ [.indexed c.heap.length (heap_get c1.heap c.heap.length).index] := by
      rw [hc1]
      simp only [heap_get_ref_inc_index]
    refine ⟨?_, ?_⟩
    · intro cell hcell
      rw [hws1, List.mem_append, List.mem_singleton] at hcell
      rcases hcell with hcell | hcell
      · obtain ⟨e, rfl, he⟩ := hlive cell hcell
        exact ⟨e, by rw [hidx e (hmem e he)], by rw [htab]; exact List.mem_append_left _ he⟩
      · exact ⟨c.heap.length, hcell, by rw [htab]; simp⟩
    · have : missing_room c1 rest = missing_room c rest := by
        apply missing_room_congr
        intro nv1 hnv1
        rw [Bool.eq_iff_iff, find_in_hd_table_isNone_iff, find_in_hd_table_isNone_iff, htab]
        constructor
        · intro hh p hp
          rw [← hnvp p (hmem p hp)]
          exact hh p (List.mem_append_left _ hp)
        · intro hh p hp
          rw [List.mem_append, List.mem_singleton] at hp
          rcases hp with hp | hp
          · rw [hnvp p (hmem p hp)]
            exact hh p hp
          · rw [hp, hnew]
            intro he
            exact hnv (he ▸ hnv1)
      refine ⟨?_, this⟩
      rw [this, hbuf]
      omega
  unfold deflate_nv at h
  by_cases hws : (find_in_workingset c nv).isSome = true
  · rw [if_pos hws] at h
    simp only [Prod.mk.injEq] at h
    rw [← h.1]
    exact ⟨hlive, by omega, rfl⟩
  · rw [if_neg hws] at h
    cases hf : find_in_hd_table c nv with
    | none =>
      rw [hf] at h
      exact hlit hf h
    | some ent =>
      rw [hf] at h
      simp only at h
      rw [if_pos (index_not_frozen c nv ent hinv hlive hf hws)] at h
      obtain ⟨hent, -⟩ := find_in_hd_table_some c nv ent hf
      split at h
      · cases h
      · rename_i c2 ha
        have hc2 : c2 = c1 := by
          split at h
          · cases h
          · simp only [Prod.mk.injEq] at h
            exact h.1
        subst hc2
        have hc1 := add_workingset_ok c c2 ent ha
        refine ⟨?_, ?_⟩
        · intro cell hcell
          rw [hc1] at hcell ⊢
          simp only [List.mem_append, List.mem_singleton, heap_get_ref_inc_index] at hcell ⊢
          rcases hcell with hcell | hcell
          · exact hlive cell hcell
          · exact ⟨ent, hcell, hent⟩
        · have : missing_room c2 rest = missing_room c rest := by
            apply missing_room_congr
            intro nv1 _
            rw [Bool.eq_iff_iff, find_in_hd_table_isNone_iff, find_in_hd_table_isNone_iff, hc1]
            simp only [heap_get_ref_inc_nv]
          refine ⟨?_, this⟩
          rw [this, hc1]
          simp only
          omega

theorem deflate_nv_loop_no_evict : ∀ (nva : List nghttp2_nv) (c : nghttp2_hd_context)
    (buf : List Nat) (off : Nat) (c1 : nghttp2_hd_context) (buf1 : List Nat) (off1 : Nat),
    hd_inv c → ws_all_live c → nva.Nodup →
    (∀ nv ∈ nva, entry_room nv.name.length nv.value.length < NGHTTP2_HD_MAX_ENTRY_SIZE) →
    c.hd_table_bufsize + missing_room c nva ≤ NGHTTP2_HD_MAX_BUFFER_SIZE →
    deflate_nv_loop nva c buf off = (c1, buf1, off1, .ok ()) →
    hd_inv c1 ∧ ws_all_live c1 := by
  intro nva
  induction nva with
  | nil =>
    intro c buf off c1 buf1 off1 hinv hlive _ _ _ h
    simp only [deflate_nv_loop, Prod.mk.injEq] at h
    rw [← h.1]
    exact ⟨hinv, hlive⟩
  | cons nv rest ih =>
    intro c buf off c1 buf1 off1 hinv hlive hnd hroom hfit h
    unfold deflate_nv_loop at h
    have hk := (deflate_nv_keeps c buf off nv hinv).1
    generalize hq : deflate_nv c buf off nv = q at h hk
    obtain ⟨cm, bm, om, e⟩ := q
    cases e with
    | error rv => simp at h
    | ok u =>
      simp only at h hk
      obtain ⟨l1, l2, -⟩ := deflate_nv_no_evict c buf off nv rest cm bm om hinv hlive
        (hroom nv (List.mem_cons_self _ _)) (List.nodup_cons.mp hnd).1 hfit hq
      exact ih cm bm om c1 buf1 off1 hk l1 (List.nodup_cons.mp hnd).2
        (fun x hx => hroom x (List.mem_cons_of_mem _ hx)) l2 h

end Nghttp2

namespace Nghttp2

/-- The end of a block whose working set holds only INDEXED cells of entries of
the table: the reference set gets exactly the entries of the cells. -/
theorem end_headers_live (c : nghttp2_hd_context) (hinv : hd_inv c) (hlive : ws_all_live c)
    (hr : c.refset = []) :
    ∃ c2, nghttp2_hd_end_headers c = .ok c2 ∧ c2.hd_table = c.hd_table ∧
      c2.hd_table_bufsize = c.hd_table_bufsize ∧ c2.bad = c.bad ∧
      heap_equiv c2.heap c.heap ∧
      ∀ p, p ∈ c2.refset ↔ ∃ i, nghttp2_hd_ws_entry.indexed p i ∈ c.ws := by
  have hvalid : ∀ ent i, nghttp2_hd_ws_entry.indexed ent i ∈ c.ws →
      ent < c.heap.length ∧ (heap_get c.heap ent).index < c.hd_table.length ∧
      c.hd_table.getD (heap_get c.heap ent).index 0 = ent ∧ c.hd_table.length ≤ 128 := by
    intro ent i hm
    obtain ⟨e, he, hin⟩ := hlive _ hm
    simp only [nghttp2_hd_ws_entry.indexed.injEq] at he
    rw [he.1]
    exact table_inv_mem c hinv.1 e hin
  have hidx128 : ∀ ent i, nghttp2_hd_ws_entry.indexed ent i ∈ c.ws →
      (heap_get c.heap ent).index ≠ NGHTTP2_HD_INVALID_INDEX →
      (heap_get c.heap ent).index < 128 := by
    intro ent i hm _
    obtain ⟨-, a, -, b⟩ := hvalid ent i hm
    omega
  obtain ⟨r1, -, sub0, r3, r4, -⟩ := end_headers_loop_spec
    (fun p => (heap_get c.heap p).index)
    (fun p => (heap_get c.heap p).nv) c.ws (List.replicate 128 0) c.heap [] (fun _ => ⟨rfl, rfl⟩)
    (by simp) (by simp) (by simp) hidx128
  obtain ⟨sub, s1, -, s3⟩ := end_headers_loop_exact (fun p => (heap_get c.heap p).index)
    c.ws (List.replicate 128 0) c.heap [] (fun _ => rfl) (by simp)
    (by
      intro i hi
      rw [List.getD_eq_getElem?_getD, List.getElem?_replicate, if_pos hi]
      simp)
    hidx128
  generalize hq : end_headers_loop c.ws (List.replicate 128 0) c.heap [] = q at r1 r3 s1
  obtain ⟨q1, q2⟩ := q
  simp only [List.nil_append] at r1 r3 s1 s3
  subst r3
  subst s1
  have hE : nghttp2_hd_end_headers c = .ok { c with heap := q1, refset := q2, ws := [] } := by
    unfold nghttp2_hd_end_headers
    rw [if_neg (by simp [hr]), hr, hq]
  refine ⟨_, hE, rfl, rfl, rfl, r1, fun p => ?_⟩
  constructor
  · intro hp
    exact (r4 p hp).2
  · rintro ⟨i, hm⟩
    obtain ⟨-, a, b, c128⟩ := hvalid p i hm
    have hne : (heap_get c.heap p).index ≠ NGHTTP2_HD_INVALID_INDEX := by
      unfold NGHTTP2_HD_INVALID_INDEX; omega
    have := s3 p i hm hne
    obtain ⟨q, hq1, hq2⟩ := List.mem_map.mp this
    obtain ⟨-, j, hj⟩ := r4 q hq1
    obtain ⟨-, -, b2, -⟩ := hvalid q j hj
    rw [hq2] at b2
    rw [← b2.symm.trans b]
    exact hq1

theorem deflate_toggle_loop_all_found (nva : List nghttp2_nv) :
    ∀ (ws : List nghttp2_hd_ws_entry) (heap : List nghttp2_hd_entry) (buf : List Nat)
      (off : Nat),
    (∀ cell ∈ ws, ∃ ent i, cell = nghttp2_hd_ws_entry.indexed ent i ∧
      (heap_get heap ent).nv ∈ nva) →
    deflate_toggle_loop nva ws heap buf off = (ws, heap, buf, off, .ok ()) := by
  intro ws
  induction ws with
  | nil => intro heap buf off _; rfl
  | cons cell rest ih =>
    intro heap buf off h
    obtain ⟨ent, i, rfl, hin⟩ := h _ (List.mem_cons_self _ _)
    unfold deflate_toggle_loop
    rw [if_pos (by
      rw [List.any_eq_true]
      exact ⟨_, hin, (nghttp2_nv_equal_iff _ _).mpr rfl⟩)]
    simp only
    rw [ih heap buf off (fun cell hc => h cell (List.mem_cons_of_mem _ hc))]

theorem deflate_nv_loop_all_found : ∀ (nva : List nghttp2_nv) (c : nghttp2_hd_context)
    (buf : List Nat) (off : Nat),
    (∀ nv ∈ nva, (find_in_workingset c nv).isSome = true) →
    deflate_nv_loop nva c buf off = (c, buf, off, .ok ()) := by
  intro nva
  induction nva with
  | nil => intro c buf off _; rfl
  | cons nv rest ih =>
    intro c buf off h
    have h1 : deflate_nv c buf off nv = (c, buf, off, .ok ()) := by
      unfold deflate_nv
      rw [if_pos (h nv (List.mem_cons_self _ _))]
    unfold deflate_nv_loop
    rw [h1]
    exact ih c buf off (fun x hx => h x (List.mem_cons_of_mem _ hx))

/-- The deflater on the header set that its reference set stands for: nothing is
written. -/
theorem deflate_hd_all_in_refset (d : nghttp2_hd_context) (buf : List Nat) (off : Nat)
    (H : List nghttp2_nv) (hbad : d.bad = false)
    (h1 : ∀ p ∈ d.refset, (heap_get d.heap p).nv ∈ H)
    (h2 : ∀ nv ∈ H, ∃ p ∈ d.refset, (heap_get d.heap p).nv = nv) :
    nghttp2_hd_deflate_hd d buf off H = (create_workingset d, buf, .ok 0) := by
  unfold nghttp2_hd_deflate_hd
  rw [if_neg (by rw [hbad]; simp)]
  simp only
  rw [deflate_toggle_loop_all_found H (create_workingset d).ws (create_workingset d).heap buf off
    (by
      intro cell hc
      obtain ⟨p, hp, rfl⟩ := List.mem_map.mp hc
      exact ⟨p, _, rfl, h1 p hp⟩)]
  simp only
  rw [deflate_nv_loop_all_found H _ buf off (by
    intro nv hnv
    obtain ⟨p, hp, he⟩ := h2 nv hnv
    exact find_in_workingset_of_mem _ nv p (heap_get d.heap p).index
      (List.mem_map.mpr ⟨p, hp, rfl⟩) he)]
  simp

theorem fresh_create_workingset (side : nghttp2_hd_side) :
    create_workingset (nghttp2_hd_deflate_init side) = nghttp2_hd_deflate_init side := by
  cases side <;> decide

theorem deflate_hd_fresh_loop (side : nghttp2_hd_side) (buf : List Nat) (off : Nat)
    (H : List nghttp2_nv) (d1 : nghttp2_hd_context) (buf1 : List Nat) (n : Nat)
    (h : nghttp2_hd_deflate_hd (nghttp2_hd_deflate_init side) buf off H = (d1, buf1, .ok n)) :
    ∃ off1, deflate_nv_loop H (nghttp2_hd_deflate_init side) buf off =
      (d1, buf1, off1, .ok ()) := by
  unfold nghttp2_hd_deflate_hd at h
  have hb : (nghttp2_hd_deflate_init side).bad = false := by cases side <;> decide
  have hw : (nghttp2_hd_deflate_init side).ws = [] := by cases side <;> decide
  rw [if_neg (by rw [hb]; simp), fresh_create_workingset] at h
  simp only [hw, deflate_toggle_loop] at h
  have hc : ∀ c : nghttp2_hd_context, c.ws = [] →
      ({ c with ws := [], heap := c.heap } : nghttp2_hd_context) = c := by
    intro c hc
    cases c
    simp only at hc
    subst hc
    rfl
  rw [hc _ hw] at h
  generalize deflate_nv_loop H (nghttp2_hd_deflate_init side) buf off = q at h ⊢
  obtain ⟨c2, b2, o2, e⟩ := q
  cases e with
  | error rv => simp at h
  | ok u =>
    simp only [Prod.mk.injEq] at h
    exact ⟨o2, by rw [h.1, h.2.1]⟩

end Nghttp2

namespace Nghttp2

/-! ### The first call of a run without eviction succeeds -/

theorem base128_le_length_le (fuel m : Nat) (hm : m < 16384) :
    (base128_le fuel m).length ≤ 2 := by
  cases fuel with
  | zero => simp [base128_le]
  | succ f =>
    unfold base128_le
    split
    · simp
    · cases f with
      | zero => simp [base128_le]
      | succ g =>
        unfold base128_le
        rw [if_pos (by omega)]
        simp

theorem base128_le_length_one (fuel m : Nat) (hm : m < 128) :
    (base128_le fuel m).length ≤ 1 := by
  cases fuel with
  | zero => simp [base128_le]
  | succ f =>
    unfold base128_le
    rw [if_pos hm]
    simp

theorem encode_length_length_le (n p : Nat) (hn : n < 16384) :
    (encode_length n p).1.length ≤ 3 := by
  rw [encode_length_eq]
  split
  · simp only [List.length_cons]
    have := base128_le_length_le (n - (2 ^ p - 1) + 1) (n - (2 ^ p - 1)) (by omega)
    omega
  · simp

theorem encode_length_5_le (n : Nat) (hn : n ≤ 128) : (encode_length n 5).1.length ≤ 2 := by
  rw [encode_length_eq]
  split
  · simp only [List.length_cons]
    have := base128_le_length_one (n - (2 ^ 5 - 1) + 1) (n - (2 ^ 5 - 1)) (by omega)
    omega
  · simp

theorem emit_indname_block_fits (buf : List Nat) (off index : Nat) (value : List Nat)
    (inc : Bool)
    (h : off + (indname_block index value inc).length ≤ NGHTTP2_MAX_FRAME_LENGTH) :
    ∃ b, emit_indname_block buf off index value inc =
      .ok (b, off + (indname_block index value inc).length) := by
  generalize hr : emit_indname_block buf off index value inc = r
  cases r with
  | ok v =>
    obtain ⟨buf1, off1⟩ := v
    obtain ⟨e1, -, -⟩ := emit_indname_block_ok buf off index value inc buf1 off1 hr
    exact ⟨buf1, by rw [e1]⟩
  | error rv =>
    exfalso
    unfold emit_indname_block ensure_write_buffer at hr
    simp only [count_encoded_length_eq, encode_length_snd] at hr
    rw [indname_block_length] at h
    have hgt : ¬ ((encode_length (index + 1) 5).1.length +
        (encode_length value.length 8).1.length + value.length + off >
        NGHTTP2_MAX_FRAME_LENGTH) := by omega
    have hassert : off + (encode_length (index + 1) 5).1.length +
        (encode_length value.length 8).1.length + value.length - off =
        (encode_length (index + 1) 5).1.length + (encode_length value.length 8).1.length +
          value.length := by omega
    simp only [hgt, if_false, hassert, ne_eq, not_true_eq_false] at hr
    cases hr

theorem emit_newname_block_fits (buf : List Nat) (off : Nat) (nv : nghttp2_nv) (inc : Bool)
    (h : off + (newname_block nv inc).length ≤ NGHTTP2_MAX_FRAME_LENGTH) :
    ∃ b, emit_newname_block buf off nv inc = .ok (b, off + (newname_block nv inc).length) := by
  generalize hr : emit_newname_block buf off nv inc = r
  cases r with
  | ok v =>
    obtain ⟨buf1, off1⟩ := v
    obtain ⟨e1, -, -⟩ := emit_newname_block_ok buf off nv inc buf1 off1 hr
    exact ⟨buf1, by rw [e1]⟩
  | error rv =>
    exfalso
    unfold emit_newname_block ensure_write_buffer at hr
    simp only [count_encoded_length_eq] at hr
    rw [newname_block_length] at h
    have hgt : ¬ (1 + (encode_length nv.name.length 8).1.length + nv.name.length +
        (encode_length nv.value.length 8).1.length + nv.value.length + off >
        NGHTTP2_MAX_FRAME_LENGTH) := by omega
    simp only [hgt, if_false] at hr
    cases hr

theorem find_name_in_hd_table_mem (c : nghttp2_hd_context) (nv : nghttp2_nv) (ent : Nat)
    (h : find_name_in_hd_table c nv = some ent) : ent ∈ c.hd_table := by
  unfold find_name_in_hd_table at h
  exact List.mem_of_find?_eq_some h

theorem add_workingset_fits (cm : nghttp2_hd_context) (new : Nat)
    (h : cm.ws.length < cm.ws_capacity) :
    add_workingset cm new = .ok { cm with
      ws := cm.ws ++ [.indexed new (heap_get cm.heap new).index]
      heap := ref_inc cm.heap new } := by
  unfold add_workingset
  rw [if_neg (by omega)]

/-- One header of the second loop of the deflater, when its insertion evicts
nothing and there is room in the working set and in the frame: the step
succeeds. -/
theorem deflate_nv_succeeds (c : nghttp2_hd_context) (buf : List Nat) (off : Nat)
    (nv : nghttp2_nv) (hinv : hd_inv c) (hlive : ws_all_live c)
    (hroom : entry_room nv.name.length nv.value.length < NGHTTP2_HD_MAX_ENTRY_SIZE)
    (hfit : c.hd_table_bufsize +
      (if (find_in_hd_table c nv).isNone = true then
        entry_room nv.name.length nv.value.length else 0) ≤ NGHTTP2_HD_MAX_BUFFER_SIZE)
    (hslack : c.hd_table.length * 32 < c.hd_table_bufsize)
    (hcap : c.hd_table_capacity = 128) (hws : c.ws.length < c.ws_capacity)
    (hoff : off + 2 + (if (find_in_hd_table c nv).isNone = true then
        entry_room nv.name.length nv.value.length else 0) ≤ NGHTTP2_MAX_FRAME_LENGTH) :
    ∃ c1 buf1 off1, deflate_nv c buf off nv = (c1, buf1, off1, .ok ()) ∧
      off1 ≤ off + 2 + (if (find_in_hd_table c nv).isNone = true then
        entry_room nv.name.length nv.value.length else 0) ∧
      c1.hd_table_capacity = 128 ∧ c1.ws_capacity = c.ws_capacity ∧
      c1.ws.length ≤ c.ws.length + 1 ∧
      c1.hd_table.length * 32 < c1.hd_table_bufsize := by
  unfold deflate_nv
  by_cases hfw : (find_in_workingset c nv).isSome = true
  · rw [if_pos hfw]
    exact ⟨c, buf, off, rfl, by omega, hcap, rfl, by omega, hslack⟩
  · rw [if_neg hfw]
    cases hf : find_in_hd_table c nv with
    | some ent =>
      simp only
      rw [if_pos (index_not_frozen c nv ent hinv hlive hf hfw)]
      have ha : add_workingset c ent = .ok { c with
          ws := c.ws ++ [.indexed ent (heap_get c.heap ent).index]
          heap := ref_inc c.heap ent } := by
        unfold add_workingset
        rw [if_neg (by omega)]
      rw [ha]
      simp only [heap_get_ref_inc_index]
      obtain ⟨hent, -⟩ := find_in_hd_table_some c nv ent hf
      obtain ⟨-, t1, -, t2⟩ := table_inv_mem c hinv.1 ent hent
      have hl := indexed_block_length_le (heap_get c.heap ent).index (by omega)
      rw [hf] at hoff
      simp only [Option.isNone_some, Bool.false_eq_true, if_false, Nat.add_zero] at hoff
      rw [emit_indexed_block_some buf off _ (by omega)]
      refine ⟨_, _, _, rfl, ?_, hcap, rfl, ?_, hslack⟩
      · simp only [Option.isNone_some, Bool.false_eq_true, if_false, Nat.add_zero]
        omega
      · simp
    | none =>
      simp only
      rw [hf] at hfit hoff
      simp only [Option.isNone_none, if_true] at hfit hoff ⊢
      have hlen : c.hd_table.length ≠ c.hd_table_capacity := by
        rw [hcap]
        have : NGHTTP2_HD_MAX_BUFFER_SIZE = 4096 := rfl
        omega
      have hE := add_hd_table_incremental_fits c nv hlen hfit
      have hr : entry_room nv.name.length nv.value.length =
          32 + nv.name.length + nv.value.length := rfl
      have hmax : NGHTTP2_HD_MAX_ENTRY_SIZE = 3072 := rfl
      have hv3 := encode_length_length_le nv.value.length 8 (by omega)
      have hn3 := encode_length_length_le nv.name.length 8 (by omega)
      unfold deflate_nv_literal
      cases hfn : find_name_in_hd_table c nv with
      | some ent =>
        simp only
        rw [if_pos hroom, hE]
        simp only
        rw [add_workingset_fits]
        swap
        · exact hws
        simp only
        obtain ⟨-, t1, -, t2⟩ := table_inv_mem c hinv.1 ent (find_name_in_hd_table_mem c nv ent hfn)
        have h5 := encode_length_5_le ((heap_get c.heap ent).index + 1) (by omega)
        have hbl := indname_block_length (heap_get c.heap ent).index nv.value true
        obtain ⟨b, hb⟩ := emit_indname_block_fits buf off (heap_get c.heap ent).index nv.value
          true (by omega)
        rw [hb]
        refine ⟨_, _, _, rfl, by omega, hcap, rfl, by simp, ?_⟩
        simp only [List.length_append, List.length_singleton]
        omega
      | none =>
        simp only
        rw [if_pos hroom, hE]
        simp only
        rw [add_workingset_fits]
        swap
        · exact hws
        simp only
        have hbl := newname_block_length nv true
        obtain ⟨b, hb⟩ := emit_newname_block_fits buf off nv true (by omega)
        rw [hb]
        refine ⟨_, _, _, rfl, by omega, hcap, rfl, by simp, ?_⟩
        simp only [List.length_append, List.length_singleton]
        omega

theorem deflate_nv_loop_succeeds : ∀ (nva : List nghttp2_nv) (c : nghttp2_hd_context)
    (buf : List Nat) (off : Nat),
    hd_inv c → ws_all_live c → nva.Nodup →
    (∀ nv ∈ nva, entry_room nv.name.length nv.value.length < NGHTTP2_HD_MAX_ENTRY_SIZE) →
    c.hd_table_bufsize + missing_room c nva ≤ NGHTTP2_HD_MAX_BUFFER_SIZE →
    c.hd_table.length * 32 < c.hd_table_bufsize → c.hd_table_capacity = 128 →
    c.ws.length + nva.length ≤ c.ws_capacity →
    off + 2 * nva.length + missing_room c nva ≤ NGHTTP2_MAX_FRAME_LENGTH →
    ∃ c1 buf1 off1, deflate_nv_loop nva c buf off = (c1, buf1, off1, .ok ()) := by
  intro nva
  induction nva with
  | nil => intro c buf off _ _ _ _ _ _ _ _ _; exact ⟨c, buf, off, rfl⟩
  | cons nv rest ih =>
    intro c buf off hinv hlive hnd hroom hfit hslack hcap hws hoff
    have hfit1 := hfit
    rw [missing_room_cons] at hfit1 hoff
    simp only [List.length_cons] at hws hoff
    obtain ⟨c1, b1, o1, hs, s1, s2, s3, s4, s5⟩ := deflate_nv_succeeds c buf off nv hinv hlive
      (hroom nv (List.mem_cons_self _ _)) (by omega) hslack hcap (by omega) (by omega)
    have hk := (deflate_nv_keeps c buf off nv hinv).1
    rw [hs] at hk
    obtain ⟨l1, l2, hm⟩ := deflate_nv_no_evict c buf off nv rest c1 b1 o1 hinv hlive
      (hroom nv (List.mem_cons_self _ _)) (List.nodup_cons.mp hnd).1 hfit hs
    unfold deflate_nv_loop
    rw [hs]
    simp only
    exact ih c1 b1 o1 hk l1 (List.nodup_cons.mp hnd).2
      (fun x hx => hroom x (List.mem_cons_of_mem _ hx)) l2 s5 s2 (by omega) (by omega)

end Nghttp2

namespace Nghttp2

theorem deflate_hd_fresh_of_loop (side : nghttp2_hd_side) (buf : List Nat) (off : Nat)
    (H : List nghttp2_nv) (d1 : nghttp2_hd_context) (buf1 : List Nat) (off1 : Nat)
    (h : deflate_nv_loop H (nghttp2_hd_deflate_init side) buf off = (d1, buf1, off1, .ok ())) :
    nghttp2_hd_deflate_hd (nghttp2_hd_deflate_init side) buf off H =
      (d1, buf1, .ok (off1 - off)) := by
  unfold nghttp2_hd_deflate_hd
  have hb : (nghttp2_hd_deflate_init side).bad = false := by cases side <;> decide
  have hw : (nghttp2_hd_deflate_init side).ws = [] := by cases side <;> decide
  rw [if_neg (by rw [hb]; simp), fresh_create_workingset]
  simp only [hw, deflate_toggle_loop]
  have hc : ∀ c : nghttp2_hd_context, c.ws = [] →
      ({ c with ws := [], heap := c.heap } : nghttp2_hd_context) = c := by
    intro c hc
    cases c
    simp only at hc
    subst hc
    rfl
  rw [hc _ hw, h]

theorem fresh_slack (side : nghttp2_hd_side) :
    (nghttp2_hd_deflate_init side).hd_table.length * 32 <
      (nghttp2_hd_deflate_init side).hd_table_bufsize ∧
    (nghttp2_hd_deflate_init side).hd_table_capacity = 128 ∧
    (nghttp2_hd_deflate_init side).ws_capacity = 128 ∧
    (nghttp2_hd_deflate_init side).ws = [] := by
  cases side <;> decide

/-- C36: for a fresh deflater and a header set `H` with pairwise distinct pairs,
every `entry_room` below `NGHTTP2_HD_MAX_ENTRY_SIZE`, and so small that no eviction
occurs (the `hd_table_bufsize` of the fresh context plus the rooms of the pairs
that are not in the initial table is at most `NGHTTP2_HD_MAX_BUFFER_SIZE`).  With
at most 128 pairs and an offset of at most 12032, `nghttp2_hd_deflate_hd` of `H`
succeeds.  Whenever it succeeds, `nghttp2_hd_end_headers` succeeds, and a second
`nghttp2_hd_deflate_hd` of `H`, with any buffer and offset, returns 0, leaves the
buffer as it is, and leaves the header table, its entries and `hd_table_bufsize` as
they are. -/
theorem deflate_twice_writes_nothing (side : nghttp2_hd_side) (buf : List Nat)
    (nv_offset : Nat) (H : List nghttp2_nv) (hnd : H.Nodup)
    (hroom : ∀ nv ∈ H, entry_room nv.name.length nv.value.length < NGHTTP2_HD_MAX_ENTRY_SIZE)
    (hfit : (nghttp2_hd_deflate_init side).hd_table_bufsize +
      missing_room (nghttp2_hd_deflate_init side) H ≤ NGHTTP2_HD_MAX_BUFFER_SIZE) :
    (H.length ≤ 128 → nv_offset ≤ 12032 →
      ∃ d1 buf1 n, nghttp2_hd_deflate_hd (nghttp2_hd_deflate_init side) buf nv_offset H =
        (d1, buf1, .ok n)) ∧
    ∀ d1 buf1 n, nghttp2_hd_deflate_hd (nghttp2_hd_deflate_init side) buf nv_offset H =
        (d1, buf1, .ok n) →
      ∃ d2, nghttp2_hd_end_headers d1 = .ok d2 ∧ d2.hd_table = d1.hd_table ∧
        ∀ (buf2 : List Nat) (off2 : Nat), ∃ d3,
          nghttp2_hd_deflate_hd d2 buf2 off2 H = (d3, buf2, .ok 0) ∧
          d3.hd_table = d2.hd_table ∧ d3.heap = d2.heap ∧
          d3.hd_table_bufsize = d2.hd_table_bufsize ∧ d3.bad = false := by
  obtain ⟨f1, f2, f3, hws0⟩ := fresh_slack side
  have hlive0 : ws_all_live (nghttp2_hd_deflate_init side) := by
    intro cell hc; rw [hws0] at hc; cases hc
  constructor
  · intro hlen hoff
    have h4 : NGHTTP2_HD_MAX_BUFFER_SIZE = 4096 := rfl
    have h5 : NGHTTP2_MAX_FRAME_LENGTH = 16384 := rfl
    obtain ⟨d1, buf1, off1, hl⟩ := deflate_nv_loop_succeeds H (nghttp2_hd_deflate_init side) buf
      nv_offset (fresh_hd_inv side).1 hlive0 hnd hroom hfit f1 f2
      (by rw [hws0, f3]; simpa using hlen) (by omega)
    exact ⟨d1, buf1, _, deflate_hd_fresh_of_loop side buf nv_offset H d1 buf1 off1 hl⟩
  · intro d1 buf1 n h
    obtain ⟨off1, hloop⟩ := deflate_hd_fresh_loop side buf nv_offset H d1 buf1 n h
    obtain ⟨hinv1, hlive1⟩ := deflate_nv_loop_no_evict H (nghttp2_hd_deflate_init side) buf
      nv_offset d1 buf1 off1 (fresh_hd_inv side).1 hlive0 hnd hroom hfit hloop
    obtain ⟨-, hb1, -, -, hr1, -, hmem, -⟩ := deflate_inflate_block
      (nghttp2_hd_deflate_init side) buf nv_offset H d1 buf1 n (fresh_table_inv side)
      (refset_inv_of_nil _ (fresh_refset side)).1 (refset_inv_of_nil _ (fresh_refset side)).2 h
    obtain ⟨d2, hE, ht, hbs, hb2, heq, href⟩ := end_headers_live d1 hinv1 hlive1 hr1
    refine ⟨d2, hE, ht, fun buf2 off2 => ⟨create_workingset d2, ?_, rfl, rfl, rfl, ?_⟩⟩
    · apply deflate_hd_all_in_refset d2 buf2 off2 H (by rw [hb2, hb1])
      · intro p hp
        obtain ⟨i, hm⟩ := (href p).mp hp
        rw [(heq.2 p).2]
        apply (hmem _).mp
        unfold ws_nvs
        rw [List.mem_filterMap]
        exact ⟨_, hm, rfl⟩
      · intro nv hnv
        have := (hmem nv).mpr hnv
        unfold ws_nvs at this
        rw [List.mem_filterMap] at this
        obtain ⟨cell, hc, hv⟩ := this
        obtain ⟨e, rfl, -⟩ := hlive1 cell hc
        simp only [ws_entry_nv, Option.some.injEq] at hv
        exact ⟨e, (href e).mpr ⟨_, hc⟩, by rw [(heq.2 e).2]; exact hv⟩
    · show d2.bad = false
      rw [hb2, hb1]

set_option maxRecDepth 20000 in
/-- An instance of `deflate_twice_writes_nothing`: the fresh deflater of the
client and the headers `:path: /`, `x-custom: v`, `accept: a` at the offset 8.  The
first call succeeds and writes 16 bytes; after `nghttp2_hd_end_headers` the second
call returns 0. -/
theorem deflate_twice_writes_nothing_witness :
    (∃ d1 buf1 n, nghttp2_hd_deflate_hd (nghttp2_hd_deflate_init .NGHTTP2_HD_SIDE_CLIENT) [] 8
      [⟨cstr ":path", cstr "/"⟩, ⟨cstr "x-custom", cstr "v"⟩, ⟨cstr "accept", cstr "a"⟩] =
        (d1, buf1, .ok n)) ∧
    (nghttp2_hd_deflate_hd (nghttp2_hd_deflate_init .NGHTTP2_HD_SIDE_CLIENT) [] 8
      [⟨cstr ":path", cstr "/"⟩, ⟨cstr "x-custom", cstr "v"⟩, ⟨cstr "accept", cstr "a"⟩]).2.2 =
      .ok 16 ∧
    (nghttp2_hd_deflate_hd
      ((nghttp2_hd_end_headers (nghttp2_hd_deflate_hd
        (nghttp2_hd_deflate_init .NGHTTP2_HD_SIDE_CLIENT) [] 8
        [⟨cstr ":path", cstr "/"⟩, ⟨cstr "x-custom", cstr "v"⟩,
          ⟨cstr "accept", cstr "a"⟩]).1).toOption.getD
        (nghttp2_hd_deflate_init .NGHTTP2_HD_SIDE_CLIENT)) [] 8
      [⟨cstr ":path", cstr "/"⟩, ⟨cstr "x-custom", cstr "v"⟩, ⟨cstr "accept", cstr "a"⟩]).2 =
      ([], .ok 0) :=
  ⟨(deflate_twice_writes_nothing .NGHTTP2_HD_SIDE_CLIENT [] 8
      [⟨cstr ":path", cstr "/"⟩, ⟨cstr "x-custom", cstr "v"⟩, ⟨cstr "accept", cstr "a"⟩]
      (by decide) (by decide) (by decide)).1 (by decide) (by decide),
    by decide, by decide⟩

end Nghttp2
